import Mathlib

/-!
# A shallow embedding of `cpp_renderer_core.cpp`

The development follows the source file top-down: the two LRU caches, the geometry helpers,
the two pipeline stages and the exposed frame functions.

Conventions of the embedding.

* `float` is IEEE-754 binary32, modelled by `F32`: a NaN, the two infinities, and the finite
  values as the rationals they denote. Every arithmetic operation computes the exact result and
  rounds it to the nearest binary32 value, ties to even, with gradual underflow and overflow to
  infinity. Comparisons involving a NaN are false. The sign of a zero is not represented; the
  source never divides by a zero that it has not first compared with a tolerance, except inside
  `glm::normalize` and `glm::inverse`, where a zero divisor is a sum of squares or a
  determinant.
* float literals such as `1e-7f` are the binary32 values nearest to the decimals written.
* `size_t` / `uintptr_t` values are natural numbers; `int` / `long` / `ssize_t` are integers
  (LP64, no operation of the modelled code overflows for buffers that fit in memory).
* `std::unordered_map` is an association list searched with the key type's `operator==`
  (iteration order is never observed by the source; keys that compare equal hash equal);
  `std::list` is a list of nodes, every node carrying the identity that a
  `std::list::iterator` designates.
* a read past the end of the vertex buffer is undefined behaviour in the source; the embedding
  reports it as an outcome of its own instead of inventing a value.
* the OpenMP loops are executed by one worker, in index order.
* mutexes are not modelled: every exposed function runs atomically.
-/

set_option linter.unusedSectionVars false
set_option linter.unusedVariables false

namespace Renderer

/-! ## `float` -/

/-- An IEEE-754 binary32 value. A finite value is kept as the rational number it denotes; the
operations below only ever produce representable ones. -/
inductive F32 where
  | nan
  | inf (negative : Bool)
  | fin (value : ℚ)
  deriving DecidableEq, Repr

namespace F32

/-- The number of binary digits of `n`, computed by halving at most `fuel` times. -/
def bit_length_aux : Nat → Nat → Nat
  | 0, _ => 0
  | fuel + 1, n => if n = 0 then 0 else bit_length_aux fuel (n / 2) + 1

/-- The number of binary digits of `n`. -/
def bit_length (n : Nat) : Nat := bit_length_aux n n

/-- The rational `2 ^ e`. -/
def pow2 (e : Int) : ℚ :=
  if 0 ≤ e then ((2 ^ e.toNat : Nat) : ℚ) else 1 / ((2 ^ (-e).toNat : Nat) : ℚ)

/-- The binary exponent of a non-zero rational: the `e` with `2 ^ e ≤ |q| < 2 ^ (e + 1)`. -/
def exponent (q : ℚ) : Int :=
  if pow2 ((bit_length q.num.natAbs : Int) - (bit_length q.den : Int)) ≤ |q| then
    (bit_length q.num.natAbs : Int) - (bit_length q.den : Int)
  else (bit_length q.num.natAbs : Int) - (bit_length q.den : Int) - 1

/-- The integer nearest to `x`, the even one of the two when `x` lies half way. -/
def round_half_even (x : ℚ) : Int :=
  if x - ⌊x⌋ < 1 / 2 then ⌊x⌋
  else if 1 / 2 < x - ⌊x⌋ then ⌊x⌋ + 1
  else if ⌊x⌋ % 2 = 0 then ⌊x⌋ else ⌊x⌋ + 1

/-- The spacing of the binary32 values around `q`: `2 ^ (e - 23)` for the exponent `e` of `q`,
and `2 ^ (-149)` throughout the subnormal range. -/
def ulp (q : ℚ) : ℚ := pow2 (max (exponent q) (-126) - 23)

/-- Rounding to nearest, ties to even: the binary32 value of the real number `q`. A result of
magnitude `2 ^ 128` or more is an infinity. -/
def nearest (q : ℚ) : F32 :=
  if q = 0 then fin 0
  else if pow2 128 ≤ |(round_half_even (q / ulp q) : ℚ) * ulp q| then inf (decide (q < 0))
  else fin ((round_half_even (q / ulp q) : ℚ) * ulp q)

/-- `a + b`. -/
def add : F32 → F32 → F32
  | nan, _ => nan
  | _, nan => nan
  | inf s, inf t => if s = t then inf s else nan
  | inf s, fin _ => inf s
  | fin _, inf t => inf t
  | fin a, fin b => nearest (a + b)

/-- `-a`. -/
def neg : F32 → F32
  | nan => nan
  | inf s => inf (!s)
  | fin a => fin (-a)

/-- `a - b`. -/
def sub (a b : F32) : F32 := add a (neg b)

/-- `a * b`. -/
def mul : F32 → F32 → F32
  | nan, _ => nan
  | _, nan => nan
  | inf s, inf t => inf (s != t)
  | inf s, fin b => if b = 0 then nan else inf (s != decide (b < 0))
  | fin a, inf t => if a = 0 then nan else inf (decide (a < 0) != t)
  | fin a, fin b => nearest (a * b)

/-- `a / b`. -/
def div : F32 → F32 → F32
  | nan, _ => nan
  | _, nan => nan
  | inf _, inf _ => nan
  | inf s, fin b => inf (s != decide (b < 0))
  | fin _, inf _ => fin 0
  | fin a, fin b =>
    if b = 0 then (if a = 0 then nan else inf (decide (a < 0))) else nearest (a / b)

/-- `a < b`. -/
def lt : F32 → F32 → Bool
  | nan, _ => false
  | _, nan => false
  | inf s, inf t => s && !t
  | inf s, fin _ => s
  | fin _, inf t => !t
  | fin a, fin b => decide (a < b)

/-- `a <= b`. -/
def le : F32 → F32 → Bool
  | nan, _ => false
  | _, nan => false
  | inf s, inf t => s || !t
  | inf s, fin _ => s
  | fin _, inf t => !t
  | fin a, fin b => decide (a ≤ b)

/-- `a == b` on floats: a NaN equals nothing, not even itself. -/
def feq : F32 → F32 → Bool
  | fin a, fin b => decide (a = b)
  | inf s, inf t => s == t
  | _, _ => false

/-- `std::abs`. -/
def fabs : F32 → F32
  | nan => nan
  | inf _ => inf false
  | fin a => fin |a|

/-- The integer square root, found bit by bit from bit `b - 1` down. -/
def isqrt_aux : Nat → Nat → Nat → Nat
  | 0, _, r => r
  | b + 1, n, r =>
    if (r + 2 ^ b) * (r + 2 ^ b) ≤ n then isqrt_aux b n (r + 2 ^ b) else isqrt_aux b n r

/-- The integer square root `⌊√n⌋`. -/
def isqrt (n : Nat) : Nat := isqrt_aux (bit_length n) n 0

/-- `std::sqrt`, correctly rounded: the integer part of the scaled root is found exactly, and
the comparison of the radicand with the square of the half-way point decides the rounding. -/
def sqrt : F32 → F32
  | nan => nan
  | inf s => if s then nan else inf false
  | fin a =>
    if a < 0 then nan
    else if a = 0 then fin 0
    else
      let u := pow2 (exponent a / 2 - 23)
      let y : ℚ := a / (u * u)
      let f : Nat := isqrt ⌊y⌋.toNat
      let half : ℚ := (f : ℚ) + 1 / 2
      let n : Nat :=
        if y < half * half then f
        else if half * half < y then f + 1
        else if f % 2 = 0 then f else f + 1
      nearest ((n : ℚ) * u)

instance : Add F32 := ⟨add⟩
instance : Sub F32 := ⟨sub⟩
instance : Mul F32 := ⟨mul⟩
instance : Div F32 := ⟨div⟩
instance : Neg F32 := ⟨neg⟩
instance : LT F32 := ⟨fun a b => lt a b = true⟩
instance : LE F32 := ⟨fun a b => le a b = true⟩
instance (a b : F32) : Decidable (a < b) := inferInstanceAs (Decidable (lt a b = true))
instance (a b : F32) : Decidable (a ≤ b) := inferInstanceAs (Decidable (le a b = true))
instance (n : Nat) : OfNat F32 n := ⟨fin n⟩

/-- The value of a decimal float literal: `1e-7f` is `lit (1 / 10 ^ 7)`. -/
def lit (q : ℚ) : F32 := nearest q

/-- `static_cast<float>` of an `int`. -/
def of_int (n : Int) : F32 := nearest n

/-- `glm::max(a, b)`: `(a < b) ? b : a`. -/
def fmax (a b : F32) : F32 := if a < b then b else a

/-- Whether a value is one that binary32 has: rounding leaves it as it is. -/
def representable : F32 → Bool
  | fin q => decide (nearest q = fin q)
  | _ => true

/-- Whether a value is a NaN. -/
def is_nan : F32 → Bool
  | nan => true
  | _ => false

end F32

/-! ## `std::unordered_map` as an association list -/

/-- The `operator==` of a key type: the relation `std::unordered_map` compares keys with. It
need not be reflexive (a key holding a NaN float is not equal to itself). -/
class KeyEq (K : Type) where
  key_eq : K → K → Prop
  dec : ∀ a b : K, Decidable (key_eq a b)

instance (K : Type) [KeyEq K] (a b : K) : Decidable (KeyEq.key_eq a b) := KeyEq.dec a b

/-- Key types whose `operator==` is plain equality of values, such as the integers. -/
instance (priority := low) KeyEq.plain (K : Type) [DecidableEq K] : KeyEq K :=
  ⟨Eq, inferInstance⟩

/-- `items_map_.find(key)`: the entry stored under a key equal to `key`, if any. -/
def umap_find {K E : Type} [KeyEq K] (m : List (K × E)) (key : K) : Option E :=
  match m with
  | [] => none
  | (k, e) :: rest => if KeyEq.key_eq k key then some e else umap_find rest key

/-- `items_map_.erase(key)`. -/
def umap_erase {K E : Type} [KeyEq K] (m : List (K × E)) (key : K) : List (K × E) :=
  match m with
  | [] => []
  | (k, e) :: rest =>
    if KeyEq.key_eq k key then umap_erase rest key else (k, e) :: umap_erase rest key

/-- `items_map_.emplace(key, entry)`: inserts only when no stored key equals `key`. -/
def umap_emplace {K E : Type} [KeyEq K] (m : List (K × E)) (key : K) (e : E) :
    List (K × E) :=
  match umap_find m key with
  | some _ => m
  | none => (key, e) :: m

/-- Assignment through the iterator returned by `find(key)`: `it->second = e`. -/
def umap_assign {K E : Type} [KeyEq K] (m : List (K × E)) (key : K) (e : E) :
    List (K × E) :=
  match m with
  | [] => []
  | (k, e0) :: rest =>
    if KeyEq.key_eq k key then (k, e) :: rest else (k, e0) :: umap_assign rest key e

/-! ## `LruCacheL2Internal` / `LruCacheL1Internal`

The two classes are the same code up to the key and value types, so they are embedded once,
generically, and instantiated twice below. -/

/-- `CacheEntry` / `CacheEntryL1`: the shared value and the iterator into `lru_list_`
(the identity of the list node it designates). -/
structure CacheEntry (V : Type) where
  data_ptr : V
  lru_iterator : Nat
  deriving DecidableEq, Repr

/-- The private members of the cache class. `lru_list_` is listed front to back, each node as
(node identity, key). `next_node_` is the identity the next allocated list node receives. -/
structure LruCache (K V : Type) where
  capacity_ : Nat
  lru_list_ : List (Nat × K)
  items_map_ : List (K × CacheEntry V)
  next_node_ : Nat
  deriving DecidableEq, Repr

namespace LruCache

variable {K V : Type} [KeyEq K]

/-- The constructor: `capacity_(0)`, empty list and map. -/
def init : LruCache K V :=
  { capacity_ := 0, lru_list_ := [], items_map_ := [], next_node_ := 0 }

/-- `lru_list_.erase(it)`: unlinks the node the iterator designates. -/
def list_erase (l : List (Nat × K)) (it : Nat) : List (Nat × K) :=
  l.filter (fun n => decide (n.1 ≠ it))

/-- `evict_oldest_nolock`. -/
def evict_oldest_nolock (c : LruCache K V) : LruCache K V :=
  match c.lru_list_.getLast? with
  | none => c
  | some oldest =>
    { c with lru_list_ := c.lru_list_.dropLast,
             items_map_ := umap_erase c.items_map_ oldest.2 }

/-- The loop `while (items_map_.size() > capacity_) evict_oldest_nolock();` of `set_capacity`.
Every iteration that changes anything removes one list node, so the list length bounds the
number of useful iterations; on a state whose list is empty while the map is still over
capacity the source spins forever, and the model stops there. -/
def evict_while_over : Nat → LruCache K V → LruCache K V
  | 0, c => c
  | fuel + 1, c =>
    if c.items_map_.length > c.capacity_ then evict_while_over fuel (evict_oldest_nolock c)
    else c

/-- `set_capacity`. -/
def set_capacity (c : LruCache K V) (capacity : Nat) : LruCache K V :=
  let c1 := { c with capacity_ := if capacity > 0 then capacity else 1 }
  evict_while_over c1.lru_list_.length c1

/-- `get_capacity`. -/
def get_capacity (c : LruCache K V) : Nat := c.capacity_

/-- `clear`. -/
def clear (c : LruCache K V) : LruCache K V :=
  { c with items_map_ := [], lru_list_ := [] }

/-- `get`: the returned handle (`none` for `nullptr`) and the cache afterwards. -/
def get (c : LruCache K V) (key : K) : Option V × LruCache K V :=
  match umap_find c.items_map_ key with
  | none => (none, c)
  | some e =>
    (some e.data_ptr,
     { c with lru_list_ := (c.next_node_, key) :: list_erase c.lru_list_ e.lru_iterator,
              items_map_ := umap_assign c.items_map_ key
                { data_ptr := e.data_ptr, lru_iterator := c.next_node_ },
              next_node_ := c.next_node_ + 1 })

/-- `put`. -/
def put (c : LruCache K V) (key : K) (data_to_cache : V) : LruCache K V :=
  if c.capacity_ = 0 then c
  else
    match umap_find c.items_map_ key with
    | some e =>
      { c with lru_list_ := (c.next_node_, key) :: list_erase c.lru_list_ e.lru_iterator,
               items_map_ := umap_assign c.items_map_ key
                 { data_ptr := data_to_cache, lru_iterator := c.next_node_ },
               next_node_ := c.next_node_ + 1 }
    | none =>
      let c1 := if c.items_map_.length ≥ c.capacity_ then evict_oldest_nolock c else c
      { c1 with lru_list_ := (c1.next_node_, key) :: c1.lru_list_,
                items_map_ := umap_emplace c1.items_map_ key
                  { data_ptr := data_to_cache, lru_iterator := c1.next_node_ },
                next_node_ := c1.next_node_ + 1 }

/-- A sequence of `put` calls, in order. -/
def put_all (c : LruCache K V) (kvs : List (K × V)) : LruCache K V :=
  kvs.foldl (fun acc kv => put acc kv.1 kv.2) c

/-- A sequence of `get` calls, in order: the cache afterwards. -/
def get_all (c : LruCache K V) (probes : List K) : LruCache K V :=
  probes.foldl (fun acc key => (get acc key).2) c

/-- The keys on the recency list, most recently used first. -/
def keys (c : LruCache K V) : List K := c.lru_list_.map Prod.snd

/-- The value stored under `key` in the key-map, if any. -/
def lookup (c : LruCache K V) (key : K) : Option V :=
  (umap_find c.items_map_ key).map (fun e => e.data_ptr)

/-- The recency list and the key-map hold the same keys, each once. -/
structure Consistent (c : LruCache K V) : Prop where
  keys_nodup : c.keys.Nodup
  map_nodup : (c.items_map_.map Prod.fst).Nodup
  same_keys : ∀ k, k ∈ c.keys ↔ k ∈ c.items_map_.map Prod.fst

/-- The number of stored entries, `items_map_.size()`. -/
def size (c : LruCache K V) : Nat := c.items_map_.length

/-- The class invariant: the recency list and the key-map hold the same keys, each once, and
the iterator stored in a map entry designates the list node that carries the entry's own key.
List nodes are distinct objects, each allocated before `next_node_`. -/
structure WellFormed (c : LruCache K V) : Prop where
  consistent : Consistent c
  nodes_nodup : (c.lru_list_.map Prod.fst).Nodup
  nodes_lt : ∀ n ∈ c.lru_list_, n.1 < c.next_node_
  iterators : ∀ k e, umap_find c.items_map_ k = some e → (e.lru_iterator, k) ∈ c.lru_list_

/-- A call of one of the public member functions that can change the cache. -/
inductive CacheOp (K V : Type) where
  | set_capacity (capacity : Nat)
  | put (key : K) (data_to_cache : V)
  | get (key : K)
  | clear
  deriving DecidableEq, Repr

/-- The cache after one call. -/
def apply_op (c : LruCache K V) : CacheOp K V → LruCache K V
  | .set_capacity capacity => set_capacity c capacity
  | .put key data_to_cache => put c key data_to_cache
  | .get key => (get c key).2
  | .clear => clear c

/-- The cache after a sequence of calls, made in order. -/
def run_ops (c : LruCache K V) (ops : List (CacheOp K V)) : LruCache K V :=
  ops.foldl apply_op c

/-- Whether a call is a `put` or a `get` of `key`. -/
def CacheOp.touches [DecidableEq K] : CacheOp K V → K → Bool
  | .put k _, key => decide (k = key)
  | .get k, key => decide (k = key)
  | .set_capacity _, _ => false
  | .clear, _ => false

/-- The position, counted from 1, of the last `put` or `get` of `key` in a sequence of calls;
0 when there is none. -/
def last_use [DecidableEq K] (ops : List (CacheOp K V)) (key : K) : Nat :=
  (ops.reverse.dropWhile (fun op => !op.touches key)).length

/-- The keys a sequence of calls stores: the keys of its `put` calls. -/
def put_keys : List (CacheOp K V) → List K
  | [] => []
  | .put key _ :: more => key :: put_keys more
  | _ :: more => put_keys more

end LruCache

/-! ## GLM value types and the operations the source uses on them

`glm::vec3`, `glm::vec4`, `glm::mat4` with componentwise arithmetic; a matrix is stored by
columns (`m[0]` .. `m[3]`) as in GLM. The GLM headers are not part of the source file; the
operations below follow the order of evaluation of GLM's scalar implementation. -/

/-- `glm::vec3`. -/
structure Vec3 where
  x : F32
  y : F32
  z : F32
  deriving DecidableEq, Repr

/-- `glm::vec4`. -/
structure Vec4 where
  x : F32
  y : F32
  z : F32
  w : F32
  deriving DecidableEq, Repr

/-- `glm::mat4`, by columns. -/
structure Mat4 where
  c0 : Vec4
  c1 : Vec4
  c2 : Vec4
  c3 : Vec4
  deriving DecidableEq, Repr

/-- `glm::mat3`, by columns. -/
structure Mat3 where
  c0 : Vec3
  c1 : Vec3
  c2 : Vec3
  deriving DecidableEq, Repr

namespace Vec3

/-- `a + b`. -/
def add (a b : Vec3) : Vec3 := ⟨a.x + b.x, a.y + b.y, a.z + b.z⟩

/-- `a - b`. -/
def sub (a b : Vec3) : Vec3 := ⟨a.x - b.x, a.y - b.y, a.z - b.z⟩

/-- `v * s`. -/
def smul (v : Vec3) (s : F32) : Vec3 := ⟨v.x * s, v.y * s, v.z * s⟩

/-- `v / s`. -/
def sdiv (v : Vec3) (s : F32) : Vec3 := ⟨v.x / s, v.y / s, v.z / s⟩

/-- `glm::dot`: the products are summed left to right. -/
def dot (a b : Vec3) : F32 := a.x * b.x + a.y * b.y + a.z * b.z

/-- `glm::cross`. -/
def cross (a b : Vec3) : Vec3 :=
  ⟨a.y * b.z - b.y * a.z, a.z * b.x - b.z * a.x, a.x * b.y - b.x * a.y⟩

/-- `glm::length2`. -/
def length2 (v : Vec3) : F32 := dot v v

/-- `glm::mix(a, b, t)` with a scalar `t`: `a * (1 - t) + b * t`. -/
def mix (a b : Vec3) (t : F32) : Vec3 := add (smul a (1 - t)) (smul b t)

/-- `glm::normalize(v)`: `v * inversesqrt(dot(v, v))`, the inverse square root being
`1 / sqrt`. -/
def normalize (v : Vec3) : Vec3 := v.smul (1 / F32.sqrt (dot v v))

end Vec3

namespace Vec4

/-- `a + b`. -/
def add (a b : Vec4) : Vec4 := ⟨a.x + b.x, a.y + b.y, a.z + b.z, a.w + b.w⟩

/-- `v * s`. -/
def smul (v : Vec4) (s : F32) : Vec4 := ⟨v.x * s, v.y * s, v.z * s, v.w * s⟩

/-- `glm::dot`: the four products are summed pairwise, `(x + y) + (z + w)`. -/
def dot (a b : Vec4) : F32 := (a.x * b.x + a.y * b.y) + (a.z * b.z + a.w * b.w)

/-- `glm::mix(a, b, t)` with a scalar `t`: `a * (1 - t) + b * t`. -/
def mix (a b : Vec4) (t : F32) : Vec4 := add (smul a (1 - t)) (smul b t)

/-- `glm::vec4(v, w)`. -/
def of_vec3 (v : Vec3) (w : F32) : Vec4 := ⟨v.x, v.y, v.z, w⟩

/-- `glm::vec3(v)`: the first three components. -/
def xyz (v : Vec4) : Vec3 := ⟨v.x, v.y, v.z⟩

end Vec4

/-- `glm::mix(a, b, t)` on floats. -/
def mix_float (a b t : F32) : F32 := a * (1 - t) + b * t

namespace Mat4

/-- `m * v`: `(m[0] * v.x + m[1] * v.y) + (m[2] * v.z + m[3] * v.w)`. -/
def mul_vec (m : Mat4) (v : Vec4) : Vec4 :=
  Vec4.add (Vec4.add (m.c0.smul v.x) (m.c1.smul v.y)) (Vec4.add (m.c2.smul v.z) (m.c3.smul v.w))

/-- `glm::transpose`. -/
def transpose (m : Mat4) : Mat4 :=
  ⟨⟨m.c0.x, m.c1.x, m.c2.x, m.c3.x⟩, ⟨m.c0.y, m.c1.y, m.c2.y, m.c3.y⟩,
   ⟨m.c0.z, m.c1.z, m.c2.z, m.c3.z⟩, ⟨m.c0.w, m.c1.w, m.c2.w, m.c3.w⟩⟩

/-- `glm::mat4(1.0f)`. -/
def identity : Mat4 := ⟨⟨1, 0, 0, 0⟩, ⟨0, 1, 0, 0⟩, ⟨0, 0, 1, 0⟩, ⟨0, 0, 0, 1⟩⟩

/-- The zero matrix (the value of a `static glm::mat4` before it is first assigned). -/
def zero : Mat4 := ⟨⟨0, 0, 0, 0⟩, ⟨0, 0, 0, 0⟩, ⟨0, 0, 0, 0⟩, ⟨0, 0, 0, 0⟩⟩

/-- `glm::value_ptr(m)`: the sixteen floats, column after column. -/
def value_ptr (m : Mat4) : List F32 :=
  [m.c0.x, m.c0.y, m.c0.z, m.c0.w, m.c1.x, m.c1.y, m.c1.z, m.c1.w,
   m.c2.x, m.c2.y, m.c2.z, m.c2.w, m.c3.x, m.c3.y, m.c3.z, m.c3.w]

end Mat4

namespace Mat3

/-- `glm::mat3(m)` of a `mat4`: the upper-left 3x3 block. -/
def of_mat4 (m : Mat4) : Mat3 := ⟨m.c0.xyz, m.c1.xyz, m.c2.xyz⟩

/-- `m * v`. -/
def mul_vec (m : Mat3) (v : Vec3) : Vec3 :=
  Vec3.add (Vec3.add (m.c0.smul v.x) (m.c1.smul v.y)) (m.c2.smul v.z)

end Mat3

/-- The library functions the source calls whose code is not part of the source file and whose
result is not fixed by IEEE-754: `std::hash<float>`, and GLM's `inverse`, `translate`,
`rotate`, `scale`, `radians`. The embedding takes them as a parameter. -/
structure GlmLib where
  hash_float : F32 → Nat
  inverse : Mat4 → Mat4
  translate : Mat4 → Vec3 → Mat4
  rotate : Mat4 → F32 → Vec3 → Mat4
  scale : Mat4 → Vec3 → Mat4
  radians : F32 → F32

/-! ## Data structures -/

/-- `CppClipVertex`. -/
structure CppClipVertex where
  position_clip : Vec4
  color_f : Vec3
  view_z : F32
  world_pos : Vec3
  is_original : Bool
  deriving DecidableEq, Repr

/-- `CppScreenTriangle`: three screen points, the depth and the final 8-bit colour. -/
structure CppScreenTriangle where
  screen_coords : List (F32 × F32)
  depth : F32
  color_final_uint8 : List Nat
  deriving DecidableEq, Repr

/-- `CppWorldDataL2`. -/
structure CppWorldDataL2 where
  world_vertices_flat : List F32
  world_face_normals_flat : List F32
  vertex_colors_flat : List F32
  num_source_triangles : Nat
  deriving DecidableEq, Repr

/-- `operator==` of `std::array<float, N>`: the elements are compared in turn with `==`. -/
def float_array_eq : List F32 → List F32 → Bool
  | [], [] => true
  | a :: more_a, b :: more_b => F32.feq a b && float_array_eq more_a more_b
  | _, _ => false

/-- `CacheKeyL2`. -/
structure CacheKeyL2 where
  object_id : Nat
  transform_params_hash_relevant : List F32
  use_vertex_normals_config : Bool
  deriving DecidableEq, Repr

/-- `CacheKeyL2::operator==`. -/
def CacheKeyL2.operator_eq (a other : CacheKeyL2) : Bool :=
  decide (a.object_id = other.object_id) &&
  float_array_eq a.transform_params_hash_relevant other.transform_params_hash_relevant &&
  decide (a.use_vertex_normals_config = other.use_vertex_normals_config)

instance : KeyEq CacheKeyL2 := ⟨fun a b => CacheKeyL2.operator_eq a b = true, inferInstance⟩

/-- `CacheKeyL1`. -/
structure CacheKeyL1 where
  object_id : Nat
  transform_params_hash_relevant : List F32
  view_matrix_hash : Nat
  projection_matrix_hash : Nat
  light_enabled : Bool
  back_cull_enabled : Bool
  clipping_enabled : Bool
  debug_clipping_enabled : Bool
  debug_clipped_color : List Nat
  small_tri_area_threshold : F32
  deriving DecidableEq, Repr

/-- `CacheKeyL1::operator==`. -/
def CacheKeyL1.operator_eq (a other : CacheKeyL1) : Bool :=
  decide (a.object_id = other.object_id) &&
  float_array_eq a.transform_params_hash_relevant other.transform_params_hash_relevant &&
  decide (a.view_matrix_hash = other.view_matrix_hash) &&
  decide (a.projection_matrix_hash = other.projection_matrix_hash) &&
  decide (a.light_enabled = other.light_enabled) &&
  decide (a.back_cull_enabled = other.back_cull_enabled) &&
  decide (a.clipping_enabled = other.clipping_enabled) &&
  decide (a.debug_clipping_enabled = other.debug_clipping_enabled) &&
  decide (a.debug_clipped_color = other.debug_clipped_color) &&
  F32.feq a.small_tri_area_threshold other.small_tri_area_threshold

instance : KeyEq CacheKeyL1 := ⟨fun a b => CacheKeyL1.operator_eq a b = true, inferInstance⟩

/-- `LruCacheL2Internal`. -/
abbrev LruCacheL2Internal := LruCache CacheKeyL2 CppWorldDataL2

/-- `LruCacheL1Internal`. -/
abbrev LruCacheL1Internal := LruCache CacheKeyL1 (List CppScreenTriangle)

/-! ## Core rendering helper functions -/

/-- `calculate_triangle_normal_internal_cpp`. -/
def calculate_triangle_normal_internal_cpp (v0 v1 v2 : Vec3) : Vec3 :=
  let edge1 := v1.sub v0
  let edge2 := v2.sub v0
  let normal := Vec3.cross edge1 edge2
  let length_squared := Vec3.dot normal normal
  if length_squared < F32.lit (1 / 10 ^ 18) then ⟨0, 0, 1⟩
  else normal.sdiv (F32.sqrt length_squared)

/-- `is_front_facing_internal_cpp`. -/
def is_front_facing_internal_cpp (normal_w camera_pos_w triangle_center_w : Vec3) : Bool :=
  let vec_to_camera := camera_pos_w.sub triangle_center_w
  if Vec3.length2 vec_to_camera < F32.lit (1 / 10 ^ 12) then true
  else decide (Vec3.dot normal_w vec_to_camera > F32.lit (1 / 10 ^ 6))

/-- `get_intersection_param_internal_cpp`. -/
def get_intersection_param_internal_cpp (v_start_pos_c v_end_pos_c plane_coeffs : Vec4) : F32 :=
  let dist_start := Vec4.dot plane_coeffs v_start_pos_c
  let dist_end := Vec4.dot plane_coeffs v_end_pos_c
  if F32.fabs (dist_start - dist_end) < F32.lit (1 / 10 ^ 9) then -1
  else dist_start / (dist_start - dist_end)

/-- The vertex both branches of `clip_polygon_to_plane_internal_cpp` construct with
`emplace_back`: every attribute interpolated with the same `t`, flagged not original. -/
def interpolated_vertex (prev_v current_v : CppClipVertex) (t : F32) : CppClipVertex :=
  { position_clip := Vec4.mix prev_v.position_clip current_v.position_clip t,
    color_f := Vec3.mix prev_v.color_f current_v.color_f t,
    view_z := mix_float prev_v.view_z current_v.view_z t,
    world_pos := Vec3.mix prev_v.world_pos current_v.world_pos t,
    is_original := false }

/-- One iteration of the loop of `clip_polygon_to_plane_internal_cpp`: the vertices appended
to `polygon_out` for the edge from `prev_v` to `current_v`. -/
def clip_edge (prev_v current_v : CppClipVertex) (plane_coeffs : Vec4) : List CppClipVertex :=
  let dist_current := Vec4.dot plane_coeffs current_v.position_clip
  let dist_prev := Vec4.dot plane_coeffs prev_v.position_clip
  let current_is_inside := decide (dist_current ≥ -F32.lit (1 / 10 ^ 7))
  let prev_is_inside := decide (dist_prev ≥ -F32.lit (1 / 10 ^ 7))
  if current_is_inside then
    if !prev_is_inside then
      let t := get_intersection_param_internal_cpp prev_v.position_clip
        current_v.position_clip plane_coeffs
      if t ≥ 0 ∧ t ≤ 1 then [interpolated_vertex prev_v current_v t, current_v]
      else [current_v]
    else [current_v]
  else if prev_is_inside then
    let t := get_intersection_param_internal_cpp prev_v.position_clip
      current_v.position_clip plane_coeffs
    if t ≥ 0 ∧ t ≤ 1 then [interpolated_vertex prev_v current_v t]
    else []
  else []

/-- The vertex a read of `polygon_in[i]` yields; every index the source uses is in range. -/
def CppClipVertex.zero : CppClipVertex :=
  { position_clip := ⟨0, 0, 0, 0⟩, color_f := ⟨0, 0, 0⟩, view_z := 0, world_pos := ⟨0, 0, 0⟩,
    is_original := false }

/-- `clip_polygon_to_plane_internal_cpp`. -/
def clip_polygon_to_plane_internal_cpp (polygon_in : List CppClipVertex) (plane_coeffs : Vec4) :
    List CppClipVertex :=
  let num_vertices := polygon_in.length
  if num_vertices = 0 then []
  else
    (List.range num_vertices).flatMap (fun i =>
      clip_edge (polygon_in.getD ((i + num_vertices - 1) % num_vertices) CppClipVertex.zero)
        (polygon_in.getD i CppClipVertex.zero) plane_coeffs)

/-- The loop over the planes in `clip_triangle_to_frustum_internal_cpp`; `none` is the early
`return` taken as soon as fewer than three vertices are left. -/
def clip_to_planes : List CppClipVertex → List Vec4 → Option (List CppClipVertex)
  | polygon_to_clip, [] => some polygon_to_clip
  | polygon_to_clip, plane :: planes =>
    let clipped := clip_polygon_to_plane_internal_cpp polygon_to_clip plane
    if clipped.length < 3 then none else clip_to_planes clipped planes

/-- The fan loop of `clip_triangle_to_frustum_internal_cpp`:
`for (i = 1; i < size - 1; ++i) push_back({anchor, polygon[i], polygon[i + 1]})`. -/
def fan_triangles (polygon : List CppClipVertex) : List (List CppClipVertex) :=
  (List.range (polygon.length - 1 - 1)).map (fun j =>
    [polygon.getD 0 CppClipVertex.zero, polygon.getD (j + 1) CppClipVertex.zero,
     polygon.getD (j + 1 + 1) CppClipVertex.zero])

/-- `clip_triangle_to_frustum_internal_cpp`. -/
def clip_triangle_to_frustum_internal_cpp (triangle_clip_vertices_in : List CppClipVertex)
    (frustum_planes_coeffs : List Vec4) : List (List CppClipVertex) :=
  if triangle_clip_vertices_in.length ≠ 3 then []
  else
    match clip_to_planes triangle_clip_vertices_in frustum_planes_coeffs with
    | none => []
    | some polygon_to_clip =>
      if polygon_to_clip.length ≥ 3 then fan_triangles polygon_to_clip else []

/-- `frustum_planes_static` of `process_world_to_screen_internal_cpp`. -/
def frustum_planes_static : List Vec4 :=
  [⟨1, 0, 0, 1⟩, ⟨-1, 0, 0, 1⟩, ⟨0, 1, 0, 1⟩, ⟨0, -1, 0, 1⟩, ⟨0, 0, 1, 1⟩, ⟨0, 0, -1, 1⟩]

/-- `is_triangle_too_small_on_screen`. -/
def is_triangle_too_small_on_screen (tri : CppScreenTriangle) (min_area_threshold : F32) : Bool :=
  let x1 := (tri.screen_coords.getD 0 (0, 0)).1
  let y1 := (tri.screen_coords.getD 0 (0, 0)).2
  let x2 := (tri.screen_coords.getD 1 (0, 0)).1
  let y2 := (tri.screen_coords.getD 1 (0, 0)).2
  let x3 := (tri.screen_coords.getD 2 (0, 0)).1
  let y3 := (tri.screen_coords.getD 2 (0, 0)).2
  let area_doubled := x1 * (y2 - y3) + x2 * (y3 - y1) + x3 * (y1 - y2)
  decide (F32.fabs area_doubled * F32.lit (1 / 2) < min_area_threshold)

/-! ## Global frame data and parameters -/

/-- The file-level `static` variables the pipeline reads and writes. The two SDL handles are
recorded as "is not null". -/
structure RendererState where
  g_sdl_native_window : Bool
  g_sdl_renderer : Bool
  g_window_width_cpp : Int
  g_window_height_cpp : Int
  global_l2_cache_cpp_instance : LruCacheL2Internal
  global_l1_cache_cpp_instance : LruCacheL1Internal
  global_frame_triangles_cpp_ : List CppScreenTriangle
  g_current_view_matrix_cpp : Mat4
  g_current_projection_matrix_cpp : Mat4
  g_current_camera_pos_w_cpp : Vec3
  g_current_light_enabled_flag : Bool
  g_current_back_cull_enabled_flag : Bool
  g_current_clipping_enabled_flag : Bool
  g_current_debug_clipping_enabled_flag : Bool
  g_current_debug_clipped_color_arr_cpp : List Nat
  g_current_sort_triangles_in_cpp_flag : Bool
  g_current_small_triangle_area_threshold : F32
  deriving DecidableEq, Repr

/-- The `std::runtime_error`s thrown by the frame functions. -/
inductive CppError where
  | vertex_data_stride_mismatch
  | transform_params_shape
  | view_matrix_shape
  | projection_matrix_shape
  | camera_position_shape
  deriving DecidableEq, Repr

/-- How a call of a function that can throw ends: it returns a value, it throws, or it runs into
undefined behaviour (here: a read past the end of the vertex buffer), after which the C++
standard promises nothing. -/
inductive Outcome (ε α : Type) where
  | ok (a : α)
  | error (e : ε)
  | undefined
  deriving DecidableEq, Repr

/-! ## Stage 1: local to world transformation -/

/-- `v_ptr[j]` for the pointer `local_vertices_raw_ptr + offset`; `none` when the index lies
outside the buffer, where the read is undefined behaviour in the source. -/
def read_float (buffer : List F32) (offset : Int) (j : Nat) : Option F32 :=
  if offset + j < 0 then none else buffer[(offset + j).toNat]?

/-- `glm::vec3(v_ptr[j], v_ptr[j + 1], v_ptr[j + 2])`. -/
def read_vec3 (buffer : List F32) (offset : Int) (j : Nat) : Option Vec3 :=
  match read_float buffer offset j, read_float buffer offset (j + 1),
      read_float buffer offset (j + 2) with
  | some x, some y, some z => some ⟨x, y, z⟩
  | _, _, _ => none

/-- What the loop `for (k = 0; k < 3; ++k)` of the triangle loop reads for one vertex:
`local_v[k]`, `v_colors[k]` and `model_n[k]`. -/
structure VertexRecord where
  local_v : Vec3
  v_colors : Vec3
  model_n : Vec3
  deriving DecidableEq, Repr

/-- One iteration of the loop `for (k = 0; k < 3; ++k)`, for the vertex at `v_ptr`: the
position is always read, the colour when the stride is at least 6 (the default grey
otherwise), the normal when vertex normals are asked for and the stride is at least 9 (it is
left unset, and unused, otherwise). -/
def read_vertex (buffer : List F32) (vertex_data_stride : Int)
    (use_vertex_normals_from_mesh : Bool) (v_ptr : Int) : Option VertexRecord :=
  match read_vec3 buffer v_ptr 0 with
  | none => none
  | some local_v =>
    match (if vertex_data_stride ≥ 6 then read_vec3 buffer v_ptr 3
        else some ⟨F32.lit (1 / 2), F32.lit (1 / 2), F32.lit (1 / 2)⟩) with
    | none => none
    | some v_colors =>
      match (if use_vertex_normals_from_mesh && decide (vertex_data_stride ≥ 9) then
          read_vec3 buffer v_ptr 6 else some ⟨0, 0, 0⟩) with
      | none => none
      | some model_n => some { local_v := local_v, v_colors := v_colors, model_n := model_n }

/-- What one iteration of the triangle loop of `transform_to_world_internal_cpp` writes: the
nine world-vertex floats, the three face-normal floats and the nine colour floats of the
triangle's slots. -/
structure WorldTriangle where
  world_v : List Vec3
  face_normal_w : Vec3
  v_colors : List Vec3
  deriving DecidableEq, Repr

/-- The body of the triangle loop of `transform_to_world_internal_cpp`; `none` when one of its
reads lies outside the buffer. -/
def transform_triangle (local_vertices : List F32) (vertex_data_stride : Int)
    (use_vertex_normals_from_mesh : Bool) (model_m : Mat4) (normal_model_m : Mat3)
    (i_tri : Nat) : Option WorldTriangle :=
  let tri_base : Int := i_tri * vertex_data_stride * 3
  let v_off : Nat → Int := fun k => tri_base + k * vertex_data_stride
  match read_vertex local_vertices vertex_data_stride use_vertex_normals_from_mesh (v_off 0),
      read_vertex local_vertices vertex_data_stride use_vertex_normals_from_mesh (v_off 1),
      read_vertex local_vertices vertex_data_stride use_vertex_normals_from_mesh (v_off 2) with
  | some r0, some r1, some r2 =>
    let current_triangle_has_vertex_normals : Bool :=
      use_vertex_normals_from_mesh && decide (vertex_data_stride ≥ 9)
    let world_v0 := (model_m.mul_vec (Vec4.of_vec3 r0.local_v 1)).xyz
    let world_v1 := (model_m.mul_vec (Vec4.of_vec3 r1.local_v 1)).xyz
    let world_v2 := (model_m.mul_vec (Vec4.of_vec3 r2.local_v 1)).xyz
    let face_normal_w : Vec3 :=
      if current_triangle_has_vertex_normals then
        let n0w := Vec3.normalize (normal_model_m.mul_vec r0.model_n)
        let n1w := Vec3.normalize (normal_model_m.mul_vec r1.model_n)
        let n2w := Vec3.normalize (normal_model_m.mul_vec r2.model_n)
        Vec3.normalize (Vec3.add (Vec3.add n0w n1w) n2w)
      else calculate_triangle_normal_internal_cpp world_v0 world_v1 world_v2
    some { world_v := [world_v0, world_v1, world_v2],
           face_normal_w := face_normal_w,
           v_colors := [r0.v_colors, r1.v_colors, r2.v_colors] }
  | _, _, _ => none

/-- The three floats of a vector, in storage order. -/
def Vec3.flat (v : Vec3) : List F32 := [v.x, v.y, v.z]

/-- `CppWorldDataL2()`: no triangles, empty vectors. -/
def CppWorldDataL2.empty : CppWorldDataL2 :=
  { world_vertices_flat := [], world_face_normals_flat := [], vertex_colors_flat := [],
    num_source_triangles := 0 }

/-- The results of the iterations of a loop, when every iteration has one. -/
def all_iterations {α : Type} : List (Option α) → Option (List α)
  | [] => some []
  | none :: _ => none
  | some a :: more =>
    match all_iterations more with
    | none => none
    | some rest => some (a :: rest)

/-- `transform_to_world_internal_cpp`. The three output vectors are listed slot by slot:
triangle `i` owns the floats `9 i .. 9 i + 8` of the vertex and colour vectors and
`3 i .. 3 i + 2` of the normal vector. The outcome is `undefined` when an iteration of the
triangle loop reads outside the buffer. -/
def transform_to_world_internal_cpp (g : GlmLib) (local_vertices : List F32)
    (vertex_data_stride : Int) (use_vertex_normals_from_mesh : Bool) (model_m : Mat4) :
    Outcome CppError CppWorldDataL2 :=
  let num_total_floats_local : Int := local_vertices.length
  if num_total_floats_local = 0 then .ok CppWorldDataL2.empty
  else if vertex_data_stride ≤ 0 ∨
      Int.tmod num_total_floats_local (vertex_data_stride * 3) ≠ 0 then
    .error CppError.vertex_data_stride_mismatch
  else
    let num_source_triangles_long : Int :=
      Int.tdiv num_total_floats_local (vertex_data_stride * 3)
    if num_source_triangles_long ≤ 0 then .ok CppWorldDataL2.empty
    else
      let num_source_triangles : Nat := num_source_triangles_long.toNat
      let normal_model_m := Mat3.of_mat4 (Mat4.transpose (g.inverse model_m))
      match all_iterations ((List.range num_source_triangles).map
          (transform_triangle local_vertices vertex_data_stride use_vertex_normals_from_mesh
            model_m normal_model_m)) with
      | none => .undefined
      | some tris =>
        .ok { world_vertices_flat := tris.flatMap (fun t => t.world_v.flatMap Vec3.flat),
              world_face_normals_flat := tris.flatMap (fun t => t.face_normal_w.flat),
              vertex_colors_flat := tris.flatMap (fun t => t.v_colors.flatMap Vec3.flat),
              num_source_triangles := num_source_triangles }

/-- The indices of the vertex buffer that the body of the triangle loop of
`transform_to_world_internal_cpp` reads for triangle `i_tri`: for each of the three vertices
`v_ptr[0..2]`, then `v_ptr[3..5]` when the stride is at least 6, then `v_ptr[6..8]` when vertex
normals are asked for and the stride is at least 9. -/
def triangle_read_indices (vertex_data_stride : Int) (use_vertex_normals_from_mesh : Bool)
    (i_tri : Nat) : List Int :=
  (List.range 3).flatMap (fun k =>
    let v_off : Int := i_tri * vertex_data_stride * 3 + k * vertex_data_stride
    [v_off + 0, v_off + 1, v_off + 2] ++
    (if vertex_data_stride ≥ 6 then [v_off + 3, v_off + 4, v_off + 5] else []) ++
    (if use_vertex_normals_from_mesh && decide (vertex_data_stride ≥ 9) then
      [v_off + 6, v_off + 7, v_off + 8] else []))

/-! ## Stage 2: world to screen transformation -/

/-- `std::clamp(v, lo, hi)`: `(v < lo) ? lo : (hi < v) ? hi : v`. -/
def clamp (v lo hi : F32) : F32 := if v < lo then lo else if hi < v then hi else v

/-- `static_cast<unsigned char>` of a float: truncation towards zero for a value in
`[0, 256)`. The conversion of any other value, a NaN in particular, is undefined behaviour in
the source; the embedding gives 0 for a NaN and 255 for an infinity, and none of the theorems
below relies on either. -/
def to_uint8 : F32 → Nat
  | F32.fin v => (Int.floor v).toNat % 256
  | F32.inf _ => 255
  | F32.nan => 0

/-- The locals the vertex loop of `process_world_to_screen_internal_cpp` updates. -/
structure VertexLoopState where
  screen_coords : List (F32 × F32)
  depth : F32
  accumulated_interpolated_color_float : Vec3
  was_modified_by_clipping_debug : Bool
  deriving DecidableEq, Repr

/-- The perspective divide and viewport mapping of the vertex loop: the pair written to
`screen_coords[i_final_vtx]` for a clip-space position. -/
def viewport_point (s : RendererState) (clip_space_pos : Vec4) : F32 × F32 :=
  let inv_w := 1 / clip_space_pos.w
  let ndc_x := clip_space_pos.x * inv_w
  let ndc_y := clip_space_pos.y * inv_w
  ((ndc_x + 1) * F32.lit (1 / 2) * F32.of_int s.g_window_width_cpp,
   (1 - ndc_y) * F32.lit (1 / 2) * F32.of_int s.g_window_height_cpp)

/-- The loop `for (i_final_vtx = 0; i_final_vtx < 3; ++i_final_vtx)` over the vertices of one
clipped triangle; `none` is the `break` with `is_triangle_valid_for_draw = false` (after which
the triangle is skipped, whatever the locals hold). -/
def vertex_loop (s : RendererState) : List CppClipVertex → VertexLoopState →
    Option VertexLoopState
  | [], st => some st
  | current_clip_vertex :: more, st =>
    let clip_space_pos := current_clip_vertex.position_clip
    if F32.fabs clip_space_pos.w < F32.lit (1 / 10 ^ 7) then none
    else
      vertex_loop s more
        { screen_coords := st.screen_coords ++ [viewport_point s clip_space_pos],
          depth := st.depth + current_clip_vertex.view_z,
          accumulated_interpolated_color_float :=
            Vec3.add st.accumulated_interpolated_color_float current_clip_vertex.color_f,
          was_modified_by_clipping_debug :=
            st.was_modified_by_clipping_debug ||
              (s.g_current_debug_clipping_enabled_flag && !current_clip_vertex.is_original) }

/-- The `light_intensity` computed for a triangle with the given world vertices and normal. -/
def light_intensity (s : RendererState) (current_world_v : List Vec3)
    (current_world_face_normal : Vec3) : F32 :=
  if s.g_current_light_enabled_flag then
    let triangle_center_w := (Vec3.add (Vec3.add (current_world_v.getD 0 ⟨0, 0, 0⟩)
      (current_world_v.getD 1 ⟨0, 0, 0⟩)) (current_world_v.getD 2 ⟨0, 0, 0⟩)).sdiv 3
    let light_dir := s.g_current_camera_pos_w_cpp.sub triangle_center_w
    if Vec3.length2 light_dir > F32.lit (1 / 10 ^ 9) then
      F32.lit (3 / 10) + F32.lit (7 / 10) *
        F32.fmax 0 (Vec3.dot current_world_face_normal (Vec3.normalize light_dir))
    else 1
  else 1

/-- The body of the loop over `processed_triangles_after_clipping`: the screen triangle pushed
for one clipped triangle, or `none` when the iteration ends in `continue`. -/
def screen_triangle_of_clipped (s : RendererState) (current_world_v : List Vec3)
    (current_world_face_normal : Vec3) (single_clipped_triangle_verts_cpp : List CppClipVertex) :
    Option CppScreenTriangle :=
  if single_clipped_triangle_verts_cpp.length ≠ 3 then none
  else
    match vertex_loop s single_clipped_triangle_verts_cpp
        { screen_coords := [], depth := 0, accumulated_interpolated_color_float := ⟨0, 0, 0⟩,
          was_modified_by_clipping_debug := false } with
    | none => none
    | some st =>
      let final_screen_triangle : CppScreenTriangle :=
        { screen_coords := st.screen_coords, depth := st.depth / 3, color_final_uint8 := [] }
      if s.g_current_small_triangle_area_threshold > 0 ∧
          is_triangle_too_small_on_screen final_screen_triangle
            s.g_current_small_triangle_area_threshold = true then none
      else
        let average_final_color_float := st.accumulated_interpolated_color_float.sdiv 3
        let li := light_intensity s current_world_v current_world_face_normal
        if s.g_current_debug_clipping_enabled_flag && st.was_modified_by_clipping_debug then
          some { final_screen_triangle with
                 color_final_uint8 := s.g_current_debug_clipped_color_arr_cpp }
        else
          some { final_screen_triangle with
                 color_final_uint8 :=
                   [to_uint8 (clamp (average_final_color_float.x * li * 255) 0 255),
                    to_uint8 (clamp (average_final_color_float.y * li * 255) 0 255),
                    to_uint8 (clamp (average_final_color_float.z * li * 255) 0 255)] }

/-- The `clip_space_input_triangle` built for a world triangle: every vertex carries its clip
position, colour, view-space depth and world position, and is flagged original. -/
def clip_space_input_triangle (s : RendererState) (current_world_v current_v_colors : List Vec3) :
    List CppClipVertex :=
  (List.range 3).map (fun i_vtx =>
    let view_space_pos_h := s.g_current_view_matrix_cpp.mul_vec
      (Vec4.of_vec3 (current_world_v.getD i_vtx ⟨0, 0, 0⟩) 1)
    let clip_space_pos_h := s.g_current_projection_matrix_cpp.mul_vec view_space_pos_h
    { position_clip := clip_space_pos_h, color_f := current_v_colors.getD i_vtx ⟨0, 0, 0⟩,
      view_z := view_space_pos_h.z, world_pos := current_world_v.getD i_vtx ⟨0, 0, 0⟩,
      is_original := true })

/-- `processed_triangles_after_clipping` for one input triangle. -/
def processed_triangles_after_clipping (s : RendererState) (tri : List CppClipVertex) :
    List (List CppClipVertex) :=
  if s.g_current_clipping_enabled_flag then
    clip_triangle_to_frustum_internal_cpp tri frustum_planes_static
  else [tri]

/-- The body of the triangle loop of `process_world_to_screen_internal_cpp`: the screen
triangles pushed for source triangle `i_tri`, in order. -/
def process_world_triangle (s : RendererState) (world_data : CppWorldDataL2)
    (i_tri : Nat) : List CppScreenTriangle :=
  let vec_at : List F32 → Nat → Vec3 := fun flat base =>
    ⟨flat.getD (base + 0) 0, flat.getD (base + 1) 0, flat.getD (base + 2) 0⟩
  let current_world_v : List Vec3 :=
    (List.range 3).map (fun k => vec_at world_data.world_vertices_flat (i_tri * 9 + k * 3))
  let current_v_colors : List Vec3 :=
    (List.range 3).map (fun k => vec_at world_data.vertex_colors_flat (i_tri * 9 + k * 3))
  let current_world_face_normal := vec_at world_data.world_face_normals_flat (i_tri * 3)
  let triangle_center_w := (Vec3.add (Vec3.add (current_world_v.getD 0 ⟨0, 0, 0⟩)
    (current_world_v.getD 1 ⟨0, 0, 0⟩)) (current_world_v.getD 2 ⟨0, 0, 0⟩)).sdiv 3
  if s.g_current_back_cull_enabled_flag &&
      !is_front_facing_internal_cpp current_world_face_normal s.g_current_camera_pos_w_cpp
        triangle_center_w then []
  else
    (processed_triangles_after_clipping s
      (clip_space_input_triangle s current_world_v current_v_colors)).filterMap
      (screen_triangle_of_clipped s current_world_v current_world_face_normal)

/-- `process_world_to_screen_internal_cpp`, reading the render state from `s`. -/
def process_world_to_screen_internal_cpp (s : RendererState)
    (world_data : CppWorldDataL2) : List CppScreenTriangle :=
  if world_data.num_source_triangles = 0 then []
  else
    (List.range world_data.num_source_triangles).flatMap (process_world_triangle s world_data)

/-- `current_world_v[k]` in the triangle loop of `process_world_to_screen_internal_cpp`: vertex
`k` of source triangle `i_tri`. -/
def current_world_v (world_data : CppWorldDataL2) (i_tri k : Nat) : Vec3 :=
  ⟨world_data.world_vertices_flat.getD (i_tri * 9 + k * 3 + 0) 0,
   world_data.world_vertices_flat.getD (i_tri * 9 + k * 3 + 1) 0,
   world_data.world_vertices_flat.getD (i_tri * 9 + k * 3 + 2) 0⟩

/-- `current_world_face_normal` in the same loop: the stored face normal of triangle `i_tri`. -/
def current_world_face_normal (world_data : CppWorldDataL2) (i_tri : Nat) : Vec3 :=
  ⟨world_data.world_face_normals_flat.getD (i_tri * 3 + 0) 0,
   world_data.world_face_normals_flat.getD (i_tri * 3 + 1) 0,
   world_data.world_face_normals_flat.getD (i_tri * 3 + 2) 0⟩

/-- `triangle_center_w` in the same loop: the centroid of triangle `i_tri`. -/
def triangle_center_w (world_data : CppWorldDataL2) (i_tri : Nat) : Vec3 :=
  (Vec3.add (Vec3.add (current_world_v world_data i_tri 0) (current_world_v world_data i_tri 1))
    (current_world_v world_data i_tri 2)).sdiv 3

/-- `current_v_colors[k]` in the same loop: the colour of vertex `k` of triangle `i_tri`. -/
def current_v_colors (world_data : CppWorldDataL2) (i_tri k : Nat) : Vec3 :=
  ⟨world_data.vertex_colors_flat.getD (i_tri * 9 + k * 3 + 0) 0,
   world_data.vertex_colors_flat.getD (i_tri * 9 + k * 3 + 1) 0,
   world_data.vertex_colors_flat.getD (i_tri * 9 + k * 3 + 2) 0⟩

/-! ## Exposed functions -/

/-- A `py::array_t<float>` argument: its number of dimensions and its elements in C order
(`size()` is the number of elements). -/
structure NpArray where
  ndim : Nat
  data : List F32
  deriving DecidableEq, Repr

/-- `size()` of a numpy array. -/
def NpArray.size (a : NpArray) : Nat := a.data.length

/-- The step `seed ^= h + 0x9e3779b9 + (seed << 6) + (seed >> 2)` on 64-bit `size_t`. -/
def hash_combine (seed h : Nat) : Nat :=
  seed ^^^ ((h + 0x9e3779b9 + (seed <<< 6) + (seed >>> 2)) % 2 ^ 64)

/-- `GlmMat4Hash`. -/
def GlmMat4Hash (g : GlmLib) (m : Mat4) : Nat :=
  m.value_ptr.foldl (fun seed f => hash_combine seed (g.hash_float f)) 0

/-- The part of `initialize_cpp_renderer` that touches the pipeline state, for the case that
SDL creates the window and the renderer: `actual_width` and `actual_height` are what
`SDL_GetWindowSize` reports. The call throws when a window or renderer already exists. -/
def initialize_cpp_renderer (s : RendererState) (actual_width actual_height : Int)
    (l1_capacity l2_capacity : Nat) : Option RendererState :=
  if s.g_sdl_renderer || s.g_sdl_native_window then none
  else
    some { s with
      g_sdl_native_window := true,
      g_sdl_renderer := true,
      g_window_width_cpp := actual_width,
      g_window_height_cpp := actual_height,
      global_l1_cache_cpp_instance := s.global_l1_cache_cpp_instance.set_capacity l1_capacity,
      global_l2_cache_cpp_instance := s.global_l2_cache_cpp_instance.set_capacity l2_capacity }

/-- The state at program start: zero-initialised statics, freshly constructed caches. -/
def RendererState.startup : RendererState :=
  { g_sdl_native_window := false,
    g_sdl_renderer := false,
    g_window_width_cpp := 0,
    g_window_height_cpp := 0,
    global_l2_cache_cpp_instance := LruCache.init,
    global_l1_cache_cpp_instance := LruCache.init,
    global_frame_triangles_cpp_ := [],
    g_current_view_matrix_cpp := Mat4.zero,
    g_current_projection_matrix_cpp := Mat4.zero,
    g_current_camera_pos_w_cpp := ⟨0, 0, 0⟩,
    g_current_light_enabled_flag := false,
    g_current_back_cull_enabled_flag := false,
    g_current_clipping_enabled_flag := false,
    g_current_debug_clipping_enabled_flag := false,
    g_current_debug_clipped_color_arr_cpp := [0, 0, 0],
    g_current_sort_triangles_in_cpp_flag := false,
    g_current_small_triangle_area_threshold := 0 }

/-- The `SDL_WINDOWEVENT_SIZE_CHANGED` branch of `poll_sdl_events_cpp`: the new size is
recorded, nothing else changes. -/
def window_size_changed (s : RendererState) (data1 data2 : Int) : RendererState :=
  { s with g_window_width_cpp := data1, g_window_height_cpp := data2 }

/-- `glm::make_mat4(ptr)`: sixteen floats, column after column. -/
def make_mat4 (p : List F32) : Mat4 :=
  ⟨⟨p.getD 0 0, p.getD 1 0, p.getD 2 0, p.getD 3 0⟩,
   ⟨p.getD 4 0, p.getD 5 0, p.getD 6 0, p.getD 7 0⟩,
   ⟨p.getD 8 0, p.getD 9 0, p.getD 10 0, p.getD 11 0⟩,
   ⟨p.getD 12 0, p.getD 13 0, p.getD 14 0, p.getD 15 0⟩⟩

/-- `glm::make_vec3(ptr)`. -/
def make_vec3 (p : List F32) : Vec3 := ⟨p.getD 0 0, p.getD 1 0, p.getD 2 0⟩

/-- `set_frame_parameters_cpp`: the exception thrown, if any, and the state afterwards. -/
def set_frame_parameters_cpp (s : RendererState)
    (view_matrix_np projection_matrix_np camera_pos_w_np : NpArray)
    (light_enabled_flag back_cull_enabled_flag clipping_enabled_flag
      debug_clipping_enabled_flag : Bool) (debug_clipped_color_arr : List Nat)
    (sort_triangles_flag : Bool) (small_triangle_area_threshold : F32) :
    Option CppError × RendererState :=
  if !s.g_sdl_renderer && !s.g_sdl_native_window then (none, s)
  else if view_matrix_np.ndim ≠ 1 ∨ view_matrix_np.size ≠ 16 then
    (some CppError.view_matrix_shape, s)
  else if projection_matrix_np.ndim ≠ 1 ∨ projection_matrix_np.size ≠ 16 then
    (some CppError.projection_matrix_shape, s)
  else if camera_pos_w_np.ndim ≠ 1 ∨ camera_pos_w_np.size ≠ 3 then
    (some CppError.camera_position_shape, s)
  else
    (none,
     { s with
       g_current_view_matrix_cpp := make_mat4 view_matrix_np.data,
       g_current_projection_matrix_cpp := make_mat4 projection_matrix_np.data,
       g_current_camera_pos_w_cpp := make_vec3 camera_pos_w_np.data,
       g_current_light_enabled_flag := light_enabled_flag,
       g_current_back_cull_enabled_flag := back_cull_enabled_flag,
       g_current_clipping_enabled_flag := clipping_enabled_flag,
       g_current_debug_clipping_enabled_flag := debug_clipping_enabled_flag,
       g_current_debug_clipped_color_arr_cpp := debug_clipped_color_arr,
       g_current_sort_triangles_in_cpp_flag := sort_triangles_flag,
       g_current_small_triangle_area_threshold := small_triangle_area_threshold,
       global_frame_triangles_cpp_ := [] })

/-- The two pipeline stages, as entries of a call trace. -/
inductive StageCall where
  | transform_to_world
  | process_world_to_screen
  deriving DecidableEq, Repr

/-- What a call of `process_and_accumulate_object_cpp` does: the exception it throws (if any),
whether the L1 lookup hit, the pipeline stages it called (in order), the triangles it inserted
at the end of the frame accumulator, and the state it leaves. `undefined_behaviour` is set when
the world stage read outside the vertex buffer; what the other fields then hold (the state
before the stage ran, nothing appended) says nothing about the source. -/
structure SubmitResult where
  error : Option CppError
  l1_hit : Bool
  stages : List StageCall
  appended : List CppScreenTriangle
  state : RendererState
  undefined_behaviour : Bool := false
  deriving DecidableEq, Repr

/-- The L1 key `process_and_accumulate_object_cpp` builds from its arguments and the current
render state. -/
def make_key_l1 (g : GlmLib) (s : RendererState) (object_id_py : Nat) (tp_ptr : List F32) :
    CacheKeyL1 :=
  { object_id := object_id_py,
    transform_params_hash_relevant := (List.range 9).map (fun i => tp_ptr.getD i 0),
    view_matrix_hash := GlmMat4Hash g s.g_current_view_matrix_cpp,
    projection_matrix_hash := GlmMat4Hash g s.g_current_projection_matrix_cpp,
    light_enabled := s.g_current_light_enabled_flag,
    back_cull_enabled := s.g_current_back_cull_enabled_flag,
    clipping_enabled := s.g_current_clipping_enabled_flag,
    debug_clipping_enabled := s.g_current_debug_clipping_enabled_flag,
    debug_clipped_color := s.g_current_debug_clipped_color_arr_cpp,
    small_tri_area_threshold := s.g_current_small_triangle_area_threshold }

/-- The L2 key `process_and_accumulate_object_cpp` builds. -/
def make_key_l2 (object_id_py : Nat) (tp_ptr : List F32) (use_vertex_normals_from_mesh : Bool) :
    CacheKeyL2 :=
  { object_id := object_id_py,
    transform_params_hash_relevant := (List.range 9).map (fun i => tp_ptr.getD i 0),
    use_vertex_normals_config := use_vertex_normals_from_mesh }

/-- `model_m_calculated`: translate, rotate about Y, X, Z (degrees), scale. -/
def model_matrix (g : GlmLib) (tp_ptr : List F32) : Mat4 :=
  let pos : Vec3 := ⟨tp_ptr.getD 0 0, tp_ptr.getD 1 0, tp_ptr.getD 2 0⟩
  let rot_deg : Vec3 := ⟨tp_ptr.getD 3 0, tp_ptr.getD 4 0, tp_ptr.getD 5 0⟩
  let scl : Vec3 := ⟨tp_ptr.getD 6 0, tp_ptr.getD 7 0, tp_ptr.getD 8 0⟩
  let m0 := g.translate Mat4.identity pos
  let m1 := g.rotate m0 (g.radians rot_deg.y) ⟨0, 1, 0⟩
  let m2 := g.rotate m1 (g.radians rot_deg.x) ⟨1, 0, 0⟩
  let m3 := g.rotate m2 (g.radians rot_deg.z) ⟨0, 0, 1⟩
  g.scale m3 scl

/-- The tail of `process_and_accumulate_object_cpp`: a non-empty result is stored in L1 and
appended to the frame accumulator; an empty one is neither stored nor appended. -/
def store_and_accumulate (s : RendererState) (key_l1 : CacheKeyL1)
    (new_screen_triangles_for_l1 : List CppScreenTriangle) : RendererState :=
  if new_screen_triangles_for_l1 ≠ [] then
    { s with
      global_l1_cache_cpp_instance :=
        s.global_l1_cache_cpp_instance.put key_l1 new_screen_triangles_for_l1,
      global_frame_triangles_cpp_ :=
        s.global_frame_triangles_cpp_ ++ new_screen_triangles_for_l1 }
  else s

/-- `process_and_accumulate_object_cpp`. -/
def process_and_accumulate_object_cpp (g : GlmLib) (s : RendererState) (object_id_py : Nat)
    (transform_params_np local_vertex_data_np : NpArray) (vertex_data_stride : Int)
    (use_vertex_normals_from_mesh : Bool) : SubmitResult :=
  if !s.g_sdl_renderer && !s.g_sdl_native_window then
    { error := none, l1_hit := false, stages := [], appended := [], state := s }
  else if local_vertex_data_np.size = 0 then
    { error := none, l1_hit := false, stages := [], appended := [], state := s }
  else if transform_params_np.ndim ≠ 1 ∨ transform_params_np.size ≠ 9 then
    { error := some CppError.transform_params_shape, l1_hit := false, stages := [],
      appended := [], state := s }
  else
    let tp_ptr := transform_params_np.data
    let key_l1 := make_key_l1 g s object_id_py tp_ptr
    let l1_result := s.global_l1_cache_cpp_instance.get key_l1
    let s1 := { s with global_l1_cache_cpp_instance := l1_result.2 }
    match l1_result.1 with
    | some screen_triangles_from_l1 =>
      { error := none, l1_hit := true, stages := [], appended := screen_triangles_from_l1,
        state := { s1 with global_frame_triangles_cpp_ :=
                     s1.global_frame_triangles_cpp_ ++ screen_triangles_from_l1 } }
    | none =>
      let key_l2 := make_key_l2 object_id_py tp_ptr use_vertex_normals_from_mesh
      let l2_result := s1.global_l2_cache_cpp_instance.get key_l2
      let s2 := { s1 with global_l2_cache_cpp_instance := l2_result.2 }
      match l2_result.1 with
      | some world_data_from_cache_l2 =>
        let new_screen_triangles_for_l1 :=
          process_world_to_screen_internal_cpp s2 world_data_from_cache_l2
        { error := none, l1_hit := false, stages := [StageCall.process_world_to_screen],
          appended := new_screen_triangles_for_l1,
          state := store_and_accumulate s2 key_l1 new_screen_triangles_for_l1 }
      | none =>
        match transform_to_world_internal_cpp g local_vertex_data_np.data vertex_data_stride
            use_vertex_normals_from_mesh (model_matrix g tp_ptr) with
        | .error e =>
          { error := some e, l1_hit := false, stages := [StageCall.transform_to_world],
            appended := [], state := s2 }
        | .undefined =>
          { error := none, l1_hit := false, stages := [StageCall.transform_to_world],
            appended := [], state := s2, undefined_behaviour := true }
        | .ok new_world_data_l2 =>
          if new_world_data_l2.num_source_triangles > 0 then
            let s3 := { s2 with global_l2_cache_cpp_instance :=
                          s2.global_l2_cache_cpp_instance.put key_l2 new_world_data_l2 }
            let new_screen_triangles_for_l1 :=
              process_world_to_screen_internal_cpp s3 new_world_data_l2
            { error := none, l1_hit := false,
              stages := [StageCall.transform_to_world, StageCall.process_world_to_screen],
              appended := new_screen_triangles_for_l1,
              state := store_and_accumulate s3 key_l1 new_screen_triangles_for_l1 }
          else
            { error := none, l1_hit := false, stages := [StageCall.transform_to_world],
              appended := [], state := store_and_accumulate s2 key_l1 [] }

/-- The arguments of one call of `process_and_accumulate_object_cpp`. -/
structure SubmitCall where
  object_id_py : Nat
  transform_params_np : NpArray
  local_vertex_data_np : NpArray
  vertex_data_stride : Int
  use_vertex_normals_from_mesh : Bool
  deriving DecidableEq, Repr

/-- A sequence of calls of `process_and_accumulate_object_cpp` made one after the other: what
each call does, in call order, every call starting in the state the one before it left. -/
def submit_all (g : GlmLib) : RendererState → List SubmitCall → List SubmitResult
  | _, [] => []
  | s, call :: more =>
    (process_and_accumulate_object_cpp g s call.object_id_py call.transform_params_np
      call.local_vertex_data_np call.vertex_data_stride call.use_vertex_normals_from_mesh) ::
    submit_all g
      (process_and_accumulate_object_cpp g s call.object_id_py call.transform_params_np
        call.local_vertex_data_np call.vertex_data_stride
        call.use_vertex_normals_from_mesh).state more

/-- The state a sequence of calls leaves: the state after the last call, or the starting state
when there was no call. -/
def state_after (s : RendererState) (results : List SubmitResult) : RendererState :=
  results.foldl (fun _ r => r.state) s

/-- `SDL_Vertex`: position, colour `r, g, b, a` and texture coordinate. -/
structure SDL_Vertex where
  position : F32 × F32
  color : List Nat
  tex_coord : F32 × F32
  deriving DecidableEq, Repr

/-- The requirement `Compare` of the C++ standard on the comparison handed to `std::sort`, on
the elements to be sorted: a strict weak ordering (irreflexive, transitive, and with a
transitive "neither is less" relation). -/
structure StrictWeakOrdering {α : Type} (comp : α → α → Bool) (l : List α) : Prop where
  irrefl : ∀ a ∈ l, comp a a = false
  trans : ∀ a ∈ l, ∀ b ∈ l, ∀ c ∈ l, comp a b = true → comp b c = true → comp a c = true
  incomp_trans : ∀ a ∈ l, ∀ b ∈ l, ∀ c ∈ l, comp a b = false → comp b a = false →
    comp b c = false → comp c b = false → comp a c = false ∧ comp c a = false

/-- `std::sort(first, last, comp)`. The algorithm belongs to the standard library, not to the
source file, so the embedding takes it as a parameter, together with what the C++ standard
promises of it when `comp` is a strict weak ordering of the elements: the result is a
rearrangement of the input in which no element is followed by one that compares less than it.
Elements that compare equivalent may come out in any order; with a comparison that is not a
strict weak ordering the behaviour is undefined and nothing is promised. -/
structure StdSort where
  sort : (CppScreenTriangle → CppScreenTriangle → Bool) → List CppScreenTriangle →
    List CppScreenTriangle
  perm : ∀ comp l, StrictWeakOrdering comp l → (sort comp l).Perm l
  sorted : ∀ comp l, StrictWeakOrdering comp l →
    (sort comp l).Pairwise (fun a b => comp b a = false)

/-- What a call of `render_accumulated_triangles_cpp` does: whether it reaches
`SDL_RenderPresent`, the local `triangles_to_render_this_frame` as it stands when the vertices
are built, the `sdl_vertices` handed to `SDL_RenderGeometry`, and the state it leaves. -/
structure PresentResult where
  presented : Bool
  triangles_to_render_this_frame : List CppScreenTriangle
  sdl_vertices : List SDL_Vertex
  state : RendererState

/-- The three `SDL_Vertex` values pushed for one triangle (`SDL_ALPHA_OPAQUE` is 255). -/
def sdl_vertices_of (tri : CppScreenTriangle) : List SDL_Vertex :=
  (List.range 3).map (fun i =>
    { position := tri.screen_coords.getD i (0, 0),
      color := [tri.color_final_uint8.getD 0 0, tri.color_final_uint8.getD 1 0,
                tri.color_final_uint8.getD 2 0, 255],
      tex_coord := (0, 0) })

/-- The comparison lambda `render_accumulated_triangles_cpp` hands to `std::sort`:
`a.depth < b.depth`. -/
def depth_less (a b : CppScreenTriangle) : Bool := decide (a.depth < b.depth)

/-- `render_accumulated_triangles_cpp`. -/
def render_accumulated_triangles_cpp (std_sort : StdSort) (s : RendererState) : PresentResult :=
  if !s.g_sdl_renderer then
    { presented := false, triangles_to_render_this_frame := [], sdl_vertices := [], state := s }
  else
    let swapped := !s.global_frame_triangles_cpp_.isEmpty
    let triangles_to_render_this_frame :=
      if swapped then s.global_frame_triangles_cpp_ else []
    let s1 := if swapped then { s with global_frame_triangles_cpp_ := [] } else s
    if triangles_to_render_this_frame.isEmpty then
      { presented := true, triangles_to_render_this_frame := [], sdl_vertices := [],
        state := s1 }
    else
      let sorted_triangles :=
        if s.g_current_sort_triangles_in_cpp_flag then
          std_sort.sort depth_less triangles_to_render_this_frame
        else triangles_to_render_this_frame
      { presented := true, triangles_to_render_this_frame := sorted_triangles,
        sdl_vertices := sorted_triangles.flatMap sdl_vertices_of, state := s1 }

/-- What the two stages compute from a call's own inputs under the render state of `s`:
`transform_to_world_internal_cpp` on the vertex data with the model matrix of the transform,
followed by `process_world_to_screen_internal_cpp`. -/
def stages_result (g : GlmLib) (s : RendererState) (tp_ptr : List F32) (local_vertices : List F32)
    (vertex_data_stride : Int) (use_vertex_normals_from_mesh : Bool) :
    Outcome CppError (List CppScreenTriangle) :=
  match transform_to_world_internal_cpp g local_vertices vertex_data_stride
      use_vertex_normals_from_mesh (model_matrix g tp_ptr) with
  | .error e => .error e
  | .undefined => .undefined
  | .ok world_data => .ok (process_world_to_screen_internal_cpp s world_data)

/-- A renderer on which `initialize_cpp_renderer` has run: a window or renderer exists and
both caches have been given a capacity (which `set_capacity` makes at least 1). -/
def RendererState.initialised (s : RendererState) : Prop :=
  (s.g_sdl_renderer = true ∨ s.g_sdl_native_window = true) ∧
  1 ≤ s.global_l1_cache_cpp_instance.capacity_ ∧ 1 ≤ s.global_l2_cache_cpp_instance.capacity_

/-- Two states agree on everything but the two caches and the frame accumulator. -/
def agree_outside_caches (s t : RendererState) : Prop :=
  s.g_sdl_native_window = t.g_sdl_native_window ∧
  s.g_sdl_renderer = t.g_sdl_renderer ∧
  s.g_window_width_cpp = t.g_window_width_cpp ∧
  s.g_window_height_cpp = t.g_window_height_cpp ∧
  s.g_current_view_matrix_cpp = t.g_current_view_matrix_cpp ∧
  s.g_current_projection_matrix_cpp = t.g_current_projection_matrix_cpp ∧
  s.g_current_camera_pos_w_cpp = t.g_current_camera_pos_w_cpp ∧
  s.g_current_light_enabled_flag = t.g_current_light_enabled_flag ∧
  s.g_current_back_cull_enabled_flag = t.g_current_back_cull_enabled_flag ∧
  s.g_current_clipping_enabled_flag = t.g_current_clipping_enabled_flag ∧
  s.g_current_debug_clipping_enabled_flag = t.g_current_debug_clipping_enabled_flag ∧
  s.g_current_debug_clipped_color_arr_cpp = t.g_current_debug_clipped_color_arr_cpp ∧
  s.g_current_sort_triangles_in_cpp_flag = t.g_current_sort_triangles_in_cpp_flag ∧
  s.g_current_small_triangle_area_threshold = t.g_current_small_triangle_area_threshold

/-- The doubled shoelace area `x1 (y2 - y3) + x2 (y3 - y1) + x3 (y1 - y2)` of three screen
points, evaluated in binary32 in the order the source writes it. -/
def shoelace_doubled (p1 p2 p3 : F32 × F32) : F32 :=
  p1.1 * (p2.2 - p3.2) + p2.1 * (p3.2 - p1.2) + p3.1 * (p1.2 - p2.2)

/-- The signed distance of a clip vertex to a plane, `glm::dot(plane_coeffs, position_clip)`
(the `dist_current` / `dist_prev` of `clip_polygon_to_plane_internal_cpp`). -/
def signed_distance (plane_coeffs : Vec4) (v : CppClipVertex) : F32 :=
  Vec4.dot plane_coeffs v.position_clip

/-- The inside test of `clip_polygon_to_plane_internal_cpp`: `dist >= -1e-7f`. -/
def is_inside (plane_coeffs : Vec4) (v : CppClipVertex) : Prop :=
  signed_distance plane_coeffs v ≥ -F32.lit (1 / 10 ^ 7)

instance (plane_coeffs : Vec4) (v : CppClipVertex) : Decidable (is_inside plane_coeffs v) :=
  inferInstanceAs (Decidable (signed_distance plane_coeffs v ≥ -F32.lit (1 / 10 ^ 7)))

/-! ## Sample inputs used to instantiate the theorems -/

/-- Componentwise product of two `vec4`. -/
def Vec4.mulc (a b : Vec4) : Vec4 := ⟨a.x * b.x, a.y * b.y, a.z * b.z, a.w * b.w⟩

/-- Componentwise difference of two `vec4`. -/
def Vec4.sub (a b : Vec4) : Vec4 := ⟨a.x - b.x, a.y - b.y, a.z - b.z, a.w - b.w⟩

/-- `glm::translate(m, v)`: the last column becomes `m[0] v.x + m[1] v.y + m[2] v.z + m[3]`. -/
def glm_translate (m : Mat4) (v : Vec3) : Mat4 :=
  ⟨m.c0, m.c1, m.c2,
   Vec4.add (Vec4.add (Vec4.add (m.c0.smul v.x) (m.c1.smul v.y)) (m.c2.smul v.z)) m.c3⟩

/-- `glm::scale(m, v)`. -/
def glm_scale (m : Mat4) (v : Vec3) : Mat4 := ⟨m.c0.smul v.x, m.c1.smul v.y, m.c2.smul v.z, m.c3⟩

/-- `glm::rotate(m, angle, v)` for given cosine and sine of the angle and a given
normalisation of the axis. -/
def glm_rotate (c s : F32) (axis : Vec3) (m : Mat4) : Mat4 :=
  let temp := axis.smul (1 - c)
  let r00 := c + temp.x * axis.x
  let r01 := temp.x * axis.y + s * axis.z
  let r02 := temp.x * axis.z - s * axis.y
  let r10 := temp.y * axis.x - s * axis.z
  let r11 := c + temp.y * axis.y
  let r12 := temp.y * axis.z + s * axis.x
  let r20 := temp.z * axis.x + s * axis.y
  let r21 := temp.z * axis.y - s * axis.x
  let r22 := c + temp.z * axis.z
  ⟨Vec4.add (Vec4.add (m.c0.smul r00) (m.c1.smul r01)) (m.c2.smul r02),
   Vec4.add (Vec4.add (m.c0.smul r10) (m.c1.smul r11)) (m.c2.smul r12),
   Vec4.add (Vec4.add (m.c0.smul r20) (m.c1.smul r21)) (m.c2.smul r22),
   m.c3⟩

/-- `glm::inverse` of a `mat4`: cofactors over the determinant. -/
def glm_inverse (m : Mat4) : Mat4 :=
  let coef00 := m.c2.z * m.c3.w - m.c3.z * m.c2.w
  let coef02 := m.c1.z * m.c3.w - m.c3.z * m.c1.w
  let coef03 := m.c1.z * m.c2.w - m.c2.z * m.c1.w
  let coef04 := m.c2.y * m.c3.w - m.c3.y * m.c2.w
  let coef06 := m.c1.y * m.c3.w - m.c3.y * m.c1.w
  let coef07 := m.c1.y * m.c2.w - m.c2.y * m.c1.w
  let coef08 := m.c2.y * m.c3.z - m.c3.y * m.c2.z
  let coef10 := m.c1.y * m.c3.z - m.c3.y * m.c1.z
  let coef11 := m.c1.y * m.c2.z - m.c2.y * m.c1.z
  let coef12 := m.c2.x * m.c3.w - m.c3.x * m.c2.w
  let coef14 := m.c1.x * m.c3.w - m.c3.x * m.c1.w
  let coef15 := m.c1.x * m.c2.w - m.c2.x * m.c1.w
  let coef16 := m.c2.x * m.c3.z - m.c3.x * m.c2.z
  let coef18 := m.c1.x * m.c3.z - m.c3.x * m.c1.z
  let coef19 := m.c1.x * m.c2.z - m.c2.x * m.c1.z
  let coef20 := m.c2.x * m.c3.y - m.c3.x * m.c2.y
  let coef22 := m.c1.x * m.c3.y - m.c3.x * m.c1.y
  let coef23 := m.c1.x * m.c2.y - m.c2.x * m.c1.y
  let fac0 : Vec4 := ⟨coef00, coef00, coef02, coef03⟩
  let fac1 : Vec4 := ⟨coef04, coef04, coef06, coef07⟩
  let fac2 : Vec4 := ⟨coef08, coef08, coef10, coef11⟩
  let fac3 : Vec4 := ⟨coef12, coef12, coef14, coef15⟩
  let fac4 : Vec4 := ⟨coef16, coef16, coef18, coef19⟩
  let fac5 : Vec4 := ⟨coef20, coef20, coef22, coef23⟩
  let vec0 : Vec4 := ⟨m.c1.x, m.c0.x, m.c0.x, m.c0.x⟩
  let vec1 : Vec4 := ⟨m.c1.y, m.c0.y, m.c0.y, m.c0.y⟩
  let vec2 : Vec4 := ⟨m.c1.z, m.c0.z, m.c0.z, m.c0.z⟩
  let vec3 : Vec4 := ⟨m.c1.w, m.c0.w, m.c0.w, m.c0.w⟩
  let inv0 := Vec4.add (Vec4.sub (vec1.mulc fac0) (vec2.mulc fac1)) (vec3.mulc fac2)
  let inv1 := Vec4.add (Vec4.sub (vec0.mulc fac0) (vec2.mulc fac3)) (vec3.mulc fac4)
  let inv2 := Vec4.add (Vec4.sub (vec0.mulc fac1) (vec1.mulc fac3)) (vec3.mulc fac5)
  let inv3 := Vec4.add (Vec4.sub (vec0.mulc fac2) (vec1.mulc fac4)) (vec2.mulc fac5)
  let sign_a : Vec4 := ⟨1, -1, 1, -1⟩
  let sign_b : Vec4 := ⟨-1, 1, -1, 1⟩
  let i0 := inv0.mulc sign_a
  let i1 := inv1.mulc sign_b
  let i2 := inv2.mulc sign_a
  let i3 := inv3.mulc sign_b
  let row0 : Vec4 := ⟨i0.x, i1.x, i2.x, i3.x⟩
  let dot0 := m.c0.mulc row0
  let dot1 := (dot0.x + dot0.y) + (dot0.z + dot0.w)
  let one_over_determinant := 1 / dot1
  ⟨i0.smul one_over_determinant, i1.smul one_over_determinant, i2.smul one_over_determinant,
   i3.smul one_over_determinant⟩

/-- An instance of the library functions, used to run the embedding on the sample inputs.
`translate`, `scale`, `rotate` and `inverse` are the GLM formulas in binary32 arithmetic; `π` is
`355/113` and cosine and sine are their Taylor polynomials of degree four and five, all three
exact at angle 0, the only angle the samples use; `std::hash<float>` is implementation-defined
and stands as numerator plus denominator. -/
def glm_reference : GlmLib where
  hash_float := fun f =>
    match f with
    | F32.fin q => (q.num.natAbs + q.den) % 2 ^ 64
    | F32.inf negative => if negative then 1 else 2
    | F32.nan => 0
  inverse := glm_inverse
  translate := glm_translate
  rotate := fun m angle v =>
    glm_rotate (1 - angle * angle / 2 + angle * angle * angle * angle / 24)
      (angle - angle * angle * angle / 6 + angle * angle * angle * angle * angle / 120)
      (Vec3.normalize v) m
  scale := glm_scale
  radians := fun degrees => degrees * F32.lit (355 / 113) / 180

/-- Sixteen floats of the identity matrix. -/
def identity16 : NpArray := { ndim := 1, data := Mat4.identity.value_ptr }

/-- The transform "at the origin, not rotated, not scaled". -/
def sample_transform : NpArray := { ndim := 1, data := [0, 0, 0, 0, 0, 0, 1, 1, 1] }

/-- A renderer initialised with a 2 x 2 window and caches of capacity 4. -/
def sample_renderer : RendererState :=
  (initialize_cpp_renderer RendererState.startup 2 2 4 4).getD RendererState.startup

/-- The sample renderer after `set_frame_parameters_cpp` with identity view and projection
matrices, the camera at `(0, 0, camera_z)`, lighting, clipping, debug colouring and sorting off,
and the given culling flag and small-triangle threshold. -/
def sample_frame (back_cull_enabled_flag : Bool) (camera_z : F32)
    (small_triangle_area_threshold : F32) : RendererState :=
  (set_frame_parameters_cpp sample_renderer identity16 identity16
    { ndim := 1, data := [0, 0, camera_z] } false back_cull_enabled_flag false false
    [255, 0, 255] false small_triangle_area_threshold).2

/-- One world triangle `(0,0,0), (1,0,0), (0,1,0)` with normal `(0,0,1)`, white. -/
def sample_world_triangle : CppWorldDataL2 :=
  { world_vertices_flat := [0, 0, 0, 1, 0, 0, 0, 1, 0],
    world_face_normals_flat := [0, 0, 1],
    vertex_colors_flat := [1, 1, 1, 1, 1, 1, 1, 1, 1],
    num_source_triangles := 1 }

/-- A clip vertex at the given clip-space position, white, flagged original. -/
def clip_vertex_at (x y z w : F32) : CppClipVertex :=
  { position_clip := ⟨x, y, z, w⟩, color_f := ⟨1, 1, 1⟩, view_z := z, world_pos := ⟨x, y, z⟩,
    is_original := true }

/-- The world triangle of `sample_world_triangle` with the opposite face normal `(0,0,-1)`. -/
def sample_world_triangle_flipped : CppWorldDataL2 :=
  { sample_world_triangle with world_face_normals_flat := [0, 0, -1] }

/-- The vertex array of one triangle `(0,0,0), (1,0,0), (0,1,0)` at stride 9: position, white
colour and the vertex normal `(0,0,-1)`, which is opposite to the geometric normal `(0,0,1)`
of the triangle. -/
def sample_vertices : NpArray :=
  { ndim := 1,
    data := [0, 0, 0, 1, 1, 1, 0, 0, -1,
             1, 0, 0, 1, 1, 1, 0, 0, -1,
             0, 1, 0, 1, 1, 1, 0, 0, -1] }

/-- The screen triangle of the sample triangle in the 2 x 2 window. -/
def sample_screen_triangle : CppScreenTriangle :=
  { screen_coords := [(1, 1), (2, 1), (1, 0)], depth := 0, color_final_uint8 := [255, 255, 255] }

/-- The state the sample renderer is in after the sample vertices have been submitted once,
as object 7, without vertex normals, under culling with the camera in front of the triangle. -/
def sample_after_first_submit : RendererState :=
  (process_and_accumulate_object_cpp glm_reference (sample_frame true 5 0) 7 sample_transform
    sample_vertices 9 false).state

/-- A vertex array of four floats: not a whole number of triangles at any stride. -/
def malformed_vertices : NpArray := { ndim := 1, data := [1, 2, 3, 4] }

/-- One world triangle `(1,0,0), (-1,-1,0), (0,1,0)` with centroid at the origin, white; the
stored normal `(0,0,-1)` is its geometric normal. -/
def sample_world_triangle_centred : CppWorldDataL2 :=
  { world_vertices_flat := [1, 0, 0, -1, -1, 0, 0, 1, 0],
    world_face_normals_flat := [0, 0, -1],
    vertex_colors_flat := [1, 1, 1, 1, 1, 1, 1, 1, 1],
    num_source_triangles := 1 }

/-- A screen triangle at depth 2. -/
def sample_far_triangle : CppScreenTriangle :=
  { screen_coords := [(0, 0), (1, 0), (0, 1)], depth := 2, color_final_uint8 := [255, 0, 0] }

/-- A screen triangle at depth 1. -/
def sample_near_triangle : CppScreenTriangle :=
  { screen_coords := [(1, 1), (2, 1), (1, 0)], depth := 1, color_final_uint8 := [0, 255, 0] }

/-- The sample renderer with the given sort flag and the far triangle accumulated before the
near one. -/
def sample_before_present (sort_triangles_flag : Bool) : RendererState :=
  { sample_renderer with
    g_current_sort_triangles_in_cpp_flag := sort_triangles_flag,
    global_frame_triangles_cpp_ := [sample_far_triangle, sample_near_triangle] }

/-- An L2 key with the given object id and first transform float. -/
def sample_key_l2 (object_id : Nat) (first : F32) : CacheKeyL2 :=
  { object_id := object_id,
    transform_params_hash_relevant := [first, 0, 0, 0, 0, 0, 1, 1, 1],
    use_vertex_normals_config := false }

/-- World data of `n` source triangles and no floats, to tell cached values apart. -/
def sample_world_data (n : Nat) : CppWorldDataL2 :=
  { world_vertices_flat := [], world_face_normals_flat := [], vertex_colors_flat := [],
    num_source_triangles := n }

/-- Four L2 keys without a NaN, for the objects 1 to 4. -/
def sample_key_a : CacheKeyL2 := sample_key_l2 1 0

/-- The L2 key of object 2. -/
def sample_key_b : CacheKeyL2 := sample_key_l2 2 0

/-- The L2 key of object 3. -/
def sample_key_c : CacheKeyL2 := sample_key_l2 3 0

/-- The L2 key of object 4. -/
def sample_key_d : CacheKeyL2 := sample_key_l2 4 0

/-- An L2 key whose transform holds a NaN: the key of an object whose position was computed as
`0.0 / 0.0`. -/
def sample_key_nan : CacheKeyL2 := sample_key_l2 9 F32.nan

/-- Three clip vertices around the point `(0, 0, 0, -1e-7f)`, the second and third moved by
`2 ^ -60` along `x` and `y`. As real numbers their signed distances to each of the six planes
are `-1e-7f` or `-1e-7f ± 2 ^ -60`, all below `-1e-7` (the binary32 literal `1e-7f` is
`14073749 / 2 ^ 47`, a little more than `1e-7`); computed in binary32 all of them are
exactly `-1e-7f`. -/
def sample_rim_triangle : List CppClipVertex :=
  [clip_vertex_at 0 0 0 (-F32.lit (1 / 10 ^ 7)),
   clip_vertex_at (F32.fin (1 / 2 ^ 60)) 0 0 (-F32.lit (1 / 10 ^ 7)),
   clip_vertex_at 0 (F32.fin (1 / 2 ^ 60)) 0 (-F32.lit (1 / 10 ^ 7))]

/-- A clip vertex in the tolerance band of the plane `x = -w`: `w = 2 ^ -20` and
`x = -2 ^ -20 - 2 ^ -25`, signed distance `-2 ^ -25`, about `-3e-8`. -/
def sample_band_vertex : CppClipVertex :=
  clip_vertex_at (F32.fin (-(1 / 2 ^ 20) - 1 / 2 ^ 25)) 0 0 (F32.fin (1 / 2 ^ 20))

/-- A clip vertex outside the plane `x = -w`, at signed distance `-2 ^ -20`, about `-9.5e-7`. -/
def sample_outer_vertex : CppClipVertex :=
  clip_vertex_at (F32.fin (-(1 / 2 ^ 19))) 0 0 (F32.fin (1 / 2 ^ 20))

/-- A triangle outside the plane `z = w` by `2 ^ -13`, about `1.2e-4`, at every vertex
(`z = 1024 + 2 ^ -13`, `w = 1024`), that the plane `x = -w` cuts first. -/
def sample_grazing_triangle : List CppClipVertex :=
  [clip_vertex_at 0 0 (F32.fin (1024 + 1 / 2 ^ 13)) 1024,
   clip_vertex_at (-3021) 0 (F32.fin (1024 + 1 / 2 ^ 13)) 1024,
   clip_vertex_at (-5049) 1 (F32.fin (1024 + 1 / 2 ^ 13)) 1024]

/-- A triangle with two vertices inside the plane `x = -w` and one outside, whose `w` differs
between the vertices. -/
def sample_slanted_triangle : List CppClipVertex :=
  [clip_vertex_at 0 0 0 1000, clip_vertex_at (-3021) 0 0 1001, clip_vertex_at 0 1 0 1000]

/-- Sixteen floats of the matrix that scales all four coordinates by 41. -/
def scale41_16 : NpArray :=
  { ndim := 1, data := [41, 0, 0, 0, 0, 41, 0, 0, 0, 0, 41, 0, 0, 0, 0, 41] }

/-- A renderer initialised with an 800 x 600 window, after `set_frame_parameters_cpp` with the
identity view matrix, the projection matrix that scales by 41, the camera at `(0, 0, 5)` and
every flag and the small-triangle test off. -/
def sample_frame_800 : RendererState :=
  (set_frame_parameters_cpp
    ((initialize_cpp_renderer RendererState.startup 800 600 4 4).getD RendererState.startup)
    identity16 scale41_16 { ndim := 1, data := [0, 0, 5] } false false false false
    [255, 0, 255] false 0).2

/-- One world triangle `(-1,1,0), (1,-1,0), (0,0,0)`, white: under `sample_frame_800` its clip
positions are `(-41,41,0,41)`, `(41,-41,0,41)` and `(0,0,0,41)`, that is the NDC points
`(-1,1)`, `(1,-1)` and `(0,0)`. -/
def sample_world_triangle_corner : CppWorldDataL2 :=
  { world_vertices_flat := [-1, 1, 0, 1, -1, 0, 0, 0, 0],
    world_face_normals_flat := [0, 0, 1],
    vertex_colors_flat := [1, 1, 1, 1, 1, 1, 1, 1, 1],
    num_source_triangles := 1 }

/-- The insertion step of the reference sort: `a` goes in front of the first element that
does not compare less than it. -/
def insert_sorted (comp : CppScreenTriangle → CppScreenTriangle → Bool) (a : CppScreenTriangle) :
    List CppScreenTriangle → List CppScreenTriangle
  | [] => [a]
  | b :: rest => if comp b a then b :: insert_sorted comp a rest else a :: b :: rest

/-- Insertion sort with a comparison function. -/
def insertion_sort (comp : CppScreenTriangle → CppScreenTriangle → Bool) :
    List CppScreenTriangle → List CppScreenTriangle
  | [] => []
  | a :: rest => insert_sorted comp a (insertion_sort comp rest)

/-- Insertion sort: one algorithm with the guarantees of `std::sort`, used to run
`render_accumulated_triangles_cpp` on the sample inputs. -/
def std_sort_reference : StdSort where
  sort := insertion_sort
  perm := fun comp l _ => by
    have hins : ∀ (a : CppScreenTriangle) (m : List CppScreenTriangle),
        (insert_sorted comp a m).Perm (a :: m) := by
      intro a m
      induction m with
      | nil => exact List.Perm.refl _
      | cons b rest ih =>
        simp only [insert_sorted]
        split
        · exact (List.Perm.cons b ih).trans (List.Perm.swap a b rest)
        · exact List.Perm.refl _
    have hall : ∀ m : List CppScreenTriangle, (insertion_sort comp m).Perm m := by
      intro m
      induction m with
      | nil => exact List.Perm.refl _
      | cons a rest ih => exact (hins a _).trans (List.Perm.cons a ih)
    exact hall l
  sorted := fun comp l hswo => by
    have hmem_ins : ∀ (a : CppScreenTriangle) (m : List CppScreenTriangle) (x : CppScreenTriangle),
        x ∈ insert_sorted comp a m → x = a ∨ x ∈ m := by
      intro a m
      induction m with
      | nil =>
        intro x hx
        exact Or.inl (List.mem_singleton.1 hx)
      | cons b rest ih =>
        intro x hx
        simp only [insert_sorted] at hx
        split at hx
        · rcases List.mem_cons.1 hx with h | h
          · exact Or.inr (h ▸ List.mem_cons_self _ _)
          · rcases ih x h with h2 | h2
            · exact Or.inl h2
            · exact Or.inr (List.mem_cons_of_mem _ h2)
        · rcases List.mem_cons.1 hx with h | h
          · exact Or.inl h
          · exact Or.inr h
    have hmem_sort : ∀ (m : List CppScreenTriangle) (x : CppScreenTriangle),
        x ∈ insertion_sort comp m → x ∈ m := by
      intro m
      induction m with
      | nil => intro x hx; exact hx
      | cons a rest ih =>
        intro x hx
        rcases hmem_ins a _ x hx with h | h
        · exact h ▸ List.mem_cons_self _ _
        · exact List.mem_cons_of_mem _ (ih x h)
    have hins : ∀ (a : CppScreenTriangle) (m : List CppScreenTriangle), a ∈ l →
        (∀ x ∈ m, x ∈ l) → m.Pairwise (fun x y => comp y x = false) →
        (insert_sorted comp a m).Pairwise (fun x y => comp y x = false) := by
      intro a m ha
      induction m with
      | nil => intro _ _; exact List.pairwise_singleton _ _
      | cons b rest ih =>
        intro hsub hsorted
        have hb : b ∈ l := hsub b (List.mem_cons_self _ _)
        have hrest : ∀ x ∈ rest, x ∈ l := fun x hx => hsub x (List.mem_cons_of_mem _ hx)
        obtain ⟨hb_rest, hrest_sorted⟩ := List.pairwise_cons.1 hsorted
        simp only [insert_sorted]
        split
        · rename_i hba
          refine List.pairwise_cons.2 ⟨?_, ih hrest hrest_sorted⟩
          intro y hy
          rcases hmem_ins a rest y hy with h | h
          · rw [h]
            cases hc : comp a b with
            | false => rfl
            | true =>
              have hbb := hswo.trans b hb a ha b hb hba hc
              rw [hswo.irrefl b hb] at hbb
              exact absurd hbb (by decide)
          · exact hb_rest y h
        · rename_i hba
          have hba2 : comp b a = false := by
            cases hc : comp b a with
            | false => rfl
            | true => exact absurd hc hba
          refine List.pairwise_cons.2 ⟨?_, hsorted⟩
          intro y hy
          rcases List.mem_cons.1 hy with h | h
          · rw [h]; exact hba2
          · have hyl : y ∈ l := hrest y h
            have hyb : comp y b = false := hb_rest y h
            cases hya : comp y a with
            | false => rfl
            | true =>
              have hby : comp b y = false := by
                cases hc : comp b y with
                | false => rfl
                | true =>
                  have h2 := hswo.trans b hb y hyl a ha hc hya
                  rw [hba2] at h2
                  exact absurd h2 (by decide)
              have hab : comp a b = false := by
                cases hc : comp a b with
                | false => rfl
                | true =>
                  have h2 := hswo.trans y hyl a ha b hb hya hc
                  rw [hyb] at h2
                  exact absurd h2 (by decide)
              have h3 := (hswo.incomp_trans y hyl b hb a ha hyb hby hba2 hab).1
              rw [hya] at h3
              exact absurd h3 (by decide)
    have hmain : ∀ m : List CppScreenTriangle, (∀ x ∈ m, x ∈ l) →
        (insertion_sort comp m).Pairwise (fun x y => comp y x = false) := by
      intro m
      induction m with
      | nil => intro _; exact List.Pairwise.nil
      | cons a rest ih =>
        intro hsub
        exact hins a _ (hsub a (List.mem_cons_self _ _))
          (fun x hx => hsub x (List.mem_cons_of_mem _ (hmem_sort rest x hx)))
          (ih (fun x hx => hsub x (List.mem_cons_of_mem _ hx)))
    exact hmain l (fun x hx => hx)

/-- The vertex array of one triangle `(0,0,z), (1,0,z), (0,1,z)` at stride 3. -/
def sample_depth_vertices (z : F32) : NpArray :=
  { ndim := 1, data := [0, 0, z, 1, 0, z, 0, 1, z] }

/-- The sample renderer after `set_frame_parameters_cpp` with the sort flag set (identity
matrices, everything else off) and three submissions: a triangle at `z = 2`, one whose
vertices have a NaN as `z`, and one at `z = 1`. -/
def sample_before_present_nan : RendererState :=
  state_after
    (set_frame_parameters_cpp sample_renderer identity16 identity16
      { ndim := 1, data := [0, 0, 5] } false false false false [255, 0, 255] true 0).2
    (submit_all glm_reference
      (set_frame_parameters_cpp sample_renderer identity16 identity16
        { ndim := 1, data := [0, 0, 5] } false false false false [255, 0, 255] true 0).2
      [{ object_id_py := 1, transform_params_np := sample_transform,
         local_vertex_data_np := sample_depth_vertices 2, vertex_data_stride := 3,
         use_vertex_normals_from_mesh := false },
       { object_id_py := 2, transform_params_np := sample_transform,
         local_vertex_data_np := sample_depth_vertices F32.nan, vertex_data_stride := 3,
         use_vertex_normals_from_mesh := false },
       { object_id_py := 3, transform_params_np := sample_transform,
         local_vertex_data_np := sample_depth_vertices 1, vertex_data_stride := 3,
         use_vertex_normals_from_mesh := false }])

/-! ## Predicates used in the statements -/

/-- `operator==` never holds between two different values. It does for the two key types, and
for plain equality. -/
def KeyEq.Lawful (K : Type) [KeyEq K] : Prop := ∀ a b : K, KeyEq.key_eq a b → a = b

/-- A key that `operator==` finds equal to itself: one that holds no NaN. -/
def KeyEq.sane {K : Type} [KeyEq K] (k : K) : Prop := KeyEq.key_eq k k

instance (K : Type) [KeyEq K] (k : K) : Decidable (KeyEq.sane k) := KeyEq.dec k k

/-- Every key the cache stores, on the recency list or in the key-map, equals itself. -/
def LruCache.AllSane {K V : Type} [KeyEq K] (c : LruCache K V) : Prop :=
  (∀ n ∈ c.lru_list_, KeyEq.sane n.2) ∧ (∀ kv ∈ c.items_map_, KeyEq.sane kv.1)

/-- What holds of every cache however it was used, NaN keys included: list nodes are distinct
objects allocated before `next_node_`; the iterator of an entry that `find` returns designates
a node that carries the key looked up; no two nodes carry keys that compare equal; and a key on
the list that equals itself is found in the map. -/
structure LruCache.Sound {K V : Type} [KeyEq K] (c : LruCache K V) : Prop where
  nodes_nodup : (c.lru_list_.map Prod.fst).Nodup
  nodes_lt : ∀ n ∈ c.lru_list_, n.1 < c.next_node_
  iterators : ∀ k e, umap_find c.items_map_ k = some e → (e.lru_iterator, k) ∈ c.lru_list_
  listed_once : c.lru_list_.Pairwise (fun a b => ¬ KeyEq.key_eq a.2 b.2)
  listed_found : ∀ n ∈ c.lru_list_, KeyEq.sane n.2 → umap_find c.items_map_ n.2 ≠ none

/-- The real number a finite float denotes (0 for a NaN or an infinity). -/
def F32.value : F32 → ℚ
  | F32.fin q => q
  | _ => 0

/-- Whether a float is finite: neither a NaN nor an infinity. -/
def F32.is_finite : F32 → Bool
  | F32.fin _ => true
  | _ => false

/-- A clip-space position made of four finite binary32 values. -/
def Vec4.is_float (v : Vec4) : Bool :=
  v.x.is_finite && v.x.representable && v.y.is_finite && v.y.representable &&
  v.z.is_finite && v.z.representable && v.w.is_finite && v.w.representable

/-- The signed distance of a clip vertex to a plane as a real number: the dot product of the
plane coefficients and the position without any rounding (for finite coordinates). -/
def exact_signed_distance (plane_coeffs : Vec4) (v : CppClipVertex) : ℚ :=
  plane_coeffs.x.value * v.position_clip.x.value + plane_coeffs.y.value * v.position_clip.y.value +
  plane_coeffs.z.value * v.position_clip.z.value + plane_coeffs.w.value * v.position_clip.w.value

theorem F32.eq_of_feq (a b : F32) (h : F32.feq a b = true) : a = b := by
  cases a <;> cases b <;> simp_all [F32.feq]

theorem float_array_eq_sound : ∀ a b : List F32, float_array_eq a b = true → a = b
  | [], [], _ => rfl
  | [], _ :: _, h => by simp [float_array_eq] at h
  | _ :: _, [], h => by simp [float_array_eq] at h
  | x :: xs, y :: ys, h => by
    simp only [float_array_eq, Bool.and_eq_true] at h
    rw [F32.eq_of_feq x y h.1, float_array_eq_sound xs ys h.2]

/-- `CacheKeyL2::operator==` holds only between equal keys. -/
theorem cache_key_l2_lawful : KeyEq.Lawful CacheKeyL2 := by
  intro a b h
  obtain ⟨a1, a2, a3⟩ := a
  obtain ⟨b1, b2, b3⟩ := b
  have h2 : CacheKeyL2.operator_eq ⟨a1, a2, a3⟩ ⟨b1, b2, b3⟩ = true := h
  simp only [CacheKeyL2.operator_eq, Bool.and_eq_true, decide_eq_true_eq] at h2
  obtain ⟨⟨h1, h2⟩, h3⟩ := h2
  rw [h1, float_array_eq_sound _ _ h2, h3]

@[simp] theorem KeyEq.plain_key_eq {K : Type} [DecidableEq K] (a b : K) :
    @KeyEq.key_eq K (KeyEq.plain K) a b ↔ a = b := Iff.rfl

/-- Plain equality is lawful, and every key equals itself. -/
theorem KeyEq.plain_lawful (K : Type) [DecidableEq K] : @KeyEq.Lawful K (KeyEq.plain K) :=
  fun _ _ h => h

theorem KeyEq.plain_sane {K : Type} [DecidableEq K] (k : K) : @KeyEq.sane K (KeyEq.plain K) k :=
  rfl

theorem KeyEq.symm {K : Type} [KeyEq K] (law : KeyEq.Lawful K) {a b : K}
    (h : KeyEq.key_eq a b) : KeyEq.key_eq b a := by
  have := law a b h
  subst this
  exact h

theorem KeyEq.sane_left {K : Type} [KeyEq K] (law : KeyEq.Lawful K) {a b : K}
    (h : KeyEq.key_eq a b) : KeyEq.sane a := by
  have := law a b h
  subst this
  exact h

theorem KeyEq.sane_right {K : Type} [KeyEq K] (law : KeyEq.Lawful K) {a b : K}
    (h : KeyEq.key_eq a b) : KeyEq.sane b := by
  have := law a b h
  subst this
  exact h

/-! ## The association list, for every `operator==` -/

section umap_general

variable {K E : Type} [KeyEq K]

theorem umap_find_cons (k key : K) (e : E) (rest : List (K × E)) :
    umap_find ((k, e) :: rest) key = if KeyEq.key_eq k key then some e else umap_find rest key :=
  rfl

theorem umap_erase_cons (k key : K) (e : E) (rest : List (K × E)) :
    umap_erase ((k, e) :: rest) key =
      if KeyEq.key_eq k key then umap_erase rest key else (k, e) :: umap_erase rest key :=
  rfl

theorem umap_assign_cons (k key : K) (e0 e : E) (rest : List (K × E)) :
    umap_assign ((k, e0) :: rest) key e =
      if KeyEq.key_eq k key then (k, e) :: rest else (k, e0) :: umap_assign rest key e :=
  rfl

/-- What `find` returns is stored under the key looked up, and that key equals itself. -/
theorem umap_find_some (law : KeyEq.Lawful K) (m : List (K × E)) (key : K) (e : E)
    (h : umap_find m key = some e) : KeyEq.sane key ∧ (key, e) ∈ m := by
  induction m with
  | nil => simp [umap_find] at h
  | cons kv rest ih =>
    obtain ⟨k, e0⟩ := kv
    rw [umap_find_cons] at h
    by_cases hk : KeyEq.key_eq k key
    · rw [if_pos hk] at h
      have hkk := law k key hk
      subst hkk
      cases h
      exact ⟨hk, List.mem_cons_self _ _⟩
    · rw [if_neg hk] at h
      exact ⟨(ih h).1, List.mem_cons_of_mem _ (ih h).2⟩

theorem umap_find_none_of_not_mem (law : KeyEq.Lawful K) (m : List (K × E)) (key : K)
    (h : key ∉ m.map Prod.fst) : umap_find m key = none := by
  cases hf : umap_find m key with
  | none => rfl
  | some e =>
    exact absurd (List.mem_map_of_mem Prod.fst (umap_find_some law m key e hf).2) h

theorem umap_erase_insane (law : KeyEq.Lawful K) (m : List (K × E)) (key : K)
    (h : ¬ KeyEq.sane key) : umap_erase m key = m := by
  induction m with
  | nil => rfl
  | cons kv rest ih =>
    obtain ⟨k, e0⟩ := kv
    rw [umap_erase_cons, if_neg (fun hk => h (KeyEq.sane_right law hk)), ih]

theorem umap_assign_length (m : List (K × E)) (key : K) (e : E) :
    (umap_assign m key e).length = m.length := by
  induction m with
  | nil => rfl
  | cons kv rest ih =>
    obtain ⟨k, e0⟩ := kv
    rw [umap_assign_cons]
    split
    · rfl
    · simp [ih]

theorem umap_assign_fst (m : List (K × E)) (key : K) (e : E) :
    (umap_assign m key e).map Prod.fst = m.map Prod.fst := by
  induction m with
  | nil => rfl
  | cons kv rest ih =>
    obtain ⟨k, e0⟩ := kv
    rw [umap_assign_cons]
    split
    · rfl
    · simp [ih]

theorem umap_find_assign_ne (law : KeyEq.Lawful K) (m : List (K × E)) (key other : K) (e : E)
    (h : other ≠ key) : umap_find (umap_assign m key e) other = umap_find m other := by
  induction m with
  | nil => rfl
  | cons kv rest ih =>
    obtain ⟨k, e0⟩ := kv
    rw [umap_assign_cons]
    by_cases hk : KeyEq.key_eq k key
    · rw [if_pos hk, umap_find_cons, umap_find_cons]
      have hko : ¬ KeyEq.key_eq k other := fun h2 => h ((law k other h2).symm.trans (law k key hk))
      rw [if_neg hko, if_neg hko]
    · rw [if_neg hk, umap_find_cons, umap_find_cons, ih]

theorem umap_find_assign_eq (m : List (K × E)) (key : K) (e e2 : E)
    (h : umap_find m key = some e) : umap_find (umap_assign m key e2) key = some e2 := by
  induction m with
  | nil => simp [umap_find] at h
  | cons kv rest ih =>
    obtain ⟨k, e0⟩ := kv
    rw [umap_assign_cons]
    rw [umap_find_cons] at h
    by_cases hk : KeyEq.key_eq k key
    · rw [if_pos hk, umap_find_cons, if_pos hk]
    · rw [if_neg hk] at h
      rw [if_neg hk, umap_find_cons, if_neg hk, ih h]

theorem umap_find_erase_general (law : KeyEq.Lawful K) (m : List (K × E)) (k0 key : K) :
    umap_find (umap_erase m k0) key =
      if KeyEq.key_eq k0 key then none else umap_find m key := by
  induction m with
  | nil => simp [umap_find, umap_erase]
  | cons kv rest ih =>
    obtain ⟨k, e⟩ := kv
    rw [umap_erase_cons]
    by_cases h0 : KeyEq.key_eq k k0
    · rw [if_pos h0, ih]
      have hk0 := law k k0 h0
      subst hk0
      by_cases h1 : KeyEq.key_eq k key
      · rw [if_pos h1, if_pos h1]
      · rw [if_neg h1, if_neg h1, umap_find_cons, if_neg h1]
    · rw [if_neg h0, umap_find_cons, ih]
      by_cases h1 : KeyEq.key_eq k key
      · rw [if_pos h1]
        have hkk := law k key h1
        subst hkk
        rw [if_neg (fun h2 => h0 (KeyEq.symm law h2)), umap_find_cons, if_pos h1]
      · rw [if_neg h1, umap_find_cons, if_neg h1]

theorem umap_erase_mem (m : List (K × E)) (k0 : K) (kv : K × E)
    (h : kv ∈ umap_erase m k0) : kv ∈ m := by
  induction m with
  | nil => simp [umap_erase] at h
  | cons kv0 rest ih =>
    obtain ⟨k, e⟩ := kv0
    rw [umap_erase_cons] at h
    split at h
    · exact List.mem_cons_of_mem _ (ih h)
    · rcases List.mem_cons.1 h with h1 | h1
      · rw [h1]; exact List.mem_cons_self _ _
      · exact List.mem_cons_of_mem _ (ih h1)

theorem umap_erase_length_le (m : List (K × E)) (k0 : K) :
    (umap_erase m k0).length ≤ m.length := by
  induction m with
  | nil => simp [umap_erase]
  | cons kv0 rest ih =>
    obtain ⟨k, e⟩ := kv0
    rw [umap_erase_cons]
    split
    · simp only [List.length_cons]; omega
    · simp only [List.length_cons]; omega

end umap_general

/-! ## The LRU cache, for every `operator==` -/

namespace LruCache

variable {K V : Type} [KeyEq K]

theorem get_fst (c : LruCache K V) (key : K) : (get c key).1 = lookup c key := by
  unfold get lookup
  cases h : umap_find c.items_map_ key <;> simp

theorem get_miss (c : LruCache K V) (key : K) (h : lookup c key = none) :
    get c key = (none, c) := by
  unfold lookup at h
  unfold get
  cases hf : umap_find c.items_map_ key with
  | none => rfl
  | some e => rw [hf] at h; simp at h

theorem get_none_unchanged (c : LruCache K V) (key : K)
    (h : (get c key).1 = none) : (get c key).2 = c := by
  rw [get_fst] at h
  rw [get_miss c key h]

/-- A `get` promotes an entry but changes no stored value: every later lookup gives what it
gave before. -/
theorem lookup_get (law : KeyEq.Lawful K) (c : LruCache K V) (key other : K) :
    lookup (get c key).2 other = lookup c other := by
  unfold get lookup
  cases hf : umap_find c.items_map_ key with
  | none => simp [hf]
  | some e =>
    by_cases ho : other = key
    · subst ho
      simp [umap_find_assign_eq _ _ _ _ hf, hf]
    · simp [umap_find_assign_ne law _ _ _ _ ho]

theorem lookup_get_all (law : KeyEq.Lawful K) (c : LruCache K V) (probes : List K) (other : K) :
    lookup (get_all c probes) other = lookup c other := by
  induction probes generalizing c with
  | nil => rfl
  | cons key rest ih =>
    simp only [get_all, List.foldl_cons] at ih ⊢
    rw [ih, lookup_get law]

theorem put_all_concat (c : LruCache K V) (kvs : List (K × V)) (kv : K × V) :
    put_all c (kvs ++ [kv]) = put (put_all c kvs) kv.1 kv.2 := by
  simp [put_all, List.foldl_append]

theorem run_ops_concat (c : LruCache K V) (ops : List (CacheOp K V)) (op : CacheOp K V) :
    run_ops c (ops ++ [op]) = apply_op (run_ops c ops) op := by
  simp [run_ops, List.foldl_append]

theorem run_ops_cons (c : LruCache K V) (op : CacheOp K V) (ops : List (CacheOp K V)) :
    run_ops c (op :: ops) = run_ops (apply_op c op) ops := rfl

theorem put_all_eq_run_ops (c : LruCache K V) (kvs : List (K × V)) :
    put_all c kvs = run_ops c (kvs.map (fun kv => CacheOp.put kv.1 kv.2)) := by
  induction kvs generalizing c with
  | nil => rfl
  | cons kv rest ih =>
    simp only [put_all, run_ops, List.foldl_cons, List.map_cons] at ih ⊢
    rw [ih]
    rfl

theorem put_capacity_zero (c : LruCache K V) (key : K) (v : V) (h : c.capacity_ = 0) :
    put c key v = c := by
  unfold put
  rw [if_pos h]

theorem keys_length (c : LruCache K V) : c.keys.length = c.lru_list_.length := by
  simp [keys]

theorem capacity_evict (c : LruCache K V) :
    (evict_oldest_nolock c).capacity_ = c.capacity_ := by
  unfold evict_oldest_nolock
  cases c.lru_list_.getLast? <;> rfl

theorem capacity_evict_while_over (fuel : Nat) :
    ∀ c : LruCache K V, (evict_while_over fuel c).capacity_ = c.capacity_ := by
  induction fuel with
  | zero => intro c; rfl
  | succ n ih =>
    intro c
    simp only [evict_while_over]
    split
    · rw [ih, capacity_evict]
    · rfl

/-- `set_capacity` never leaves a capacity below 1. -/
theorem capacity_set_capacity (c : LruCache K V) (capacity : Nat) :
    (set_capacity c capacity).capacity_ = (if capacity > 0 then capacity else 1) ∧
    1 ≤ (set_capacity c capacity).capacity_ := by
  have h : (set_capacity c capacity).capacity_ = (if capacity > 0 then capacity else 1) := by
    unfold set_capacity
    simp only [capacity_evict_while_over]
  refine ⟨h, ?_⟩
  rw [h]
  split <;> omega

theorem capacity_get (c : LruCache K V) (key : K) :
    (get c key).2.capacity_ = c.capacity_ := by
  unfold get
  cases umap_find c.items_map_ key <;> rfl

theorem capacity_put (c : LruCache K V) (key : K) (v : V) :
    (put c key v).capacity_ = c.capacity_ := by
  unfold put
  split
  · rfl
  · cases umap_find c.items_map_ key with
    | some e => rfl
    | none =>
      simp only
      split
      · exact capacity_evict c
      · rfl

theorem capacity_put_all (c : LruCache K V) (kvs : List (K × V)) :
    (put_all c kvs).capacity_ = c.capacity_ := by
  induction kvs using List.reverseRecOn with
  | nil => rfl
  | append_singleton kvs kv ih =>
    rw [put_all_concat, capacity_put, ih]

/-- The map `put` inserts a new key into: the map after the optional eviction still has no
entry for the key. -/
theorem find_after_optional_evict (law : KeyEq.Lawful K) (c : LruCache K V) (key : K)
    (hf : umap_find c.items_map_ key = none) :
    umap_find (if c.items_map_.length ≥ c.capacity_ then evict_oldest_nolock c
      else c).items_map_ key = none := by
  split
  · unfold evict_oldest_nolock
    cases c.lru_list_.getLast? with
    | none => exact hf
    | some oldest =>
      simp only [umap_find_erase_general law, hf]
      split <;> rfl
  · exact hf

/-- After `put(key, v)` on a cache of capacity at least 1, a key that equals itself is found
with the value `v`. -/
theorem lookup_put_self (law : KeyEq.Lawful K) (c : LruCache K V) (key : K) (v : V)
    (hs : KeyEq.sane key) (hcap : 1 ≤ c.capacity_) : lookup (put c key v) key = some v := by
  have hne : ¬ c.capacity_ = 0 := by omega
  unfold put lookup
  simp only [hne, if_false]
  cases hf : umap_find c.items_map_ key with
  | some e => simp [umap_find_assign_eq _ _ _ _ hf]
  | none =>
    simp only
    have h1 := find_after_optional_evict law c key hf
    simp only [umap_emplace, h1, umap_find_cons]
    rw [if_pos (show KeyEq.key_eq key key from hs)]
    rfl

theorem last_use_concat [DecidableEq K] (ops : List (CacheOp K V)) (op : CacheOp K V) (key : K) :
    last_use (ops ++ [op]) key =
      if op.touches key = true then ops.length + 1 else last_use ops key := by
  unfold last_use
  rw [List.reverse_append, List.reverse_singleton, List.singleton_append, List.dropWhile_cons]
  by_cases ht : op.touches key = true
  · simp [ht]
  · simp [ht]

theorem last_use_le [DecidableEq K] (ops : List (CacheOp K V)) (key : K) :
    last_use ops key ≤ ops.length := by
  unfold last_use
  have h := (List.dropWhile_sublist (fun op : CacheOp K V => !op.touches key)
    (l := ops.reverse)).length_le
  simpa using h

theorem mem_dropLast_iff_of_nodup {α : Type} (l : List α) (a x : α)
    (hl : l.getLast? = some a) (hn : l.Nodup) : x ∈ l.dropLast ↔ x ∈ l ∧ x ≠ a := by
  obtain ⟨ys, rfl⟩ := List.getLast?_eq_some_iff.1 hl
  rw [List.dropLast_concat]
  have hd : a ∉ ys := by
    intro ha
    have := List.nodup_append.1 hn
    exact this.2.2 ha (by simp)
  constructor
  · intro hx
    exact ⟨by simp [hx], fun h => hd (h ▸ hx)⟩
  · rintro ⟨hx, hne⟩
    simpa [hne] using hx

end LruCache

/-! ## The association list under plain equality -/

section umap

variable {K E : Type} [DecidableEq K]

theorem umap_find_eq_none_iff (m : List (K × E)) (key : K) :
    umap_find m key = none ↔ key ∉ m.map Prod.fst := by
  induction m with
  | nil => simp [umap_find]
  | cons kv rest ih =>
    obtain ⟨k, e⟩ := kv
    by_cases h : k = key
    · simp [umap_find, h]
    · simp [umap_find, h, ih, Ne.symm h]

theorem umap_find_erase (m : List (K × E)) (k0 key : K) :
    umap_find (umap_erase m k0) key = if key = k0 then none else umap_find m key := by
  induction m with
  | nil => simp [umap_find, umap_erase]
  | cons kv rest ih =>
    obtain ⟨k, e⟩ := kv
    by_cases h2 : key = k0
    · subst h2
      simp only [if_true] at ih
      by_cases h : k = key
      · simp [umap_erase, h, ih]
      · simp [umap_erase, h, umap_find, ih]
    · simp only [h2, if_false] at ih
      by_cases h : k = k0
      · subst h
        simp [umap_erase, h2, ih, umap_find, Ne.symm h2]
      · by_cases h3 : k = key
        · simp [umap_erase, h, h2, h3, umap_find]
        · simp [umap_erase, h, h2, h3, umap_find, ih]

theorem umap_erase_keys (m : List (K × E)) (k0 : K) :
    (umap_erase m k0).map Prod.fst = (m.map Prod.fst).filter (fun k => !decide (k = k0)) := by
  induction m with
  | nil => simp [umap_erase]
  | cons kv rest ih =>
    obtain ⟨k, e⟩ := kv
    by_cases h : k = k0
    · simp [umap_erase, List.filter_cons, h, ih]
    · simp [umap_erase, List.filter_cons, h, ih]

end umap

/-! ## The LRU cache under plain equality -/

namespace LruCache

variable {K V : Type} [DecidableEq K]

theorem umap_find_assign_other {E : Type} (m : List (K × E)) (key other : K) (e : E)
    (h : other ≠ key) : umap_find (umap_assign m key e) other = umap_find m other :=
  umap_find_assign_ne (KeyEq.plain_lawful K) m key other e h

theorem umap_find_assign_same {E : Type} (m : List (K × E)) (key : K) (e e2 : E)
    (h : umap_find m key = some e) : umap_find (umap_assign m key e2) key = some e2 :=
  umap_find_assign_eq m key e e2 h

theorem umap_assign_keys {E : Type} (m : List (K × E)) (key : K) (e : E) :
    (umap_assign m key e).map Prod.fst = m.map Prod.fst :=
  umap_assign_fst m key e

theorem Consistent.length_eq {c : LruCache K V} (h : Consistent c) :
    c.items_map_.length = c.lru_list_.length := by
  have hp : (c.items_map_.map Prod.fst).Perm c.keys :=
    (List.perm_ext_iff_of_nodup h.map_nodup h.keys_nodup).2 (fun k => (h.same_keys k).symm)
  have := hp.length_eq
  simpa [keys] using this

theorem Consistent.lookup_eq_none_iff {c : LruCache K V} (h : Consistent c) (key : K) :
    lookup c key = none ↔ key ∉ c.keys := by
  unfold lookup
  rw [Option.map_eq_none', umap_find_eq_none_iff, h.same_keys]

/-- Eviction on a consistent, non-empty cache drops exactly the key at the back of the list. -/
theorem evict_spec {c : LruCache K V} (h : Consistent c) (last : K)
    (hl : c.keys.getLast? = some last) :
    Consistent (evict_oldest_nolock c) ∧ (evict_oldest_nolock c).keys = c.keys.dropLast ∧
    (evict_oldest_nolock c).capacity_ = c.capacity_ ∧
    ∀ k, lookup (evict_oldest_nolock c) k = if k = last then none else lookup c k := by
  have hl2 : c.lru_list_.getLast?.map Prod.snd = some last := by
    rw [← List.getLast?_map]; exact hl
  obtain ⟨node, hnode, hsnd⟩ := Option.map_eq_some'.1 hl2
  have hev : evict_oldest_nolock c =
      { c with lru_list_ := c.lru_list_.dropLast,
               items_map_ := umap_erase c.items_map_ last } := by
    unfold evict_oldest_nolock
    rw [hnode]
    simp [hsnd]
  have hkeys : (evict_oldest_nolock c).keys = c.keys.dropLast := by
    rw [hev]; simp [keys, List.map_dropLast]
  refine ⟨⟨?_, ?_, ?_⟩, hkeys, by rw [hev], ?_⟩
  · rw [hkeys]
    exact List.Nodup.sublist (List.dropLast_sublist _) h.keys_nodup
  · rw [hev]
    simp only [umap_erase_keys]
    exact List.Nodup.filter _ h.map_nodup
  · intro k
    rw [hkeys, mem_dropLast_iff_of_nodup _ last k hl h.keys_nodup, hev]
    simp only [umap_erase_keys, List.mem_filter, Bool.not_eq_true', decide_eq_false_iff_not]
    rw [h.same_keys]
  · intro k
    rw [hev]
    simp only [lookup, umap_find_erase]
    split <;> simp

/-- A `put` of a key that the cache does not hold: the oldest entry leaves when the cache is
full, and the new key goes to the front. -/
theorem put_fresh_spec {c : LruCache K V} (h : Consistent c) (hcap : 1 ≤ c.capacity_)
    (key : K) (v : V) (hfresh : key ∉ c.keys) :
    Consistent (put c key v) ∧ (put c key v).capacity_ = c.capacity_ ∧
    (put c key v).keys =
      key :: (if c.capacity_ ≤ c.keys.length then c.keys.dropLast else c.keys) ∧
    lookup (put c key v) key = some v ∧
    ∀ k, k ≠ key → k ∈ (put c key v).keys → lookup (put c key v) k = lookup c k := by
  have hfind : umap_find c.items_map_ key = none := by
    rw [umap_find_eq_none_iff, ← h.same_keys]; exact hfresh
  have hlen : c.items_map_.length = c.keys.length := by
    rw [h.length_eq]; simp [keys]
  -- the state after the optional eviction
  obtain ⟨c1, hc1def, hc1, hcap1, hkeys1, hlook1⟩ :
      ∃ c1 : LruCache K V,
        c1 = (if c.items_map_.length ≥ c.capacity_ then evict_oldest_nolock c else c) ∧
        Consistent c1 ∧ c1.capacity_ = c.capacity_ ∧
        c1.keys = (if c.capacity_ ≤ c.keys.length then c.keys.dropLast else c.keys) ∧
        ∀ k, k ∈ c1.keys → lookup c1 k = lookup c k := by
    refine ⟨_, rfl, ?_⟩
    by_cases hfull : c.capacity_ ≤ c.keys.length
    · have hne : c.keys ≠ [] := by
        intro h0
        rw [h0] at hfull
        simp at hfull
        omega
      obtain ⟨last, hlast⟩ := Option.isSome_iff_exists.1 (List.getLast?_isSome.2 hne)
      obtain ⟨e1, e2, e3, e4⟩ := evict_spec h last hlast
      have hge : c.items_map_.length ≥ c.capacity_ := by omega
      simp only [hge, hfull, if_true]
      refine ⟨e1, e3, e2, ?_⟩
      intro k hk
      rw [e4]
      rw [e2, mem_dropLast_iff_of_nodup _ last k hlast h.keys_nodup] at hk
      simp [hk.2]
    · have hlt : ¬ c.items_map_.length ≥ c.capacity_ := by omega
      simp only [hlt, hfull, if_false]
      exact ⟨h, trivial, trivial, fun _ _ => trivial⟩
  have hfresh1 : key ∉ c1.keys := by
    rw [hkeys1]
    split
    · exact fun hk => hfresh (List.mem_of_mem_dropLast hk)
    · exact hfresh
  have hfind1 : umap_find c1.items_map_ key = none := by
    rw [umap_find_eq_none_iff, ← hc1.same_keys]; exact hfresh1
  have hput : put c key v =
      { c1 with lru_list_ := (c1.next_node_, key) :: c1.lru_list_,
                items_map_ := (key, { data_ptr := v, lru_iterator := c1.next_node_ }) ::
                  c1.items_map_,
                next_node_ := c1.next_node_ + 1 } := by
    have hne : ¬ c.capacity_ = 0 := by omega
    unfold put
    rw [if_neg hne, hfind]
    simp only [← hc1def, umap_emplace, hfind1]
  have hkeys : (put c key v).keys = key :: c1.keys := by
    rw [hput]; simp [keys]
  refine ⟨⟨?_, ?_, ?_⟩, by rw [hput, ← hcap1], by rw [hkeys, hkeys1], ?_, ?_⟩
  · rw [hkeys]
    exact List.nodup_cons.2 ⟨hfresh1, hc1.keys_nodup⟩
  · rw [hput]
    simp only [List.map_cons]
    exact List.nodup_cons.2 ⟨by rw [← hc1.same_keys]; exact hfresh1, hc1.map_nodup⟩
  · intro k
    rw [hkeys, hput]
    simp only [List.mem_cons, List.map_cons]
    rw [hc1.same_keys]
  · rw [hput]
    simp [lookup, umap_find]
  · intro k hk hmem
    rw [hkeys] at hmem
    have hmem1 : k ∈ c1.keys := by
      rcases List.mem_cons.1 hmem with h0 | h0
      · exact absurd h0 hk
      · exact h0
    rw [← hlook1 k hmem1, hput]
    simp [lookup, umap_find, Ne.symm hk]

/-- Putting at most `capacity` pairwise distinct keys into an empty cache keeps all of them,
the last one put at the front. -/
theorem put_all_within_capacity (c0 : LruCache K V) (h0 : Consistent c0) (hk0 : c0.keys = [])
    (hcap : 1 ≤ c0.capacity_) (kvs : List (K × V)) :
    kvs.length ≤ c0.capacity_ → (kvs.map Prod.fst).Nodup →
    Consistent (put_all c0 kvs) ∧ (put_all c0 kvs).capacity_ = c0.capacity_ ∧
    (put_all c0 kvs).keys = (kvs.map Prod.fst).reverse ∧
    ∀ kv ∈ kvs, lookup (put_all c0 kvs) kv.1 = some kv.2 := by
  induction kvs using List.reverseRecOn with
  | nil =>
    intro _ _
    simp [put_all, h0, hk0]
  | append_singleton kvs kv ih =>
    intro hlen hnd
    simp only [List.length_append, List.length_singleton] at hlen
    rw [List.map_append, List.nodup_append] at hnd
    obtain ⟨c1, c2, c3, c4⟩ := ih (by omega) hnd.1
    have hfresh : kv.1 ∉ (put_all c0 kvs).keys := by
      rw [c3, List.mem_reverse]
      intro hmem
      exact hnd.2.2 hmem (by simp)
    obtain ⟨p1, p2, p3, p4, p5⟩ :=
      put_fresh_spec c1 (by rw [c2]; exact hcap) kv.1 kv.2 hfresh
    have hnotfull : ¬ (put_all c0 kvs).capacity_ ≤ (put_all c0 kvs).keys.length := by
      rw [c2, c3]; simp; omega
    rw [if_neg hnotfull] at p3
    rw [put_all_concat]
    refine ⟨p1, by rw [p2, c2], ?_, ?_⟩
    · rw [p3, c3]; simp
    · intro kv' hkv'
      rcases List.mem_append.1 hkv' with hm | hm
      · have hne : kv'.1 ≠ kv.1 := by
          intro he
          exact hnd.2.2 (List.mem_map_of_mem Prod.fst hm) (by simp [he])
        have hmem : kv'.1 ∈ (put (put_all c0 kvs) kv.1 kv.2).keys := by
          rw [p3, c3]
          simp only [List.mem_cons, List.mem_reverse]
          exact Or.inr (List.mem_map_of_mem Prod.fst hm)
        rw [p5 kv'.1 hne hmem]
        exact c4 kv' hm
      · have : kv' = kv := by simpa using hm
        rw [this]; exact p4

end LruCache

/-! ## The class invariant of the caches, under plain equality -/

namespace LruCache

variable {K V : Type} [DecidableEq K]

theorem mem_of_umap_find {E : Type} (m : List (K × E)) (key : K) (e : E)
    (h : umap_find m key = some e) : (key, e) ∈ m := by
  induction m with
  | nil => simp [umap_find] at h
  | cons kv rest ih =>
    obtain ⟨k, e0⟩ := kv
    by_cases hk : k = key
    · simp [umap_find, hk] at h
      simp [hk, h]
    · simp only [umap_find, KeyEq.plain_key_eq, hk, if_false] at h
      exact List.mem_cons_of_mem _ (ih h)

theorem umap_find_of_mem {E : Type} (m : List (K × E)) (key : K) (e : E)
    (hn : (m.map Prod.fst).Nodup) (h : (key, e) ∈ m) : umap_find m key = some e := by
  induction m with
  | nil => simp at h
  | cons kv rest ih =>
    obtain ⟨k, e0⟩ := kv
    simp only [List.map_cons, List.nodup_cons] at hn
    rcases List.mem_cons.1 h with h1 | h1
    · cases h1
      simp [umap_find]
    · have hk : k ≠ key := by
        intro he
        exact hn.1 (he ▸ List.mem_map_of_mem Prod.fst h1)
      simp only [umap_find, KeyEq.plain_key_eq, hk, if_false]
      exact ih hn.2 h1

/-- Erasing the node an entry's iterator designates removes exactly that entry's key from the
recency list. -/
theorem list_erase_keys (l : List (Nat × K)) (it : Nat) (key : K)
    (hnodes : (l.map Prod.fst).Nodup) (hkeys : (l.map Prod.snd).Nodup) (hmem : (it, key) ∈ l) :
    (list_erase l it).map Prod.snd = (l.map Prod.snd).filter (fun k => !decide (k = key)) := by
  have h1 : list_erase l it = l.filter (fun n => !decide (n.2 = key)) := by
    unfold list_erase
    apply List.filter_congr
    intro n hn
    have hiff : n.1 = it ↔ n.2 = key := by
      constructor
      · intro h
        have := List.inj_on_of_nodup_map hnodes hn hmem h
        rw [this]
      · intro h
        have := List.inj_on_of_nodup_map hkeys hn hmem h
        rw [this]
    by_cases h : n.1 = it
    · simp [h, hiff.1 h]
    · simp [h, mt hiff.2 h]
  rw [h1, List.filter_map]
  rfl

/-- The state both `get` (on a hit) and `put` (on an existing key) leave: the node of `key` is
unlinked, a new node for `key` is pushed at the front, and the entry of `key` gets the value
`d` and the iterator of the new node. -/
theorem promote_spec {c : LruCache K V} (h : WellFormed c) (key : K) (e : CacheEntry V)
    (hfind : umap_find c.items_map_ key = some e) (d : V) (c2 : LruCache K V)
    (hc2 : c2 = { c with
      lru_list_ := (c.next_node_, key) :: list_erase c.lru_list_ e.lru_iterator,
      items_map_ := umap_assign c.items_map_ key
        { data_ptr := d, lru_iterator := c.next_node_ },
      next_node_ := c.next_node_ + 1 }) :
    WellFormed c2 ∧ c2.keys = key :: c.keys.filter (fun k => !decide (k = key)) ∧
    c2.capacity_ = c.capacity_ ∧ c2.items_map_.length = c.items_map_.length ∧
    lookup c2 key = some d ∧ ∀ k, k ≠ key → lookup c2 k = lookup c k := by
  have hmem : (e.lru_iterator, key) ∈ c.lru_list_ := h.iterators key e hfind
  have hkeys_nd : (c.lru_list_.map Prod.snd).Nodup := h.consistent.keys_nodup
  have herase := list_erase_keys c.lru_list_ e.lru_iterator key h.nodes_nodup hkeys_nd hmem
  have hkeys : c2.keys = key :: c.keys.filter (fun k => !decide (k = key)) := by
    rw [hc2]
    simp only [keys, List.map_cons]
    rw [herase]
  have hsub : List.Sublist (list_erase c.lru_list_ e.lru_iterator) c.lru_list_ :=
    List.filter_sublist _
  have hmapkeys : c2.items_map_.map Prod.fst = c.items_map_.map Prod.fst := by
    rw [hc2]; exact umap_assign_keys _ _ _
  have hkeymem : key ∈ c.keys := by
    simp only [keys]
    exact List.mem_map_of_mem Prod.snd hmem
  refine ⟨⟨⟨?_, ?_, ?_⟩, ?_, ?_, ?_⟩, hkeys, by rw [hc2], ?_, ?_, ?_⟩
  · rw [hkeys]
    refine List.nodup_cons.2 ⟨?_, List.Nodup.filter _ h.consistent.keys_nodup⟩
    simp
  · rw [hmapkeys]; exact h.consistent.map_nodup
  · intro k
    rw [hkeys, hmapkeys, ← h.consistent.same_keys]
    by_cases hk : k = key
    · subst hk; simp [hkeymem]
    · simp [hk]
  · rw [hc2]
    simp only [List.map_cons]
    refine List.nodup_cons.2 ⟨?_, List.Nodup.sublist (hsub.map _) h.nodes_nodup⟩
    intro hin
    obtain ⟨n, hn, hn1⟩ := List.mem_map.1 hin
    have := h.nodes_lt n (hsub.subset hn)
    omega
  · rw [hc2]
    intro n hn
    rcases List.mem_cons.1 hn with h0 | h0
    · rw [h0]; exact Nat.lt_succ_self _
    · exact Nat.lt_succ_of_lt (h.nodes_lt n (hsub.subset h0))
  · rw [hc2]
    intro k e2 hf
    by_cases hk : k = key
    · subst hk
      rw [umap_find_assign_same _ _ _ _ hfind] at hf
      cases hf
      exact List.mem_cons_self _ _
    · rw [umap_find_assign_other _ _ _ _ hk] at hf
      have hm2 := h.iterators k e2 hf
      refine List.mem_cons_of_mem _ ?_
      unfold list_erase
      refine List.mem_filter.2 ⟨hm2, ?_⟩
      have hne : e2.lru_iterator ≠ e.lru_iterator := by
        intro he
        have := List.inj_on_of_nodup_map h.nodes_nodup hm2 hmem he
        exact hk (congrArg Prod.snd this)
      simpa using hne
  · have := congrArg List.length hmapkeys
    simpa using this
  · rw [hc2]
    simp [lookup, umap_find_assign_same _ _ _ _ hfind]
  · intro k hk
    rw [hc2]
    simp [lookup, umap_find_assign_other _ _ _ _ hk]

/-- A `get` that hits moves the key to the front of the recency list and changes nothing
else. -/
theorem get_hit_spec {c : LruCache K V} (h : WellFormed c) (key : K) (hmem : key ∈ c.keys) :
    WellFormed (get c key).2 ∧
    (get c key).2.keys = key :: c.keys.filter (fun k => !decide (k = key)) ∧
    (get c key).2.capacity_ = c.capacity_ ∧
    (get c key).2.items_map_.length = c.items_map_.length ∧
    ∀ k, lookup (get c key).2 k = lookup c k := by
  cases hfind : umap_find c.items_map_ key with
  | none =>
    exact absurd hmem (by
      rw [h.consistent.same_keys, ← umap_find_eq_none_iff]; exact hfind)
  | some e =>
    obtain ⟨p1, p2, p3, p4, p5, p6⟩ :=
      promote_spec h key e hfind e.data_ptr (get c key).2 (by unfold get; rw [hfind])
    exact ⟨p1, p2, p3, p4, fun k => lookup_get (KeyEq.plain_lawful K) c key k⟩

/-- A `put` on a key the cache holds replaces the value and moves the key to the front of the
recency list; no entry leaves. -/
theorem put_existing_spec {c : LruCache K V} (h : WellFormed c) (hcap : 1 ≤ c.capacity_)
    (key : K) (v : V) (hmem : key ∈ c.keys) :
    WellFormed (put c key v) ∧
    (put c key v).keys = key :: c.keys.filter (fun k => !decide (k = key)) ∧
    (put c key v).capacity_ = c.capacity_ ∧
    (put c key v).items_map_.length = c.items_map_.length ∧
    lookup (put c key v) key = some v ∧ ∀ k, k ≠ key → lookup (put c key v) k = lookup c k := by
  cases hfind : umap_find c.items_map_ key with
  | none =>
    exact absurd hmem (by
      rw [h.consistent.same_keys, ← umap_find_eq_none_iff]; exact hfind)
  | some e =>
    have hne : ¬ c.capacity_ = 0 := by omega
    exact promote_spec h key e hfind v (put c key v) (by unfold put; rw [if_neg hne, hfind])

/-- Eviction keeps the class invariant. -/
theorem evict_wf {c : LruCache K V} (h : WellFormed c) :
    WellFormed (evict_oldest_nolock c) ∧
    (evict_oldest_nolock c).next_node_ = c.next_node_ := by
  cases hl : c.keys.getLast? with
  | none =>
    have hnil : c.lru_list_ = [] := by
      have := List.getLast?_eq_none_iff.1 hl
      simpa [keys] using this
    have hev : evict_oldest_nolock c = c := by
      unfold evict_oldest_nolock
      rw [hnil]; rfl
    rw [hev]; exact ⟨h, rfl⟩
  | some last =>
    obtain ⟨e1, e2, e3, e4⟩ := evict_spec h.consistent last hl
    have hl2 : c.lru_list_.getLast?.map Prod.snd = some last := by
      rw [← List.getLast?_map]; exact hl
    obtain ⟨node, hnode, hsnd⟩ := Option.map_eq_some'.1 hl2
    have hev : evict_oldest_nolock c =
        { c with lru_list_ := c.lru_list_.dropLast,
                 items_map_ := umap_erase c.items_map_ last } := by
      unfold evict_oldest_nolock
      rw [hnode]
      simp [hsnd]
    have hlnd : c.lru_list_.Nodup := List.Nodup.of_map _ h.nodes_nodup
    refine ⟨⟨e1, ?_, ?_, ?_⟩, by rw [hev]⟩
    · rw [hev]
      exact List.Nodup.sublist ((List.dropLast_sublist _).map _) h.nodes_nodup
    · rw [hev]
      intro n hn
      exact h.nodes_lt n (List.mem_of_mem_dropLast hn)
    · rw [hev]
      intro k e hf
      simp only [umap_find_erase] at hf
      by_cases hk : k = last
      · simp [hk] at hf
      · simp only [hk, if_false] at hf
        have hm := h.iterators k e hf
        refine (mem_dropLast_iff_of_nodup _ node _ hnode hlnd).2 ⟨hm, ?_⟩
        intro he
        apply hk
        rw [← hsnd, ← he]

/-- A `put` of a key the cache does not hold keeps the class invariant. -/
theorem put_fresh_wf {c : LruCache K V} (h : WellFormed c) (hcap : 1 ≤ c.capacity_)
    (key : K) (v : V) (hfresh : key ∉ c.keys) : WellFormed (put c key v) := by
  obtain ⟨p1, p2, p3, p4, p5⟩ := put_fresh_spec h.consistent hcap key v hfresh
  have hfind : umap_find c.items_map_ key = none := by
    rw [umap_find_eq_none_iff, ← h.consistent.same_keys]; exact hfresh
  obtain ⟨c1, hc1def, hc1, hnext1, hsub1⟩ :
      ∃ c1 : LruCache K V,
        c1 = (if c.items_map_.length ≥ c.capacity_ then evict_oldest_nolock c else c) ∧
        WellFormed c1 ∧ c1.next_node_ = c.next_node_ ∧ ∀ k, k ∈ c1.keys → k ∈ c.keys := by
    refine ⟨_, rfl, ?_⟩
    by_cases hfull : c.items_map_.length ≥ c.capacity_
    · simp only [hfull, if_true]
      refine ⟨(evict_wf h).1, (evict_wf h).2, ?_⟩
      intro k hk
      unfold evict_oldest_nolock at hk
      cases hl : c.lru_list_.getLast? with
      | none => simpa [hl] using hk
      | some oldest =>
        simp only [hl, keys] at hk
        obtain ⟨n, hn, hn2⟩ := List.mem_map.1 hk
        exact List.mem_map.2 ⟨n, List.mem_of_mem_dropLast hn, hn2⟩
    · rw [if_neg hfull]
      exact ⟨h, rfl, fun _ hk => hk⟩
  have hfresh1 : key ∉ c1.keys := fun hk => hfresh (hsub1 key hk)
  have hfind1 : umap_find c1.items_map_ key = none := by
    rw [umap_find_eq_none_iff, ← hc1.consistent.same_keys]; exact hfresh1
  have hput : put c key v =
      { c1 with lru_list_ := (c1.next_node_, key) :: c1.lru_list_,
                items_map_ := (key, { data_ptr := v, lru_iterator := c1.next_node_ }) ::
                  c1.items_map_,
                next_node_ := c1.next_node_ + 1 } := by
    have hne : ¬ c.capacity_ = 0 := by omega
    unfold put
    rw [if_neg hne, hfind]
    simp only [← hc1def, umap_emplace, hfind1]
  refine ⟨p1, ?_, ?_, ?_⟩
  · rw [hput]
    simp only [List.map_cons]
    refine List.nodup_cons.2 ⟨?_, hc1.nodes_nodup⟩
    intro hin
    obtain ⟨n, hn, hn1⟩ := List.mem_map.1 hin
    have := hc1.nodes_lt n hn
    omega
  · rw [hput]
    intro n hn
    rcases List.mem_cons.1 hn with h0 | h0
    · rw [h0]; exact Nat.lt_succ_self _
    · exact Nat.lt_succ_of_lt (hc1.nodes_lt n h0)
  · rw [hput]
    intro k e hf
    by_cases hk : key = k
    · subst hk
      simp only [umap_find, KeyEq.plain_key_eq, if_true] at hf
      cases hf
      exact List.mem_cons_self _ _
    · simp only [umap_find, KeyEq.plain_key_eq, hk, if_false] at hf
      exact List.mem_cons_of_mem _ (hc1.iterators k e hf)

/-- The eviction loop of `set_capacity`, given at least as many iterations as the list is over
capacity, ends with the `capacity_` most recently used entries, unchanged and in order. -/
theorem evict_while_over_spec (fuel : Nat) : ∀ c : LruCache K V, WellFormed c →
    c.keys.length ≤ fuel + c.capacity_ →
    WellFormed (evict_while_over fuel c) ∧
    (evict_while_over fuel c).keys = c.keys.take c.capacity_ ∧
    (evict_while_over fuel c).capacity_ = c.capacity_ ∧
    ∀ k, k ∈ (evict_while_over fuel c).keys → lookup (evict_while_over fuel c) k = lookup c k := by
  induction fuel with
  | zero =>
    intro c h hlen
    have hstep : evict_while_over 0 c = c := rfl
    rw [hstep]
    refine ⟨h, ?_, rfl, fun _ _ => rfl⟩
    rw [List.take_of_length_le (by omega)]
  | succ fuel ih =>
    intro c h hlen
    have hleq : c.items_map_.length = c.keys.length := by
      rw [h.consistent.length_eq, keys_length]
    by_cases hover : c.items_map_.length > c.capacity_
    · have hne : c.keys ≠ [] := by
        intro h0
        have h1 : c.keys.length = 0 := by rw [h0]; rfl
        omega
      obtain ⟨last, hlast⟩ := Option.isSome_iff_exists.1 (List.getLast?_isSome.2 hne)
      obtain ⟨e1, e2, e3, e4⟩ := evict_spec h.consistent last hlast
      have hwf := (evict_wf h).1
      have hlen2 : (evict_oldest_nolock c).keys.length ≤
          fuel + (evict_oldest_nolock c).capacity_ := by
        rw [e2, e3, List.length_dropLast]; omega
      obtain ⟨i1, i2, i3, i4⟩ := ih (evict_oldest_nolock c) hwf hlen2
      have hstep : evict_while_over (fuel + 1) c =
          evict_while_over fuel (evict_oldest_nolock c) := by
        simp only [evict_while_over, hover, if_true]
      rw [hstep]
      have htake : c.keys.dropLast.take c.capacity_ = c.keys.take c.capacity_ := by
        rw [List.dropLast_eq_take, List.take_take]
        congr 1
        omega
      refine ⟨i1, by rw [i2, e2, e3, htake], by rw [i3, e3], ?_⟩
      intro k hk
      rw [i4 k hk, e4 k]
      have hk2 : k ∈ c.keys.dropLast := by
        rw [i2, e2] at hk
        exact List.mem_of_mem_take hk
      have := (mem_dropLast_iff_of_nodup _ last k hlast h.consistent.keys_nodup).1 hk2
      simp [this.2]
    · have hstep : evict_while_over (fuel + 1) c = c := by
        simp only [evict_while_over, hover, if_false]
      rw [hstep]
      refine ⟨h, ?_, rfl, fun _ _ => rfl⟩
      rw [List.take_of_length_le (by omega)]

/-- `set_capacity` on a well-formed cache: the new capacity is the requested one (1 for a
request of 0), and exactly that many most recently used entries stay, unchanged and in order. -/
theorem set_capacity_spec {c : LruCache K V} (h : WellFormed c) (capacity : Nat) :
    WellFormed (set_capacity c capacity) ∧
    (set_capacity c capacity).capacity_ = (if capacity > 0 then capacity else 1) ∧
    (set_capacity c capacity).keys = c.keys.take (if capacity > 0 then capacity else 1) ∧
    ∀ k, k ∈ (set_capacity c capacity).keys → lookup (set_capacity c capacity) k = lookup c k := by
  have hwf1 : WellFormed ({ c with capacity_ := if capacity > 0 then capacity else 1 } :
      LruCache K V) := ⟨⟨h.consistent.keys_nodup, h.consistent.map_nodup, h.consistent.same_keys⟩,
      h.nodes_nodup, h.nodes_lt, h.iterators⟩
  obtain ⟨s1, s2, s3, s4⟩ := evict_while_over_spec c.lru_list_.length _ hwf1
    (by simp [keys])
  exact ⟨s1, s3, s2, s4⟩

theorem wf_init : WellFormed (init : LruCache K V) := by
  refine ⟨⟨?_, ?_, ?_⟩, ?_, ?_, ?_⟩ <;> simp [init, keys, umap_find]

theorem wf_clear {c : LruCache K V} (h : WellFormed c) : WellFormed (clear c) := by
  refine ⟨⟨?_, ?_, ?_⟩, ?_, ?_, ?_⟩ <;> simp [clear, keys, umap_find]

/-- What every reachable cache satisfies: the class invariant, and no more entries than the
capacity. -/
theorem invariant_apply_op {c : LruCache K V} (h : WellFormed c)
    (hb : c.items_map_.length ≤ c.capacity_) (op : CacheOp K V) :
    WellFormed (apply_op c op) ∧
    (apply_op c op).items_map_.length ≤ (apply_op c op).capacity_ := by
  cases op with
  | set_capacity capacity =>
    obtain ⟨s1, s2, s3, s4⟩ := set_capacity_spec h capacity
    refine ⟨s1, ?_⟩
    show (set_capacity c capacity).items_map_.length ≤ (set_capacity c capacity).capacity_
    rw [s1.consistent.length_eq, ← keys_length, s3, s2, List.length_take]
    exact Nat.min_le_left _ _
  | put key v =>
    show WellFormed (put c key v) ∧ (put c key v).items_map_.length ≤ (put c key v).capacity_
    by_cases hcap : c.capacity_ = 0
    · rw [put_capacity_zero c key v hcap]; exact ⟨h, hb⟩
    · have hcap1 : 1 ≤ c.capacity_ := by omega
      by_cases hmem : key ∈ c.keys
      · obtain ⟨p1, p2, p3, p4, p5, p6⟩ := put_existing_spec h hcap1 key v hmem
        exact ⟨p1, by rw [p4, p3]; exact hb⟩
      · obtain ⟨p1, p2, p3, p4, p5⟩ := put_fresh_spec h.consistent hcap1 key v hmem
        refine ⟨put_fresh_wf h hcap1 key v hmem, ?_⟩
        have hleq : c.items_map_.length = c.keys.length := by
          rw [h.consistent.length_eq, keys_length]
        rw [p1.length_eq, ← keys_length, p3, p2]
        split
        · simp only [List.length_cons, List.length_dropLast]; omega
        · simp only [List.length_cons]; omega
  | get key =>
    show WellFormed (get c key).2 ∧ (get c key).2.items_map_.length ≤ (get c key).2.capacity_
    by_cases hmem : key ∈ c.keys
    · obtain ⟨p1, p2, p3, p4, p5⟩ := get_hit_spec h key hmem
      exact ⟨p1, by rw [p4, p3]; exact hb⟩
    · rw [get_miss c key ((h.consistent.lookup_eq_none_iff key).2 hmem)]
      exact ⟨h, hb⟩
  | clear =>
    exact ⟨wf_clear h, by simp [apply_op, clear]⟩

theorem invariant_run_ops {c : LruCache K V} (h : WellFormed c)
    (hb : c.items_map_.length ≤ c.capacity_) (ops : List (CacheOp K V)) :
    WellFormed (run_ops c ops) ∧
    (run_ops c ops).items_map_.length ≤ (run_ops c ops).capacity_ := by
  induction ops using List.reverseRecOn with
  | nil => exact ⟨h, hb⟩
  | append_singleton ops op ih =>
    rw [run_ops_concat]
    exact invariant_apply_op ih.1 ih.2 op

/-- Every cache reached from a freshly constructed one is well formed and within capacity. -/
theorem reachable_invariant (ops : List (CacheOp K V)) :
    WellFormed (run_ops (init : LruCache K V) ops) ∧
    (run_ops (init : LruCache K V) ops).items_map_.length ≤
      (run_ops (init : LruCache K V) ops).capacity_ :=
  invariant_run_ops wf_init (by simp [init]) ops

/-- How one call changes the recency list: some entries of the old list stay, in order, none of
them the key the call is a `put` or `get` of; that key, if it is stored afterwards, is at the
front. -/
theorem apply_op_keys {c : LruCache K V} (h : WellFormed c)
    (hb : c.items_map_.length ≤ c.capacity_) (op : CacheOp K V) :
    ∃ kept : List K, kept.Sublist c.keys ∧ (∀ k, op.touches k = true → k ∉ kept) ∧
      ((apply_op c op).keys = kept ∨
        ∃ k, op.touches k = true ∧ (apply_op c op).keys = k :: kept) := by
  have hleq : c.items_map_.length = c.keys.length := by
    rw [h.consistent.length_eq, keys_length]
  cases op with
  | set_capacity capacity =>
    obtain ⟨s1, s2, s3, s4⟩ := set_capacity_spec h capacity
    exact ⟨_, List.take_sublist _ _, by simp [CacheOp.touches], Or.inl s3⟩
  | clear =>
    exact ⟨[], List.nil_sublist _, by simp [CacheOp.touches], Or.inl (by simp [apply_op, clear, keys])⟩
  | get key =>
    by_cases hmem : key ∈ c.keys
    · obtain ⟨p1, p2, p3, p4, p5⟩ := get_hit_spec h key hmem
      refine ⟨_, List.filter_sublist _, ?_, Or.inr ⟨key, by simp [CacheOp.touches], p2⟩⟩
      intro k hk
      simp only [CacheOp.touches, decide_eq_true_eq] at hk
      subst hk
      simp
    · refine ⟨c.keys, List.Sublist.refl _, ?_, Or.inl ?_⟩
      · intro k hk
        simp only [CacheOp.touches, decide_eq_true_eq] at hk
        subst hk
        exact hmem
      · show (get c key).2.keys = c.keys
        rw [get_miss c key ((h.consistent.lookup_eq_none_iff key).2 hmem)]
  | put key v =>
    have htouch : ∀ k, (CacheOp.put key v : CacheOp K V).touches k = true → k = key := by
      intro k hk
      simp only [CacheOp.touches, decide_eq_true_eq] at hk
      exact hk.symm
    by_cases hcap : c.capacity_ = 0
    · have hnil : c.keys = [] := by
        apply List.eq_nil_of_length_eq_zero
        omega
      refine ⟨c.keys, List.Sublist.refl _, by simp [hnil], Or.inl ?_⟩
      show (put c key v).keys = c.keys
      rw [put_capacity_zero c key v hcap]
    · have hcap1 : 1 ≤ c.capacity_ := by omega
      by_cases hmem : key ∈ c.keys
      · obtain ⟨p1, p2, p3, p4, p5, p6⟩ := put_existing_spec h hcap1 key v hmem
        refine ⟨_, List.filter_sublist _, ?_, Or.inr ⟨key, by simp [CacheOp.touches], p2⟩⟩
        intro k hk
        rw [htouch k hk]
        simp
      · obtain ⟨p1, p2, p3, p4, p5⟩ := put_fresh_spec h.consistent hcap1 key v hmem
        refine ⟨_, ?_, ?_, Or.inr ⟨key, by simp [CacheOp.touches], p3⟩⟩
        · split
          · exact List.dropLast_sublist _
          · exact List.Sublist.refl _
        · intro k hk
          rw [htouch k hk]
          split
          · exact fun hk2 => hmem (List.mem_of_mem_dropLast hk2)
          · exact hmem

/-- The recency list of a reachable cache is ordered by last use: of two stored keys the one
nearer the front was the later one to be put or fetched. -/
theorem recency_order (ops : List (CacheOp K V)) :
    (run_ops (init : LruCache K V) ops).keys.Pairwise
      (fun a b => last_use ops b < last_use ops a) := by
  induction ops using List.reverseRecOn with
  | nil => simp [run_ops, init, keys]
  | append_singleton ops op ih =>
    obtain ⟨hwf, hb⟩ := reachable_invariant (K := K) (V := V) ops
    obtain ⟨kept, hsub, hnot, hkeys⟩ := apply_op_keys hwf hb op
    have hkept : kept.Pairwise
        (fun a b => last_use (ops ++ [op]) b < last_use (ops ++ [op]) a) := by
      refine List.Pairwise.imp_of_mem ?_ (ih.sublist hsub)
      intro a b ha hb2 hlt
      have h1 : ¬ op.touches a = true := fun ht => hnot a ht ha
      have h2 : ¬ op.touches b = true := fun ht => hnot b ht hb2
      rw [last_use_concat, last_use_concat, if_neg h1, if_neg h2]
      exact hlt
    rw [run_ops_concat]
    rcases hkeys with hk | ⟨k, hk1, hk2⟩
    · rw [hk]; exact hkept
    · rw [hk2]
      refine List.pairwise_cons.2 ⟨?_, hkept⟩
      intro b hb2
      have h2 : ¬ op.touches b = true := fun ht => hnot b ht hb2
      rw [last_use_concat, last_use_concat, if_pos hk1, if_neg h2]
      exact Nat.lt_succ_of_le (last_use_le ops b)

theorem invariant_put_all {c : LruCache K V} (h : WellFormed c)
    (hb : c.items_map_.length ≤ c.capacity_) (kvs : List (K × V)) :
    WellFormed (put_all c kvs) ∧
    (put_all c kvs).items_map_.length ≤ (put_all c kvs).capacity_ := by
  rw [put_all_eq_run_ops]
  exact invariant_run_ops h hb _

end LruCache

/-- In a well-formed cache of capacity 1 a `put` leaves exactly the key put. -/
theorem LruCache.put_capacity_one {K V : Type} [DecidableEq K] {c : LruCache K V}
    (h : LruCache.WellFormed c) (hb : c.items_map_.length ≤ c.capacity_)
    (hcap : c.capacity_ = 1) (key : K) (v : V) :
    LruCache.WellFormed (LruCache.put c key v) ∧ (LruCache.put c key v).keys = [key] ∧
    LruCache.lookup (LruCache.put c key v) key = some v := by
  obtain ⟨hwf, hb2⟩ := LruCache.invariant_apply_op h hb (LruCache.CacheOp.put key v)
  have hwf2 : LruCache.WellFormed (LruCache.put c key v) := hwf
  have hb3 : (LruCache.put c key v).items_map_.length ≤ (LruCache.put c key v).capacity_ := hb2
  rw [LruCache.capacity_put, hcap, hwf2.consistent.length_eq, ← LruCache.keys_length] at hb3
  have hcap1 : 1 ≤ c.capacity_ := by omega
  have hhead : ∃ tl, (LruCache.put c key v).keys = key :: tl := by
    by_cases hmem : key ∈ c.keys
    · exact ⟨_, (LruCache.put_existing_spec h hcap1 key v hmem).2.1⟩
    · exact ⟨_, (LruCache.put_fresh_spec h.consistent hcap1 key v hmem).2.2.1⟩
  obtain ⟨tl, htl⟩ := hhead
  have htl0 : tl = [] := by
    rw [htl] at hb3
    simp only [List.length_cons] at hb3
    exact List.eq_nil_of_length_eq_zero (by omega)
  rw [htl0] at htl
  exact ⟨hwf2, htl, LruCache.lookup_put_self (KeyEq.plain_lawful K) c key v (KeyEq.plain_sane key) hcap1⟩

/-! ## Keys without a NaN: `operator==` acts as plain equality

On a cache all of whose stored keys equal themselves, every member function does what it does
under plain equality of keys, for every argument. -/

section transfer

variable {K V E : Type} [DecidableEq K] [KeyEq K]

theorem key_eq_iff_of_sane (law : KeyEq.Lawful K) {k key : K} (hs : KeyEq.sane k) :
    KeyEq.key_eq k key ↔ k = key :=
  ⟨law k key, fun h => h ▸ hs⟩

theorem umap_find_plain (law : KeyEq.Lawful K) (m : List (K × E))
    (hm : ∀ kv ∈ m, KeyEq.sane kv.1) (key : K) :
    umap_find m key = @umap_find K E (KeyEq.plain K) m key := by
  induction m with
  | nil => rfl
  | cons kv rest ih =>
    obtain ⟨k, e⟩ := kv
    have hk : KeyEq.sane k := hm (k, e) (List.mem_cons_self _ _)
    have ih2 := ih (fun kv h => hm kv (List.mem_cons_of_mem _ h))
    rw [umap_find_cons, @umap_find_cons K E (KeyEq.plain K), ih2]
    simp only [key_eq_iff_of_sane law hk, KeyEq.plain_key_eq]

theorem umap_erase_plain (law : KeyEq.Lawful K) (m : List (K × E))
    (hm : ∀ kv ∈ m, KeyEq.sane kv.1) (key : K) :
    umap_erase m key = @umap_erase K E (KeyEq.plain K) m key := by
  induction m with
  | nil => rfl
  | cons kv rest ih =>
    obtain ⟨k, e⟩ := kv
    have hk : KeyEq.sane k := hm (k, e) (List.mem_cons_self _ _)
    have ih2 := ih (fun kv h => hm kv (List.mem_cons_of_mem _ h))
    rw [umap_erase_cons, @umap_erase_cons K E (KeyEq.plain K), ih2]
    simp only [key_eq_iff_of_sane law hk, KeyEq.plain_key_eq]

theorem umap_assign_plain (law : KeyEq.Lawful K) (m : List (K × E))
    (hm : ∀ kv ∈ m, KeyEq.sane kv.1) (key : K) (e : E) :
    umap_assign m key e = @umap_assign K E (KeyEq.plain K) m key e := by
  induction m with
  | nil => rfl
  | cons kv rest ih =>
    obtain ⟨k, e0⟩ := kv
    have hk : KeyEq.sane k := hm (k, e0) (List.mem_cons_self _ _)
    have ih2 := ih (fun kv h => hm kv (List.mem_cons_of_mem _ h))
    rw [umap_assign_cons, @umap_assign_cons K E (KeyEq.plain K), ih2]
    simp only [key_eq_iff_of_sane law hk, KeyEq.plain_key_eq]

theorem umap_emplace_plain (law : KeyEq.Lawful K) (m : List (K × E))
    (hm : ∀ kv ∈ m, KeyEq.sane kv.1) (key : K) (e : E) :
    umap_emplace m key e = @umap_emplace K E (KeyEq.plain K) m key e := by
  unfold umap_emplace
  rw [umap_find_plain law m hm key]

namespace LruCache

theorem lookup_plain (law : KeyEq.Lawful K) (c : LruCache K V) (h : AllSane c) (key : K) :
    lookup c key = @lookup K V (KeyEq.plain K) c key := by
  unfold lookup
  rw [umap_find_plain law _ h.2 key]

theorem get_plain (law : KeyEq.Lawful K) (c : LruCache K V) (h : AllSane c) (key : K) :
    get c key = @get K V (KeyEq.plain K) c key := by
  unfold get
  rw [umap_find_plain law _ h.2 key]
  cases @umap_find K _ (KeyEq.plain K) c.items_map_ key with
  | none => rfl
  | some e =>
    simp only
    rw [umap_assign_plain law _ h.2]

theorem evict_plain (law : KeyEq.Lawful K) (c : LruCache K V) (h : AllSane c) :
    evict_oldest_nolock c = @evict_oldest_nolock K V (KeyEq.plain K) c := by
  unfold evict_oldest_nolock
  cases c.lru_list_.getLast? with
  | none => rfl
  | some oldest =>
    simp only
    rw [umap_erase_plain law _ h.2]

theorem allSane_evict (c : LruCache K V) (h : AllSane c) : AllSane (evict_oldest_nolock c) := by
  unfold evict_oldest_nolock
  cases c.lru_list_.getLast? with
  | none => exact h
  | some oldest =>
    exact ⟨fun n hn => h.1 n (List.mem_of_mem_dropLast hn),
      fun kv hkv => h.2 kv (umap_erase_mem _ _ kv hkv)⟩

theorem evict_while_over_plain (law : KeyEq.Lawful K) (fuel : Nat) :
    ∀ c : LruCache K V, AllSane c →
      evict_while_over fuel c = @evict_while_over K V (KeyEq.plain K) fuel c ∧
      AllSane (evict_while_over fuel c) := by
  induction fuel with
  | zero => intro c h; exact ⟨rfl, h⟩
  | succ n ih =>
    intro c h
    simp only [evict_while_over]
    split
    · rw [← evict_plain law c h]
      exact ih _ (allSane_evict c h)
    · exact ⟨rfl, h⟩

theorem set_capacity_plain (law : KeyEq.Lawful K) (c : LruCache K V) (h : AllSane c)
    (capacity : Nat) :
    set_capacity c capacity = @set_capacity K V (KeyEq.plain K) c capacity ∧
    AllSane (set_capacity c capacity) :=
  evict_while_over_plain law _ _ h

theorem put_plain (law : KeyEq.Lawful K) (c : LruCache K V) (h : AllSane c) (key : K) (v : V) :
    put c key v = @put K V (KeyEq.plain K) c key v := by
  unfold put
  split
  · rfl
  · rw [umap_find_plain law _ h.2 key]
    cases @umap_find K _ (KeyEq.plain K) c.items_map_ key with
    | some e =>
      simp only
      rw [umap_assign_plain law _ h.2]
    | none =>
      simp only
      rw [← evict_plain law c h]
      split
      · rw [umap_emplace_plain law _ (allSane_evict c h).2]
      · rw [umap_emplace_plain law _ h.2]

theorem allSane_get (law : KeyEq.Lawful K) (c : LruCache K V) (h : AllSane c) (key : K) :
    AllSane (get c key).2 := by
  unfold get
  cases hf : umap_find c.items_map_ key with
  | none => exact h
  | some e =>
    have hs := (umap_find_some law _ _ _ hf).1
    refine ⟨?_, ?_⟩
    · intro n hn
      rcases List.mem_cons.1 hn with h0 | h0
      · rw [h0]; exact hs
      · exact h.1 n (List.mem_of_mem_filter h0)
    · intro kv hkv
      have hmem : kv.1 ∈ (umap_assign c.items_map_ key
          { data_ptr := e.data_ptr, lru_iterator := c.next_node_ }).map Prod.fst :=
        List.mem_map_of_mem Prod.fst hkv
      rw [umap_assign_fst] at hmem
      obtain ⟨kv2, hkv2, heq⟩ := List.mem_map.1 hmem
      rw [← heq]
      exact h.2 kv2 hkv2

theorem allSane_put (law : KeyEq.Lawful K) (c : LruCache K V) (h : AllSane c) (key : K) (v : V)
    (hs : KeyEq.sane key) : AllSane (put c key v) := by
  unfold put
  split
  · exact h
  · cases hf : umap_find c.items_map_ key with
    | some e =>
      refine ⟨?_, ?_⟩
      · intro n hn
        rcases List.mem_cons.1 hn with h0 | h0
        · rw [h0]; exact hs
        · exact h.1 n (List.mem_of_mem_filter h0)
      · intro kv hkv
        have hmem : kv.1 ∈ (umap_assign c.items_map_ key
            { data_ptr := v, lru_iterator := c.next_node_ }).map Prod.fst :=
          List.mem_map_of_mem Prod.fst hkv
        rw [umap_assign_fst] at hmem
        obtain ⟨kv2, hkv2, heq⟩ := List.mem_map.1 hmem
        rw [← heq]
        exact h.2 kv2 hkv2
    | none =>
      have h1 : AllSane (if c.items_map_.length ≥ c.capacity_ then evict_oldest_nolock c
          else c) := by
        split
        · exact allSane_evict c h
        · exact h
      refine ⟨?_, ?_⟩
      · intro n hn
        rcases List.mem_cons.1 hn with h0 | h0
        · rw [h0]; exact hs
        · exact h1.1 n h0
      · intro kv hkv
        simp only [umap_emplace] at hkv
        split at hkv
        · exact h1.2 kv hkv
        · rcases List.mem_cons.1 hkv with h0 | h0
          · rw [h0]; exact hs
          · exact h1.2 kv h0

theorem allSane_init : AllSane (init : LruCache K V) :=
  ⟨fun n hn => by simp [init] at hn, fun kv hkv => by simp [init] at hkv⟩

theorem allSane_clear (c : LruCache K V) : AllSane (clear c) :=
  ⟨fun n hn => by simp [clear] at hn, fun kv hkv => by simp [clear] at hkv⟩

/-- A sequence of calls that puts no key holding a NaN does what it does under plain equality
of keys, and leaves only keys that equal themselves. -/
theorem run_ops_plain (law : KeyEq.Lawful K) (ops : List (CacheOp K V)) :
    ∀ c : LruCache K V, AllSane c → (∀ k ∈ put_keys ops, KeyEq.sane k) →
      run_ops c ops = @run_ops K V (KeyEq.plain K) c ops ∧ AllSane (run_ops c ops) := by
  induction ops with
  | nil => intro c h _; exact ⟨rfl, h⟩
  | cons op rest ih =>
    intro c h hs
    rw [run_ops_cons, @run_ops_cons K V (KeyEq.plain K)]
    cases op with
    | set_capacity capacity =>
      obtain ⟨e1, e2⟩ := set_capacity_plain law c h capacity
      have := ih (set_capacity c capacity) e2 (fun k hk => hs k (by simpa [put_keys] using hk))
      simp only [apply_op]
      rw [← e1]
      exact this
    | put key v =>
      have hkey : KeyEq.sane key := hs key (by simp [put_keys])
      have e1 := put_plain law c h key v
      have := ih (put c key v) (allSane_put law c h key v hkey)
        (fun k hk => hs k (by simp [put_keys, hk]))
      simp only [apply_op]
      rw [← e1]
      exact this
    | get key =>
      have e1 := get_plain law c h key
      have := ih (get c key).2 (allSane_get law c h key)
        (fun k hk => hs k (by simpa [put_keys] using hk))
      simp only [apply_op]
      rw [← e1]
      exact this
    | clear =>
      have := ih (clear c) (allSane_clear c) (fun k hk => hs k (by simpa [put_keys] using hk))
      simp only [apply_op]
      exact this

theorem put_keys_map_put (kvs : List (K × V)) :
    put_keys (kvs.map (fun kv => (CacheOp.put kv.1 kv.2 : CacheOp K V))) = kvs.map Prod.fst := by
  induction kvs with
  | nil => rfl
  | cons kv rest ih => simp [put_keys, ih]

theorem put_all_plain (law : KeyEq.Lawful K) (kvs : List (K × V)) (c : LruCache K V)
    (h : AllSane c) (hs : ∀ kv ∈ kvs, KeyEq.sane kv.1) :
    put_all c kvs = @put_all K V (KeyEq.plain K) c kvs ∧ AllSane (put_all c kvs) := by
  rw [put_all_eq_run_ops, @put_all_eq_run_ops K V (KeyEq.plain K)]
  refine run_ops_plain law _ c h ?_
  intro k hk
  rw [put_keys_map_put] at hk
  obtain ⟨kv, hkv, heq⟩ := List.mem_map.1 hk
  rw [← heq]
  exact hs kv hkv

/-- On keys that equal themselves the class invariant under plain equality is the class
invariant under `operator==`. -/
theorem wellFormed_of_plain (law : KeyEq.Lawful K) (c : LruCache K V) (h : AllSane c)
    (hw : @WellFormed K V (KeyEq.plain K) c) : WellFormed c := by
  obtain ⟨h1, h2, h3, h4⟩ := hw
  exact ⟨h1, h2, h3, fun k e hf => h4 k e (by rw [← umap_find_plain law _ h.2 k]; exact hf)⟩

end LruCache

end transfer

/-! ## What holds of every cache, NaN keys included -/

namespace LruCache

variable {K V : Type} [KeyEq K]

theorem sound_init : Sound (init : LruCache K V) := by
  refine ⟨?_, ?_, ?_, ?_, ?_⟩ <;> simp [init, umap_find]

theorem sound_clear (c : LruCache K V) : Sound (clear c) := by
  refine ⟨?_, ?_, ?_, ?_, ?_⟩ <;> simp [clear, umap_find]

theorem sound_evict (law : KeyEq.Lawful K) {c : LruCache K V} (h : Sound c) :
    Sound (evict_oldest_nolock c) ∧ (evict_oldest_nolock c).next_node_ = c.next_node_ := by
  unfold evict_oldest_nolock
  cases hl : c.lru_list_.getLast? with
  | none => exact ⟨h, rfl⟩
  | some oldest =>
    obtain ⟨ys, hys⟩ := List.getLast?_eq_some_iff.1 hl
    have hdrop : c.lru_list_.dropLast = ys := by rw [hys, List.dropLast_concat]
    have hpw := h.listed_once
    rw [hys, List.pairwise_append] at hpw
    refine ⟨⟨?_, ?_, ?_, ?_, ?_⟩, rfl⟩
    · exact List.Nodup.sublist ((List.dropLast_sublist _).map _) h.nodes_nodup
    · intro n hn
      exact h.nodes_lt n (List.mem_of_mem_dropLast hn)
    · intro k e hf
      simp only [umap_find_erase_general law] at hf
      by_cases hk : KeyEq.key_eq oldest.2 k
      · rw [if_pos hk] at hf
        cases hf
      · rw [if_neg hk] at hf
        have hm := h.iterators k e hf
        have hsane := (umap_find_some law _ _ _ hf).1
        show (e.lru_iterator, k) ∈ c.lru_list_.dropLast
        rw [hdrop]
        rw [hys] at hm
        rcases List.mem_append.1 hm with h1 | h1
        · exact h1
        · have h2 : (e.lru_iterator, k) = oldest := by simpa using h1
          exact absurd (by rw [← h2]; exact hsane) hk
    · exact h.listed_once.sublist (List.dropLast_sublist _)
    · intro n hn hs
      have hn2 : n ∈ ys := by rw [← hdrop]; exact hn
      have hfound := h.listed_found n (List.mem_of_mem_dropLast hn) hs
      simp only [umap_find_erase_general law]
      have hne : ¬ KeyEq.key_eq oldest.2 n.2 := fun hk =>
        hpw.2.2 n hn2 oldest (by simp) (KeyEq.symm law hk)
      rw [if_neg hne]
      exact hfound

theorem sound_evict_while_over (law : KeyEq.Lawful K) (fuel : Nat) :
    ∀ c : LruCache K V, Sound c → Sound (evict_while_over fuel c) := by
  induction fuel with
  | zero => intro c h; exact h
  | succ n ih =>
    intro c h
    simp only [evict_while_over]
    split
    · exact ih _ (sound_evict law h).1
    · exact h

theorem sound_set_capacity (law : KeyEq.Lawful K) {c : LruCache K V} (h : Sound c)
    (capacity : Nat) : Sound (set_capacity c capacity) := by
  unfold set_capacity
  exact sound_evict_while_over law _ _ ⟨h.nodes_nodup, h.nodes_lt, h.iterators, h.listed_once,
    h.listed_found⟩

/-- In a sound cache the node an entry's iterator designates is the only node that carries the
entry's key. -/
theorem Sound.unique_node (law : KeyEq.Lawful K) {c : LruCache K V} (h : Sound c) (key : K)
    (e : CacheEntry V) (hfind : umap_find c.items_map_ key = some e) (n : Nat × K)
    (hn : n ∈ c.lru_list_) (hk : n.2 = key) : n = (e.lru_iterator, key) := by
  have hsane := (umap_find_some law _ _ _ hfind).1
  have hmem := h.iterators key e hfind
  by_contra hne
  have hsymm : Symmetric (fun a b : Nat × K => ¬ KeyEq.key_eq a.2 b.2) :=
    fun a b hab hba => hab (KeyEq.symm law hba)
  have := h.listed_once.forall hsymm hn hmem hne
  apply this
  show KeyEq.key_eq n.2 key
  rw [hk]
  exact hsane

theorem list_erase_keys_unique [DecidableEq K] (l : List (Nat × K)) (it : Nat) (key : K)
    (hnodes : (l.map Prod.fst).Nodup) (hmem : (it, key) ∈ l)
    (huniq : ∀ n ∈ l, n.2 = key → n = (it, key)) :
    (list_erase l it).map Prod.snd = (l.map Prod.snd).filter (fun k => !decide (k = key)) := by
  have h1 : list_erase l it = l.filter (fun n => !decide (n.2 = key)) := by
    unfold list_erase
    apply List.filter_congr
    intro n hn
    have hiff : n.1 = it ↔ n.2 = key := by
      constructor
      · intro h
        have := List.inj_on_of_nodup_map hnodes hn hmem h
        rw [this]
      · intro h
        rw [huniq n hn h]
    by_cases h : n.1 = it
    · simp [h, hiff.1 h]
    · simp [h, mt hiff.2 h]
  rw [h1, List.filter_map]
  rfl

theorem list_erase_length (l : List (Nat × K)) (it : Nat) (key : K)
    (hnodes : (l.map Prod.fst).Nodup) (hmem : (it, key) ∈ l) :
    (list_erase l it).length + 1 = l.length := by
  induction l with
  | nil => simp at hmem
  | cons n rest ih =>
    simp only [List.map_cons, List.nodup_cons] at hnodes
    rcases List.mem_cons.1 hmem with h | h
    · have hn : n.1 = it := by rw [← h]
      have hrest : list_erase rest it = rest := by
        unfold list_erase
        apply List.filter_eq_self.2
        intro m hm
        have : m.1 ≠ it := fun he =>
          hnodes.1 (by rw [hn, ← he]; exact List.mem_map_of_mem _ hm)
        simpa using this
      have hstep : list_erase (n :: rest) it = list_erase rest it := by
        unfold list_erase
        rw [List.filter_cons_of_neg]
        simp [hn]
      rw [hstep, hrest]
      rfl
    · have hn : n.1 ≠ it := fun he =>
        hnodes.1 (by rw [he]; exact List.mem_map_of_mem Prod.fst h)
      have hstep : list_erase (n :: rest) it = n :: list_erase rest it := by
        unfold list_erase
        rw [List.filter_cons_of_pos]
        simpa using hn
      have := ih hnodes.2 h
      rw [hstep]
      simp only [List.length_cons]
      omega

/-- The state both `get` (on a hit) and `put` (on an existing key) leave, on every sound
cache: the node of `key` is unlinked, a new node for `key` is pushed at the front, and the entry
of `key` gets the value `d` and the iterator of the new node. -/
theorem promote_sound [DecidableEq K] (law : KeyEq.Lawful K) {c : LruCache K V} (h : Sound c)
    (key : K) (e : CacheEntry V) (hfind : umap_find c.items_map_ key = some e) (d : V)
    (c2 : LruCache K V)
    (hc2 : c2 = { c with
      lru_list_ := (c.next_node_, key) :: list_erase c.lru_list_ e.lru_iterator,
      items_map_ := umap_assign c.items_map_ key
        { data_ptr := d, lru_iterator := c.next_node_ },
      next_node_ := c.next_node_ + 1 }) :
    Sound c2 ∧ c2.keys = key :: c.keys.filter (fun k => !decide (k = key)) ∧
    c2.capacity_ = c.capacity_ ∧ c2.items_map_.length = c.items_map_.length ∧
    c2.lru_list_.length = c.lru_list_.length ∧ key ∈ c.keys ∧
    lookup c2 key = some d ∧ ∀ k, k ≠ key → lookup c2 k = lookup c k := by
  have hsane := (umap_find_some law _ _ _ hfind).1
  have hmem : (e.lru_iterator, key) ∈ c.lru_list_ := h.iterators key e hfind
  have huniq := h.unique_node law key e hfind
  have herase := list_erase_keys_unique c.lru_list_ e.lru_iterator key h.nodes_nodup hmem huniq
  have hlen := list_erase_length c.lru_list_ e.lru_iterator key h.nodes_nodup hmem
  have hsub : List.Sublist (list_erase c.lru_list_ e.lru_iterator) c.lru_list_ :=
    List.filter_sublist _
  have hkeymem : key ∈ c.keys := by
    simp only [keys]
    exact List.mem_map_of_mem Prod.snd hmem
  have hnot : ∀ n ∈ list_erase c.lru_list_ e.lru_iterator, n.2 ≠ key := by
    intro n hn hk
    have hn1 : n ∈ c.lru_list_ := hsub.subset hn
    have := huniq n hn1 hk
    unfold list_erase at hn
    have hne := (List.mem_filter.1 hn).2
    rw [this] at hne
    simp at hne
  refine ⟨⟨?_, ?_, ?_, ?_, ?_⟩, ?_, by rw [hc2], ?_, ?_, hkeymem, ?_, ?_⟩
  · rw [hc2]
    simp only [List.map_cons]
    refine List.nodup_cons.2 ⟨?_, List.Nodup.sublist (hsub.map _) h.nodes_nodup⟩
    intro hin
    obtain ⟨n, hn, hn1⟩ := List.mem_map.1 hin
    have := h.nodes_lt n (hsub.subset hn)
    omega
  · rw [hc2]
    intro n hn
    rcases List.mem_cons.1 hn with h0 | h0
    · rw [h0]; exact Nat.lt_succ_self _
    · exact Nat.lt_succ_of_lt (h.nodes_lt n (hsub.subset h0))
  · rw [hc2]
    intro k e2 hf
    by_cases hk : k = key
    · subst hk
      rw [umap_find_assign_eq _ _ _ _ hfind] at hf
      cases hf
      exact List.mem_cons_self _ _
    · rw [umap_find_assign_ne law _ _ _ _ hk] at hf
      have hm2 := h.iterators k e2 hf
      refine List.mem_cons_of_mem _ ?_
      unfold list_erase
      refine List.mem_filter.2 ⟨hm2, ?_⟩
      have hne : e2.lru_iterator ≠ e.lru_iterator := by
        intro he
        have := List.inj_on_of_nodup_map h.nodes_nodup hm2 hmem he
        exact hk (congrArg Prod.snd this)
      simpa using hne
  · rw [hc2]
    refine List.pairwise_cons.2 ⟨?_, h.listed_once.sublist hsub⟩
    intro b hb hkb
    exact hnot b hb (law _ _ hkb).symm
  · rw [hc2]
    intro n hn hs
    by_cases hk : n.2 = key
    · rw [hk, umap_find_assign_eq _ _ _ _ hfind]
      simp
    · rw [umap_find_assign_ne law _ _ _ _ hk]
      rcases List.mem_cons.1 hn with h0 | h0
      · exact absurd (by rw [h0]) hk
      · exact h.listed_found n (hsub.subset h0) hs
  · rw [hc2]
    simp only [keys, List.map_cons]
    rw [herase]
  · rw [hc2]
    exact umap_assign_length _ _ _
  · rw [hc2]
    simp only [List.length_cons]
    omega
  · rw [hc2]
    simp [lookup, umap_find_assign_eq _ _ _ _ hfind]
  · intro k hk
    rw [hc2]
    simp [lookup, umap_find_assign_ne law _ _ _ _ hk]

theorem sound_get [DecidableEq K] (law : KeyEq.Lawful K) {c : LruCache K V} (h : Sound c)
    (key : K) : Sound (get c key).2 := by
  cases hfind : umap_find c.items_map_ key with
  | none =>
    have : (get c key).2 = c := by unfold get; rw [hfind]
    rw [this]; exact h
  | some e =>
    exact (promote_sound law h key e hfind e.data_ptr (get c key).2
      (by unfold get; rw [hfind])).1

theorem sound_put [DecidableEq K] (law : KeyEq.Lawful K) {c : LruCache K V} (h : Sound c)
    (key : K) (v : V) : Sound (put c key v) := by
  by_cases hcap : c.capacity_ = 0
  · rw [put_capacity_zero c key v hcap]; exact h
  · cases hfind : umap_find c.items_map_ key with
    | some e =>
      exact (promote_sound law h key e hfind v (put c key v)
        (by unfold put; rw [if_neg hcap, hfind])).1
    | none =>
      obtain ⟨c1, hc1def, hc1, hfind1⟩ :
          ∃ c1 : LruCache K V,
            c1 = (if c.items_map_.length ≥ c.capacity_ then evict_oldest_nolock c else c) ∧
            Sound c1 ∧ umap_find c1.items_map_ key = none := by
        refine ⟨_, rfl, ?_, find_after_optional_evict law c key hfind⟩
        split
        · exact (sound_evict law h).1
        · exact h
      have hput : put c key v =
          { c1 with lru_list_ := (c1.next_node_, key) :: c1.lru_list_,
                    items_map_ := (key, { data_ptr := v, lru_iterator := c1.next_node_ }) ::
                      c1.items_map_,
                    next_node_ := c1.next_node_ + 1 } := by
        unfold put
        rw [if_neg hcap, hfind]
        simp only [← hc1def, umap_emplace, hfind1]
      rw [hput]
      refine ⟨?_, ?_, ?_, ?_, ?_⟩
      · simp only [List.map_cons]
        refine List.nodup_cons.2 ⟨?_, hc1.nodes_nodup⟩
        intro hin
        obtain ⟨n, hn, hn1⟩ := List.mem_map.1 hin
        have := hc1.nodes_lt n hn
        omega
      · intro n hn
        rcases List.mem_cons.1 hn with h0 | h0
        · rw [h0]; exact Nat.lt_succ_self _
        · exact Nat.lt_succ_of_lt (hc1.nodes_lt n h0)
      · intro k e hf
        rw [umap_find_cons] at hf
        by_cases hk : KeyEq.key_eq key k
        · rw [if_pos hk] at hf
          have := law key k hk
          subst this
          cases hf
          exact List.mem_cons_self _ _
        · rw [if_neg hk] at hf
          exact List.mem_cons_of_mem _ (hc1.iterators k e hf)
      · refine List.pairwise_cons.2 ⟨?_, hc1.listed_once⟩
        intro b hb hkb
        have hbk := law _ _ hkb
        have hb2 : b.2 = key := hbk.symm
        have := hc1.listed_found b hb (by rw [KeyEq.sane, hb2]; exact KeyEq.sane_left law hkb)
        rw [hb2] at this
        exact this hfind1
      · intro n hn hs
        rw [umap_find_cons]
        by_cases hk : KeyEq.key_eq key n.2
        · rw [if_pos hk]; simp
        · rw [if_neg hk]
          rcases List.mem_cons.1 hn with h0 | h0
          · rw [h0] at hs hk
            exact absurd hs hk
          · exact hc1.listed_found n h0 hs

/-- Every cache reached from a freshly constructed one is sound, whatever keys were used. -/
theorem reachable_sound [DecidableEq K] (law : KeyEq.Lawful K) (ops : List (CacheOp K V)) :
    Sound (run_ops (init : LruCache K V) ops) := by
  induction ops using List.reverseRecOn with
  | nil => exact sound_init
  | append_singleton ops op ih =>
    rw [run_ops_concat]
    cases op with
    | set_capacity capacity => exact sound_set_capacity law ih capacity
    | put key v => exact sound_put law ih key v
    | get key => exact sound_get law ih key
    | clear => exact sound_clear _

end LruCache

/-! ## The cache contracts under plain equality of keys -/

/-- Under plain equality of keys: after `cap + 1` pairwise distinct keys are put into an empty
cache of capacity `cap ≥ 1`, the first key put is gone and the others are held. -/
theorem lru_eviction_plain {K V : Type} [DecidableEq K] (c0 : LruCache K V)
    (hlist : c0.lru_list_ = []) (hmap : c0.items_map_ = [])
    (cap : Nat) (hcap : 1 ≤ cap) (k0 : K) (v0 : V) (rest : List (K × V))
    (hlen : rest.length = cap) (hnodup : (((k0, v0) :: rest).map Prod.fst).Nodup)
    (probes : List K) :
    (LruCache.get (LruCache.get_all
      (LruCache.put_all (LruCache.set_capacity c0 cap) ((k0, v0) :: rest)) probes) k0).1
      = none ∧
    ∀ kv ∈ rest,
      (LruCache.get (LruCache.get_all
        (LruCache.put_all (LruCache.set_capacity c0 cap) ((k0, v0) :: rest)) probes)
        kv.1).1 = some kv.2 := by
  simp only [LruCache.get_fst, LruCache.lookup_get_all (KeyEq.plain_lawful K)]
  simp only [← LruCache.get_fst]
  -- the cache after `set_capacity`
  have hset : LruCache.set_capacity c0 cap = { c0 with capacity_ := cap } := by
    have hpos : cap > 0 := hcap
    simp [LruCache.set_capacity, hlist, hpos, LruCache.evict_while_over]
  set c1 : LruCache K V := { c0 with capacity_ := cap } with hc1
  rw [hset]
  have hcons : LruCache.Consistent c1 := by
    refine ⟨?_, ?_, ?_⟩ <;> simp [hc1, LruCache.keys, hlist, hmap]
  have hkeys1 : c1.keys = [] := by simp [hc1, LruCache.keys, hlist]
  -- split off the last pair put
  have hne : rest ≠ [] := by
    intro h; rw [h] at hlen; simp at hlen; omega
  obtain ⟨rinit, last, hrest⟩ : ∃ rinit last, rest = rinit ++ [last] :=
    ⟨rest.dropLast, rest.getLast hne, (List.dropLast_append_getLast hne).symm⟩
  subst hrest
  simp only [List.length_append, List.length_singleton] at hlen
  have hsplit : (k0, v0) :: (rinit ++ [last]) = ((k0, v0) :: rinit) ++ [last] := by simp
  rw [hsplit] at hnodup ⊢
  rw [List.map_append, List.nodup_append] at hnodup
  obtain ⟨a1, a2, a3, a4⟩ := LruCache.put_all_within_capacity c1 hcons hkeys1
    (by simpa [hc1] using hcap) ((k0, v0) :: rinit)
    (by simp [hc1]; omega) hnodup.1
  set c2 := LruCache.put_all c1 ((k0, v0) :: rinit) with hc2
  have hfresh : last.1 ∉ c2.keys := by
    rw [a3, List.mem_reverse]
    intro hmem
    exact hnodup.2.2 hmem (by simp)
  obtain ⟨p1, p2, p3, p4, p5⟩ :=
    LruCache.put_fresh_spec a1 (by rw [a2]; simpa [hc1] using hcap) last.1 last.2 hfresh
  have hfull : c2.capacity_ ≤ c2.keys.length := by
    rw [a2, a3]; simp [hc1]; omega
  rw [if_pos hfull, a3] at p3
  simp only [List.map_cons, List.reverse_cons, List.dropLast_concat] at p3
  rw [LruCache.put_all_concat, LruCache.get_fst]
  have hk0 : k0 ∉ (LruCache.put c2 last.1 last.2).keys := by
    rw [p3]
    simp only [List.mem_cons, List.mem_reverse, not_or]
    have hnd := hnodup.1
    simp only [List.map_cons, List.nodup_cons] at hnd
    refine ⟨?_, hnd.1⟩
    intro he
    exact hnodup.2.2 (by simp) (by simp [he] : k0 ∈ [last].map Prod.fst)
  refine ⟨(LruCache.Consistent.lookup_eq_none_iff p1 k0).2 hk0, ?_⟩
  intro kv hkv
  rw [LruCache.get_fst]
  rcases List.mem_append.1 hkv with hm | hm
  · have hne2 : kv.1 ≠ last.1 := by
      intro he
      exact hnodup.2.2 (List.mem_cons_of_mem _ (List.mem_map_of_mem Prod.fst hm)) (by simp [he])
    have hmem : kv.1 ∈ (LruCache.put c2 last.1 last.2).keys := by
      rw [p3]
      simp only [List.mem_cons, List.mem_reverse]
      exact Or.inr (List.mem_map_of_mem Prod.fst hm)
    rw [p5 kv.1 hne2 hmem]
    exact a4 kv (List.mem_cons_of_mem _ hm)
  · have : kv = last := by simpa using hm
    rw [this]; exact p4

/-- Under plain equality of keys: the key a `put` of a new key evicts from a full cache is the
one used least recently. -/
theorem get_promotes_plain {K V : Type} [DecidableEq K] :
    (∀ (ops : List (LruCache.CacheOp K V)) (c : LruCache K V) (key : K) (v : V),
      c = LruCache.run_ops LruCache.init ops → 1 ≤ c.capacity_ → c.size = c.capacity_ →
      (LruCache.get c key).1 = none →
      ∃ old, (LruCache.get c old).1 ≠ none ∧
        (∀ k, k ≠ old → (LruCache.get c k).1 ≠ none →
          LruCache.last_use ops old < LruCache.last_use ops k) ∧
        (LruCache.get (LruCache.put c key v) old).1 = none ∧
        (LruCache.get (LruCache.put c key v) key).1 = some v ∧
        ∀ k, k ≠ old → k ≠ key →
          (LruCache.get (LruCache.put c key v) k).1 = (LruCache.get c k).1) ∧
    (∀ (cap : Nat) (k1 k2 knew : K) (v1 v2 vnew : V) (rest : List (K × V))
      (c : LruCache K V),
      2 ≤ cap → rest.length + 2 = cap →
      (knew :: k1 :: k2 :: rest.map Prod.fst).Nodup →
      c = LruCache.put (LruCache.get (LruCache.put_all
            (LruCache.set_capacity LruCache.init cap) ((k1, v1) :: (k2, v2) :: rest)) k1).2
            knew vnew →
      (LruCache.get c k2).1 = none ∧ (LruCache.get c k1).1 = some v1 ∧
      (LruCache.get c knew).1 = some vnew ∧
      ∀ kv ∈ rest, (LruCache.get c kv.1).1 = some kv.2) := by
  constructor
  · intro ops c key v hc hcap hfull hmiss
    obtain ⟨hwf, hb⟩ := LruCache.reachable_invariant (K := K) (V := V) ops
    have hrec := LruCache.recency_order (K := K) (V := V) ops
    rw [← hc] at hwf hb hrec
    simp only [LruCache.get_fst] at hmiss ⊢
    have hfresh : key ∉ c.keys := (hwf.consistent.lookup_eq_none_iff key).1 hmiss
    have hlen : c.keys.length = c.capacity_ := by
      rw [← hfull, LruCache.size, hwf.consistent.length_eq, LruCache.keys_length]
    have hne : c.keys ≠ [] := by
      intro h0
      have h1 : c.keys.length = 0 := by rw [h0]; rfl
      omega
    obtain ⟨old, hlast⟩ := Option.isSome_iff_exists.1 (List.getLast?_isSome.2 hne)
    obtain ⟨ys, hys⟩ := List.getLast?_eq_some_iff.1 hlast
    obtain ⟨p1, p2, p3, p4, p5⟩ := LruCache.put_fresh_spec hwf.consistent hcap key v hfresh
    rw [if_pos (by omega)] at p3
    have hold : old ∈ c.keys := by rw [hys]; simp
    have hkeymem : ∀ k, k ∈ (LruCache.put c key v).keys ↔ k = key ∨ (k ∈ c.keys ∧ k ≠ old) := by
      intro k
      rw [p3, List.mem_cons,
        LruCache.mem_dropLast_iff_of_nodup _ old k hlast hwf.consistent.keys_nodup]
    have hstored : ∀ k, LruCache.lookup c k ≠ none ↔ k ∈ c.keys := by
      intro k
      rw [Ne, hwf.consistent.lookup_eq_none_iff, not_not]
    refine ⟨old, (hstored old).2 hold, ?_, ?_, p4, ?_⟩
    · intro k hk hks
      have hkm : k ∈ c.keys := (hstored k).1 hks
      rw [hys] at hrec hkm
      have hk2 : k ∈ ys := by
        rcases List.mem_append.1 hkm with h1 | h1
        · exact h1
        · exact absurd (by simpa using h1) hk
      exact (List.pairwise_append.1 hrec).2.2 k hk2 old (by simp)
    · rw [p1.lookup_eq_none_iff, hkeymem]
      intro h
      rcases h with h | h
      · exact hfresh (h ▸ hold)
      · exact h.2 rfl
    · intro k hk hk2
      by_cases hkm : k ∈ c.keys
      · exact p5 k hk2 ((hkeymem k).2 (Or.inr ⟨hkm, hk⟩))
      · rw [(hwf.consistent.lookup_eq_none_iff k).2 hkm, p1.lookup_eq_none_iff, hkeymem]
        intro h
        rcases h with h | h
        · exact hk2 h
        · exact hkm h.1
  · intro cap k1 k2 knew v1 v2 vnew rest c hcap hlen hnd hc
    obtain ⟨hwf0, hb0⟩ := LruCache.invariant_apply_op (LruCache.wf_init (K := K) (V := V))
      (by simp [LruCache.init]) (LruCache.CacheOp.set_capacity cap)
    obtain ⟨s1, s2, s3, s4⟩ := LruCache.set_capacity_spec (LruCache.wf_init (K := K) (V := V)) cap
    have hpos : cap > 0 := by omega
    rw [if_pos hpos] at s2 s3
    have hk0 : (LruCache.set_capacity (LruCache.init : LruCache K V) cap).keys = [] := by
      rw [s3]; simp [LruCache.init, LruCache.keys]
    simp only [List.nodup_cons, List.mem_cons, not_or] at hnd
    obtain ⟨⟨hn1, hn2, hn3⟩, ⟨h12, h1r⟩, h2r, hrn⟩ := hnd
    obtain ⟨a1, a2, a3, a4⟩ := LruCache.put_all_within_capacity _ s1.consistent hk0
      (by rw [s2]; omega) ((k1, v1) :: (k2, v2) :: rest)
      (by rw [s2]; simp; omega)
      (by simp only [List.map_cons, List.nodup_cons, List.mem_cons, not_or]
          exact ⟨⟨h12, h1r⟩, h2r, hrn⟩)
    obtain ⟨b1, b2⟩ := LruCache.invariant_put_all s1 hb0 ((k1, v1) :: (k2, v2) :: rest)
    simp only [List.map_cons, List.reverse_cons] at a3
    have hk1mem : k1 ∈ (LruCache.put_all (LruCache.set_capacity (LruCache.init : LruCache K V)
        cap) ((k1, v1) :: (k2, v2) :: rest)).keys := by
      rw [a3]; simp
    obtain ⟨g1, g2, g3, g4, g5⟩ := LruCache.get_hit_spec b1 k1 hk1mem
    have hfilter : ((rest.map Prod.fst).reverse ++ [k2] ++ [k1]).filter
        (fun k => !decide (k = k1)) = (rest.map Prod.fst).reverse ++ [k2] := by
      rw [List.filter_append]
      have hA : ((rest.map Prod.fst).reverse ++ [k2]).filter (fun k => !decide (k = k1))
          = (rest.map Prod.fst).reverse ++ [k2] := by
        apply List.filter_eq_self.2
        intro a ha
        rcases List.mem_append.1 ha with h | h
        · have : a ≠ k1 := fun he => h1r (he ▸ List.mem_reverse.1 h)
          simpa using this
        · have : a ≠ k1 := by
            have : a = k2 := by simpa using h
            rw [this]; exact Ne.symm h12
          simpa using this
      rw [hA]
      simp
    rw [a3, hfilter] at g2
    have hfresh : knew ∉ (LruCache.get (LruCache.put_all (LruCache.set_capacity
        (LruCache.init : LruCache K V) cap) ((k1, v1) :: (k2, v2) :: rest)) k1).2.keys := by
      rw [g2]
      simp only [List.mem_cons, List.mem_append, List.mem_reverse, List.mem_singleton, not_or]
      exact ⟨hn1, hn3, hn2, List.not_mem_nil _⟩
    obtain ⟨p1, p2, p3, p4, p5⟩ := LruCache.put_fresh_spec g1.consistent
      (by rw [g3, a2, s2]; omega) knew vnew hfresh
    rw [if_pos (by rw [g3, a2, s2, g2]; simp; omega), g2, ← hc] at p3
    rw [← hc] at p1 p4 p5
    have hkeys : c.keys = knew :: k1 :: (rest.map Prod.fst).reverse := by
      rw [p3, ← List.cons_append, List.dropLast_concat]
    simp only [LruCache.get_fst]
    refine ⟨?_, ?_, p4, ?_⟩
    · rw [p1.lookup_eq_none_iff, hkeys]
      simp only [List.mem_cons, List.mem_reverse, not_or]
      exact ⟨Ne.symm hn2, Ne.symm h12, h2r⟩
    · rw [p5 k1 (Ne.symm hn1) (by rw [hkeys]; simp), g5]
      exact a4 (k1, v1) (by simp)
    · intro kv hkv
      have hm : kv.1 ∈ rest.map Prod.fst := List.mem_map_of_mem Prod.fst hkv
      rw [p5 kv.1 (fun he => hn3 (he ▸ hm)) (by rw [hkeys]; simp [hm]), g5]
      exact a4 kv (by simp [hkv])

/-- Under plain equality of keys: `set_capacity(n)` keeps the `n` most recently used entries. -/
theorem set_capacity_shrinks_plain {K V : Type} [DecidableEq K]
    (ops : List (LruCache.CacheOp K V)) (c : LruCache K V) (n : Nat)
    (hc : c = LruCache.run_ops LruCache.init ops) (hn : 1 ≤ n) :
    (LruCache.set_capacity c n).get_capacity = n ∧
    (LruCache.set_capacity c n).size = min c.size n ∧
    (LruCache.set_capacity c n).keys = c.keys.take n ∧
    (∀ k ∈ c.keys.take n, (LruCache.get (LruCache.set_capacity c n) k).1 = (LruCache.get c k).1 ∧
      (LruCache.get c k).1 ≠ none) ∧
    (∀ k, k ∉ c.keys.take n → (LruCache.get (LruCache.set_capacity c n) k).1 = none) ∧
    ∀ a ∈ c.keys.take n, ∀ b ∈ c.keys.drop n,
      LruCache.last_use ops b < LruCache.last_use ops a := by
  obtain ⟨hwf, hb⟩ := LruCache.reachable_invariant (K := K) (V := V) ops
  have hrec := LruCache.recency_order (K := K) (V := V) ops
  rw [← hc] at hwf hb hrec
  obtain ⟨s1, s2, s3, s4⟩ := LruCache.set_capacity_spec hwf n
  have hpos : n > 0 := hn
  rw [if_pos hpos] at s2 s3
  simp only [LruCache.get_fst]
  refine ⟨s2, ?_, s3, ?_, ?_, ?_⟩
  · rw [LruCache.size, LruCache.size, s1.consistent.length_eq, ← LruCache.keys_length, s3,
      hwf.consistent.length_eq, ← LruCache.keys_length, List.length_take, Nat.min_comm]
  · intro k hk
    refine ⟨s4 k (by rw [s3]; exact hk), ?_⟩
    rw [Ne, hwf.consistent.lookup_eq_none_iff, not_not]
    exact List.mem_of_mem_take hk
  · intro k hk
    rw [s1.consistent.lookup_eq_none_iff, s3]
    exact hk
  · intro a ha b hb2
    rw [← List.take_append_drop n c.keys] at hrec
    exact (List.pairwise_append.1 hrec).2.2 a ha b hb2

/-- Under plain equality of keys: a cache configured with `set_capacity(0)` holds the last key
put. -/
theorem set_capacity_zero_keeps_one_plain {K V : Type} [DecidableEq K]
    (ops : List (LruCache.CacheOp K V)) (c : LruCache K V) (kvs : List (K × V))
    (klast : K) (vlast : V)
    (hc : c = LruCache.set_capacity (LruCache.run_ops LruCache.init ops) 0) :
    c.get_capacity = 1 ∧
    (LruCache.put_all c (kvs ++ [(klast, vlast)])).keys = [klast] ∧
    (LruCache.get (LruCache.put_all c (kvs ++ [(klast, vlast)])) klast).1 = some vlast ∧
    ∀ k, k ≠ klast → (LruCache.get (LruCache.put_all c (kvs ++ [(klast, vlast)])) k).1 = none := by
  obtain ⟨hwf, hb⟩ := LruCache.reachable_invariant (K := K) (V := V) ops
  obtain ⟨hwf0, hb0⟩ := LruCache.invariant_apply_op hwf hb (LruCache.CacheOp.set_capacity 0)
  have hcap0 := (LruCache.capacity_set_capacity (LruCache.run_ops LruCache.init ops) 0).1
  simp only [gt_iff_lt, lt_self_iff_false, if_false] at hcap0
  have hwfc : LruCache.WellFormed c := by rw [hc]; exact hwf0
  have hbc : c.items_map_.length ≤ c.capacity_ := by rw [hc]; exact hb0
  have hcapc : c.capacity_ = 1 := by rw [hc]; exact hcap0
  obtain ⟨i1, i2⟩ := LruCache.invariant_put_all hwfc hbc kvs
  obtain ⟨q1, q2, q3⟩ := LruCache.put_capacity_one i1 i2
    (by rw [LruCache.capacity_put_all]; exact hcapc) klast vlast
  rw [LruCache.put_all_concat]
  simp only [LruCache.get_fst]
  refine ⟨hcapc, q2, q3, ?_⟩
  intro k hk
  rw [q1.consistent.lookup_eq_none_iff, q2]
  simpa using hk

/-- Under plain equality of keys: `set_capacity(0)` is `set_capacity(1)`. -/
theorem set_capacity_coerces_zero_plain {K V : Type} [DecidableEq K] (c : LruCache K V) :
    LruCache.set_capacity c 0 = LruCache.set_capacity c 1 ∧
    (LruCache.set_capacity c 0).get_capacity = 1 ∧
    ∀ ops : List (LruCache.CacheOp K V), c = LruCache.run_ops LruCache.init ops →
      (LruCache.set_capacity c 0).keys = c.keys.take 1 ∧
      (LruCache.set_capacity c 0).size = min c.size 1 ∧
      (∀ k ∈ c.keys.take 1,
        (LruCache.get (LruCache.set_capacity c 0) k).1 = (LruCache.get c k).1) ∧
      ∀ k, k ∉ c.keys.take 1 → (LruCache.get (LruCache.set_capacity c 0) k).1 = none := by
  refine ⟨rfl, (LruCache.capacity_set_capacity c 0).1, ?_⟩
  intro ops hc
  obtain ⟨hwf, hb⟩ := LruCache.reachable_invariant (K := K) (V := V) ops
  rw [← hc] at hwf hb
  obtain ⟨s1, s2, s3, s4⟩ := LruCache.set_capacity_spec hwf 0
  simp only [gt_iff_lt, lt_self_iff_false, if_false] at s2 s3
  simp only [LruCache.get_fst]
  refine ⟨s3, ?_, fun k hk => s4 k (by rw [s3]; exact hk), ?_⟩
  · rw [LruCache.size, LruCache.size, s1.consistent.length_eq, ← LruCache.keys_length, s3,
      hwf.consistent.length_eq, ← LruCache.keys_length, List.length_take, Nat.min_comm]
  · intro k hk
    rw [s1.consistent.lookup_eq_none_iff, s3]
    exact hk

/-- Under plain equality of keys: no more entries than the capacity. -/
theorem capacity_bound_plain {K V : Type} [DecidableEq K] (ops : List (LruCache.CacheOp K V)) :
    (LruCache.run_ops (LruCache.init : LruCache K V) ops).size ≤
      (LruCache.run_ops (LruCache.init : LruCache K V) ops).get_capacity ∧
    (LruCache.run_ops (LruCache.init : LruCache K V) ops).lru_list_.length ≤
      (LruCache.run_ops (LruCache.init : LruCache K V) ops).get_capacity := by
  obtain ⟨hwf, hb⟩ := LruCache.reachable_invariant (K := K) (V := V) ops
  refine ⟨hb, ?_⟩
  rw [← hwf.consistent.length_eq]
  exact hb

/-- Under plain equality of keys: the recency list and the key-map are consistent. -/
theorem consistency_plain {K V : Type} [DecidableEq K] (ops : List (LruCache.CacheOp K V)) :
    (LruCache.run_ops (LruCache.init : LruCache K V) ops).keys.Nodup ∧
    ((LruCache.run_ops (LruCache.init : LruCache K V) ops).items_map_.map Prod.fst).Nodup ∧
    (∀ k, k ∈ (LruCache.run_ops (LruCache.init : LruCache K V) ops).keys ↔
      k ∈ (LruCache.run_ops (LruCache.init : LruCache K V) ops).items_map_.map Prod.fst) ∧
    ((LruCache.run_ops (LruCache.init : LruCache K V) ops).lru_list_.map Prod.fst).Nodup ∧
    ∀ kv ∈ (LruCache.run_ops (LruCache.init : LruCache K V) ops).items_map_,
      (kv.2.lru_iterator, kv.1) ∈
        (LruCache.run_ops (LruCache.init : LruCache K V) ops).lru_list_ := by
  obtain ⟨hwf, hb⟩ := LruCache.reachable_invariant (K := K) (V := V) ops
  refine ⟨hwf.consistent.keys_nodup, hwf.consistent.map_nodup, hwf.consistent.same_keys,
    hwf.nodes_nodup, ?_⟩
  intro kv hkv
  exact hwf.iterators kv.1 kv.2
    (LruCache.umap_find_of_mem _ kv.1 kv.2 hwf.consistent.map_nodup hkv)

/-! ## The cache contracts -/

/-- C1, as amended. LRU eviction, for keys that hold no NaN: for every capacity `cap ≥ 1` set
with `set_capacity` on an empty L1 or L2 cache, after `cap + 1` pairwise distinct keys, each
equal to itself under `operator==`, are put in order with no `get` in between, `get` misses on
the first key put and hits on each of the other `cap` keys, returning the value that was put for
it; this holds for the first `get` after the puts and after any number of earlier `get` calls
(`probes`, of any keys). -/
theorem C1_lru_eviction {K V : Type} [DecidableEq K] [KeyEq K] (law : KeyEq.Lawful K)
    (c0 : LruCache K V) (hlist : c0.lru_list_ = []) (hmap : c0.items_map_ = [])
    (cap : Nat) (hcap : 1 ≤ cap) (k0 : K) (v0 : V) (rest : List (K × V))
    (hlen : rest.length = cap) (hnodup : (((k0, v0) :: rest).map Prod.fst).Nodup)
    (hsane : ∀ kv ∈ (k0, v0) :: rest, KeyEq.sane kv.1) (probes : List K) :
    (LruCache.get (LruCache.get_all
      (LruCache.put_all (LruCache.set_capacity c0 cap) ((k0, v0) :: rest)) probes) k0).1
      = none ∧
    ∀ kv ∈ rest,
      (LruCache.get (LruCache.get_all
        (LruCache.put_all (LruCache.set_capacity c0 cap) ((k0, v0) :: rest)) probes)
        kv.1).1 = some kv.2 := by
  have h0 : LruCache.AllSane c0 := ⟨by rw [hlist]; simp, by rw [hmap]; simp⟩
  obtain ⟨e1, h1⟩ := LruCache.set_capacity_plain law c0 h0 cap
  obtain ⟨e2, h2⟩ := LruCache.put_all_plain law ((k0, v0) :: rest) _ h1 hsane
  have hp := lru_eviction_plain c0 hlist hmap cap hcap k0 v0 rest hlen hnodup []
  simp only [LruCache.get_all, List.foldl_nil, LruCache.get_fst] at hp
  simp only [LruCache.get_fst, LruCache.lookup_get_all law, LruCache.lookup_plain law _ h2]
  rw [e2, e1]
  exact hp

/-- Witness for C1: capacity 2, the L2 keys of objects 1, 2, 3 put into a fresh cache, then
probed in the order 3, 1, 2. -/
theorem C1_lru_eviction_witness :
    (LruCache.get (LruCache.get_all
      (LruCache.put_all (LruCache.set_capacity (LruCache.init : LruCacheL2Internal) 2)
        [(sample_key_a, sample_world_data 1), (sample_key_b, sample_world_data 2),
         (sample_key_c, sample_world_data 3)])
        [sample_key_c, sample_key_a, sample_key_b]) sample_key_a).1 = none ∧
    ∀ kv ∈ [(sample_key_b, sample_world_data 2), (sample_key_c, sample_world_data 3)],
      (LruCache.get (LruCache.get_all
        (LruCache.put_all (LruCache.set_capacity (LruCache.init : LruCacheL2Internal) 2)
          [(sample_key_a, sample_world_data 1), (sample_key_b, sample_world_data 2),
           (sample_key_c, sample_world_data 3)])
          [sample_key_c, sample_key_a, sample_key_b]) kv.1).1 = some kv.2 :=
  C1_lru_eviction cache_key_l2_lawful LruCache.init rfl rfl 2 (by decide) sample_key_a
    (sample_world_data 1) [(sample_key_b, sample_world_data 2), (sample_key_c, sample_world_data 3)]
    rfl (by decide!) (by decide!) [sample_key_c, sample_key_a, sample_key_b]

/-- Counterexample to C1 as stated: an L2 cache of capacity 2 and three pairwise distinct keys,
the second of which holds a NaN in its transform. After the three puts `get` misses on the
second key, which the claim says is held: `operator==` never finds a key with a NaN. -/
theorem C1_counterexample :
    [sample_key_a, sample_key_nan, sample_key_c].Nodup ∧
    (LruCache.get (LruCache.put_all
      (LruCache.set_capacity (LruCache.init : LruCacheL2Internal) 2)
      [(sample_key_a, sample_world_data 1), (sample_key_nan, sample_world_data 2),
       (sample_key_c, sample_world_data 3)]) sample_key_nan).1 = none := by
  decide!

/-- C12, as amended. A `get` promotes to most recently used, for keys that hold no NaN. In
every cache reached from a freshly constructed one by `set_capacity`, `put`, `get` and `clear`
calls whose `put` keys equal themselves under `operator==`, and that is full (as many entries
as its capacity, which is at least 1), a `put` of a key it does not hold evicts exactly one
entry `old`, and `old` is the stored key whose last `put` or `get` is older than that of every
other stored key; all other entries stay with their values. In particular, for a capacity
`cap ≥ 2`, after `cap` pairwise distinct keys are put into a fresh cache and the first is then
fetched with `get`, the `put` of a new key evicts the second key put and keeps the first (and
every other one). -/
theorem C12_get_promotes {K V : Type} [DecidableEq K] [KeyEq K] (law : KeyEq.Lawful K) :
    (∀ (ops : List (LruCache.CacheOp K V)) (c : LruCache K V) (key : K) (v : V),
      (∀ k ∈ LruCache.put_keys ops, KeyEq.sane k) → KeyEq.sane key →
      c = LruCache.run_ops LruCache.init ops → 1 ≤ c.capacity_ → c.size = c.capacity_ →
      (LruCache.get c key).1 = none →
      ∃ old, (LruCache.get c old).1 ≠ none ∧
        (∀ k, k ≠ old → (LruCache.get c k).1 ≠ none →
          LruCache.last_use ops old < LruCache.last_use ops k) ∧
        (LruCache.get (LruCache.put c key v) old).1 = none ∧
        (LruCache.get (LruCache.put c key v) key).1 = some v ∧
        ∀ k, k ≠ old → k ≠ key →
          (LruCache.get (LruCache.put c key v) k).1 = (LruCache.get c k).1) ∧
    (∀ (cap : Nat) (k1 k2 knew : K) (v1 v2 vnew : V) (rest : List (K × V))
      (c : LruCache K V),
      2 ≤ cap → rest.length + 2 = cap →
      (knew :: k1 :: k2 :: rest.map Prod.fst).Nodup →
      (∀ k ∈ knew :: k1 :: k2 :: rest.map Prod.fst, KeyEq.sane k) →
      c = LruCache.put (LruCache.get (LruCache.put_all
            (LruCache.set_capacity LruCache.init cap) ((k1, v1) :: (k2, v2) :: rest)) k1).2
            knew vnew →
      (LruCache.get c k2).1 = none ∧ (LruCache.get c k1).1 = some v1 ∧
      (LruCache.get c knew).1 = some vnew ∧
      ∀ kv ∈ rest, (LruCache.get c kv.1).1 = some kv.2) := by
  constructor
  · intro ops c key v hsane hkey hc hcap hfull hmiss
    obtain ⟨e, hs⟩ := LruCache.run_ops_plain law ops LruCache.init LruCache.allSane_init hsane
    have hsc : LruCache.AllSane c := by rw [hc]; exact hs
    have hsp : LruCache.AllSane (LruCache.put c key v) :=
      LruCache.allSane_put law c hsc key v hkey
    have hgc : ∀ k, LruCache.get c k = @LruCache.get K V (KeyEq.plain K) c k :=
      LruCache.get_plain law c hsc
    have hgp : ∀ k, LruCache.get (LruCache.put c key v) k =
        @LruCache.get K V (KeyEq.plain K) (@LruCache.put K V (KeyEq.plain K) c key v) k := by
      intro k
      rw [LruCache.get_plain law _ hsp, LruCache.put_plain law c hsc]
    obtain ⟨old, r1, r2, r3, r4, r5⟩ := (get_promotes_plain (K := K) (V := V)).1 ops c key v
      (hc.trans e) hcap hfull (by rw [← hgc]; exact hmiss)
    refine ⟨old, ?_, ?_, ?_, ?_, ?_⟩
    · rw [hgc]; exact r1
    · intro k hk hks
      rw [hgc] at hks
      exact r2 k hk hks
    · rw [hgp]; exact r3
    · rw [hgp]; exact r4
    · intro k hk hk2
      rw [hgp, hgc]
      exact r5 k hk hk2
  · intro cap k1 k2 knew v1 v2 vnew rest c hcap hlen hnd hsane hc
    have hs0 : LruCache.AllSane (LruCache.init : LruCache K V) := LruCache.allSane_init
    obtain ⟨e1, h1⟩ := LruCache.set_capacity_plain law (LruCache.init : LruCache K V) hs0 cap
    obtain ⟨e2, h2⟩ := LruCache.put_all_plain law ((k1, v1) :: (k2, v2) :: rest) _ h1
      (by
        intro kv hkv
        apply hsane
        simp only [List.mem_cons] at hkv ⊢
        rcases hkv with h | h | h
        · right; left; rw [h]
        · right; right; left; rw [h]
        · right; right; right; exact List.mem_map_of_mem Prod.fst h)
    have h3 := LruCache.allSane_get law _ h2 k1
    have e3 := LruCache.get_plain law _ h2 k1
    have h4 := LruCache.allSane_put law _ h3 knew vnew (hsane knew (by simp))
    have e4 := LruCache.put_plain law _ h3 knew vnew
    have hsc : LruCache.AllSane c := by rw [hc]; exact h4
    have hc2 : c = @LruCache.put K V (KeyEq.plain K) (@LruCache.get K V (KeyEq.plain K)
        (@LruCache.put_all K V (KeyEq.plain K)
          (@LruCache.set_capacity K V (KeyEq.plain K) LruCache.init cap)
          ((k1, v1) :: (k2, v2) :: rest)) k1).2 knew vnew := by
      rw [hc, e4, e3, e2, e1]
    have hgc : ∀ k, LruCache.get c k = @LruCache.get K V (KeyEq.plain K) c k :=
      LruCache.get_plain law c hsc
    obtain ⟨r1, r2, r3, r4⟩ := (get_promotes_plain (K := K) (V := V)).2 cap k1 k2 knew v1 v2
      vnew rest c hcap hlen hnd hc2
    refine ⟨by rw [hgc]; exact r1, by rw [hgc]; exact r2, by rw [hgc]; exact r3, ?_⟩
    intro kv hkv
    rw [hgc]
    exact r4 kv hkv

/-- Witness for C12, on an L2 cache. First part: capacity 2, the keys of objects 1 and 2 put,
key 1 fetched; the cache is full and the key of object 3 is new. Second part: capacity 3, keys
1, 2, 4 put, key 1 fetched, key 3 put: key 2 leaves, keys 1 and 4 stay. -/
theorem C12_get_promotes_witness :
    (∃ old : CacheKeyL2,
      (LruCache.get (LruCache.run_ops (LruCache.init : LruCacheL2Internal)
        [.set_capacity 2, .put sample_key_a (sample_world_data 1),
         .put sample_key_b (sample_world_data 2), .get sample_key_a]) old).1 ≠ none ∧
      (LruCache.get (LruCache.put (LruCache.run_ops (LruCache.init : LruCacheL2Internal)
        [.set_capacity 2, .put sample_key_a (sample_world_data 1),
         .put sample_key_b (sample_world_data 2), .get sample_key_a])
        sample_key_c (sample_world_data 3)) old).1 = none) ∧
    ((LruCache.get (LruCache.put (LruCache.get (LruCache.put_all
        (LruCache.set_capacity (LruCache.init : LruCacheL2Internal) 3)
        [(sample_key_a, sample_world_data 1), (sample_key_b, sample_world_data 2),
         (sample_key_d, sample_world_data 4)]) sample_key_a).2
        sample_key_c (sample_world_data 3)) sample_key_b).1 = none ∧
     (LruCache.get (LruCache.put (LruCache.get (LruCache.put_all
        (LruCache.set_capacity (LruCache.init : LruCacheL2Internal) 3)
        [(sample_key_a, sample_world_data 1), (sample_key_b, sample_world_data 2),
         (sample_key_d, sample_world_data 4)]) sample_key_a).2
        sample_key_c (sample_world_data 3)) sample_key_a).1 = some (sample_world_data 1)) := by
  obtain ⟨old, r1, r2, r3, r4, r5⟩ := (C12_get_promotes cache_key_l2_lawful).1
    [.set_capacity 2, .put sample_key_a (sample_world_data 1),
     .put sample_key_b (sample_world_data 2), .get sample_key_a] _ sample_key_c
    (sample_world_data 3) (by decide!) (by decide!) rfl (by decide!) (by decide!) (by decide!)
  obtain ⟨q1, q2, q3, q4⟩ := (C12_get_promotes cache_key_l2_lawful).2 3 sample_key_a sample_key_b
    sample_key_c (sample_world_data 1) (sample_world_data 2) (sample_world_data 3)
    [(sample_key_d, sample_world_data 4)] _ (by decide) rfl (by decide!) (by decide!) rfl
  exact ⟨⟨old, r1, r3⟩, q1, q2⟩

/-- Counterexample to C12 as stated: an L2 cache of capacity 2; a key holding a NaN is put
first, the key of object 1 second, the first key is fetched with `get` (a miss: the key is
never found) and the key of object 3 is put. The second key put is still held and the first is
not found, the opposite of what the claim says. -/
theorem C12_counterexample :
    (LruCache.get (LruCache.put (LruCache.get (LruCache.put_all
        (LruCache.set_capacity (LruCache.init : LruCacheL2Internal) 2)
        [(sample_key_nan, sample_world_data 1), (sample_key_a, sample_world_data 2)])
        sample_key_nan).2 sample_key_c (sample_world_data 3)) sample_key_a).1
      = some (sample_world_data 2) ∧
    (LruCache.get (LruCache.put (LruCache.get (LruCache.put_all
        (LruCache.set_capacity (LruCache.init : LruCacheL2Internal) 2)
        [(sample_key_nan, sample_world_data 1), (sample_key_a, sample_world_data 2)])
        sample_key_nan).2 sample_key_c (sample_world_data 3)) sample_key_nan).1 = none := by
  decide!

/-- C13. A `put` on an existing key overwrites. For every cache reached from a freshly
constructed one by any calls (with any keys, keys holding a NaN included) whose capacity is at
least 1 and that holds `key`, `put(key, v)` leaves the set of stored keys and the entry count
unchanged (full or not, nothing is evicted and every other key keeps its value), moves `key` to
the front of the recency list, and a following `get(key)` returns `v`. -/
theorem C13_put_overwrites {K V : Type} [DecidableEq K] [KeyEq K] (law : KeyEq.Lawful K)
    (ops : List (LruCache.CacheOp K V))
    (c : LruCache K V) (key : K) (v : V) (hc : c = LruCache.run_ops LruCache.init ops)
    (hcap : 1 ≤ c.capacity_) (hheld : (LruCache.get c key).1 ≠ none) :
    (∀ k, k ∈ (LruCache.put c key v).keys ↔ k ∈ c.keys) ∧
    (LruCache.put c key v).size = c.size ∧
    (LruCache.put c key v).keys.length = c.keys.length ∧
    (∀ k, k ≠ key → (LruCache.get (LruCache.put c key v) k).1 = (LruCache.get c k).1) ∧
    (LruCache.put c key v).keys = key :: c.keys.filter (fun k => !decide (k = key)) ∧
    (LruCache.get (LruCache.put c key v) key).1 = some v := by
  have hs : LruCache.Sound c := by rw [hc]; exact LruCache.reachable_sound law ops
  simp only [LruCache.get_fst] at hheld ⊢
  cases hfind : umap_find c.items_map_ key with
  | none => exact absurd (by simp [LruCache.lookup, hfind]) hheld
  | some e =>
    have hne : ¬ c.capacity_ = 0 := by omega
    obtain ⟨p1, p2, p3, p4, p5, p6, p7, p8⟩ := LruCache.promote_sound law hs key e hfind v
      (LruCache.put c key v) (by unfold LruCache.put; rw [if_neg hne, hfind])
    refine ⟨?_, p4, ?_, p8, p2, p7⟩
    · intro k
      rw [p2]
      by_cases hk : k = key
      · subst hk; simp [p6]
      · simp [hk]
    · rw [LruCache.keys_length, LruCache.keys_length]
      exact p5

/-- Witness for C13: a full L2 cache of capacity 2 that was also given a key holding a NaN;
the key of object 2 is put again. -/
theorem C13_put_overwrites_witness :
    (LruCache.put (LruCache.run_ops (LruCache.init : LruCacheL2Internal)
        [.set_capacity 2, .put sample_key_nan (sample_world_data 1),
         .put sample_key_b (sample_world_data 2)]) sample_key_b (sample_world_data 3)).size =
      (LruCache.run_ops (LruCache.init : LruCacheL2Internal)
        [.set_capacity 2, .put sample_key_nan (sample_world_data 1),
         .put sample_key_b (sample_world_data 2)]).size ∧
    (LruCache.get (LruCache.put (LruCache.run_ops (LruCache.init : LruCacheL2Internal)
        [.set_capacity 2, .put sample_key_nan (sample_world_data 1),
         .put sample_key_b (sample_world_data 2)]) sample_key_b (sample_world_data 3))
        sample_key_b).1 = some (sample_world_data 3) :=
  ⟨(C13_put_overwrites cache_key_l2_lawful [.set_capacity 2,
      .put sample_key_nan (sample_world_data 1), .put sample_key_b (sample_world_data 2)] _
      sample_key_b (sample_world_data 3) rfl (by decide!) (by decide!)).2.1,
   (C13_put_overwrites cache_key_l2_lawful [.set_capacity 2,
      .put sample_key_nan (sample_world_data 1), .put sample_key_b (sample_world_data 2)] _
      sample_key_b (sample_world_data 3) rfl (by decide!) (by decide!)).2.2.2.2.2⟩

/-- C14, as amended. Capacity bound, for keys that hold no NaN: after every sequence of
`set_capacity`, `put`, `get` and `clear` calls on a freshly constructed cache in which every
key put equals itself under `operator==`, the number of stored entries (`items_map_.size()`,
which is also the length of the recency list) is at most the capacity `get_capacity`
reports. -/
theorem C14_capacity_bound {K V : Type} [DecidableEq K] [KeyEq K] (law : KeyEq.Lawful K)
    (ops : List (LruCache.CacheOp K V)) (hsane : ∀ k ∈ LruCache.put_keys ops, KeyEq.sane k) :
    (LruCache.run_ops (LruCache.init : LruCache K V) ops).size ≤
      (LruCache.run_ops (LruCache.init : LruCache K V) ops).get_capacity ∧
    (LruCache.run_ops (LruCache.init : LruCache K V) ops).lru_list_.length ≤
      (LruCache.run_ops (LruCache.init : LruCache K V) ops).get_capacity := by
  obtain ⟨e, hs⟩ := LruCache.run_ops_plain law ops LruCache.init LruCache.allSane_init hsane
  rw [e]
  exact capacity_bound_plain ops

/-- Witness for C14: three keys put into an L2 cache of capacity 2. -/
theorem C14_capacity_bound_witness :
    (LruCache.run_ops (LruCache.init : LruCacheL2Internal)
      [.set_capacity 2, .put sample_key_a (sample_world_data 1),
       .put sample_key_b (sample_world_data 2), .put sample_key_c (sample_world_data 3)]).size ≤
    (LruCache.run_ops (LruCache.init : LruCacheL2Internal)
      [.set_capacity 2, .put sample_key_a (sample_world_data 1),
       .put sample_key_b (sample_world_data 2),
       .put sample_key_c (sample_world_data 3)]).get_capacity :=
  (C14_capacity_bound cache_key_l2_lawful [.set_capacity 2,
    .put sample_key_a (sample_world_data 1), .put sample_key_b (sample_world_data 2),
    .put sample_key_c (sample_world_data 3)] (by decide!)).1

/-- Counterexample to C14 as stated: an L2 cache of capacity 1 into which the same key, holding
a NaN, is put twice. `find` does not see the first entry, `evict_oldest_nolock` unlinks its
list node but `erase` does not find it either: the map holds two entries, one more than the
capacity. -/
theorem C14_counterexample :
    (LruCache.run_ops (LruCache.init : LruCacheL2Internal)
      [.set_capacity 1, .put sample_key_nan (sample_world_data 1),
       .put sample_key_nan (sample_world_data 1)]).size = 2 ∧
    (LruCache.run_ops (LruCache.init : LruCacheL2Internal)
      [.set_capacity 1, .put sample_key_nan (sample_world_data 1),
       .put sample_key_nan (sample_world_data 1)]).get_capacity = 1 := by
  decide!

/-- C15, as amended. Consistency invariant, for keys that hold no NaN: after every sequence of
`set_capacity`, `put`, `get` and `clear` calls on a freshly constructed cache in which every
key put equals itself under `operator==`, the recency list holds no key twice, the key-map
holds no key twice, a key is on the recency list exactly when it is in the key-map, and the
iterator stored in every map entry designates a node of the recency list (nodes being distinct
objects) that carries the entry's own key. -/
theorem C15_consistency {K V : Type} [DecidableEq K] [KeyEq K] (law : KeyEq.Lawful K)
    (ops : List (LruCache.CacheOp K V)) (hsane : ∀ k ∈ LruCache.put_keys ops, KeyEq.sane k) :
    (LruCache.run_ops (LruCache.init : LruCache K V) ops).keys.Nodup ∧
    ((LruCache.run_ops (LruCache.init : LruCache K V) ops).items_map_.map Prod.fst).Nodup ∧
    (∀ k, k ∈ (LruCache.run_ops (LruCache.init : LruCache K V) ops).keys ↔
      k ∈ (LruCache.run_ops (LruCache.init : LruCache K V) ops).items_map_.map Prod.fst) ∧
    ((LruCache.run_ops (LruCache.init : LruCache K V) ops).lru_list_.map Prod.fst).Nodup ∧
    ∀ kv ∈ (LruCache.run_ops (LruCache.init : LruCache K V) ops).items_map_,
      (kv.2.lru_iterator, kv.1) ∈
        (LruCache.run_ops (LruCache.init : LruCache K V) ops).lru_list_ := by
  obtain ⟨e, hs⟩ := LruCache.run_ops_plain law ops LruCache.init LruCache.allSane_init hsane
  rw [e]
  exact consistency_plain ops

/-- Witness for C15: three keys put into an L2 cache of capacity 2 and the last but one
fetched: the recency list holds the two keys left, each once. -/
theorem C15_consistency_witness :
    (LruCache.run_ops (LruCache.init : LruCacheL2Internal)
      [.set_capacity 2, .put sample_key_a (sample_world_data 1),
       .put sample_key_b (sample_world_data 2), .put sample_key_c (sample_world_data 3),
       .get sample_key_b]).keys.Nodup :=
  (C15_consistency cache_key_l2_lawful [.set_capacity 2,
    .put sample_key_a (sample_world_data 1), .put sample_key_b (sample_world_data 2),
    .put sample_key_c (sample_world_data 3), .get sample_key_b] (by decide!)).1

/-- Counterexample to C15 as stated: an L2 cache of capacity 1 into which the same key, holding
a NaN, is put twice. The recency list has one node, the key-map two entries under that key, and
the iterator of the older entry designates node 0, which is no longer on the list. -/
theorem C15_counterexample :
    (LruCache.run_ops (LruCache.init : LruCacheL2Internal)
      [.set_capacity 1, .put sample_key_nan (sample_world_data 1),
       .put sample_key_nan (sample_world_data 1)]).lru_list_ = [(1, sample_key_nan)] ∧
    (LruCache.run_ops (LruCache.init : LruCacheL2Internal)
      [.set_capacity 1, .put sample_key_nan (sample_world_data 1),
       .put sample_key_nan (sample_world_data 1)]).items_map_ =
      [(sample_key_nan, { data_ptr := sample_world_data 1, lru_iterator := 1 }),
       (sample_key_nan, { data_ptr := sample_world_data 1, lru_iterator := 0 })] := by
  decide!

/-- C16, as amended. `set_capacity` shrinks immediately, for keys that hold no NaN: for every
cache reached from a freshly constructed one by calls in which every key put equals itself
under `operator==`, holding `m` entries, and every `n ≥ 1`, after `set_capacity(n)` the
capacity is `n` and the cache holds exactly `min(m, n)` entries: the first `n` keys of the
recency list in unchanged order, each with its value, every one of them used later than every
key dropped; the dropped keys are no longer found. -/
theorem C16_set_capacity_shrinks {K V : Type} [DecidableEq K] [KeyEq K] (law : KeyEq.Lawful K)
    (ops : List (LruCache.CacheOp K V)) (c : LruCache K V) (n : Nat)
    (hsane : ∀ k ∈ LruCache.put_keys ops, KeyEq.sane k)
    (hc : c = LruCache.run_ops LruCache.init ops) (hn : 1 ≤ n) :
    (LruCache.set_capacity c n).get_capacity = n ∧
    (LruCache.set_capacity c n).size = min c.size n ∧
    (LruCache.set_capacity c n).keys = c.keys.take n ∧
    (∀ k ∈ c.keys.take n, (LruCache.get (LruCache.set_capacity c n) k).1 = (LruCache.get c k).1 ∧
      (LruCache.get c k).1 ≠ none) ∧
    (∀ k, k ∉ c.keys.take n → (LruCache.get (LruCache.set_capacity c n) k).1 = none) ∧
    ∀ a ∈ c.keys.take n, ∀ b ∈ c.keys.drop n,
      LruCache.last_use ops b < LruCache.last_use ops a := by
  obtain ⟨e, hs⟩ := LruCache.run_ops_plain law ops LruCache.init LruCache.allSane_init hsane
  have hsc : LruCache.AllSane c := by rw [hc]; exact hs
  obtain ⟨e1, h1⟩ := LruCache.set_capacity_plain law c hsc n
  have hgc : ∀ k, LruCache.get c k = @LruCache.get K V (KeyEq.plain K) c k :=
    LruCache.get_plain law c hsc
  have hgs : ∀ k, LruCache.get (LruCache.set_capacity c n) k =
      @LruCache.get K V (KeyEq.plain K) (@LruCache.set_capacity K V (KeyEq.plain K) c n) k := by
    intro k
    rw [LruCache.get_plain law _ h1, e1]
  obtain ⟨r1, r2, r3, r4, r5, r6⟩ := set_capacity_shrinks_plain ops c n (hc.trans e) hn
  rw [e1]
  refine ⟨r1, r2, r3, ?_, ?_, r6⟩
  · intro k hk
    rw [← e1, hgs, hgc]
    exact r4 k hk
  · intro k hk
    rw [← e1, hgs]
    exact r5 k hk

/-- Witness for C16: three keys in an L2 cache of capacity 3, shrunk to capacity 2. -/
theorem C16_set_capacity_shrinks_witness :
    (LruCache.set_capacity (LruCache.run_ops (LruCache.init : LruCacheL2Internal)
      [.set_capacity 3, .put sample_key_a (sample_world_data 1),
       .put sample_key_b (sample_world_data 2), .put sample_key_c (sample_world_data 3)])
      2).keys = [sample_key_c, sample_key_b] ∧
    (LruCache.get (LruCache.set_capacity (LruCache.run_ops (LruCache.init : LruCacheL2Internal)
      [.set_capacity 3, .put sample_key_a (sample_world_data 1),
       .put sample_key_b (sample_world_data 2), .put sample_key_c (sample_world_data 3)])
      2) sample_key_a).1 = none := by
  obtain ⟨h1, h2, h3, h4, h5, h6⟩ := C16_set_capacity_shrinks cache_key_l2_lawful
    [.set_capacity 3, .put sample_key_a (sample_world_data 1),
     .put sample_key_b (sample_world_data 2), .put sample_key_c (sample_world_data 3)]
    _ 2 (by decide!) rfl (by decide)
  exact ⟨h3.trans (by decide!), h5 sample_key_a (by decide!)⟩

/-- Counterexample to C16 as stated: an L2 cache of capacity 3 into which a key holding a NaN
is put twice and then the key of object 1. It holds three entries, the key of object 1 being
the most recently used. `set_capacity(2)` unlinks the two nodes of the NaN key without erasing
a map entry, and then evicts the key of object 1: the most recently used entry is gone. -/
theorem C16_counterexample :
    (LruCache.get (LruCache.run_ops (LruCache.init : LruCacheL2Internal)
      [.set_capacity 3, .put sample_key_nan (sample_world_data 1),
       .put sample_key_nan (sample_world_data 1), .put sample_key_a (sample_world_data 2)])
      sample_key_a).1 = some (sample_world_data 2) ∧
    (LruCache.run_ops (LruCache.init : LruCacheL2Internal)
      [.set_capacity 3, .put sample_key_nan (sample_world_data 1),
       .put sample_key_nan (sample_world_data 1),
       .put sample_key_a (sample_world_data 2)]).keys.take 2 =
      [sample_key_a, sample_key_nan] ∧
    (LruCache.get (LruCache.set_capacity (LruCache.run_ops (LruCache.init : LruCacheL2Internal)
      [.set_capacity 3, .put sample_key_nan (sample_world_data 1),
       .put sample_key_nan (sample_world_data 1), .put sample_key_a (sample_world_data 2)]) 2)
      sample_key_a).1 = none := by
  decide!

/-- C17, as amended. A cache configured with `set_capacity(0)` has capacity 1, not 0: after
every non-empty sequence of `put` calls with keys that equal themselves under `operator==` it
holds exactly the last key put, `get` returns the last value put for that key and no value for
every other key. -/
theorem C17_set_capacity_zero_keeps_one {K V : Type} [DecidableEq K] [KeyEq K]
    (law : KeyEq.Lawful K)
    (ops : List (LruCache.CacheOp K V)) (c : LruCache K V) (kvs : List (K × V))
    (klast : K) (vlast : V)
    (hsane : ∀ k ∈ LruCache.put_keys ops, KeyEq.sane k)
    (hkvs : ∀ kv ∈ kvs ++ [(klast, vlast)], KeyEq.sane kv.1)
    (hc : c = LruCache.set_capacity (LruCache.run_ops LruCache.init ops) 0) :
    c.get_capacity = 1 ∧
    (LruCache.put_all c (kvs ++ [(klast, vlast)])).keys = [klast] ∧
    (LruCache.get (LruCache.put_all c (kvs ++ [(klast, vlast)])) klast).1 = some vlast ∧
    ∀ k, k ≠ klast → (LruCache.get (LruCache.put_all c (kvs ++ [(klast, vlast)])) k).1 = none := by
  obtain ⟨e, hs⟩ := LruCache.run_ops_plain law ops LruCache.init LruCache.allSane_init hsane
  obtain ⟨e1, h1⟩ := LruCache.set_capacity_plain law _ hs 0
  have hsc : LruCache.AllSane c := by rw [hc]; exact h1
  obtain ⟨e2, h2⟩ := LruCache.put_all_plain law (kvs ++ [(klast, vlast)]) c hsc hkvs
  have hgp : ∀ k, LruCache.get (LruCache.put_all c (kvs ++ [(klast, vlast)])) k =
      @LruCache.get K V (KeyEq.plain K)
        (@LruCache.put_all K V (KeyEq.plain K) c (kvs ++ [(klast, vlast)])) k := by
    intro k
    rw [LruCache.get_plain law _ h2, e2]
  obtain ⟨r1, r2, r3, r4⟩ := set_capacity_zero_keeps_one_plain ops c kvs klast vlast
    (by rw [hc, e1, e])
  refine ⟨r1, by rw [e2]; exact r2, by rw [hgp]; exact r3, ?_⟩
  intro k hk
  rw [hgp]
  exact r4 k hk

/-- Witness for C17: a fresh L2 cache configured with `set_capacity(0)`, then two puts. -/
theorem C17_set_capacity_zero_keeps_one_witness :
    (LruCache.put_all (LruCache.set_capacity (LruCache.init : LruCacheL2Internal) 0)
      [(sample_key_a, sample_world_data 1), (sample_key_b, sample_world_data 2)]).keys
      = [sample_key_b] ∧
    (LruCache.get (LruCache.put_all
      (LruCache.set_capacity (LruCache.init : LruCacheL2Internal) 0)
      [(sample_key_a, sample_world_data 1), (sample_key_b, sample_world_data 2)])
      sample_key_b).1 = some (sample_world_data 2) :=
  ⟨(C17_set_capacity_zero_keeps_one cache_key_l2_lawful
      ([] : List (LruCache.CacheOp CacheKeyL2 CppWorldDataL2)) _
      [(sample_key_a, sample_world_data 1)] sample_key_b (sample_world_data 2)
      (by decide!) (by decide!) rfl).2.1,
   (C17_set_capacity_zero_keeps_one cache_key_l2_lawful
      ([] : List (LruCache.CacheOp CacheKeyL2 CppWorldDataL2)) _
      [(sample_key_a, sample_world_data 1)] sample_key_b (sample_world_data 2)
      (by decide!) (by decide!) rfl).2.2.1⟩

/-- Counterexample to C17 as stated: a fresh cache configured with `set_capacity(0)` reports
capacity 1, and after `put(5, 7)` the call `get(5)` returns 7; `initialize_cpp_renderer` with
requested capacities 0 leaves both caches at capacity 1. -/
theorem C17_counterexample :
    (LruCache.set_capacity (LruCache.init : LruCache Nat Nat) 0).get_capacity = 1 ∧
    (LruCache.get (LruCache.put_all (LruCache.set_capacity (LruCache.init : LruCache Nat Nat) 0)
      [(5, 7)]) 5).1 = some 7 ∧
    (initialize_cpp_renderer RendererState.startup 2 2 0 0).map
      (fun s => (s.global_l1_cache_cpp_instance.get_capacity,
        s.global_l2_cache_cpp_instance.get_capacity)) = some (1, 1) := by
  decide!

/-- C18, as amended. `set_capacity` coerces 0 to 1: from every cache state `set_capacity(0)`
yields exactly the state `set_capacity(1)` yields, and `get_capacity` then returns 1; on every
cache reached from a freshly constructed one by calls in which every key put equals itself
under `operator==`, the eviction loop ends with no more entries than the capacity, and only the
entry at the front of the recency list (if any) remains, with its value. -/
theorem C18_set_capacity_coerces_zero {K V : Type} [DecidableEq K] [KeyEq K]
    (law : KeyEq.Lawful K) (c : LruCache K V) :
    LruCache.set_capacity c 0 = LruCache.set_capacity c 1 ∧
    (LruCache.set_capacity c 0).get_capacity = 1 ∧
    ∀ ops : List (LruCache.CacheOp K V), (∀ k ∈ LruCache.put_keys ops, KeyEq.sane k) →
      c = LruCache.run_ops LruCache.init ops →
      (LruCache.set_capacity c 0).size ≤ (LruCache.set_capacity c 0).get_capacity ∧
      (LruCache.set_capacity c 0).keys = c.keys.take 1 ∧
      (LruCache.set_capacity c 0).size = min c.size 1 ∧
      (∀ k ∈ c.keys.take 1,
        (LruCache.get (LruCache.set_capacity c 0) k).1 = (LruCache.get c k).1) ∧
      ∀ k, k ∉ c.keys.take 1 → (LruCache.get (LruCache.set_capacity c 0) k).1 = none := by
  refine ⟨rfl, (LruCache.capacity_set_capacity c 0).1, ?_⟩
  intro ops hsane hc
  obtain ⟨e, hs⟩ := LruCache.run_ops_plain law ops LruCache.init LruCache.allSane_init hsane
  have hsc : LruCache.AllSane c := by rw [hc]; exact hs
  obtain ⟨e1, h1⟩ := LruCache.set_capacity_plain law c hsc 0
  have hgc : ∀ k, LruCache.get c k = @LruCache.get K V (KeyEq.plain K) c k :=
    LruCache.get_plain law c hsc
  have hgs : ∀ k, LruCache.get (LruCache.set_capacity c 0) k =
      @LruCache.get K V (KeyEq.plain K) (@LruCache.set_capacity K V (KeyEq.plain K) c 0) k := by
    intro k
    rw [LruCache.get_plain law _ h1, e1]
  obtain ⟨r1, r2, r3⟩ := set_capacity_coerces_zero_plain c
  obtain ⟨q1, q2, q3, q4⟩ := r3 ops (hc.trans e)
  rw [e1]
  refine ⟨?_, q1, q2, ?_, ?_⟩
  · rw [q2]
    exact le_trans (Nat.min_le_right _ _) (by rw [r2])
  · intro k hk
    rw [← e1, hgs, hgc]
    exact q3 k hk
  · intro k hk
    rw [← e1, hgs]
    exact q4 k hk

/-- Witness for C18: an L2 cache of capacity 3 holding the keys of objects 1, 2, 3. -/
theorem C18_set_capacity_coerces_zero_witness :
    (LruCache.set_capacity (LruCache.run_ops (LruCache.init : LruCacheL2Internal)
      [.set_capacity 3, .put sample_key_a (sample_world_data 1),
       .put sample_key_b (sample_world_data 2), .put sample_key_c (sample_world_data 3)])
      0).keys = [sample_key_c] ∧
    (LruCache.get (LruCache.set_capacity (LruCache.run_ops (LruCache.init : LruCacheL2Internal)
      [.set_capacity 3, .put sample_key_a (sample_world_data 1),
       .put sample_key_b (sample_world_data 2), .put sample_key_c (sample_world_data 3)])
      0) sample_key_c).1 = some (sample_world_data 3) := by
  obtain ⟨h0, h1, h2, h3, h4⟩ := (C18_set_capacity_coerces_zero cache_key_l2_lawful
    (LruCache.run_ops (LruCache.init : LruCacheL2Internal)
      [.set_capacity 3, .put sample_key_a (sample_world_data 1),
       .put sample_key_b (sample_world_data 2), .put sample_key_c (sample_world_data 3)])).2.2
    [.set_capacity 3, .put sample_key_a (sample_world_data 1),
     .put sample_key_b (sample_world_data 2), .put sample_key_c (sample_world_data 3)]
    (by decide!) rfl
  exact ⟨h1.trans (by decide!), (h3 sample_key_c (by decide!)).trans (by decide!)⟩

/-- Counterexample to C18 as stated: an L2 cache of capacity 1 into which a key holding a NaN
was put twice holds two map entries and one list node. In `set_capacity(0)` the first iteration
of the eviction loop unlinks that node and erases nothing. In the state it leaves the loop
condition `items_map_.size() > capacity_` still holds and `evict_oldest_nolock` changes nothing,
the list being empty: the loop of the source never ends, and no entry of the cache, the most
recently used one included, is on the recency list any more. -/
theorem C18_counterexample :
    (LruCache.evict_oldest_nolock
      { (LruCache.run_ops (LruCache.init : LruCacheL2Internal)
          [.set_capacity 1, .put sample_key_nan (sample_world_data 1),
           .put sample_key_nan (sample_world_data 1)]) with capacity_ := 1 }).lru_list_ = [] ∧
    (LruCache.evict_oldest_nolock
      { (LruCache.run_ops (LruCache.init : LruCacheL2Internal)
          [.set_capacity 1, .put sample_key_nan (sample_world_data 1),
           .put sample_key_nan (sample_world_data 1)]) with capacity_ := 1 }).items_map_.length
      > 1 ∧
    LruCache.evict_oldest_nolock (LruCache.evict_oldest_nolock
      { (LruCache.run_ops (LruCache.init : LruCacheL2Internal)
          [.set_capacity 1, .put sample_key_nan (sample_world_data 1),
           .put sample_key_nan (sample_world_data 1)]) with capacity_ := 1 }) =
      LruCache.evict_oldest_nolock
      { (LruCache.run_ops (LruCache.init : LruCacheL2Internal)
          [.set_capacity 1, .put sample_key_nan (sample_world_data 1),
           .put sample_key_nan (sample_world_data 1)]) with capacity_ := 1 } ∧
    (LruCache.set_capacity (LruCache.run_ops (LruCache.init : LruCacheL2Internal)
      [.set_capacity 1, .put sample_key_nan (sample_world_data 1),
       .put sample_key_nan (sample_world_data 1)]) 0).keys = [] ∧
    (LruCache.run_ops (LruCache.init : LruCacheL2Internal)
      [.set_capacity 1, .put sample_key_nan (sample_world_data 1),
       .put sample_key_nan (sample_world_data 1)]).keys.take 1 = [sample_key_nan] := by
  decide!

/-- C19. A literal zero-capacity cache ignores `put`: on a freshly constructed cache, on which
`set_capacity` was never called, `put(key, v)` leaves the state unchanged for every key and
value, and after any sequence of puts the state is still the fresh one and `get` returns no
value for every key. This holds for every `operator==` of the keys. -/
theorem C19_literal_zero_capacity {K V : Type} [KeyEq K] (key : K) (v : V)
    (kvs : List (K × V)) (probe : K) :
    LruCache.put (LruCache.init : LruCache K V) key v = LruCache.init ∧
    LruCache.put_all (LruCache.init : LruCache K V) kvs = LruCache.init ∧
    (LruCache.get (LruCache.put_all (LruCache.init : LruCache K V) kvs) probe).1 = none := by
  have hput : ∀ (k : K) (x : V), LruCache.put (LruCache.init : LruCache K V) k x
      = LruCache.init := fun k x => LruCache.put_capacity_zero _ k x rfl
  have hall : LruCache.put_all (LruCache.init : LruCache K V) kvs = LruCache.init := by
    induction kvs using List.reverseRecOn with
    | nil => rfl
    | append_singleton kvs kv ih => rw [LruCache.put_all_concat, ih, hput]
  refine ⟨hput key v, hall, ?_⟩
  rw [hall]
  rfl

/-! ## Rounding -/

namespace F32

theorem pow2_eq_zpow (e : Int) : pow2 e = (2 : ℚ) ^ e := by
  unfold pow2
  split
  · rename_i h
    obtain ⟨n, rfl⟩ := Int.eq_ofNat_of_zero_le h
    simp
  · rename_i h
    have hneg : 0 ≤ -e := by omega
    obtain ⟨n, hn⟩ := Int.eq_ofNat_of_zero_le hneg
    have he : e = -(n : Int) := by omega
    subst he
    simp

theorem pow2_pos (e : Int) : 0 < pow2 e := by
  rw [pow2_eq_zpow]
  positivity

theorem pow2_add (a b : Int) : pow2 (a + b) = pow2 a * pow2 b := by
  simp only [pow2_eq_zpow]
  exact zpow_add₀ (by norm_num) a b

theorem pow2_le_pow2 {a b : Int} (h : a ≤ b) : pow2 a ≤ pow2 b := by
  simp only [pow2_eq_zpow]
  exact zpow_le_zpow_right₀ (by norm_num) h

theorem pow2_lt_pow2 {a b : Int} (h : a < b) : pow2 a < pow2 b := by
  simp only [pow2_eq_zpow]
  exact zpow_lt_zpow_right₀ (by norm_num) h

theorem lt_of_pow2_lt_pow2 {a b : Int} (h : pow2 a < pow2 b) : a < b := by
  by_contra hn
  exact absurd (pow2_le_pow2 (not_lt.1 hn)) (not_le.2 h)

/-- The digits count: `2 ^ (bit_length n - 1) ≤ n < 2 ^ bit_length n` for `n > 0`. -/
theorem bit_length_aux_spec (fuel : Nat) : ∀ n : Nat, n ≤ fuel → 0 < n →
    2 ^ (bit_length_aux fuel n - 1) ≤ n ∧ n < 2 ^ bit_length_aux fuel n ∧
    1 ≤ bit_length_aux fuel n := by
  induction fuel with
  | zero => intro n h0 h1; omega
  | succ fuel ih =>
    intro n hle hpos
    have hne : ¬ n = 0 := by omega
    simp only [bit_length_aux, hne, if_false]
    by_cases h2 : n / 2 = 0
    · have h1 : n = 1 := by omega
      subst h1
      have hz : bit_length_aux fuel (1 / 2) = 0 := by
        cases fuel with
        | zero => rfl
        | succ f => simp [bit_length_aux]
      rw [hz]
      simp
    · have hpos2 : 0 < n / 2 := Nat.pos_of_ne_zero h2
      have hle2 : n / 2 ≤ fuel := by omega
      obtain ⟨i1, i2, i3⟩ := ih (n / 2) hle2 hpos2
      refine ⟨?_, ?_, by omega⟩
      · have : bit_length_aux fuel (n / 2) + 1 - 1 = (bit_length_aux fuel (n / 2) - 1) + 1 := by
          omega
        rw [this, pow_succ]
        omega
      · rw [pow_succ]
        omega

theorem bit_length_spec (n : Nat) (h : 0 < n) :
    2 ^ (bit_length n - 1) ≤ n ∧ n < 2 ^ bit_length n ∧ 1 ≤ bit_length n :=
  bit_length_aux_spec n n (le_refl n) h

/-- The binary exponent brackets the magnitude. -/
theorem exponent_spec (q : ℚ) (hq : q ≠ 0) :
    pow2 (exponent q) ≤ |q| ∧ |q| < pow2 (exponent q + 1) := by
  have hnum : 0 < q.num.natAbs := Int.natAbs_pos.2 (Rat.num_ne_zero.2 hq)
  have hden : 0 < q.den := q.den_pos
  obtain ⟨a1, a2, a3⟩ := bit_length_spec q.num.natAbs hnum
  obtain ⟨b1, b2, b3⟩ := bit_length_spec q.den hden
  have habs : |q| = (q.num.natAbs : ℚ) / (q.den : ℚ) := by
    have h1 : |q| = |(q.num : ℚ)| / (q.den : ℚ) := by
      conv_lhs => rw [← Rat.num_div_den q]
      rw [abs_div, abs_of_pos (by exact_mod_cast hden : (0 : ℚ) < (q.den : ℚ))]
    rw [h1]
    congr 1
    rw [Nat.cast_natAbs, Int.cast_abs]
  have hdq : (0 : ℚ) < (q.den : ℚ) := by exact_mod_cast hden
  set a := bit_length q.num.natAbs with ha
  set b := bit_length q.den with hb
  have hA1 : ((2 : ℚ) ^ (a - 1)) ≤ (q.num.natAbs : ℚ) := by exact_mod_cast a1
  have hA2 : (q.num.natAbs : ℚ) < (2 : ℚ) ^ a := by exact_mod_cast a2
  have hB1 : ((2 : ℚ) ^ (b - 1)) ≤ (q.den : ℚ) := by exact_mod_cast b1
  have hB2 : (q.den : ℚ) < (2 : ℚ) ^ b := by exact_mod_cast b2
  have hupper : |q| < pow2 ((a : Int) - (b : Int) + 1) := by
    rw [habs, pow2_eq_zpow, div_lt_iff₀ hdq]
    have h1 : (2 : ℚ) ^ ((a : Int) - (b : Int) + 1) * (2 : ℚ) ^ (b - 1) = (2 : ℚ) ^ a := by
      rw [← zpow_natCast, ← zpow_natCast, ← zpow_add₀ (by norm_num)]
      congr 1
      omega
    calc (q.num.natAbs : ℚ) < (2 : ℚ) ^ a := hA2
      _ = (2 : ℚ) ^ ((a : Int) - (b : Int) + 1) * (2 : ℚ) ^ (b - 1) := h1.symm
      _ ≤ (2 : ℚ) ^ ((a : Int) - (b : Int) + 1) * (q.den : ℚ) :=
        mul_le_mul_of_nonneg_left hB1 (by positivity)
  have hlower : pow2 ((a : Int) - (b : Int) - 1) ≤ |q| := by
    rw [habs, pow2_eq_zpow, le_div_iff₀ hdq]
    have h1 : (2 : ℚ) ^ ((a : Int) - (b : Int) - 1) * (2 : ℚ) ^ b = (2 : ℚ) ^ (a - 1) := by
      rw [← zpow_natCast, ← zpow_natCast, ← zpow_add₀ (by norm_num)]
      congr 1
      omega
    calc (2 : ℚ) ^ ((a : Int) - (b : Int) - 1) * (q.den : ℚ)
        ≤ (2 : ℚ) ^ ((a : Int) - (b : Int) - 1) * (2 : ℚ) ^ b :=
          mul_le_mul_of_nonneg_left (le_of_lt hB2) (by positivity)
      _ = (2 : ℚ) ^ (a - 1) := h1
      _ ≤ (q.num.natAbs : ℚ) := hA1
  unfold exponent
  simp only [← ha, ← hb]
  split
  · rename_i h
    exact ⟨h, hupper⟩
  · rename_i h
    refine ⟨hlower, ?_⟩
    have : (a : Int) - (b : Int) - 1 + 1 = (a : Int) - (b : Int) := by omega
    rw [this]
    exact not_le.1 h

/-- Of two non-zero numbers the one of smaller magnitude has the smaller exponent. -/
theorem exponent_mono {p q : ℚ} (hp : p ≠ 0) (hq : q ≠ 0) (h : |p| ≤ |q|) :
    exponent p ≤ exponent q := by
  obtain ⟨p1, p2⟩ := exponent_spec p hp
  obtain ⟨q1, q2⟩ := exponent_spec q hq
  have : pow2 (exponent p) < pow2 (exponent q + 1) := lt_of_le_of_lt (le_trans p1 h) q2
  have := lt_of_pow2_lt_pow2 this
  omega

theorem round_half_even_bounds (x : ℚ) :
    round_half_even x = ⌊x⌋ ∨ round_half_even x = ⌊x⌋ + 1 := by
  unfold round_half_even
  split
  · left; rfl
  · split
    · right; rfl
    · split
      · left; rfl
      · right; rfl

/-- Rounding to an integer does not cross an integer. -/
theorem le_round_half_even (x : ℚ) (m : Int) (h : (m : ℚ) ≤ x) : m ≤ round_half_even x := by
  have hf : m ≤ ⌊x⌋ := Int.le_floor.2 h
  rcases round_half_even_bounds x with h1 | h1 <;> omega

theorem round_half_even_le (x : ℚ) (m : Int) (h : x ≤ (m : ℚ)) : round_half_even x ≤ m := by
  rcases eq_or_lt_of_le h with heq | hlt
  · subst heq
    unfold round_half_even
    simp
  · have hf : ⌊x⌋ < m := Int.floor_lt.2 hlt
    rcases round_half_even_bounds x with h1 | h1 <;> omega

theorem round_half_even_neg (x : ℚ) : round_half_even (-x) = -round_half_even x := by
  by_cases hint : (⌊x⌋ : ℚ) = x
  · have h1 : ⌊-x⌋ = -⌊x⌋ := by
      rw [← hint, ← Int.cast_neg, Int.floor_intCast, Int.floor_intCast]
    unfold round_half_even
    rw [h1]
    have hz : x - (⌊x⌋ : ℚ) = 0 := by rw [hint]; ring
    have hz2 : -x - ((-⌊x⌋ : Int) : ℚ) = 0 := by push_cast; rw [hint]; ring
    rw [hz, hz2]
    norm_num
  · have hlt : (⌊x⌋ : ℚ) < x := lt_of_le_of_ne (Int.floor_le x) hint
    have hlt2 : x < (⌊x⌋ : ℚ) + 1 := Int.lt_floor_add_one x
    have h1 : ⌊-x⌋ = -⌊x⌋ - 1 := by
      rw [Int.floor_eq_iff]
      push_cast
      constructor <;> linarith
    unfold round_half_even
    rw [h1]
    push_cast
    by_cases ha : x - (⌊x⌋ : ℚ) < 1 / 2
    · have hb : ¬ (-x - (-(⌊x⌋ : ℚ) - 1) < 1 / 2) := by linarith
      have hc : (1 : ℚ) / 2 < -x - (-(⌊x⌋ : ℚ) - 1) := by linarith
      rw [if_pos ha, if_neg hb, if_pos hc]
      omega
    · by_cases hb : (1 : ℚ) / 2 < x - (⌊x⌋ : ℚ)
      · have hc : -x - (-(⌊x⌋ : ℚ) - 1) < 1 / 2 := by linarith
        rw [if_neg ha, if_pos hb, if_pos hc]
        omega
      · have hc : ¬ (-x - (-(⌊x⌋ : ℚ) - 1) < 1 / 2) := by linarith
        have hd : ¬ ((1 : ℚ) / 2 < -x - (-(⌊x⌋ : ℚ) - 1)) := by linarith
        rw [if_neg ha, if_neg hb, if_neg hc, if_neg hd]
        by_cases he : ⌊x⌋ % 2 = 0
        · have hf : ¬ ((-⌊x⌋ - 1) % 2 = 0) := by omega
          rw [if_pos he, if_neg hf]
          omega
        · have hf : (-⌊x⌋ - 1) % 2 = 0 := by omega
          rw [if_neg he, if_pos hf]
          omega

theorem exponent_neg (q : ℚ) : exponent (-q) = exponent q := by
  unfold exponent
  simp only [Rat.neg_num, Rat.neg_den, Int.natAbs_neg, abs_neg]

theorem ulp_neg (q : ℚ) : ulp (-q) = ulp q := by
  unfold ulp
  rw [exponent_neg]

theorem ulp_pos (q : ℚ) : 0 < ulp q := pow2_pos _

/-- Rounding commutes with negation. -/
theorem nearest_neg (q : ℚ) : nearest (-q) = neg (nearest q) := by
  unfold nearest
  by_cases h0 : q = 0
  · subst h0
    simp [neg]
  · have h1 : ¬ -q = 0 := by simpa using h0
    rw [if_neg h0, if_neg h1, ulp_neg, neg_div, round_half_even_neg]
    have habs : |((-round_half_even (q / ulp q) : Int) : ℚ) * ulp q| =
        |((round_half_even (q / ulp q) : Int) : ℚ) * ulp q| := by
      push_cast
      rw [neg_mul, abs_neg]
    rw [habs]
    split
    · simp only [neg]
      congr 1
      rcases lt_trichotomy q 0 with h | h | h
      · have : ¬ (-q < 0) := by linarith
        simp [h, this]
      · exact absurd h h0
      · have h2 : -q < 0 := by linarith
        have h3 : ¬ q < 0 := by linarith
        simp [h2, h3]
    · simp only [neg]
      congr 1
      push_cast
      ring

end F32

namespace F32

/-- The exponent that sets the spacing: the binary exponent, or `-126` in the subnormal
range. -/
theorem ulp_eq (q : ℚ) : ulp q = pow2 (max (exponent q) (-126) - 23) := rfl

theorem pow2_23 : pow2 23 = 8388608 := by decide!

theorem pow2_24 : pow2 24 = 16777216 := by decide!

theorem pow2_split (E : Int) : pow2 E = pow2 (E - 23) * pow2 23 := by
  rw [← pow2_add]
  congr 1
  omega

theorem pow2_split_succ (E : Int) : pow2 (E + 1) = pow2 (E - 23) * pow2 24 := by
  rw [← pow2_add]
  congr 1
  omega

/-- What being representable says: the value is a whole number of spacings, below `2 ^ 128` in
magnitude. -/
theorem representable_spec (c : ℚ) (hc : nearest c = fin c) (h0 : c ≠ 0) :
    ((round_half_even (c / ulp c) : Int) : ℚ) * ulp c = c ∧ |c| < pow2 128 := by
  unfold nearest at hc
  rw [if_neg h0] at hc
  split at hc
  · cases hc
  · rename_i hov
    have h1 : ((round_half_even (c / ulp c) : Int) : ℚ) * ulp c = c := by
      injection hc
    refine ⟨h1, ?_⟩
    rw [h1] at hov
    exact not_le.1 hov

/-- The grid point rounding picks is not below a representable number that the rounded number
is not below. -/
theorem grid_ge (c q : ℚ) (hc : nearest c = fin c) (hq : q ≠ 0) (h : c ≤ q) :
    c ≤ ((round_half_even (q / ulp q) : Int) : ℚ) * ulp q := by
  have hu := ulp_pos q
  by_cases hqpos : 0 < q
  · have hn0 : (0 : Int) ≤ round_half_even (q / ulp q) :=
      le_round_half_even _ 0 (by simpa using le_of_lt (div_pos hqpos hu))
    have hnu : (0 : ℚ) ≤ ((round_half_even (q / ulp q) : Int) : ℚ) * ulp q :=
      mul_nonneg (by exact_mod_cast hn0) (le_of_lt hu)
    by_cases hcpos : 0 < c
    · have hc0 : c ≠ 0 := ne_of_gt hcpos
      obtain ⟨hgrid, _⟩ := representable_spec c hc hc0
      have hexp : exponent c ≤ exponent q :=
        exponent_mono hc0 hq (by rw [abs_of_pos hcpos, abs_of_pos hqpos]; exact h)
      by_cases hE : max (exponent c) (-126) = max (exponent q) (-126)
      · have hue : ulp c = ulp q := by rw [ulp_eq, ulp_eq, hE]
        rw [hue] at hgrid
        have hle : ((round_half_even (c / ulp q) : Int) : ℚ) ≤ q / ulp q := by
          rw [le_div_iff₀ hu, hgrid]
          exact h
        have := le_round_half_even _ _ hle
        calc c = ((round_half_even (c / ulp q) : Int) : ℚ) * ulp q := hgrid.symm
          _ ≤ ((round_half_even (q / ulp q) : Int) : ℚ) * ulp q :=
            mul_le_mul_of_nonneg_right (by exact_mod_cast this) (le_of_lt hu)
      · have hlt : max (exponent c) (-126) < max (exponent q) (-126) := by omega
        have heq : max (exponent q) (-126) = exponent q := by omega
        have hcq : exponent c + 1 ≤ exponent q := by omega
        obtain ⟨q1, q2⟩ := exponent_spec q hq
        obtain ⟨c1, c2⟩ := exponent_spec c hc0
        rw [abs_of_pos hqpos] at q1
        rw [abs_of_pos hcpos] at c2
        have hge : ((8388608 : Int) : ℚ) ≤ q / ulp q := by
          rw [le_div_iff₀ hu, ulp_eq, heq]
          have := pow2_split (exponent q)
          rw [pow2_23] at this
          push_cast
          linarith
        have hn := le_round_half_even _ _ hge
        have hnu2 : pow2 (exponent q) ≤ ((round_half_even (q / ulp q) : Int) : ℚ) * ulp q := by
          have h1 : pow2 (exponent q) = ((8388608 : Int) : ℚ) * ulp q := by
            rw [ulp_eq, heq]
            have := pow2_split (exponent q)
            rw [pow2_23] at this
            push_cast
            linarith
          rw [h1]
          exact mul_le_mul_of_nonneg_right (by exact_mod_cast hn) (le_of_lt hu)
        have := pow2_le_pow2 hcq
        linarith
    · have : c ≤ 0 := not_lt.1 hcpos
      linarith
  · have hqneg : q < 0 := lt_of_le_of_ne (not_lt.1 hqpos) hq
    have hcneg : c < 0 := lt_of_le_of_lt h hqneg
    have hc0 : c ≠ 0 := ne_of_lt hcneg
    obtain ⟨hgrid, _⟩ := representable_spec c hc hc0
    have hexp : exponent q ≤ exponent c :=
      exponent_mono hq hc0 (by rw [abs_of_neg hcneg, abs_of_neg hqneg]; linarith)
    by_cases hE : max (exponent c) (-126) = max (exponent q) (-126)
    · have hue : ulp c = ulp q := by rw [ulp_eq, ulp_eq, hE]
      rw [hue] at hgrid
      have hle : ((round_half_even (c / ulp q) : Int) : ℚ) ≤ q / ulp q := by
        rw [le_div_iff₀ hu, hgrid]
        exact h
      have := le_round_half_even _ _ hle
      calc c = ((round_half_even (c / ulp q) : Int) : ℚ) * ulp q := hgrid.symm
        _ ≤ ((round_half_even (q / ulp q) : Int) : ℚ) * ulp q :=
          mul_le_mul_of_nonneg_right (by exact_mod_cast this) (le_of_lt hu)
    · have hlt : max (exponent q) (-126) < max (exponent c) (-126) := by omega
      have heq : max (exponent c) (-126) = exponent c := by omega
      have hcq : max (exponent q) (-126) + 1 ≤ exponent c := by omega
      obtain ⟨q1, q2⟩ := exponent_spec q hq
      obtain ⟨c1, c2⟩ := exponent_spec c hc0
      rw [abs_of_neg hqneg] at q2
      rw [abs_of_neg hcneg] at c1
      have hq3 : -q < pow2 (max (exponent q) (-126) + 1) :=
        lt_of_lt_of_le q2 (pow2_le_pow2 (by omega))
      have hge : ((-16777216 : Int) : ℚ) ≤ q / ulp q := by
        rw [le_div_iff₀ hu, ulp_eq]
        have := pow2_split_succ (max (exponent q) (-126))
        rw [pow2_24] at this
        push_cast
        linarith
      have hn := le_round_half_even _ _ hge
      have hnu2 : -pow2 (max (exponent q) (-126) + 1) ≤
          ((round_half_even (q / ulp q) : Int) : ℚ) * ulp q := by
        have h1 : -pow2 (max (exponent q) (-126) + 1) = ((-16777216 : Int) : ℚ) * ulp q := by
          rw [ulp_eq]
          have := pow2_split_succ (max (exponent q) (-126))
          rw [pow2_24] at this
          push_cast
          linarith
        rw [h1]
        exact mul_le_mul_of_nonneg_right (by exact_mod_cast hn) (le_of_lt hu)
      have := pow2_le_pow2 hcq
      linarith

theorem le_fin_fin (a b : ℚ) : (fin a ≤ fin b) ↔ a ≤ b := by
  show (le (fin a) (fin b) = true) ↔ a ≤ b
  simp [le]

theorem lt_fin_fin (a b : ℚ) : (fin a < fin b) ↔ a < b := by
  show (lt (fin a) (fin b) = true) ↔ a < b
  simp [lt]

/-- Rounding is monotone against representable numbers: what is not below a representable
number does not round below it. -/
theorem nearest_ge (c q : ℚ) (hc : nearest c = fin c) (h : c ≤ q) : fin c ≤ nearest q := by
  by_cases hq : q = 0
  · subst hq
    have : nearest 0 = fin 0 := by simp [nearest]
    rw [this, le_fin_fin]
    exact h
  · have hg := grid_ge c q hc hq h
    unfold nearest
    rw [if_neg hq]
    split
    · rename_i hov
      by_cases hqneg : q < 0
      · exfalso
        have hu := ulp_pos q
        have hn0 : round_half_even (q / ulp q) ≤ (0 : Int) :=
          round_half_even_le _ 0 (by
            simpa using le_of_lt (div_neg_of_neg_of_pos hqneg hu))
        have hnu : ((round_half_even (q / ulp q) : Int) : ℚ) * ulp q ≤ 0 :=
          mul_nonpos_of_nonpos_of_nonneg (by exact_mod_cast hn0) (le_of_lt hu)
        have hcneg : c < 0 := lt_of_le_of_lt h hqneg
        obtain ⟨_, hclt⟩ := representable_spec c hc (ne_of_lt hcneg)
        rw [abs_of_nonpos hnu] at hov
        rw [abs_of_neg hcneg] at hclt
        linarith
      · show le (fin c) (inf (decide (q < 0))) = true
        simp [le, hqneg]
    · rw [le_fin_fin]
      exact hg

theorem neg_fin (a : ℚ) : neg (fin a) = fin (-a) := rfl

theorem le_neg_neg (x : F32) (c : ℚ) (h : fin (-c) ≤ neg x) : x ≤ fin c := by
  cases x with
  | nan => exact absurd h (by show ¬ (le (fin (-c)) (neg nan) = true); simp [le, neg])
  | inf s =>
    have h2 : le (fin (-c)) (neg (inf s)) = true := h
    show le (inf s) (fin c) = true
    simpa [le, neg] using h2
  | fin r =>
    have h2 : le (fin (-c)) (neg (fin r)) = true := h
    show le (fin r) (fin c) = true
    simp only [le, neg, decide_eq_true_eq] at h2 ⊢
    linarith

/-- What is not above a representable number does not round above it. -/
theorem nearest_le (c q : ℚ) (hc : nearest c = fin c) (h : q ≤ c) : nearest q ≤ fin c := by
  have hc2 : nearest (-c) = fin (-c) := by rw [nearest_neg, hc]; rfl
  have := nearest_ge (-c) (-q) hc2 (by linarith)
  rw [nearest_neg] at this
  exact le_neg_neg _ _ this

theorem nearest_zero : nearest 0 = fin 0 := by simp [nearest]

/-- Rounding keeps the sign. -/
theorem nearest_nonneg (q : ℚ) (h : 0 ≤ q) : fin 0 ≤ nearest q :=
  nearest_ge 0 q nearest_zero h

theorem nearest_nonpos (q : ℚ) (h : q ≤ 0) : nearest q ≤ fin 0 :=
  nearest_le 0 q nearest_zero h

/-- A whole number of spacings below `2 ^ 128` is representable. -/
theorem nearest_of_multiple (r : ℚ) (m : Int) (h : r = (m : ℚ) * ulp r) (hlt : |r| < pow2 128) :
    nearest r = fin r := by
  by_cases h0 : r = 0
  · subst h0; exact nearest_zero
  · unfold nearest
    rw [if_neg h0]
    have hu := ulp_pos r
    have hdiv : r / ulp r = (m : ℚ) := by
      rw [div_eq_iff (ne_of_gt hu)]
      exact h
    have hr : round_half_even (r / ulp r) = m := by
      rw [hdiv]
      unfold round_half_even
      simp
    rw [hr, ← h, if_neg (not_le.2 hlt)]

/-- The exponent is the only integer that brackets the magnitude. -/
theorem exponent_unique (q : ℚ) (hq : q ≠ 0) (e : Int) (h1 : pow2 e ≤ |q|)
    (h2 : |q| < pow2 (e + 1)) : exponent q = e := by
  obtain ⟨q1, q2⟩ := exponent_spec q hq
  have a := lt_of_pow2_lt_pow2 (lt_of_le_of_lt h1 q2)
  have b := lt_of_pow2_lt_pow2 (lt_of_le_of_lt q1 h2)
  omega

theorem pow2_nat (k : Nat) : pow2 (k : Int) = ((2 ^ k : Nat) : ℚ) := by
  rw [pow2_eq_zpow]
  simp

/-- Rounding is idempotent: a finite result of rounding is representable. -/
theorem nearest_idem (q r : ℚ) (h : nearest q = fin r) : nearest r = fin r := by
  by_cases hq : q = 0
  · subst hq
    rw [nearest_zero] at h
    cases h
    exact nearest_zero
  · by_cases hr0 : r = 0
    · subst hr0; exact nearest_zero
    · have hu := ulp_pos q
      unfold nearest at h
      rw [if_neg hq] at h
      split at h
      · cases h
      · rename_i hov
        have hr : ((round_half_even (q / ulp q) : Int) : ℚ) * ulp q = r := by injection h
        rw [hr] at hov
        have hlt : |r| < pow2 128 := not_le.1 hov
        obtain ⟨q1, q2⟩ := exponent_spec q hq
        set E := max (exponent q) (-126) with hE
        have hq3 : |q| < pow2 (E + 1) := lt_of_lt_of_le q2 (pow2_le_pow2 (by omega))
        have hsucc := pow2_split_succ E
        rw [pow2_24] at hsucc
        have hue : ulp q = pow2 (E - 23) := rfl
        have habs := abs_lt.1 hq3
        have hn1 : round_half_even (q / ulp q) ≤ (16777216 : Int) :=
          round_half_even_le _ _ (by
            rw [div_le_iff₀ hu, hue]
            push_cast
            linarith)
        have hn2 : (-16777216 : Int) ≤ round_half_even (q / ulp q) :=
          le_round_half_even _ _ (by
            rw [le_div_iff₀ hu, hue]
            push_cast
            linarith)
        set n := round_half_even (q / ulp q) with hn
        have hrabs : |r| = (|n| : Int) * ulp q := by
          rw [← hr, abs_mul, abs_of_pos hu, Int.cast_abs]
        obtain ⟨r1, r2⟩ := exponent_spec r hr0
        by_cases hbig : |n| = 16777216
        · -- the rounding reached the next binade
          have hrv : |r| = pow2 (E + 1) := by
            rw [hrabs, hbig, hsucc, hue]
            push_cast
            ring
          have hexp : exponent r = E + 1 :=
            exponent_unique r hr0 (E + 1) (le_of_eq hrv.symm)
              (by rw [hrv]; exact pow2_lt_pow2 (by omega))
          have hur : ulp r = pow2 (E - 23) * 2 := by
            rw [ulp_eq, hexp]
            have h1 : max (E + 1) (-126) - 23 = (E - 23) + 1 := by omega
            rw [h1, pow2_add]
            congr 1
          have hdiv : (2 : Int) ∣ n := by
            rcases abs_eq (by norm_num : (0 : Int) ≤ 16777216) |>.1 hbig with h1 | h1
            · rw [h1]; decide
            · rw [h1]; decide
          obtain ⟨m, hm⟩ := hdiv
          refine nearest_of_multiple r m ?_ hlt
          rw [hur, ← hr, hue, hm]
          push_cast
          ring
        · have hnlt : |n| < 16777216 := by
            have : |n| ≤ 16777216 := abs_le.2 ⟨hn2, hn1⟩
            omega
          have hrlt : |r| < pow2 (E + 1) := by
            rw [hrabs, hsucc, hue]
            have : ((|n| : Int) : ℚ) < 16777216 := by exact_mod_cast hnlt
            have hp := pow2_pos (E - 23)
            nlinarith
          have hexp : exponent r ≤ E := by
            have := lt_of_pow2_lt_pow2 (lt_of_le_of_lt r1 hrlt)
            omega
          have hk : 0 ≤ E - max (exponent r) (-126) := by omega
          obtain ⟨k, hk2⟩ := Int.eq_ofNat_of_zero_le hk
          have hur : ulp q = ulp r * ((2 ^ k : Nat) : ℚ) := by
            rw [hue, ulp_eq, ← pow2_nat, ← pow2_add]
            congr 1
            omega
          refine nearest_of_multiple r (n * (2 ^ k : Nat)) ?_ hlt
          calc r = (n : ℚ) * ulp q := hr.symm
            _ = (n : ℚ) * (ulp r * ((2 ^ k : Nat) : ℚ)) := by rw [hur]
            _ = ((n * (2 ^ k : Nat) : Int) : ℚ) * ulp r := by push_cast; ring

/-- The value of a float that rounding leaves alone. -/
theorem representable_fin (q : ℚ) : representable (fin q) = true ↔ nearest q = fin q := by
  simp [representable]

/-- The results of the arithmetic operations are representable. -/
theorem representable_nearest (q : ℚ) : representable (nearest q) = true := by
  cases h : nearest q with
  | nan => rfl
  | inf s => rfl
  | fin r =>
    rw [representable_fin]
    exact nearest_idem q r h

end F32

/-! ## Arithmetic facts used below -/

namespace F32

theorem lit_1e7 : lit (1 / 10 ^ 7) = fin (14073749 / 140737488355328) := by decide!

theorem lit_1e9 : lit (1 / 10 ^ 9) = fin (9007199 / 9007199254740992) := by decide!

theorem nearest_1e7 : nearest (14073749 / 140737488355328) = fin (14073749 / 140737488355328) := by
  decide!

theorem nearest_one : nearest 1 = fin 1 := by decide!

theorem add_fin (a b : ℚ) : (fin a + fin b : F32) = nearest (a + b) := rfl

theorem sub_fin (a b : ℚ) : (fin a - fin b : F32) = nearest (a - b) := by
  show add (fin a) (neg (fin b)) = nearest (a - b)
  simp only [neg, add, sub_eq_add_neg]

theorem mul_fin (a b : ℚ) : (fin a * fin b : F32) = nearest (a * b) := rfl

theorem neg_fin_eq (a : ℚ) : (-(fin a) : F32) = fin (-a) := rfl

theorem ofNat_eq (n : Nat) : (OfNat.ofNat n : F32) = fin n := rfl

theorem zero_eq : (0 : F32) = fin 0 := rfl

theorem one_eq : (1 : F32) = fin 1 := rfl

theorem ge_iff (a b : F32) : a ≥ b ↔ le b a = true := Iff.rfl

theorem le_iff (a b : F32) : a ≤ b ↔ le a b = true := Iff.rfl

theorem gt_iff (a b : F32) : a > b ↔ lt b a = true := Iff.rfl

/-- The results of the arithmetic operations are representable. -/
theorem representable_add (a b : F32) : representable (a + b) = true := by
  show representable (add a b) = true
  cases a <;> cases b <;> simp only [add] <;> first
    | rfl
    | exact representable_nearest _
    | (split <;> rfl)

theorem representable_mul (a b : F32) : representable (a * b) = true := by
  show representable (mul a b) = true
  cases a <;> cases b <;> simp only [mul] <;> first
    | rfl
    | exact representable_nearest _
    | (split <;> rfl)

theorem representable_sub (a b : F32) : representable (a - b) = true := by
  show representable (add a (neg b)) = true
  exact representable_add a (neg b)

end F32

theorem Vec4.representable_dot (a b : Vec4) : F32.representable (Vec4.dot a b) = true :=
  F32.representable_add _ _

/-! ## Clipping -/

theorem getD_mem_of_lt {α : Type} (l : List α) (d : α) (i : Nat) (h : i < l.length) :
    l.getD i d ∈ l := by
  rw [List.getD_eq_getElem l d h]
  exact List.getElem_mem h

theorem map_getD_range {α : Type} (l : List α) (d : α) :
    (List.range l.length).map (fun i => l.getD i d) = l := by
  apply List.ext_getElem
  · simp
  · intro i h1 h2
    simp [List.getElem?_eq_getElem h2]

/-- The edge step of the clip, written with the inside test. -/
theorem clip_edge_eq (prev_v current_v : CppClipVertex) (plane : Vec4) :
    clip_edge prev_v current_v plane =
      if is_inside plane current_v then
        if ¬ is_inside plane prev_v then
          if get_intersection_param_internal_cpp prev_v.position_clip current_v.position_clip
              plane ≥ 0 ∧
            get_intersection_param_internal_cpp prev_v.position_clip current_v.position_clip
              plane ≤ 1 then
            [interpolated_vertex prev_v current_v
              (get_intersection_param_internal_cpp prev_v.position_clip
                current_v.position_clip plane), current_v]
          else [current_v]
        else [current_v]
      else if is_inside plane prev_v then
        if get_intersection_param_internal_cpp prev_v.position_clip current_v.position_clip
            plane ≥ 0 ∧
          get_intersection_param_internal_cpp prev_v.position_clip current_v.position_clip
            plane ≤ 1 then
          [interpolated_vertex prev_v current_v
            (get_intersection_param_internal_cpp prev_v.position_clip
              current_v.position_clip plane)]
        else []
      else [] := by
  unfold clip_edge is_inside signed_distance
  by_cases hc : Vec4.dot plane current_v.position_clip ≥ -F32.lit (1 / 10 ^ 7) <;>
    by_cases hp : Vec4.dot plane prev_v.position_clip ≥ -F32.lit (1 / 10 ^ 7) <;>
    simp only [hc, hp, decide_True, decide_False, if_true, if_false, Bool.not_true,
      Bool.not_false, Bool.false_eq_true, not_true_eq_false, not_false_eq_true]

theorem clip_edge_inside_inside (prev_v current_v : CppClipVertex) (plane : Vec4)
    (hp : is_inside plane prev_v) (hc : is_inside plane current_v) :
    clip_edge prev_v current_v plane = [current_v] := by
  rw [clip_edge_eq, if_pos hc, if_neg (not_not.2 hp)]

theorem clip_edge_outside_outside (prev_v current_v : CppClipVertex) (plane : Vec4)
    (hp : ¬ is_inside plane prev_v) (hc : ¬ is_inside plane current_v) :
    clip_edge prev_v current_v plane = [] := by
  rw [clip_edge_eq, if_neg hc, if_neg hp]

/-- Every vertex an edge contributes is the edge's end point, which then passes the inside
test, or the vertex interpolated with the computed intersection parameter, which is then in
`[0, 1]` while exactly one end point passes the inside test. -/
theorem clip_edge_mem (prev_v current_v : CppClipVertex) (plane : Vec4) (v : CppClipVertex)
    (hv : v ∈ clip_edge prev_v current_v plane) :
    (v = current_v ∧ is_inside plane current_v) ∨
    (v = interpolated_vertex prev_v current_v
        (get_intersection_param_internal_cpp prev_v.position_clip current_v.position_clip
          plane) ∧
      get_intersection_param_internal_cpp prev_v.position_clip current_v.position_clip plane
        ≥ 0 ∧
      get_intersection_param_internal_cpp prev_v.position_clip current_v.position_clip plane
        ≤ 1 ∧
      (is_inside plane current_v ↔ ¬ is_inside plane prev_v)) := by
  rw [clip_edge_eq] at hv
  by_cases hc : is_inside plane current_v
  · rw [if_pos hc] at hv
    by_cases hp : is_inside plane prev_v
    · rw [if_neg (not_not.2 hp)] at hv
      left; exact ⟨by simpa using hv, hc⟩
    · rw [if_pos hp] at hv
      split at hv
      · rename_i ht
        rcases List.mem_cons.1 hv with h | h
        · right; exact ⟨h, ht.1, ht.2, by simp [hc, hp]⟩
        · left; exact ⟨by simpa using h, hc⟩
      · left; exact ⟨by simpa using hv, hc⟩
  · rw [if_neg hc] at hv
    by_cases hp : is_inside plane prev_v
    · rw [if_pos hp] at hv
      split at hv
      · rename_i ht
        right; exact ⟨by simpa using hv, ht.1, ht.2, by simp [hc, hp]⟩
      · simp at hv
    · rw [if_neg hp] at hv
      simp at hv

/-- The polygon a clip returns is the concatenation, edge after edge, of what each edge
contributes. -/
theorem clip_polygon_eq_flatMap (polygon_in : List CppClipVertex) (plane : Vec4) :
    clip_polygon_to_plane_internal_cpp polygon_in plane =
      (List.range polygon_in.length).flatMap (fun i =>
        clip_edge (polygon_in.getD ((i + polygon_in.length - 1) % polygon_in.length)
          CppClipVertex.zero) (polygon_in.getD i CppClipVertex.zero) plane) := by
  unfold clip_polygon_to_plane_internal_cpp
  by_cases hn : polygon_in.length = 0
  · simp [hn]
  · simp [hn]

/-- Every vertex of the clipped polygon comes from an edge of the input polygon. -/
theorem clip_polygon_mem (polygon_in : List CppClipVertex) (plane : Vec4) (v : CppClipVertex)
    (hv : v ∈ clip_polygon_to_plane_internal_cpp polygon_in plane) :
    ∃ prev_v ∈ polygon_in, ∃ current_v ∈ polygon_in, v ∈ clip_edge prev_v current_v plane := by
  rw [clip_polygon_eq_flatMap] at hv
  obtain ⟨i, hi, hmem⟩ := List.mem_flatMap.1 hv
  have hi' : i < polygon_in.length := List.mem_range.1 hi
  have hpos : 0 < polygon_in.length := by omega
  exact ⟨_, getD_mem_of_lt polygon_in CppClipVertex.zero _ (Nat.mod_lt _ hpos), _,
    getD_mem_of_lt polygon_in CppClipVertex.zero i hi', hmem⟩

theorem clip_polygon_all_inside (polygon_in : List CppClipVertex) (plane : Vec4)
    (h : ∀ v ∈ polygon_in, is_inside plane v) :
    clip_polygon_to_plane_internal_cpp polygon_in plane = polygon_in := by
  unfold clip_polygon_to_plane_internal_cpp
  simp only
  split
  · rename_i hn
    exact (List.length_eq_zero.1 hn).symm
  · rename_i hn
    have hpos : 0 < polygon_in.length := Nat.pos_of_ne_zero hn
    have hstep : ∀ i ∈ List.range polygon_in.length,
        clip_edge (polygon_in.getD ((i + polygon_in.length - 1) % polygon_in.length)
          CppClipVertex.zero) (polygon_in.getD i CppClipVertex.zero) plane
          = [polygon_in.getD i CppClipVertex.zero] := by
      intro i hi
      have hi' : i < polygon_in.length := List.mem_range.1 hi
      exact clip_edge_inside_inside _ _ _
        (h _ (getD_mem_of_lt _ _ _ (Nat.mod_lt _ hpos))) (h _ (getD_mem_of_lt _ _ _ hi'))
    rw [List.flatMap_congr hstep]
    have : (List.range polygon_in.length).flatMap
        (fun i => [polygon_in.getD i CppClipVertex.zero])
        = (List.range polygon_in.length).map (fun i => polygon_in.getD i CppClipVertex.zero) := by
      induction (List.range polygon_in.length) with
      | nil => rfl
      | cons x xs ih => rw [List.flatMap_cons, ih]; rfl
    rw [this, map_getD_range]

theorem clip_polygon_all_outside (polygon_in : List CppClipVertex) (plane : Vec4)
    (h : ∀ v ∈ polygon_in, ¬ is_inside plane v) :
    clip_polygon_to_plane_internal_cpp polygon_in plane = [] := by
  unfold clip_polygon_to_plane_internal_cpp
  simp only
  split
  · rfl
  · rename_i hn
    have hpos : 0 < polygon_in.length := Nat.pos_of_ne_zero hn
    have hstep : ∀ i ∈ List.range polygon_in.length,
        clip_edge (polygon_in.getD ((i + polygon_in.length - 1) % polygon_in.length)
          CppClipVertex.zero) (polygon_in.getD i CppClipVertex.zero) plane = [] := by
      intro i hi
      have hi' : i < polygon_in.length := List.mem_range.1 hi
      exact clip_edge_outside_outside _ _ _
        (h _ (getD_mem_of_lt _ _ _ (Nat.mod_lt _ hpos))) (h _ (getD_mem_of_lt _ _ _ hi'))
    rw [List.flatMap_congr hstep]
    induction (List.range polygon_in.length) with
    | nil => rfl
    | cons x xs ih => simp [List.flatMap_cons, ih]

theorem clip_to_planes_all_inside (planes : List Vec4) (polygon : List CppClipVertex)
    (hlen : 3 ≤ polygon.length) (h : ∀ plane ∈ planes, ∀ v ∈ polygon, is_inside plane v) :
    clip_to_planes polygon planes = some polygon := by
  induction planes with
  | nil => rfl
  | cons plane rest ih =>
    have h1 := clip_polygon_all_inside polygon plane (h plane (List.mem_cons_self _ _))
    have hlt : ¬ polygon.length < 3 := by omega
    simp only [clip_to_planes, h1, hlt, if_false]
    exact ih (fun q hq => h q (List.mem_cons_of_mem _ hq))

theorem clip_to_planes_append (pre rest : List Vec4) :
    ∀ polygon : List CppClipVertex,
      clip_to_planes polygon (pre ++ rest) =
        match clip_to_planes polygon pre with
        | none => none
        | some clipped => clip_to_planes clipped rest := by
  induction pre with
  | nil => intro polygon; rfl
  | cons plane more ih =>
    intro polygon
    simp only [List.cons_append, clip_to_planes]
    split
    · rfl
    · exact ih _

theorem fan_triangles_three (a b c : CppClipVertex) : fan_triangles [a, b, c] = [[a, b, c]] := by
  simp [fan_triangles, List.range_succ]

theorem fan_triangles_length (polygon : List CppClipVertex) :
    (fan_triangles polygon).length = polygon.length - 2 := by
  simp [fan_triangles]
  omega

/-- A polygon that a plane leaves with fewer than three vertices yields no triangle. -/
theorem clip_to_planes_none_of_short (pre post : List Vec4) (plane : Vec4)
    (polygon clipped : List CppClipVertex) (hpre : clip_to_planes polygon pre = some clipped)
    (hshort : (clip_polygon_to_plane_internal_cpp clipped plane).length < 3) :
    clip_to_planes polygon (pre ++ plane :: post) = none := by
  rw [clip_to_planes_append, hpre]
  simp only [clip_to_planes, hshort, if_true]

theorem vertex_loop_all_original (s : RendererState) (verts : List CppClipVertex)
    (horig : ∀ v ∈ verts, v.is_original = true) (flag : Bool) :
    ∀ st : VertexLoopState, st.was_modified_by_clipping_debug = false →
      vertex_loop { s with g_current_debug_clipping_enabled_flag := flag } verts st
        = vertex_loop s verts st ∧
      ∀ st2, vertex_loop s verts st = some st2 → st2.was_modified_by_clipping_debug = false := by
  induction verts with
  | nil =>
    intro st hst
    refine ⟨rfl, ?_⟩
    intro st2 h2
    simp only [vertex_loop, Option.some.injEq] at h2
    rw [← h2]; exact hst
  | cons v more ih =>
    intro st hst
    have hv : v.is_original = true := horig v (List.mem_cons_self _ _)
    have ih2 := ih (fun w hw => horig w (List.mem_cons_of_mem _ hw))
    simp only [vertex_loop, hv, hst, Bool.not_true, Bool.and_false, Bool.or_false]
    split
    · exact ⟨rfl, fun st2 h2 => by simp at h2⟩
    · exact ih2 _ rfl

/-! ## The inside test and the intersection parameter in binary32 -/

theorem F32.value_fin (q : ℚ) : (F32.fin q).value = q := rfl

/-- A position made of finite floats: four rationals that rounding leaves alone. -/
theorem Vec4.is_float_spec (v : Vec4) (h : v.is_float = true) :
    ∃ x y z w : ℚ, v = ⟨F32.fin x, F32.fin y, F32.fin z, F32.fin w⟩ ∧
      F32.nearest x = F32.fin x ∧ F32.nearest y = F32.fin y ∧
      F32.nearest z = F32.fin z ∧ F32.nearest w = F32.fin w := by
  obtain ⟨x, y, z, w⟩ := v
  simp only [Vec4.is_float, Bool.and_eq_true] at h
  obtain ⟨⟨⟨⟨⟨⟨⟨h1, h2⟩, h3⟩, h4⟩, h5⟩, h6⟩, h7⟩, h8⟩ := h
  cases x with
  | nan => simp [F32.is_finite] at h1
  | inf s => simp [F32.is_finite] at h1
  | fin x =>
    cases y with
    | nan => simp [F32.is_finite] at h3
    | inf s => simp [F32.is_finite] at h3
    | fin y =>
      cases z with
      | nan => simp [F32.is_finite] at h5
      | inf s => simp [F32.is_finite] at h5
      | fin z =>
        cases w with
        | nan => simp [F32.is_finite] at h7
        | inf s => simp [F32.is_finite] at h7
        | fin w =>
          exact ⟨x, y, z, w, rfl, (F32.representable_fin x).1 h2, (F32.representable_fin y).1 h4,
            (F32.representable_fin z).1 h6, (F32.representable_fin w).1 h8⟩

theorem F32.zero_add_nearest (q : ℚ) : (F32.fin 0 + F32.nearest q : F32) = F32.nearest q := by
  cases h : F32.nearest q with
  | nan => rfl
  | inf s => rfl
  | fin r =>
    show F32.nearest (0 + r) = F32.fin r
    rw [zero_add]
    exact F32.nearest_idem q r h

/-- For a vertex made of finite floats the computed signed distance to each of the six planes
is the exact one, rounded once. -/
theorem signed_distance_frustum (plane : Vec4) (hplane : plane ∈ frustum_planes_static)
    (v : CppClipVertex) (hv : v.position_clip.is_float = true) :
    signed_distance plane v = F32.nearest (exact_signed_distance plane v) := by
  obtain ⟨x, y, z, w, hpos, hx, hy, hz, hw⟩ := Vec4.is_float_spec _ hv
  have hnx : F32.nearest (-x) = F32.fin (-x) := by rw [F32.nearest_neg, hx]; rfl
  have hny : F32.nearest (-y) = F32.fin (-y) := by rw [F32.nearest_neg, hy]; rfl
  have hnz : F32.nearest (-z) = F32.fin (-z) := by rw [F32.nearest_neg, hz]; rfl
  simp only [frustum_planes_static, List.mem_cons, List.mem_singleton, List.not_mem_nil,
    or_false] at hplane
  rcases hplane with rfl | rfl | rfl | rfl | rfl | rfl <;>
    simp only [signed_distance, exact_signed_distance, hpos, Vec4.dot, F32.one_eq, F32.zero_eq,
      F32.neg_fin_eq, F32.mul_fin, F32.add_fin, F32.value_fin, one_mul, zero_mul, add_zero,
      zero_add, neg_mul, F32.nearest_zero, hx, hy, hz, hw, hnx, hny, hnz, F32.zero_add_nearest]

theorem F32.neg_lit_1e7 :
    (-F32.lit (1 / 10 ^ 7) : F32) = F32.fin (-(14073749 / 140737488355328)) := by
  rw [F32.lit_1e7]
  rfl

theorem F32.nearest_neg_1e7 :
    F32.nearest (-(14073749 / 140737488355328)) = F32.fin (-(14073749 / 140737488355328)) := by
  rw [F32.nearest_neg, F32.nearest_1e7]
  rfl

theorem F32.nearest_below_1e7 :
    F32.nearest (-(14073750 / 140737488355328)) = F32.fin (-(14073750 / 140737488355328)) := by
  decide!

/-- A vertex made of finite floats whose exact signed distance to one of the six planes is at
least `-1e-7` passes the inside test for it. -/
theorem is_inside_of_exact (plane : Vec4) (hplane : plane ∈ frustum_planes_static)
    (v : CppClipVertex) (hv : v.position_clip.is_float = true)
    (h : exact_signed_distance plane v ≥ -(1 / 10 ^ 7)) : is_inside plane v := by
  unfold is_inside
  rw [signed_distance_frustum plane hplane v hv, F32.neg_lit_1e7]
  refine F32.nearest_ge _ _ F32.nearest_neg_1e7 ?_
  have : (-(14073749 / 140737488355328) : ℚ) ≤ -(1 / 10 ^ 7) := by norm_num
  linarith

/-- A vertex made of finite floats that passes the inside test for one of the six planes has
an exact signed distance above `-14073750 / 2 ^ 47`, the binary32 value next below `-1e-7f`. -/
theorem exact_of_is_inside (plane : Vec4) (hplane : plane ∈ frustum_planes_static)
    (v : CppClipVertex) (hv : v.position_clip.is_float = true) (h : is_inside plane v) :
    exact_signed_distance plane v > -(14073750 / 140737488355328) := by
  by_contra hn
  have hle : exact_signed_distance plane v ≤ -(14073750 / 140737488355328) := not_lt.1 hn
  have h1 := F32.nearest_le _ _ F32.nearest_below_1e7 hle
  unfold is_inside at h
  rw [signed_distance_frustum plane hplane v hv, F32.neg_lit_1e7] at h
  -- `-1e-7f ≤ fl(d) ≤ next below`: impossible
  cases hd : F32.nearest (exact_signed_distance plane v) with
  | nan => rw [hd] at h; exact absurd h (by decide)
  | inf s =>
    rw [hd] at h h1
    have h2 : F32.le (F32.fin (-(14073749 / 140737488355328))) (F32.inf s) = true := h
    have h3 : F32.le (F32.inf s) (F32.fin (-(14073750 / 140737488355328))) = true := h1
    simp only [F32.le] at h2 h3
    rw [h3] at h2
    exact absurd h2 (by decide)
  | fin r =>
    rw [hd] at h h1
    have h2 := (F32.le_fin_fin _ _).1 h
    have h3 := (F32.le_fin_fin _ _).1 h1
    have : (-(14073750 / 140737488355328) : ℚ) < -(14073749 / 140737488355328) := by norm_num
    linarith

/-- What failing the inside test says of a finite computed distance. -/
theorem not_inside_fin (plane : Vec4) (v : CppClipVertex) (c : ℚ)
    (hc : signed_distance plane v = F32.fin c) (h : ¬ is_inside plane v) :
    c < -(14073749 / 140737488355328) := by
  unfold is_inside at h
  rw [hc, F32.neg_lit_1e7] at h
  have := mt (F32.le_fin_fin _ _).2 h
  exact not_le.1 this

theorem signed_distance_representable (plane : Vec4) (v : CppClipVertex) (p : ℚ)
    (hp : signed_distance plane v = F32.fin p) : F32.nearest p = F32.fin p := by
  have := Vec4.representable_dot plane v.position_clip
  unfold signed_distance at hp
  rw [hp] at this
  exact (F32.representable_fin p).1 this

/-- An edge that leaves the plane: its start has a finite computed distance `≥ 0`, its end a
finite computed distance that fails the inside test. The computed intersection parameter is
then accepted. -/
theorem intersection_param_in_out (prev_v current_v : CppClipVertex) (plane : Vec4) (p c : ℚ)
    (hp : signed_distance plane prev_v = F32.fin p) (hp0 : 0 ≤ p)
    (hc : signed_distance plane current_v = F32.fin c) (hout : ¬ is_inside plane current_v) :
    get_intersection_param_internal_cpp prev_v.position_clip current_v.position_clip plane ≥ 0 ∧
    get_intersection_param_internal_cpp prev_v.position_clip current_v.position_clip plane ≤ 1 := by
  have hc7 := not_inside_fin plane current_v c hc hout
  have hrep := signed_distance_representable plane prev_v p hp
  unfold signed_distance at hp hc
  unfold get_intersection_param_internal_cpp
  simp only [hp, hc, F32.sub_fin, F32.lit_1e9]
  have hge7 := F32.nearest_ge _ (p - c) F32.nearest_1e7 (by linarith)
  have hgep := F32.nearest_ge p (p - c) hrep (by linarith)
  cases hd : F32.nearest (p - c) with
  | nan => rw [hd] at hge7; exact absurd hge7 (by decide)
  | inf s =>
    rw [hd] at hge7
    have hs : s = false := by
      have h2 : F32.le (F32.fin (14073749 / 140737488355328)) (F32.inf s) = true := hge7
      simpa [F32.le] using h2
    subst hs
    have hg : ¬ ((F32.inf false).fabs < F32.fin (9007199 / 9007199254740992)) := by decide
    rw [if_neg hg]
    have hdiv : (F32.fin p / F32.inf false : F32) = F32.fin 0 := rfl
    rw [hdiv]
    exact ⟨by decide!, by decide!⟩
  | fin r =>
    rw [hd] at hge7 hgep
    have h7 := (F32.le_fin_fin _ _).1 hge7
    have hpr := (F32.le_fin_fin _ _).1 hgep
    have hrpos : 0 < r := lt_of_lt_of_le (by norm_num) h7
    have hguard : ¬ (F32.fabs (F32.fin r) < F32.fin (9007199 / 9007199254740992)) := by
      show ¬ (F32.lt (F32.fin |r|) (F32.fin (9007199 / 9007199254740992)) = true)
      simp only [F32.lt, decide_eq_true_eq, not_lt, abs_of_pos hrpos]
      have : (9007199 / 9007199254740992 : ℚ) ≤ 14073749 / 140737488355328 := by norm_num
      linarith
    rw [if_neg hguard]
    have hdiv : (F32.fin p / F32.fin r : F32) = F32.nearest (p / r) := by
      show F32.div (F32.fin p) (F32.fin r) = F32.nearest (p / r)
      simp only [F32.div, if_neg (ne_of_gt hrpos)]
    rw [hdiv]
    exact ⟨F32.nearest_nonneg _ (div_nonneg hp0 (le_of_lt hrpos)),
      F32.nearest_le 1 _ F32.nearest_one ((div_le_one hrpos).2 hpr)⟩

/-- An edge that enters the plane: its start has a finite computed distance that fails the
inside test, its end a finite computed distance `≥ 0`. The computed intersection parameter is
then accepted. -/
theorem intersection_param_out_in (prev_v current_v : CppClipVertex) (plane : Vec4) (p c : ℚ)
    (hp : signed_distance plane prev_v = F32.fin p) (hout : ¬ is_inside plane prev_v)
    (hc : signed_distance plane current_v = F32.fin c) (hc0 : 0 ≤ c) :
    get_intersection_param_internal_cpp prev_v.position_clip current_v.position_clip plane ≥ 0 ∧
    get_intersection_param_internal_cpp prev_v.position_clip current_v.position_clip plane ≤ 1 := by
  have hp7 := not_inside_fin plane prev_v p hp hout
  have hrep := signed_distance_representable plane prev_v p hp
  unfold signed_distance at hp hc
  unfold get_intersection_param_internal_cpp
  simp only [hp, hc, F32.sub_fin, F32.lit_1e9]
  have hle7 := F32.nearest_le _ (p - c) F32.nearest_neg_1e7 (by linarith)
  have hlep := F32.nearest_le p (p - c) hrep (by linarith)
  cases hd : F32.nearest (p - c) with
  | nan => rw [hd] at hle7; exact absurd hle7 (by decide)
  | inf s =>
    rw [hd] at hle7
    have hs : s = true := by
      have h2 : F32.le (F32.inf s) (F32.fin (-(14073749 / 140737488355328))) = true := hle7
      simpa [F32.le] using h2
    subst hs
    have hg : ¬ ((F32.inf true).fabs < F32.fin (9007199 / 9007199254740992)) := by decide
    rw [if_neg hg]
    have hdiv : (F32.fin p / F32.inf true : F32) = F32.fin 0 := rfl
    rw [hdiv]
    exact ⟨by decide!, by decide!⟩
  | fin r =>
    rw [hd] at hle7 hlep
    have h7 := (F32.le_fin_fin _ _).1 hle7
    have hpr := (F32.le_fin_fin _ _).1 hlep
    have hrneg : r < 0 := lt_of_le_of_lt h7 (by norm_num)
    have hguard : ¬ (F32.fabs (F32.fin r) < F32.fin (9007199 / 9007199254740992)) := by
      show ¬ (F32.lt (F32.fin |r|) (F32.fin (9007199 / 9007199254740992)) = true)
      simp only [F32.lt, decide_eq_true_eq, not_lt, abs_of_neg hrneg]
      have : (9007199 / 9007199254740992 : ℚ) ≤ 14073749 / 140737488355328 := by norm_num
      linarith
    rw [if_neg hguard]
    have hdiv : (F32.fin p / F32.fin r : F32) = F32.nearest (p / r) := by
      show F32.div (F32.fin p) (F32.fin r) = F32.nearest (p / r)
      simp only [F32.div, if_neg (ne_of_lt hrneg)]
    rw [hdiv]
    have hpneg : p < 0 := lt_of_lt_of_le hp7 (by norm_num)
    exact ⟨F32.nearest_nonneg _ (div_nonneg_of_nonpos (le_of_lt hpneg) (le_of_lt hrneg)),
      F32.nearest_le 1 _ F32.nearest_one ((div_le_one_of_neg hrneg).2 hpr)⟩

/-! ## The clipper: fan, plane loop and the claims about them -/

/-- Every vertex of a fan triangle is a vertex of the polygon. -/
theorem fan_triangles_mem (polygon : List CppClipVertex) (t : List CppClipVertex)
    (ht : t ∈ fan_triangles polygon) : ∀ v ∈ t, v ∈ polygon := by
  unfold fan_triangles at ht
  obtain ⟨j, hj, hjt⟩ := List.mem_map.1 ht
  have hj2 : j < polygon.length - 1 - 1 := List.mem_range.1 hj
  intro v hv
  rw [← hjt] at hv
  simp only [List.mem_cons, List.mem_singleton, List.not_mem_nil, or_false] at hv
  rcases hv with h | h | h
  · rw [h]; exact getD_mem_of_lt _ _ _ (by omega)
  · rw [h]; exact getD_mem_of_lt _ _ _ (by omega)
  · rw [h]; exact getD_mem_of_lt _ _ _ (by omega)

/-- The plane loop returns the polygon clipped by all planes in turn when every intermediate
polygon has at least three vertices. -/
theorem clip_to_planes_some (planes : List Vec4) :
    ∀ polygon : List CppClipVertex,
      (∀ k, k < planes.length →
        3 ≤ (List.foldl clip_polygon_to_plane_internal_cpp polygon
          (planes.take (k + 1))).length) →
      clip_to_planes polygon planes =
        some (List.foldl clip_polygon_to_plane_internal_cpp polygon planes) := by
  induction planes with
  | nil => intro polygon _; rfl
  | cons plane rest ih =>
    intro polygon h
    have h0 := h 0 (by simp)
    simp only [List.take_succ_cons, List.take_zero, List.foldl_cons, List.foldl_nil] at h0
    have hlt : ¬ (clip_polygon_to_plane_internal_cpp polygon plane).length < 3 := by omega
    simp only [clip_to_planes, hlt, if_false, List.foldl_cons]
    apply ih
    intro k hk
    have := h (k + 1) (by simpa using hk)
    simpa [List.take_succ_cons] using this

/-- The plane loop returns early as soon as an intermediate polygon has fewer than three
vertices. -/
theorem clip_to_planes_none (planes : List Vec4) :
    ∀ polygon : List CppClipVertex,
      (∃ k, k < planes.length ∧
        (List.foldl clip_polygon_to_plane_internal_cpp polygon
          (planes.take (k + 1))).length < 3) →
      clip_to_planes polygon planes = none := by
  induction planes with
  | nil => intro polygon ⟨k, hk, _⟩; simp at hk
  | cons plane rest ih =>
    intro polygon ⟨k, hk, hlen⟩
    simp only [clip_to_planes]
    by_cases hlt : (clip_polygon_to_plane_internal_cpp polygon plane).length < 3
    · simp [hlt]
    · simp only [hlt, if_false]
      cases k with
      | zero =>
        simp only [List.take_succ_cons, List.take_zero, List.foldl_cons, List.foldl_nil] at hlen
        exact absurd hlen hlt
      | succ k2 =>
        apply ih
        refine ⟨k2, by simpa using hk, ?_⟩
        simpa [List.take_succ_cons] using hlen

/-- Every vertex the plane loop returns is a vertex of the input that passes the inside test
of every plane, or a vertex some plane created, flagged not original. -/
theorem clip_to_planes_mem (planes : List Vec4) :
    ∀ polygon out : List CppClipVertex, clip_to_planes polygon planes = some out →
      ∀ v ∈ out, (v ∈ polygon ∧ ∀ q ∈ planes, is_inside q v) ∨ v.is_original = false := by
  induction planes with
  | nil =>
    intro polygon out h v hv
    simp only [clip_to_planes, Option.some.injEq] at h
    subst h
    exact Or.inl ⟨hv, fun q hq => absurd hq (List.not_mem_nil q)⟩
  | cons plane rest ih =>
    intro polygon out h v hv
    simp only [clip_to_planes] at h
    split at h
    · exact absurd h (by simp)
    · rcases ih _ out h v hv with ⟨hmem, hin⟩ | horig
      · obtain ⟨p, hp, c, hc, hedge⟩ := clip_polygon_mem polygon plane v hmem
        rcases clip_edge_mem p c plane v hedge with ⟨hvc, hcin⟩ | ⟨hvi, _⟩
        · left
          subst hvc
          refine ⟨hc, ?_⟩
          intro q hq
          rcases List.mem_cons.1 hq with h1 | h1
          · rw [h1]; exact hcin
          · exact hin q h1
        · right
          rw [hvi]; rfl
      · exact Or.inr horig

/-- A polygon none of whose vertices passes the inside test of a plane does not survive the
plane loop once that plane is reached. -/
theorem clip_to_planes_outside_at (pre post : List Vec4) (plane : Vec4)
    (polygon reached : List CppClipVertex) (hpre : clip_to_planes polygon pre = some reached)
    (hout : ∀ v ∈ reached, ¬ is_inside plane v) :
    clip_to_planes polygon (pre ++ plane :: post) = none := by
  apply clip_to_planes_none_of_short pre post plane polygon reached hpre
  rw [clip_polygon_all_outside reached plane hout]
  decide

/-- C7. Clipping, fully inside: a triangle whose three clip-space vertices pass the inside
test of all six planes (computed signed distance `≥ -1e-7f`), or are finite floats whose exact
signed distance to each plane is `≥ -1e-7`, comes back from
`clip_triangle_to_frustum_internal_cpp` as exactly one triangle, the input itself (same order,
same attributes, same flags). The triangles the pipeline feeds in are flagged original, and
for a triangle flagged original the screen triangle is the same whether debug-clip colouring
is enabled or not. -/
theorem C7_clip_fully_inside (a b c : CppClipVertex)
    (h : (∀ plane ∈ frustum_planes_static, ∀ v ∈ [a, b, c], is_inside plane v) ∨
      ((∀ v ∈ [a, b, c], v.position_clip.is_float = true) ∧
        ∀ plane ∈ frustum_planes_static, ∀ v ∈ [a, b, c],
          exact_signed_distance plane v ≥ -(1 / 10 ^ 7))) :
    clip_triangle_to_frustum_internal_cpp [a, b, c] frustum_planes_static = [[a, b, c]] ∧
    (∀ (s : RendererState) (world_v colors : List Vec3),
      ∀ v ∈ clip_space_input_triangle s world_v colors, v.is_original = true) ∧
    ((∀ v ∈ [a, b, c], v.is_original = true) →
      ∀ (s : RendererState) (world_v : List Vec3) (normal : Vec3),
      ∀ tri ∈ clip_triangle_to_frustum_internal_cpp [a, b, c] frustum_planes_static,
        (∀ v ∈ tri, v.is_original = true) ∧
        screen_triangle_of_clipped s world_v normal tri =
          screen_triangle_of_clipped
            { s with g_current_debug_clipping_enabled_flag := false } world_v normal tri) := by
  have hin : ∀ plane ∈ frustum_planes_static, ∀ v ∈ [a, b, c], is_inside plane v := by
    rcases h with h | ⟨hf, he⟩
    · exact h
    · intro plane hplane v hv
      exact is_inside_of_exact plane hplane v (hf v hv) (he plane hplane v hv)
  have hclip : clip_triangle_to_frustum_internal_cpp [a, b, c] frustum_planes_static
      = [[a, b, c]] := by
    have h1 := clip_to_planes_all_inside frustum_planes_static [a, b, c] (by simp) hin
    simp [clip_triangle_to_frustum_internal_cpp, h1, fan_triangles_three]
  refine ⟨hclip, ?_, ?_⟩
  · intro s world_v colors v hv
    simp only [clip_space_input_triangle, List.mem_map] at hv
    obtain ⟨i, _, rfl⟩ := hv
    rfl
  · intro horig s world_v normal tri htri
    rw [hclip] at htri
    have htri2 : tri = [a, b, c] := by simpa using htri
    subst htri2
    refine ⟨horig, ?_⟩
    have hloop := vertex_loop_all_original s [a, b, c] horig false
      { screen_coords := [], depth := 0, accumulated_interpolated_color_float := ⟨0, 0, 0⟩,
        was_modified_by_clipping_debug := false } rfl
    simp only [screen_triangle_of_clipped, hloop.1]
    cases hl : vertex_loop s [a, b, c]
      { screen_coords := [], depth := 0, accumulated_interpolated_color_float := ⟨0, 0, 0⟩,
        was_modified_by_clipping_debug := false } with
    | none => simp
    | some st =>
      have hmod := hloop.2 st hl
      simp [hmod, light_intensity]

/-- Witness for C7: a small triangle around the origin of clip space, with debug-clip
colouring switched on in the sample frame. -/
theorem C7_clip_fully_inside_witness :
    ((∀ v ∈ [clip_vertex_at 0 0 0 1, clip_vertex_at (F32.lit (1 / 2)) 0 0 1,
        clip_vertex_at 0 (F32.lit (1 / 2)) 0 1], v.position_clip.is_float = true) ∧
     (∀ plane ∈ frustum_planes_static,
      ∀ v ∈ [clip_vertex_at 0 0 0 1, clip_vertex_at (F32.lit (1 / 2)) 0 0 1,
        clip_vertex_at 0 (F32.lit (1 / 2)) 0 1],
        exact_signed_distance plane v ≥ -(1 / 10 ^ 7)) ∧
     (∀ v ∈ [clip_vertex_at 0 0 0 1, clip_vertex_at (F32.lit (1 / 2)) 0 0 1,
        clip_vertex_at 0 (F32.lit (1 / 2)) 0 1], v.is_original = true)) ∧
    clip_triangle_to_frustum_internal_cpp
      [clip_vertex_at 0 0 0 1, clip_vertex_at (F32.lit (1 / 2)) 0 0 1,
        clip_vertex_at 0 (F32.lit (1 / 2)) 0 1] frustum_planes_static
      = [[clip_vertex_at 0 0 0 1, clip_vertex_at (F32.lit (1 / 2)) 0 0 1,
        clip_vertex_at 0 (F32.lit (1 / 2)) 0 1]] ∧
    ∀ tri ∈ clip_triangle_to_frustum_internal_cpp
        [clip_vertex_at 0 0 0 1, clip_vertex_at (F32.lit (1 / 2)) 0 0 1,
          clip_vertex_at 0 (F32.lit (1 / 2)) 0 1] frustum_planes_static,
      (∀ v ∈ tri, v.is_original = true) ∧
      screen_triangle_of_clipped
          { sample_frame false 5 0 with g_current_debug_clipping_enabled_flag := true }
          [] ⟨0, 0, 1⟩ tri =
        screen_triangle_of_clipped
          { sample_frame false 5 0 with g_current_debug_clipping_enabled_flag := false }
          [] ⟨0, 0, 1⟩ tri :=
  ⟨⟨by decide!, by decide!, by decide!⟩,
    (C7_clip_fully_inside _ _ _ (Or.inr ⟨by decide!, by decide!⟩)).1,
    fun tri htri => (C7_clip_fully_inside _ _ _ (Or.inr ⟨by decide!, by decide!⟩)).2.2
      (by decide!)
      { sample_frame false 5 0 with g_current_debug_clipping_enabled_flag := true }
      [] ⟨0, 0, 1⟩ tri htri⟩

/-- C8, as amended. Clipping, fully outside. With the six planes split as
`pre ++ plane :: post`: when none of the vertices of the polygon that reaches `plane` passes
its inside test (computed signed distance `≥ -1e-7f`), no triangle is returned. That is the
case when the three input vertices fail the test of `plane` and pass those of the earlier
planes, in particular when finite-float vertices have exact signed distances `≥ -1e-7` to the
earlier planes and `≤ -14073750 / 2 ^ 47` (the binary32 value next below `-1e-7f`) to
`plane`; and a triangle whose vertices fail the test of all six planes yields no triangle. -/
theorem C8_clip_fully_outside (a b c : CppClipVertex) (pre post : List Vec4) (plane : Vec4)
    (hplanes : frustum_planes_static = pre ++ plane :: post) :
    (∀ reached : List CppClipVertex, clip_to_planes [a, b, c] pre = some reached →
      (∀ v ∈ reached, ¬ is_inside plane v) →
      clip_triangle_to_frustum_internal_cpp [a, b, c] frustum_planes_static = []) ∧
    ((∀ q ∈ pre, ∀ v ∈ [a, b, c], is_inside q v) → (∀ v ∈ [a, b, c], ¬ is_inside plane v) →
      clip_triangle_to_frustum_internal_cpp [a, b, c] frustum_planes_static = []) ∧
    ((∀ v ∈ [a, b, c], v.position_clip.is_float = true) →
      (∀ q ∈ pre, ∀ v ∈ [a, b, c], exact_signed_distance q v ≥ -(1 / 10 ^ 7)) →
      (∀ v ∈ [a, b, c], exact_signed_distance plane v ≤ -(14073750 / 140737488355328)) →
      clip_triangle_to_frustum_internal_cpp [a, b, c] frustum_planes_static = []) ∧
    ((∀ q ∈ frustum_planes_static, ∀ v ∈ [a, b, c], ¬ is_inside q v) →
      clip_triangle_to_frustum_internal_cpp [a, b, c] frustum_planes_static = []) := by
  have hgen : ∀ (pre2 post2 : List Vec4) (plane2 : Vec4) (reached : List CppClipVertex),
      frustum_planes_static = pre2 ++ plane2 :: post2 →
      clip_to_planes [a, b, c] pre2 = some reached →
      (∀ v ∈ reached, ¬ is_inside plane2 v) →
      clip_triangle_to_frustum_internal_cpp [a, b, c] frustum_planes_static = [] := by
    intro pre2 post2 plane2 reached hsplit hreach hout
    have h1 := clip_to_planes_outside_at pre2 post2 plane2 [a, b, c] reached hreach hout
    rw [hsplit]
    simp [clip_triangle_to_frustum_internal_cpp, h1]
  have hsimple : (∀ q ∈ pre, ∀ v ∈ [a, b, c], is_inside q v) →
      (∀ v ∈ [a, b, c], ¬ is_inside plane v) →
      clip_triangle_to_frustum_internal_cpp [a, b, c] frustum_planes_static = [] := by
    intro hin hout
    exact hgen pre post plane [a, b, c] hplanes
      (clip_to_planes_all_inside pre [a, b, c] (by simp) hin) hout
  refine ⟨fun reached hreach hout => hgen pre post plane reached hplanes hreach hout, hsimple,
    ?_, ?_⟩
  · intro hf hin hout
    have hmem : plane ∈ frustum_planes_static := by rw [hplanes]; simp
    have hsub : ∀ q ∈ pre, q ∈ frustum_planes_static := by
      intro q hq; rw [hplanes]; exact List.mem_append_left _ hq
    apply hsimple
    · intro q hq v hv
      exact is_inside_of_exact q (hsub q hq) v (hf v hv) (hin q hq v hv)
    · intro v hv hins
      have := exact_of_is_inside plane hmem v (hf v hv) hins
      exact absurd (hout v hv) (not_le.2 this)
  · intro hall
    exact hgen [] _ ⟨1, 0, 0, 1⟩ [a, b, c] rfl rfl
      (hall ⟨1, 0, 0, 1⟩ (by simp [frustum_planes_static]))

/-- Witness for C8: a triangle to the left of the plane `x = -w`, the first of the six. -/
theorem C8_clip_fully_outside_witness :
    (frustum_planes_static = [] ++ (⟨1, 0, 0, 1⟩ : Vec4) ::
        [⟨-1, 0, 0, 1⟩, ⟨0, 1, 0, 1⟩, ⟨0, -1, 0, 1⟩, ⟨0, 0, 1, 1⟩, ⟨0, 0, -1, 1⟩] ∧
      (∀ v ∈ [clip_vertex_at (-2) 0 0 1, clip_vertex_at (-3) 0 0 1, clip_vertex_at (-2) 1 0 1],
        v.position_clip.is_float = true) ∧
      ∀ v ∈ [clip_vertex_at (-2) 0 0 1, clip_vertex_at (-3) 0 0 1, clip_vertex_at (-2) 1 0 1],
        exact_signed_distance ⟨1, 0, 0, 1⟩ v ≤ -(14073750 / 140737488355328)) ∧
    clip_triangle_to_frustum_internal_cpp
      [clip_vertex_at (-2) 0 0 1, clip_vertex_at (-3) 0 0 1, clip_vertex_at (-2) 1 0 1]
      frustum_planes_static = [] :=
  ⟨⟨rfl, by decide!, by decide!⟩,
   (C8_clip_fully_outside _ _ _ [] _ ⟨1, 0, 0, 1⟩ rfl).2.2.1 (by decide!)
     (fun q hq => absurd hq (List.not_mem_nil q)) (by decide!)⟩

/-- Counterexample to C8 as stated, twice. The vertices of the first triangle are finite
floats at exact signed distances below `-1e-7` from every one of the six planes, and the
triangle is returned whole: the computed distances equal `-1e-7f`, which is a little below
`-1e-7`, and pass the test. The vertices of the second triangle are all outside the plane
`z = w` by `2 ^ -13`, more than a thousand times the tolerance, and fail its test; the plane
`x = -w`, clipped first, creates a vertex whose interpolated `z` rounds to `w`, and one
triangle is returned. -/
theorem C8_counterexample :
    ((∀ v ∈ sample_rim_triangle, v.position_clip.is_float = true) ∧
      (∀ plane ∈ frustum_planes_static, ∀ v ∈ sample_rim_triangle,
        exact_signed_distance plane v < -(1 / 10 ^ 7)) ∧
      clip_triangle_to_frustum_internal_cpp sample_rim_triangle frustum_planes_static
        = [sample_rim_triangle]) ∧
    ((∀ v ∈ sample_grazing_triangle, v.position_clip.is_float = true ∧
        exact_signed_distance ⟨0, 0, -1, 1⟩ v = -(1 / 8192) ∧
        signed_distance ⟨0, 0, -1, 1⟩ v = F32.fin (-(1 / 8192)) ∧
        ¬ is_inside ⟨0, 0, -1, 1⟩ v) ∧
      (clip_triangle_to_frustum_internal_cpp sample_grazing_triangle
        frustum_planes_static).length = 1) := by
  decide!

/-- C25, as amended. Edge interpolation: the polygon `clip_polygon_to_plane_internal_cpp`
returns is the concatenation, edge after edge, of what each edge `(prev, cur)` contributes.
For an edge with exactly one end point passing the inside test, and `t` the computed
intersection parameter (`-1` when `|d_prev - d_cur| < 1e-9f`, else `d_prev / (d_prev - d_cur)`
in binary32): when `0 ≤ t ≤ 1` the edge contributes exactly one new vertex (followed by `cur`
when `cur` is the inner end), flagged non-original, whose clip position, colour, view-space
depth and world position are all `prev * (1 - t) + cur * t` computed in binary32 with that
same `t`; otherwise it contributes no new vertex. `t` is in `[0, 1]` whenever both computed
distances are finite and that of the inner end point is `≥ 0`. -/
theorem C25_edge_interpolation (polygon_in : List CppClipVertex) (plane : Vec4)
    (prev_v current_v : CppClipVertex) (t : F32)
    (ht : t = get_intersection_param_internal_cpp prev_v.position_clip
      current_v.position_clip plane)
    (hcross : is_inside plane current_v ↔ ¬ is_inside plane prev_v) :
    clip_polygon_to_plane_internal_cpp polygon_in plane =
      (List.range polygon_in.length).flatMap (fun i =>
        clip_edge (polygon_in.getD ((i + polygon_in.length - 1) % polygon_in.length)
          CppClipVertex.zero) (polygon_in.getD i CppClipVertex.zero) plane) ∧
    t = (if F32.fabs (signed_distance plane prev_v - signed_distance plane current_v)
          < F32.lit (1 / 10 ^ 9) then -1
        else signed_distance plane prev_v /
          (signed_distance plane prev_v - signed_distance plane current_v)) ∧
    (t ≥ 0 ∧ t ≤ 1 → clip_edge prev_v current_v plane =
      interpolated_vertex prev_v current_v t ::
        (if is_inside plane current_v then [current_v] else [])) ∧
    (¬ (t ≥ 0 ∧ t ≤ 1) → clip_edge prev_v current_v plane =
      if is_inside plane current_v then [current_v] else []) ∧
    (∀ p c : ℚ, signed_distance plane prev_v = F32.fin p →
      signed_distance plane current_v = F32.fin c →
      (is_inside plane prev_v → 0 ≤ p) → (is_inside plane current_v → 0 ≤ c) →
      t ≥ 0 ∧ t ≤ 1) ∧
    (interpolated_vertex prev_v current_v t).is_original = false ∧
    (interpolated_vertex prev_v current_v t).position_clip =
      ⟨prev_v.position_clip.x * (1 - t) + current_v.position_clip.x * t,
       prev_v.position_clip.y * (1 - t) + current_v.position_clip.y * t,
       prev_v.position_clip.z * (1 - t) + current_v.position_clip.z * t,
       prev_v.position_clip.w * (1 - t) + current_v.position_clip.w * t⟩ ∧
    (interpolated_vertex prev_v current_v t).color_f =
      ⟨prev_v.color_f.x * (1 - t) + current_v.color_f.x * t,
       prev_v.color_f.y * (1 - t) + current_v.color_f.y * t,
       prev_v.color_f.z * (1 - t) + current_v.color_f.z * t⟩ ∧
    (interpolated_vertex prev_v current_v t).view_z =
      prev_v.view_z * (1 - t) + current_v.view_z * t ∧
    (interpolated_vertex prev_v current_v t).world_pos =
      ⟨prev_v.world_pos.x * (1 - t) + current_v.world_pos.x * t,
       prev_v.world_pos.y * (1 - t) + current_v.world_pos.y * t,
       prev_v.world_pos.z * (1 - t) + current_v.world_pos.z * t⟩ := by
  refine ⟨clip_polygon_eq_flatMap polygon_in plane, ?_, ?_, ?_, ?_, rfl, rfl, rfl, rfl, rfl⟩
  · rw [ht]; rfl
  · intro hacc
    rw [ht] at hacc ⊢
    rw [clip_edge_eq]
    by_cases h1 : is_inside plane current_v
    · have h2 : ¬ is_inside plane prev_v := hcross.1 h1
      rw [if_pos h1, if_pos h2, if_pos hacc, if_pos h1]
    · have h2 : is_inside plane prev_v := by
        by_contra hn
        exact h1 (hcross.2 hn)
      rw [if_neg h1, if_pos h2, if_pos hacc, if_neg h1]
  · intro hrej
    rw [ht] at hrej
    rw [clip_edge_eq]
    by_cases h1 : is_inside plane current_v
    · have h2 : ¬ is_inside plane prev_v := hcross.1 h1
      rw [if_pos h1, if_pos h2, if_neg hrej, if_pos h1]
    · have h2 : is_inside plane prev_v := by
        by_contra hn
        exact h1 (hcross.2 hn)
      rw [if_neg h1, if_pos h2, if_neg hrej, if_neg h1]
  · intro p c hp hc hp0 hc0
    rw [ht]
    by_cases h1 : is_inside plane current_v
    · exact intersection_param_out_in prev_v current_v plane p c hp (hcross.1 h1) hc (hc0 h1)
    · have h2 : is_inside plane prev_v := by
        by_contra hn
        exact h1 (hcross.2 hn)
      exact intersection_param_in_out prev_v current_v plane p c hp (hp0 h2) hc h1

/-- Witness for C25: the edge from `(0,0,0,1)` to `(-2,0,0,1)` crosses the plane `x = -w`
half way. -/
theorem C25_edge_interpolation_witness :
    (F32.lit (1 / 2) = get_intersection_param_internal_cpp
        (clip_vertex_at 0 0 0 1).position_clip (clip_vertex_at (-2) 0 0 1).position_clip
        ⟨1, 0, 0, 1⟩ ∧
      (is_inside ⟨1, 0, 0, 1⟩ (clip_vertex_at (-2) 0 0 1) ↔
        ¬ is_inside ⟨1, 0, 0, 1⟩ (clip_vertex_at 0 0 0 1))) ∧
    clip_edge (clip_vertex_at 0 0 0 1) (clip_vertex_at (-2) 0 0 1) ⟨1, 0, 0, 1⟩ =
      interpolated_vertex (clip_vertex_at 0 0 0 1) (clip_vertex_at (-2) 0 0 1)
        (F32.lit (1 / 2)) ::
        (if is_inside ⟨1, 0, 0, 1⟩ (clip_vertex_at (-2) 0 0 1) then [clip_vertex_at (-2) 0 0 1]
          else []) ∧
    (interpolated_vertex (clip_vertex_at 0 0 0 1) (clip_vertex_at (-2) 0 0 1)
      (F32.lit (1 / 2))).position_clip = ⟨-1, 0, 0, 1⟩ :=
  ⟨⟨by decide!, by decide!⟩,
    (C25_edge_interpolation [] ⟨1, 0, 0, 1⟩ (clip_vertex_at 0 0 0 1)
      (clip_vertex_at (-2) 0 0 1) (F32.lit (1 / 2)) (by decide!) (by decide!)).2.2.1
      (by decide!),
    by decide!⟩

/-- Counterexample to C25 as stated. Of the two vertices below the first passes the inside
test of the plane `x = -w` (signed distance `-2 ^ -25`, within the tolerance) and the second
fails it; neither the edge from the second to the first nor the edge back gets a new vertex,
the computed parameter being above 1 for the one and negative for the other. And the vertex
emitted on the first edge of the slanted sample triangle has `w = 1024339 / 1024`, which is
not the binary32 value of `prev.w + t * (cur.w - prev.w)`. -/
theorem C25_counterexample :
    (is_inside ⟨1, 0, 0, 1⟩ sample_band_vertex ∧
      ¬ is_inside ⟨1, 0, 0, 1⟩ sample_outer_vertex ∧
      clip_edge sample_outer_vertex sample_band_vertex ⟨1, 0, 0, 1⟩ = [sample_band_vertex] ∧
      clip_edge sample_band_vertex sample_outer_vertex ⟨1, 0, 0, 1⟩ = [] ∧
      get_intersection_param_internal_cpp sample_outer_vertex.position_clip
        sample_band_vertex.position_clip ⟨1, 0, 0, 1⟩ = F32.fin (1082401 / 1048576) ∧
      get_intersection_param_internal_cpp sample_band_vertex.position_clip
        sample_outer_vertex.position_clip ⟨1, 0, 0, 1⟩ = F32.fin (-(1082401 / 33554432))) ∧
    (is_inside ⟨1, 0, 0, 1⟩ (clip_vertex_at 0 0 0 1000) ∧
      ¬ is_inside ⟨1, 0, 0, 1⟩ (clip_vertex_at (-3021) 0 0 1001) ∧
      (clip_edge (clip_vertex_at 0 0 0 1000) (clip_vertex_at (-3021) 0 0 1001)
        ⟨1, 0, 0, 1⟩).map (fun v => v.position_clip.w) = [F32.fin (1024339 / 1024)] ∧
      (1000 : F32) + get_intersection_param_internal_cpp
          (clip_vertex_at 0 0 0 1000).position_clip
          (clip_vertex_at (-3021) 0 0 1001).position_clip ⟨1, 0, 0, 1⟩ * (1001 - 1000)
        = F32.fin (16389425 / 16384)) := by
  decide!

/-- C26. Fan re-triangulation. `clip_triangle_to_frustum_internal_cpp` returns no triangle when
its input does not have exactly 3 vertices, and none when, clipping by the planes in turn, the
polygon has fewer than 3 vertices after some plane. When the polygon has at least 3 vertices
after every plane, with `p0 .. p(n-1)` the polygon left after the last plane, it returns
exactly the `n - 2` triangles `(p0, p_i, p_(i+1))`, `i = 1 .. n - 2`, in that order. -/
theorem C26_fan_retriangulation (triangle_clip_vertices_in : List CppClipVertex)
    (frustum_planes_coeffs : List Vec4) :
    (triangle_clip_vertices_in.length ≠ 3 →
      clip_triangle_to_frustum_internal_cpp triangle_clip_vertices_in frustum_planes_coeffs
        = []) ∧
    ((∃ k, k < frustum_planes_coeffs.length ∧
        (List.foldl clip_polygon_to_plane_internal_cpp triangle_clip_vertices_in
          (frustum_planes_coeffs.take (k + 1))).length < 3) →
      clip_triangle_to_frustum_internal_cpp triangle_clip_vertices_in frustum_planes_coeffs
        = []) ∧
    (triangle_clip_vertices_in.length = 3 →
      (∀ k, k < frustum_planes_coeffs.length →
        3 ≤ (List.foldl clip_polygon_to_plane_internal_cpp triangle_clip_vertices_in
          (frustum_planes_coeffs.take (k + 1))).length) →
      3 ≤ (List.foldl clip_polygon_to_plane_internal_cpp triangle_clip_vertices_in
        frustum_planes_coeffs).length ∧
      (clip_triangle_to_frustum_internal_cpp triangle_clip_vertices_in
        frustum_planes_coeffs).length =
        (List.foldl clip_polygon_to_plane_internal_cpp triangle_clip_vertices_in
          frustum_planes_coeffs).length - 2 ∧
      ∀ i, 1 ≤ i → i ≤ (List.foldl clip_polygon_to_plane_internal_cpp
          triangle_clip_vertices_in frustum_planes_coeffs).length - 2 →
        (clip_triangle_to_frustum_internal_cpp triangle_clip_vertices_in
          frustum_planes_coeffs).getD (i - 1) [] =
        [(List.foldl clip_polygon_to_plane_internal_cpp triangle_clip_vertices_in
            frustum_planes_coeffs).getD 0 CppClipVertex.zero,
         (List.foldl clip_polygon_to_plane_internal_cpp triangle_clip_vertices_in
            frustum_planes_coeffs).getD i CppClipVertex.zero,
         (List.foldl clip_polygon_to_plane_internal_cpp triangle_clip_vertices_in
            frustum_planes_coeffs).getD (i + 1) CppClipVertex.zero]) := by
  refine ⟨?_, ?_, ?_⟩
  · intro h
    unfold clip_triangle_to_frustum_internal_cpp
    rw [if_pos h]
  · intro h
    unfold clip_triangle_to_frustum_internal_cpp
    split
    · rfl
    · rw [clip_to_planes_none frustum_planes_coeffs triangle_clip_vertices_in h]
  · intro h3 hall
    have hsome := clip_to_planes_some frustum_planes_coeffs triangle_clip_vertices_in hall
    have hlen : 3 ≤ (List.foldl clip_polygon_to_plane_internal_cpp triangle_clip_vertices_in
        frustum_planes_coeffs).length := by
      rcases Nat.eq_zero_or_pos frustum_planes_coeffs.length with h0 | hpos
      · rw [List.length_eq_zero.1 h0]
        simp only [List.foldl_nil]
        omega
      · have := hall (frustum_planes_coeffs.length - 1) (by omega)
        rw [Nat.sub_add_cancel hpos, List.take_length] at this
        exact this
    have hres : clip_triangle_to_frustum_internal_cpp triangle_clip_vertices_in
        frustum_planes_coeffs = fan_triangles (List.foldl clip_polygon_to_plane_internal_cpp
          triangle_clip_vertices_in frustum_planes_coeffs) := by
      unfold clip_triangle_to_frustum_internal_cpp
      rw [if_neg (by simp [h3]), hsome]
      simp only [ge_iff_le, hlen, if_true]
    refine ⟨hlen, by rw [hres, fan_triangles_length], ?_⟩
    intro i hi1 hi2
    rw [hres]
    unfold fan_triangles
    have hidx : i - 1 < ((List.range ((List.foldl clip_polygon_to_plane_internal_cpp
        triangle_clip_vertices_in frustum_planes_coeffs).length - 1 - 1)).map (fun j =>
        [(List.foldl clip_polygon_to_plane_internal_cpp triangle_clip_vertices_in
            frustum_planes_coeffs).getD 0 CppClipVertex.zero,
         (List.foldl clip_polygon_to_plane_internal_cpp triangle_clip_vertices_in
            frustum_planes_coeffs).getD (j + 1) CppClipVertex.zero,
         (List.foldl clip_polygon_to_plane_internal_cpp triangle_clip_vertices_in
            frustum_planes_coeffs).getD (j + 1 + 1) CppClipVertex.zero])).length := by
      simp only [List.length_map, List.length_range]
      omega
    rw [List.getD_eq_getElem _ _ hidx]
    simp only [List.getElem_map, List.getElem_range]
    have e1 : i - 1 + 1 = i := by omega
    rw [e1]

/-- Witness for C26: a list of two vertices gives nothing; the slanted sample triangle, cut by
the plane `x = -w` into a quad that the other five planes leave alone, comes back as the two
triangles of the fan. -/
theorem C26_fan_retriangulation_witness :
    clip_triangle_to_frustum_internal_cpp
      [clip_vertex_at 0 0 0 1, clip_vertex_at 0 (F32.lit (1 / 2)) 0 1] [⟨1, 0, 0, 1⟩] = [] ∧
    (sample_slanted_triangle.length = 3 ∧
      ∀ k, k < frustum_planes_static.length →
        3 ≤ (List.foldl clip_polygon_to_plane_internal_cpp sample_slanted_triangle
          (frustum_planes_static.take (k + 1))).length) ∧
    (clip_triangle_to_frustum_internal_cpp sample_slanted_triangle
      frustum_planes_static).length =
      (List.foldl clip_polygon_to_plane_internal_cpp sample_slanted_triangle
        frustum_planes_static).length - 2 ∧
    (List.foldl clip_polygon_to_plane_internal_cpp sample_slanted_triangle
      frustum_planes_static).length = 4 :=
  ⟨(C26_fan_retriangulation [clip_vertex_at 0 0 0 1, clip_vertex_at 0 (F32.lit (1 / 2)) 0 1]
      [⟨1, 0, 0, 1⟩]).1 (by decide),
    ⟨rfl, by decide!⟩,
    ((C26_fan_retriangulation sample_slanted_triangle frustum_planes_static).2.2 rfl
      (by decide!)).2.1,
    by decide!⟩

/-- C29, as amended. Clip postcondition. Every vertex of the polygon
`clip_polygon_to_plane_internal_cpp` returns is a vertex of the input that passes the inside
test of the plane (computed signed distance `≥ -1e-7f`), or a new, non-original vertex
interpolated on an edge with exactly one end point passing the test, with the computed
parameter in `[0, 1]`. Every vertex of every triangle `clip_triangle_to_frustum_internal_cpp`
returns for the six planes is a vertex some plane created, flagged not original, or a vertex
of the input that passes all six inside tests and, when its coordinates are finite floats,
satisfies `-w ≤ x, y, z ≤ w` up to `14073750 / 2 ^ 47`, a little more than `1e-7`. -/
theorem C29_clip_postcondition (polygon_in : List CppClipVertex) (plane : Vec4)
    (triangle_clip_vertices_in : List CppClipVertex) :
    (∀ v ∈ clip_polygon_to_plane_internal_cpp polygon_in plane,
      (v ∈ polygon_in ∧ is_inside plane v) ∨
      (v.is_original = false ∧ ∃ prev_v ∈ polygon_in, ∃ current_v ∈ polygon_in,
        (is_inside plane current_v ↔ ¬ is_inside plane prev_v) ∧
        get_intersection_param_internal_cpp prev_v.position_clip current_v.position_clip
          plane ≥ 0 ∧
        get_intersection_param_internal_cpp prev_v.position_clip current_v.position_clip
          plane ≤ 1 ∧
        v = interpolated_vertex prev_v current_v
          (get_intersection_param_internal_cpp prev_v.position_clip current_v.position_clip
            plane))) ∧
    (∀ t ∈ clip_triangle_to_frustum_internal_cpp triangle_clip_vertices_in
        frustum_planes_static, ∀ v ∈ t,
      v.is_original = false ∨
      (v ∈ triangle_clip_vertices_in ∧
        (∀ q ∈ frustum_planes_static, is_inside q v) ∧
        (v.position_clip.is_float = true →
          -v.position_clip.w.value - 14073750 / 140737488355328 < v.position_clip.x.value ∧
          v.position_clip.x.value < v.position_clip.w.value + 14073750 / 140737488355328 ∧
          -v.position_clip.w.value - 14073750 / 140737488355328 < v.position_clip.y.value ∧
          v.position_clip.y.value < v.position_clip.w.value + 14073750 / 140737488355328 ∧
          -v.position_clip.w.value - 14073750 / 140737488355328 < v.position_clip.z.value ∧
          v.position_clip.z.value <
            v.position_clip.w.value + 14073750 / 140737488355328))) := by
  constructor
  · intro v hv
    obtain ⟨p, hp, c, hc, hedge⟩ := clip_polygon_mem polygon_in plane v hv
    rcases clip_edge_mem p c plane v hedge with ⟨hvc, hcin⟩ | ⟨hvi, h0, h1, hx⟩
    · left
      rw [hvc]
      exact ⟨hc, hcin⟩
    · right
      refine ⟨by rw [hvi]; rfl, p, hp, c, hc, hx, h0, h1, hvi⟩
  · intro t ht v hv
    unfold clip_triangle_to_frustum_internal_cpp at ht
    split at ht
    · simp at ht
    · cases hclip : clip_to_planes triangle_clip_vertices_in frustum_planes_static with
      | none => simp [hclip] at ht
      | some polygon =>
        simp only [hclip] at ht
        split at ht
        · have hvp : v ∈ polygon := fan_triangles_mem polygon t ht v hv
          rcases clip_to_planes_mem frustum_planes_static triangle_clip_vertices_in polygon
            hclip v hvp with ⟨hmem, hall⟩ | horig
          · right
            refine ⟨hmem, hall, ?_⟩
            intro hf
            have h1 := exact_of_is_inside ⟨1, 0, 0, 1⟩ (by simp [frustum_planes_static]) v hf
              (hall _ (by simp [frustum_planes_static]))
            have h2 := exact_of_is_inside ⟨-1, 0, 0, 1⟩ (by simp [frustum_planes_static]) v hf
              (hall _ (by simp [frustum_planes_static]))
            have h3 := exact_of_is_inside ⟨0, 1, 0, 1⟩ (by simp [frustum_planes_static]) v hf
              (hall _ (by simp [frustum_planes_static]))
            have h4 := exact_of_is_inside ⟨0, -1, 0, 1⟩ (by simp [frustum_planes_static]) v hf
              (hall _ (by simp [frustum_planes_static]))
            have h5 := exact_of_is_inside ⟨0, 0, 1, 1⟩ (by simp [frustum_planes_static]) v hf
              (hall _ (by simp [frustum_planes_static]))
            have h6 := exact_of_is_inside ⟨0, 0, -1, 1⟩ (by simp [frustum_planes_static]) v hf
              (hall _ (by simp [frustum_planes_static]))
            simp only [exact_signed_distance, F32.one_eq, F32.zero_eq, F32.neg_fin_eq,
              F32.value_fin, one_mul, zero_mul, add_zero, zero_add, neg_mul]
              at h1 h2 h3 h4 h5 h6
            refine ⟨?_, ?_, ?_, ?_, ?_, ?_⟩ <;> linarith
          · exact Or.inl horig
        · simp at ht

/-- Witness for C29: the slanted sample triangle cut by the plane `x = -w`; the first vertex of
the first output triangle is the first input vertex. -/
theorem C29_clip_postcondition_witness :
    ((clip_triangle_to_frustum_internal_cpp sample_slanted_triangle
      frustum_planes_static).getD 0 []).getD 0 CppClipVertex.zero = clip_vertex_at 0 0 0 1000 ∧
    (clip_vertex_at 0 0 0 1000).is_original = true ∧
    (clip_vertex_at 0 0 0 1000 ∈ sample_slanted_triangle ∧
      ∀ q ∈ frustum_planes_static, is_inside q (clip_vertex_at 0 0 0 1000)) := by
  have h := ((C29_clip_postcondition [] ⟨1, 0, 0, 1⟩ sample_slanted_triangle).2
    [clip_vertex_at 0 0 0 1000,
      (clip_polygon_to_plane_internal_cpp sample_slanted_triangle ⟨1, 0, 0, 1⟩).getD 1
        CppClipVertex.zero,
      (clip_polygon_to_plane_internal_cpp sample_slanted_triangle ⟨1, 0, 0, 1⟩).getD 2
        CppClipVertex.zero]
    (by decide!) (clip_vertex_at 0 0 0 1000) (by simp)).resolve_left (by decide)
  exact ⟨by decide!, rfl, h.1, h.2.1⟩

/-- Counterexample to C29 as stated. The polygon the plane `x = -w` leaves of the slanted
sample triangle holds a new vertex at exact signed distance `-2 ^ -14`, about `-6e-5`, from
that plane, which fails the plane's own inside test; the clipper returns it in its first
triangle. And the vertices of the rim triangle, at exact distances below `-1e-7` from all six
planes, are returned as they are. -/
theorem C29_counterexample :
    (∃ v ∈ clip_polygon_to_plane_internal_cpp sample_slanted_triangle ⟨1, 0, 0, 1⟩,
      v.position_clip.is_float = true ∧
      exact_signed_distance ⟨1, 0, 0, 1⟩ v = -(1 / 16384) ∧
      ¬ is_inside ⟨1, 0, 0, 1⟩ v ∧
      v ∈ (clip_triangle_to_frustum_internal_cpp sample_slanted_triangle
        frustum_planes_static).getD 0 []) ∧
    (clip_triangle_to_frustum_internal_cpp sample_rim_triangle frustum_planes_static
        = [sample_rim_triangle] ∧
      ∀ v ∈ sample_rim_triangle, v.position_clip.is_float = true ∧
        ∀ plane ∈ frustum_planes_static, exact_signed_distance plane v < -(1 / 10 ^ 7)) := by
  decide!

/-! ## The triangles the screen stage emits -/

/-- The body of the triangle loop, written with the loop's locals. -/
theorem process_world_triangle_locals (s : RendererState)
    (world_data : CppWorldDataL2) (i_tri : Nat) :
    process_world_triangle s world_data i_tri =
      if s.g_current_back_cull_enabled_flag &&
          !is_front_facing_internal_cpp (current_world_face_normal world_data i_tri)
            s.g_current_camera_pos_w_cpp (triangle_center_w world_data i_tri) then []
      else
        (processed_triangles_after_clipping s
          (clip_space_input_triangle s
            [current_world_v world_data i_tri 0, current_world_v world_data i_tri 1,
             current_world_v world_data i_tri 2]
            [current_v_colors world_data i_tri 0, current_v_colors world_data i_tri 1,
             current_v_colors world_data i_tri 2])).filterMap
          (screen_triangle_of_clipped s
            [current_world_v world_data i_tri 0, current_world_v world_data i_tri 1,
             current_world_v world_data i_tri 2]
            (current_world_face_normal world_data i_tri)) := by
  rfl

/-- The vertex loop on three vertices with `|w| ≥ 1e-7f` runs to its end and records the three
viewport points in order. -/
theorem vertex_loop_three (s : RendererState) (a b c : CppClipVertex) (st : VertexLoopState)
    (ha : ¬ F32.fabs a.position_clip.w < F32.lit (1 / 10 ^ 7))
    (hb : ¬ F32.fabs b.position_clip.w < F32.lit (1 / 10 ^ 7))
    (hc : ¬ F32.fabs c.position_clip.w < F32.lit (1 / 10 ^ 7)) :
    vertex_loop s [a, b, c] st = some
      { screen_coords := st.screen_coords ++ [viewport_point s a.position_clip,
          viewport_point s b.position_clip, viewport_point s c.position_clip],
        depth := st.depth + a.view_z + b.view_z + c.view_z,
        accumulated_interpolated_color_float :=
          Vec3.add (Vec3.add (Vec3.add st.accumulated_interpolated_color_float a.color_f)
            b.color_f) c.color_f,
        was_modified_by_clipping_debug :=
          st.was_modified_by_clipping_debug ||
            (s.g_current_debug_clipping_enabled_flag && !a.is_original) ||
            (s.g_current_debug_clipping_enabled_flag && !b.is_original) ||
            (s.g_current_debug_clipping_enabled_flag && !c.is_original) } := by
  simp only [vertex_loop, ha, hb, hc, if_false, List.append_assoc, List.singleton_append]
  rfl

/-- The vertex loop stops at the first vertex whose `|w|` is below `1e-7f`. -/
theorem vertex_loop_none (s : RendererState) (verts : List CppClipVertex) :
    (∃ v ∈ verts, F32.fabs v.position_clip.w < F32.lit (1 / 10 ^ 7)) →
    ∀ st : VertexLoopState, vertex_loop s verts st = none := by
  induction verts with
  | nil => intro ⟨v, hv, _⟩; simp at hv
  | cons a rest ih =>
    intro ⟨v, hv, hw⟩ st
    by_cases ha : F32.fabs a.position_clip.w < F32.lit (1 / 10 ^ 7)
    · simp only [vertex_loop, ha, if_true]
    · simp only [vertex_loop, ha, if_false]
      rcases List.mem_cons.1 hv with h | h
      · rw [h] at hw; exact absurd hw ha
      · exact ih ⟨v, h, hw⟩ _

/-- A clipped triangle with a vertex whose `|w|` is below `1e-7f` gives no screen triangle. -/
theorem screen_triangle_none_of_small_w (s : RendererState) (world_v : List Vec3)
    (normal : Vec3) (tri : List CppClipVertex)
    (h : ∃ v ∈ tri, F32.fabs v.position_clip.w < F32.lit (1 / 10 ^ 7)) :
    screen_triangle_of_clipped s world_v normal tri = none := by
  unfold screen_triangle_of_clipped
  split
  · rfl
  · rw [vertex_loop_none s tri h]

/-- What a screen triangle that is emitted for a clipped triangle holds. -/
theorem screen_triangle_of_clipped_some (s : RendererState) (world_v : List Vec3)
    (normal : Vec3) (tri : List CppClipVertex) (t : CppScreenTriangle)
    (h : screen_triangle_of_clipped s world_v normal tri = some t) :
    ∃ a b c : CppClipVertex, tri = [a, b, c] ∧
      ¬ F32.fabs a.position_clip.w < F32.lit (1 / 10 ^ 7) ∧
      ¬ F32.fabs b.position_clip.w < F32.lit (1 / 10 ^ 7) ∧
      ¬ F32.fabs c.position_clip.w < F32.lit (1 / 10 ^ 7) ∧
      t.screen_coords = [viewport_point s a.position_clip, viewport_point s b.position_clip,
        viewport_point s c.position_clip] ∧
      t.depth = (0 + a.view_z + b.view_z + c.view_z) / 3 ∧
      t.color_final_uint8 =
        if (s.g_current_debug_clipping_enabled_flag &&
            (false || (s.g_current_debug_clipping_enabled_flag && !a.is_original) ||
              (s.g_current_debug_clipping_enabled_flag && !b.is_original) ||
              (s.g_current_debug_clipping_enabled_flag && !c.is_original))) = true then
          s.g_current_debug_clipped_color_arr_cpp
        else
          [to_uint8 (clamp (((Vec3.add (Vec3.add (Vec3.add ⟨0, 0, 0⟩ a.color_f) b.color_f)
              c.color_f).sdiv 3).x * light_intensity s world_v normal * 255) 0 255),
           to_uint8 (clamp (((Vec3.add (Vec3.add (Vec3.add ⟨0, 0, 0⟩ a.color_f) b.color_f)
              c.color_f).sdiv 3).y * light_intensity s world_v normal * 255) 0 255),
           to_uint8 (clamp (((Vec3.add (Vec3.add (Vec3.add ⟨0, 0, 0⟩ a.color_f) b.color_f)
              c.color_f).sdiv 3).z * light_intensity s world_v normal * 255) 0 255)] := by
  by_cases h3 : tri.length ≠ 3
  · unfold screen_triangle_of_clipped at h
    rw [if_pos h3] at h
    simp at h
  · have hlen : tri.length = 3 := not_not.1 h3
    obtain ⟨a, b, c, rfl⟩ := List.length_eq_three.1 hlen
    by_cases hw : ∃ v ∈ [a, b, c], F32.fabs v.position_clip.w < F32.lit (1 / 10 ^ 7)
    · rw [screen_triangle_none_of_small_w s world_v normal _ hw] at h
      simp at h
    · have ha : ¬ F32.fabs a.position_clip.w < F32.lit (1 / 10 ^ 7) :=
        fun hx => hw ⟨a, by simp, hx⟩
      have hb : ¬ F32.fabs b.position_clip.w < F32.lit (1 / 10 ^ 7) :=
        fun hx => hw ⟨b, by simp, hx⟩
      have hc : ¬ F32.fabs c.position_clip.w < F32.lit (1 / 10 ^ 7) :=
        fun hx => hw ⟨c, by simp, hx⟩
      refine ⟨a, b, c, rfl, ha, hb, hc, ?_⟩
      have hloop := vertex_loop_three s a b c
        { screen_coords := [], depth := 0, accumulated_interpolated_color_float := ⟨0, 0, 0⟩,
          was_modified_by_clipping_debug := false } ha hb hc
      simp only [List.nil_append] at hloop
      unfold screen_triangle_of_clipped at h
      rw [if_neg h3, hloop] at h
      simp only at h
      split at h
      · simp at h
      · split at h
        · rename_i hd
          simp only [Option.some.injEq] at h
          rw [← h]
          simp only [hd, if_true, and_self]
        · rename_i hd
          simp only [Option.some.injEq] at h
          rw [← h]
          simp only [hd, if_false, and_self, Bool.false_eq_true]

/-- Every triangle the screen stage returns was built from one of the clipped triangles of one
of the source triangles. -/
theorem output_triangle_source (s : RendererState) (world_data : CppWorldDataL2)
    (t : CppScreenTriangle) (ht : t ∈ process_world_to_screen_internal_cpp s world_data) :
    ∃ i_tri, i_tri < world_data.num_source_triangles ∧
      ∃ tri ∈ processed_triangles_after_clipping s
          (clip_space_input_triangle s
            [current_world_v world_data i_tri 0, current_world_v world_data i_tri 1,
             current_world_v world_data i_tri 2]
            [current_v_colors world_data i_tri 0, current_v_colors world_data i_tri 1,
             current_v_colors world_data i_tri 2]),
        screen_triangle_of_clipped s
          [current_world_v world_data i_tri 0, current_world_v world_data i_tri 1,
           current_world_v world_data i_tri 2]
          (current_world_face_normal world_data i_tri) tri = some t := by
  unfold process_world_to_screen_internal_cpp at ht
  split at ht
  · simp at ht
  · obtain ⟨i, hi, hmem⟩ := List.mem_flatMap.1 ht
    refine ⟨i, List.mem_range.1 hi, ?_⟩
    rw [process_world_triangle_locals] at hmem
    split at hmem
    · simp at hmem
    · obtain ⟨tri, htri, hsome⟩ := List.mem_filterMap.1 hmem
      exact ⟨tri, htri, hsome⟩

/-- The screen coordinates and the depth of the triangle built from a clipped triangle do not
depend on the face normal. -/
theorem screen_triangle_geometry_normal (s : RendererState) (world_v : List Vec3)
    (n1 n2 : Vec3) (tri : List CppClipVertex) :
    (screen_triangle_of_clipped s world_v n1 tri).map (fun t => (t.screen_coords, t.depth)) =
    (screen_triangle_of_clipped s world_v n2 tri).map (fun t => (t.screen_coords, t.depth)) := by
  unfold screen_triangle_of_clipped
  by_cases h3 : tri.length ≠ 3
  · rw [if_pos h3, if_pos h3]
  · rw [if_neg h3, if_neg h3]
    cases vertex_loop s tri
        { screen_coords := [], depth := 0, accumulated_interpolated_color_float := ⟨0, 0, 0⟩,
          was_modified_by_clipping_debug := false } with
    | none => rfl
    | some st =>
      dsimp only
      split_ifs <;> simp only [Option.map_some', Option.map_none']

theorem flatMap_skip_nil {α β : Type} (f : α → List β) (l : List α) (i : α) [DecidableEq α]
    (h : f i = []) :
    l.flatMap f = (l.filter (fun j => !decide (j = i))).flatMap f := by
  induction l with
  | nil => rfl
  | cons a rest ih =>
    by_cases ha : a = i
    · subst ha
      simp [List.flatMap_cons, h, ih]
    · simp [List.flatMap_cons, ha, ih]

/-! ## Signs and bounds of binary32 sums and products -/

theorem F32.add_nonpos (a b : F32) (ha : a ≤ F32.fin 0) (hb : b ≤ F32.fin 0) :
    a + b ≤ F32.fin 0 := by
  cases a with
  | nan => exact absurd ha (by decide)
  | inf s =>
    have hs : s = true := by simpa [F32.le_iff, F32.le] using ha
    subst hs
    cases b with
    | nan => exact absurd hb (by decide)
    | inf t =>
      have ht : t = true := by simpa [F32.le_iff, F32.le] using hb
      subst ht
      decide
    | fin y => rfl
  | fin x =>
    cases b with
    | nan => exact absurd hb (by decide)
    | inf t =>
      have ht : t = true := by simpa [F32.le_iff, F32.le] using hb
      subst ht
      rfl
    | fin y =>
      have hx := (F32.le_fin_fin _ _).1 ha
      have hy := (F32.le_fin_fin _ _).1 hb
      exact F32.nearest_nonpos _ (by linarith)

theorem F32.not_gt_of_nonpos (x : F32) (c : ℚ) (hc : 0 < c) (hx : x ≤ F32.fin 0) :
    ¬ (x > F32.fin c) := by
  cases x with
  | nan => exact absurd hx (by decide)
  | inf s =>
    have hs : s = true := by simpa [F32.le_iff, F32.le] using hx
    subst hs
    intro h
    exact absurd (show F32.lt (F32.fin c) (F32.inf true) = true from h) (by simp [F32.lt])
  | fin r =>
    have hr := (F32.le_fin_fin _ _).1 hx
    intro h
    have := (F32.lt_fin_fin _ _).1 h
    linarith

theorem F32.not_lt_of_le_nearest (T q : ℚ) (hrep : F32.nearest T = F32.fin T) (h : T ≤ q) :
    ¬ (F32.nearest q < F32.fin T) := by
  have hge := F32.nearest_ge T q hrep h
  cases hn : F32.nearest q with
  | nan => rw [hn] at hge; exact absurd hge (by simp [F32.le_iff, F32.le])
  | inf t =>
    rw [hn] at hge
    have h1 : t = false := by simpa [F32.le_iff, F32.le] using hge
    subst h1
    intro hlt
    exact absurd (show F32.lt (F32.inf false) (F32.fin T) = true from hlt) (by simp [F32.lt])
  | fin r =>
    rw [hn] at hge
    have h1 := (F32.le_fin_fin _ _).1 hge
    intro hlt
    have h2 := (F32.lt_fin_fin _ _).1 hlt
    linarith

theorem F32.lit_1e6 : F32.lit (1 / 10 ^ 6) = F32.fin (8796093 / 8796093022208) := by decide!

theorem F32.lit_half : F32.lit (1 / 2) = F32.fin (1 / 2) := by decide!

theorem F32.nearest_two : F32.nearest 2 = F32.fin 2 := by decide!

/-- A normal that is a negative multiple of the computed vector to the camera is not front
facing, unless the squared length of that vector is below `1e-12f`. -/
theorem not_front_facing_of_negative_multiple (normal_w camera_pos_w triangle_center_w : Vec3)
    (lam vx vy vz : ℚ) (hlam : 0 < lam)
    (hv : camera_pos_w.sub triangle_center_w = ⟨F32.fin vx, F32.fin vy, F32.fin vz⟩)
    (hn : normal_w = ⟨F32.fin (-lam * vx), F32.fin (-lam * vy), F32.fin (-lam * vz)⟩)
    (hfar : ¬ Vec3.length2 (camera_pos_w.sub triangle_center_w) < F32.lit (1 / 10 ^ 12)) :
    is_front_facing_internal_cpp normal_w camera_pos_w triangle_center_w = false := by
  unfold is_front_facing_internal_cpp
  simp only [hfar, if_false]
  have hp : ∀ v : ℚ, (F32.fin (-lam * v) * F32.fin v : F32) ≤ F32.fin 0 := by
    intro v
    rw [F32.mul_fin]
    apply F32.nearest_nonpos
    have h2 := mul_nonneg hlam.le (mul_self_nonneg v)
    rw [show -lam * v * v = -(lam * (v * v)) by ring]
    exact neg_nonpos.2 h2
  have hdot : Vec3.dot normal_w (camera_pos_w.sub triangle_center_w) ≤ F32.fin 0 := by
    rw [hv, hn]
    simp only [Vec3.dot]
    exact F32.add_nonpos _ _ (F32.add_nonpos _ _ (hp vx) (hp vy)) (hp vz)
  rw [F32.lit_1e6]
  simp only [decide_eq_false_iff_not]
  exact F32.not_gt_of_nonpos _ _ (by norm_num) hdot

/-! ## Claims about the screen stage -/

/-- C10, as amended. Small-triangle rejection: with a threshold `T > 0` the screen stage drops
a candidate triangle (three vertices with `|w| ≥ 1e-7f`) exactly when the binary32 product of
the absolute value of its doubled shoelace value `x1 (y2 - y3) + x2 (y3 - y1) + x3 (y1 - y2)`
and `0.5f`, the screen area, compares below `T`. A triangle whose doubled shoelace value is, as
a real number, `2 T` or more in absolute value is kept; and where halving the absolute value is
exact, the triangle is dropped exactly when the doubled area is below `2 T`. -/
theorem C10_small_triangle_rejection (s : RendererState) (world_v : List Vec3)
    (normal : Vec3) (a b c : CppClipVertex)
    (hT : s.g_current_small_triangle_area_threshold > 0)
    (ha : ¬ F32.fabs a.position_clip.w < F32.lit (1 / 10 ^ 7))
    (hb : ¬ F32.fabs b.position_clip.w < F32.lit (1 / 10 ^ 7))
    (hc : ¬ F32.fabs c.position_clip.w < F32.lit (1 / 10 ^ 7)) :
    (screen_triangle_of_clipped s world_v normal [a, b, c] = none ↔
      F32.fabs (shoelace_doubled (viewport_point s a.position_clip)
        (viewport_point s b.position_clip) (viewport_point s c.position_clip)) *
          F32.lit (1 / 2) < s.g_current_small_triangle_area_threshold) ∧
    (∀ area T : ℚ,
      shoelace_doubled (viewport_point s a.position_clip)
        (viewport_point s b.position_clip) (viewport_point s c.position_clip) = F32.fin area →
      s.g_current_small_triangle_area_threshold = F32.fin T → F32.nearest T = F32.fin T →
      (2 * T ≤ |area| → screen_triangle_of_clipped s world_v normal [a, b, c] ≠ none) ∧
      (F32.nearest (|area| / 2) = F32.fin (|area| / 2) →
        (screen_triangle_of_clipped s world_v normal [a, b, c] = none ↔ |area| < 2 * T))) := by
  have hloop := vertex_loop_three s a b c
    { screen_coords := [], depth := 0, accumulated_interpolated_color_float := ⟨0, 0, 0⟩,
      was_modified_by_clipping_debug := false } ha hb hc
  simp only [List.nil_append] at hloop
  have hlen : ¬ ([a, b, c] : List CppClipVertex).length ≠ 3 := by simp
  have hsmall : is_triangle_too_small_on_screen
      { screen_coords := [viewport_point s a.position_clip, viewport_point s b.position_clip,
          viewport_point s c.position_clip],
        depth := (0 + a.view_z + b.view_z + c.view_z) / 3, color_final_uint8 := [] }
      s.g_current_small_triangle_area_threshold =
      decide (F32.fabs (shoelace_doubled (viewport_point s a.position_clip)
        (viewport_point s b.position_clip) (viewport_point s c.position_clip)) *
          F32.lit (1 / 2) < s.g_current_small_triangle_area_threshold) := rfl
  have hmain : screen_triangle_of_clipped s world_v normal [a, b, c] = none ↔
      F32.fabs (shoelace_doubled (viewport_point s a.position_clip)
        (viewport_point s b.position_clip) (viewport_point s c.position_clip)) *
          F32.lit (1 / 2) < s.g_current_small_triangle_area_threshold := by
    simp only [screen_triangle_of_clipped, hlen, if_false, hloop, hsmall]
    by_cases hs : F32.fabs (shoelace_doubled (viewport_point s a.position_clip)
        (viewport_point s b.position_clip) (viewport_point s c.position_clip)) *
          F32.lit (1 / 2) < s.g_current_small_triangle_area_threshold
    · simp only [hT, hs, decide_True, and_self, if_true]
    · simp only [hT, hs, decide_False, and_false, if_false, iff_false, Bool.false_eq_true]
      split <;> simp
  refine ⟨hmain, ?_⟩
  intro area T harea hthr hrep
  have hprod : F32.fabs (shoelace_doubled (viewport_point s a.position_clip)
        (viewport_point s b.position_clip) (viewport_point s c.position_clip)) *
          F32.lit (1 / 2) = F32.nearest (|area| / 2) := by
    rw [harea, F32.lit_half]
    show F32.nearest (|area| * (1 / 2)) = F32.nearest (|area| / 2)
    rw [mul_one_div]
  rw [hprod, hthr] at hmain
  constructor
  · intro h2 hnone
    exact F32.not_lt_of_le_nearest T (|area| / 2) hrep
      ((le_div_iff₀ (by norm_num : (0 : ℚ) < 2)).2 (by rw [mul_comm]; exact h2))
      (hmain.1 hnone)
  · intro hexact
    rw [hmain, hexact, F32.lt_fin_fin]
    exact div_lt_iff₀' (by norm_num : (0 : ℚ) < 2)

/-- Witness for C10: the sample triangle under threshold 1, whose doubled shoelace value is
`-1`, of absolute value 1: it is dropped. -/
theorem C10_small_triangle_rejection_witness :
    ((sample_frame false 5 1).g_current_small_triangle_area_threshold > 0 ∧
      shoelace_doubled
        (viewport_point (sample_frame false 5 1) (clip_vertex_at 0 0 0 1).position_clip)
        (viewport_point (sample_frame false 5 1) (clip_vertex_at 1 0 0 1).position_clip)
        (viewport_point (sample_frame false 5 1) (clip_vertex_at 0 1 0 1).position_clip)
        = F32.fin (-1)) ∧
    screen_triangle_of_clipped (sample_frame false 5 1) [] ⟨0, 0, 1⟩
        [clip_vertex_at 0 0 0 1, clip_vertex_at 1 0 0 1, clip_vertex_at 0 1 0 1] = none :=
  ⟨⟨by decide!, by decide!⟩,
    (C10_small_triangle_rejection (sample_frame false 5 1) [] ⟨0, 0, 1⟩
      (clip_vertex_at 0 0 0 1) (clip_vertex_at 1 0 0 1) (clip_vertex_at 0 1 0 1)
      (by decide!) (by decide!) (by decide!) (by decide!)).1.2 (by decide!)⟩

/-- Counterexample to C10 as stated: with threshold 1 the sample triangle, whose screen points
are `(1,1), (2,1), (1,0)` and whose doubled shoelace area is exactly 1, is dropped; with
threshold 0 it is drawn. -/
theorem C10_counterexample :
    F32.fabs (shoelace_doubled (1, 1) (2, 1) (1, 0)) = 1 ∧
    (sample_frame false 5 1).g_current_small_triangle_area_threshold = 1 ∧
    process_world_to_screen_internal_cpp (sample_frame false 5 0) sample_world_triangle
      = [{ screen_coords := [(1, 1), (2, 1), (1, 0)], depth := 0,
           color_final_uint8 := [255, 255, 255] }] ∧
    process_world_to_screen_internal_cpp (sample_frame false 5 1) sample_world_triangle
      = [] := by
  decide!

/-- C11, as amended. Back-face culling: take a triangle whose stored face normal is a negative
multiple `-λ v` of the vector `v` the code computes from its centroid to the camera position
(finite components), the squared length of `v` being not below `1e-12f`. When culling is
enabled the triangle loop of `process_world_to_screen_internal_cpp` pushes no screen triangle
for it (the output is that of the other triangles); when culling is disabled the screen
coordinates and depths pushed for it are the same whatever the stored normal is, so facing
drops nothing. -/
theorem C11_back_face_culling (s : RendererState) (world_data : CppWorldDataL2)
    (i_tri : Nat) (lam vx vy vz : ℚ) (hlam : 0 < lam)
    (hv : s.g_current_camera_pos_w_cpp.sub (triangle_center_w world_data i_tri) =
      ⟨F32.fin vx, F32.fin vy, F32.fin vz⟩)
    (hn : current_world_face_normal world_data i_tri =
      ⟨F32.fin (-lam * vx), F32.fin (-lam * vy), F32.fin (-lam * vz)⟩)
    (hfar : ¬ Vec3.length2 (s.g_current_camera_pos_w_cpp.sub
      (triangle_center_w world_data i_tri)) < F32.lit (1 / 10 ^ 12)) :
    (s.g_current_back_cull_enabled_flag = true →
      process_world_triangle s world_data i_tri = [] ∧
      process_world_to_screen_internal_cpp s world_data =
        ((List.range world_data.num_source_triangles).filter
          (fun j => !decide (j = i_tri))).flatMap (process_world_triangle s world_data)) ∧
    (s.g_current_back_cull_enabled_flag = false →
      ∀ other : CppWorldDataL2,
        other.world_vertices_flat = world_data.world_vertices_flat →
        other.vertex_colors_flat = world_data.vertex_colors_flat →
        (process_world_triangle s world_data i_tri).map (fun t => (t.screen_coords, t.depth)) =
        (process_world_triangle s other i_tri).map (fun t => (t.screen_coords, t.depth))) := by
  constructor
  · intro hcull
    have hnil : process_world_triangle s world_data i_tri = [] := by
      rw [process_world_triangle_locals, hcull,
        not_front_facing_of_negative_multiple _ _ _ lam vx vy vz hlam hv hn hfar]
      rfl
    refine ⟨hnil, ?_⟩
    unfold process_world_to_screen_internal_cpp
    by_cases h0 : world_data.num_source_triangles = 0
    · rw [if_pos h0, h0]; rfl
    · rw [if_neg h0]
      exact flatMap_skip_nil _ _ i_tri hnil
  · intro hcull other hvert hcol
    rw [process_world_triangle_locals, process_world_triangle_locals, hcull]
    simp only [Bool.false_and, Bool.false_eq_true, if_false, List.map_filterMap]
    have hcv : ∀ k, current_world_v other i_tri k = current_world_v world_data i_tri k := by
      intro k; unfold current_world_v; rw [hvert]
    have hcc : ∀ k, current_v_colors other i_tri k = current_v_colors world_data i_tri k := by
      intro k; unfold current_v_colors; rw [hcol]
    rw [hcv 0, hcv 1, hcv 2, hcc 0, hcc 1, hcc 2]
    apply List.filterMap_congr
    intro tri _
    exact screen_triangle_geometry_normal s _ _ _ tri

/-- Witness for C11: the triangle around the origin with normal `(0,0,-1)`, the camera at
`(0,0,5)`. With culling it is dropped; without culling it has the geometry of the same triangle
stored with the normal `(0,0,1)`. -/
theorem C11_back_face_culling_witness :
    ((sample_frame true 5 0).g_current_camera_pos_w_cpp.sub
        (triangle_center_w sample_world_triangle_centred 0) = ⟨F32.fin 0, F32.fin 0, F32.fin 5⟩ ∧
      current_world_face_normal sample_world_triangle_centred 0 =
        ⟨F32.fin (-(1 / 5) * 0), F32.fin (-(1 / 5) * 0), F32.fin (-(1 / 5) * 5)⟩) ∧
    process_world_triangle (sample_frame true 5 0) sample_world_triangle_centred 0 = [] ∧
    (process_world_triangle (sample_frame false 5 0)
        sample_world_triangle_centred 0).map (fun t => (t.screen_coords, t.depth)) =
      (process_world_triangle (sample_frame false 5 0)
        { sample_world_triangle_centred with world_face_normals_flat := [0, 0, 1] } 0).map
        (fun t => (t.screen_coords, t.depth)) :=
  ⟨⟨by decide!, by decide!⟩,
    ((C11_back_face_culling (sample_frame true 5 0) sample_world_triangle_centred 0 (1 / 5)
      0 0 5 (by norm_num) (by decide!) (by decide!) (by decide!)).1 (by decide!)).1,
    (C11_back_face_culling (sample_frame false 5 0) sample_world_triangle_centred 0 (1 / 5)
      0 0 5 (by norm_num) (by decide!) (by decide!) (by decide!)).2 (by decide!) _ rfl rfl⟩

/-- Counterexample to C11 as stated: the triangle around the origin has the normal `(0,0,-1)`,
which is a negative multiple of the vector `(0,0,1e-7f)` from its centroid to the camera, and
culling is enabled; `process_world_to_screen_internal_cpp` still emits it, because the squared
distance of the camera from the centroid is below `1e-12f`. -/
theorem C11_counterexample :
    (sample_frame true (F32.lit (1 / 10 ^ 7)) 0).g_current_camera_pos_w_cpp.sub
        (triangle_center_w sample_world_triangle_centred 0) =
      ⟨F32.fin 0, F32.fin 0, F32.fin (14073749 / 140737488355328)⟩ ∧
    current_world_face_normal sample_world_triangle_centred 0 =
      ⟨F32.fin (-(140737488355328 / 14073749) * 0), F32.fin (-(140737488355328 / 14073749) * 0),
       F32.fin (-(140737488355328 / 14073749) * (14073749 / 140737488355328))⟩ ∧
    (sample_frame true (F32.lit (1 / 10 ^ 7)) 0).g_current_back_cull_enabled_flag = true ∧
    process_world_to_screen_internal_cpp (sample_frame true (F32.lit (1 / 10 ^ 7)) 0)
      sample_world_triangle_centred =
      [{ screen_coords := [(2, 1), (0, 2), (1, 0)], depth := 0,
         color_final_uint8 := [255, 255, 255] }] := by
  decide!

/-- C23, as amended. Viewport mapping: every triangle `process_world_to_screen_internal_cpp`
returns was built from a clipped triangle whose three vertices have `|w| ≥ 1e-7f`, and its
screen points are, in order, `((x * (1 / w) + 1) * 0.5f * W, (1 - y * (1 / w)) * 0.5f * H)`
computed in binary32 for the clip positions `(x, y, z, w)` of those vertices, `W × H` being the
window size converted to `float`. When the computed NDC `(x * (1 / w), y * (1 / w))` is
`(-1, 1)` the point is `(0, 0)`, and when it is `(1, -1)` the point is `(W, H)`. A clipped
triangle with a vertex whose `|w|` is below `1e-7f` gives no triangle. -/
theorem C23_viewport_mapping (s : RendererState) (world_data : CppWorldDataL2) :
    (∀ t ∈ process_world_to_screen_internal_cpp s world_data,
      ∃ (i_tri : Nat) (a b c : CppClipVertex), i_tri < world_data.num_source_triangles ∧
        [a, b, c] ∈ processed_triangles_after_clipping s
          (clip_space_input_triangle s
            [current_world_v world_data i_tri 0, current_world_v world_data i_tri 1,
             current_world_v world_data i_tri 2]
            [current_v_colors world_data i_tri 0, current_v_colors world_data i_tri 1,
             current_v_colors world_data i_tri 2]) ∧
        ¬ F32.fabs a.position_clip.w < F32.lit (1 / 10 ^ 7) ∧
        ¬ F32.fabs b.position_clip.w < F32.lit (1 / 10 ^ 7) ∧
        ¬ F32.fabs c.position_clip.w < F32.lit (1 / 10 ^ 7) ∧
        t.screen_coords =
          [((a.position_clip.x * (1 / a.position_clip.w) + 1) * F32.lit (1 / 2) *
              F32.of_int s.g_window_width_cpp,
            (1 - a.position_clip.y * (1 / a.position_clip.w)) * F32.lit (1 / 2) *
              F32.of_int s.g_window_height_cpp),
           ((b.position_clip.x * (1 / b.position_clip.w) + 1) * F32.lit (1 / 2) *
              F32.of_int s.g_window_width_cpp,
            (1 - b.position_clip.y * (1 / b.position_clip.w)) * F32.lit (1 / 2) *
              F32.of_int s.g_window_height_cpp),
           ((c.position_clip.x * (1 / c.position_clip.w) + 1) * F32.lit (1 / 2) *
              F32.of_int s.g_window_width_cpp,
            (1 - c.position_clip.y * (1 / c.position_clip.w)) * F32.lit (1 / 2) *
              F32.of_int s.g_window_height_cpp)]) ∧
    (∀ (world_v : List Vec3) (normal : Vec3) (tri : List CppClipVertex),
      (∃ v ∈ tri, F32.fabs v.position_clip.w < F32.lit (1 / 10 ^ 7)) →
      screen_triangle_of_clipped s world_v normal tri = none) ∧
    ((F32.of_int s.g_window_width_cpp).is_finite = true →
      (F32.of_int s.g_window_height_cpp).is_finite = true →
      (∀ p : Vec4, p.x * (1 / p.w) = -1 → p.y * (1 / p.w) = 1 →
        viewport_point s p = (0, 0)) ∧
      (∀ p : Vec4, p.x * (1 / p.w) = 1 → p.y * (1 / p.w) = -1 →
        viewport_point s p =
          (F32.of_int s.g_window_width_cpp, F32.of_int s.g_window_height_cpp))) := by
  refine ⟨?_, ?_, ?_⟩
  · intro t ht
    obtain ⟨i, hi, tri, htri, hsome⟩ := output_triangle_source s world_data t ht
    obtain ⟨a, b, c, rfl, ha, hb, hc, hsc, _, _⟩ :=
      screen_triangle_of_clipped_some s _ _ tri t hsome
    exact ⟨i, a, b, c, hi, htri, ha, hb, hc, hsc⟩
  · intro world_v normal tri h
    exact screen_triangle_none_of_small_w s world_v normal tri h
  · intro hW hH
    have hfin : ∀ n : Int, (F32.of_int n).is_finite = true →
        (F32.fin 0 * F32.of_int n : F32) = F32.fin 0 ∧
        (F32.fin 1 * F32.of_int n : F32) = F32.of_int n := by
      intro n hn
      cases hq : F32.of_int n with
      | nan => rw [hq] at hn; exact absurd hn (by simp [F32.is_finite])
      | inf t => rw [hq] at hn; exact absurd hn (by simp [F32.is_finite])
      | fin r =>
        constructor
        · show F32.nearest (0 * r) = F32.fin 0
          rw [zero_mul]; exact F32.nearest_zero
        · show F32.nearest (1 * r) = F32.fin r
          rw [one_mul]
          exact F32.nearest_idem _ r hq
    have e0 : ((-1 : F32) + 1) * F32.lit (1 / 2) = F32.fin 0 := by decide!
    have e1 : ((1 : F32) - 1) * F32.lit (1 / 2) = F32.fin 0 := by decide!
    have e2 : ((1 : F32) + 1) * F32.lit (1 / 2) = F32.fin 1 := by decide!
    have e3 : ((1 : F32) - (-1)) * F32.lit (1 / 2) = F32.fin 1 := by decide!
    constructor
    · intro p hx hy
      unfold viewport_point
      simp only [hx, hy, e0, e1, (hfin _ hW).1, (hfin _ hH).1]
      rfl
    · intro p hx hy
      unfold viewport_point
      simp only [hx, hy, e2, e3, (hfin _ hW).2, (hfin _ hH).2]

/-- Witness for C23: the sample triangle `(0,0,0), (1,0,0), (0,1,0)` in the 2 x 2 window. -/
theorem C23_viewport_mapping_witness :
    sample_screen_triangle ∈
      process_world_to_screen_internal_cpp (sample_frame true 5 0) sample_world_triangle ∧
    ∃ (i_tri : Nat) (a b c : CppClipVertex), i_tri < sample_world_triangle.num_source_triangles ∧
      [a, b, c] ∈ processed_triangles_after_clipping (sample_frame true 5 0)
        (clip_space_input_triangle (sample_frame true 5 0)
          [current_world_v sample_world_triangle i_tri 0,
           current_world_v sample_world_triangle i_tri 1,
           current_world_v sample_world_triangle i_tri 2]
          [current_v_colors sample_world_triangle i_tri 0,
           current_v_colors sample_world_triangle i_tri 1,
           current_v_colors sample_world_triangle i_tri 2]) ∧
      ¬ F32.fabs a.position_clip.w < F32.lit (1 / 10 ^ 7) ∧
      ¬ F32.fabs b.position_clip.w < F32.lit (1 / 10 ^ 7) ∧
      ¬ F32.fabs c.position_clip.w < F32.lit (1 / 10 ^ 7) ∧
      sample_screen_triangle.screen_coords =
        [((a.position_clip.x * (1 / a.position_clip.w) + 1) * F32.lit (1 / 2) *
            F32.of_int (sample_frame true 5 0).g_window_width_cpp,
          (1 - a.position_clip.y * (1 / a.position_clip.w)) * F32.lit (1 / 2) *
            F32.of_int (sample_frame true 5 0).g_window_height_cpp),
         ((b.position_clip.x * (1 / b.position_clip.w) + 1) * F32.lit (1 / 2) *
            F32.of_int (sample_frame true 5 0).g_window_width_cpp,
          (1 - b.position_clip.y * (1 / b.position_clip.w)) * F32.lit (1 / 2) *
            F32.of_int (sample_frame true 5 0).g_window_height_cpp),
         ((c.position_clip.x * (1 / c.position_clip.w) + 1) * F32.lit (1 / 2) *
            F32.of_int (sample_frame true 5 0).g_window_width_cpp,
          (1 - c.position_clip.y * (1 / c.position_clip.w)) * F32.lit (1 / 2) *
            F32.of_int (sample_frame true 5 0).g_window_height_cpp)] :=
  ⟨by decide!,
    (C23_viewport_mapping (sample_frame true 5 0) sample_world_triangle).1
      sample_screen_triangle (by decide!)⟩

/-- Counterexample to C23 as stated: in the 800 x 600 window the first vertex of the corner
triangle has the clip position `(-41, 41, 0, 41)`, so `x / w = -1` and `y / w = 1`, and it is
not drawn at pixel `(0, 0)`: the code multiplies by the rounded reciprocal `1 / w`, and
`-41 * (1 / 41)` is not `-1` in binary32. -/
theorem C23_counterexample :
    (clip_space_input_triangle sample_frame_800 [⟨-1, 1, 0⟩, ⟨1, -1, 0⟩, ⟨0, 0, 0⟩] []).map
        (fun v => v.position_clip) = [⟨-41, 41, 0, 41⟩, ⟨41, -41, 0, 41⟩, ⟨0, 0, 0, 41⟩] ∧
    ((-41 : F32) / 41 = -1 ∧ (41 : F32) / 41 = 1) ∧
    (sample_frame_800.g_window_width_cpp = 800 ∧ sample_frame_800.g_window_height_cpp = 600) ∧
    process_world_to_screen_internal_cpp sample_frame_800 sample_world_triangle_corner =
      [{ screen_coords := [(F32.fin (25 / 1048576), F32.fin (75 / 4194304)), (800, 600),
          (400, 300)],
         depth := 0, color_final_uint8 := [255, 255, 255] }] := by
  decide!

theorem length_flatMap_const {α β : Type} (l : List α) (f : α → List β) (n : Nat)
    (h : ∀ a ∈ l, (f a).length = n) : (l.flatMap f).length = n * l.length := by
  induction l with
  | nil => simp
  | cons a rest ih =>
    rw [List.flatMap_cons, List.length_append, ih (fun b hb => h b (List.mem_cons_of_mem _ hb)),
      h a (List.mem_cons_self _ _), List.length_cons]
    ring

/-- A read inside the buffer yields a float. -/
theorem read_float_some (buffer : List F32) (offset : Int) (j : Nat) (h0 : 0 ≤ offset)
    (h : offset + j < buffer.length) : ∃ x, read_float buffer offset j = some x := by
  unfold read_float
  have hnn : ¬ offset + (j : Int) < 0 := by omega
  rw [if_neg hnn]
  have hlt : (offset + (j : Int)).toNat < buffer.length := by omega
  exact ⟨buffer[(offset + (j : Int)).toNat], List.getElem?_eq_getElem hlt⟩

/-- A read at or past the end of the buffer yields nothing. -/
theorem read_float_none (buffer : List F32) (offset : Int) (j : Nat)
    (h : (buffer.length : Int) ≤ offset + j) : read_float buffer offset j = none := by
  unfold read_float
  split
  · rfl
  · apply List.getElem?_eq_none
    omega

theorem read_vec3_some (buffer : List F32) (offset : Int) (j : Nat) (h0 : 0 ≤ offset)
    (h : offset + j + 2 < buffer.length) : ∃ v, read_vec3 buffer offset j = some v := by
  obtain ⟨x, hx⟩ := read_float_some buffer offset j h0 (by omega)
  obtain ⟨y, hy⟩ := read_float_some buffer offset (j + 1) h0 (by push_cast; omega)
  obtain ⟨z, hz⟩ := read_float_some buffer offset (j + 2) h0 (by push_cast; omega)
  exact ⟨⟨x, y, z⟩, by simp only [read_vec3, hx, hy, hz]⟩

theorem read_vec3_none (buffer : List F32) (offset : Int) (j : Nat)
    (h : (buffer.length : Int) ≤ offset + j + 2) : read_vec3 buffer offset j = none := by
  have hz := read_float_none buffer offset (j + 2) (by push_cast; omega)
  unfold read_vec3
  rw [hz]
  cases read_float buffer offset j <;> cases read_float buffer offset (j + 1) <;> rfl

/-- With a stride of at least 3, the record of a vertex that lies inside the buffer is read
without leaving the buffer. -/
theorem read_vertex_some (buffer : List F32) (vertex_data_stride : Int) (flag : Bool)
    (v_ptr : Int) (hstride : 3 ≤ vertex_data_stride) (h0 : 0 ≤ v_ptr)
    (h : v_ptr + vertex_data_stride ≤ buffer.length) :
    ∃ r, read_vertex buffer vertex_data_stride flag v_ptr = some r := by
  obtain ⟨p, hp⟩ := read_vec3_some buffer v_ptr 0 h0 (by push_cast; omega)
  have hcol : ∃ col, (if vertex_data_stride ≥ 6 then read_vec3 buffer v_ptr 3
      else some ⟨F32.lit (1 / 2), F32.lit (1 / 2), F32.lit (1 / 2)⟩) = some col := by
    by_cases h6 : vertex_data_stride ≥ 6
    · rw [if_pos h6]
      exact read_vec3_some buffer v_ptr 3 h0 (by push_cast; omega)
    · rw [if_neg h6]; exact ⟨_, rfl⟩
  have hnor : ∃ n, (if flag && decide (vertex_data_stride ≥ 9) then read_vec3 buffer v_ptr 6
      else some ⟨0, 0, 0⟩) = some n := by
    by_cases h9 : (flag && decide (vertex_data_stride ≥ 9)) = true
    · rw [if_pos h9]
      have h9b : 9 ≤ vertex_data_stride := by
        simp only [Bool.and_eq_true, decide_eq_true_eq] at h9
        exact h9.2
      exact read_vec3_some buffer v_ptr 6 h0 (by push_cast; omega)
    · rw [if_neg h9]; exact ⟨_, rfl⟩
  obtain ⟨col, hc⟩ := hcol
  obtain ⟨n, hn⟩ := hnor
  refine ⟨{ local_v := p, v_colors := col, model_n := n }, ?_⟩
  simp only [read_vertex, hp, hc, hn]

theorem read_vertex_none (buffer : List F32) (vertex_data_stride : Int) (flag : Bool)
    (v_ptr : Int) (h : (buffer.length : Int) ≤ v_ptr + 2) :
    read_vertex buffer vertex_data_stride flag v_ptr = none := by
  have hp := read_vec3_none buffer v_ptr 0 (by push_cast; omega)
  simp only [read_vertex, hp]

/-- The triangle the loop body builds has three world vertices and three colours. -/
theorem transform_triangle_shape (local_vertices : List F32) (vertex_data_stride : Int)
    (flag : Bool) (model_m : Mat4) (normal_model_m : Mat3) (i_tri : Nat) (t : WorldTriangle)
    (h : transform_triangle local_vertices vertex_data_stride flag model_m normal_model_m i_tri
      = some t) : t.world_v.length = 3 ∧ t.v_colors.length = 3 := by
  unfold transform_triangle at h
  simp only at h
  split at h
  · simp only [Option.some.injEq] at h
    rw [← h]
    exact ⟨rfl, rfl⟩
  · exact absurd h (by simp)

/-- With a stride of at least 3, every iteration of the triangle loop over a buffer of
`stride * 3 * k` floats stays inside the buffer. -/
theorem transform_triangle_some (local_vertices : List F32) (vertex_data_stride : Int)
    (flag : Bool) (model_m : Mat4) (normal_model_m : Mat3) (k i_tri : Nat)
    (hstride : 3 ≤ vertex_data_stride)
    (hlen : (local_vertices.length : Int) = vertex_data_stride * 3 * k) (hi : i_tri < k) :
    ∃ t, transform_triangle local_vertices vertex_data_stride flag model_m normal_model_m i_tri
      = some t := by
  have hik : (i_tri : Int) + 1 ≤ k := by exact_mod_cast hi
  have hi0 : (0 : Int) ≤ i_tri := Int.ofNat_nonneg _
  have hprod : 0 ≤ ((k : Int) - i_tri - 1) * vertex_data_stride :=
    mul_nonneg (by linarith) (by linarith)
  have hprod2 : 0 ≤ (i_tri : Int) * vertex_data_stride := mul_nonneg hi0 (by linarith)
  have hv : ∀ j : Nat, j < 3 → ∃ r, read_vertex local_vertices vertex_data_stride flag
      (i_tri * vertex_data_stride * 3 + j * vertex_data_stride) = some r := by
    intro j hj
    have hjz : (0 : Int) ≤ j := Int.ofNat_nonneg _
    have hj2 : (j : Int) ≤ 2 := by exact_mod_cast Nat.lt_succ_iff.1 hj
    have hprod3 : 0 ≤ (j : Int) * vertex_data_stride := mul_nonneg hjz (by linarith)
    have hprod4 : 0 ≤ (2 - (j : Int)) * vertex_data_stride :=
      mul_nonneg (by linarith) (by linarith)
    apply read_vertex_some _ _ _ _ hstride
    · nlinarith
    · rw [hlen]; nlinarith
  obtain ⟨r0, h0⟩ := hv 0 (by norm_num)
  obtain ⟨r1, h1⟩ := hv 1 (by norm_num)
  obtain ⟨r2, h2⟩ := hv 2 (by norm_num)
  unfold transform_triangle
  simp only
  rw [h0, h1, h2]
  exact ⟨_, rfl⟩

theorem all_iterations_some {α : Type} (l : List (Option α))
    (h : ∀ x ∈ l, ∃ a, x = some a) :
    ∃ out, all_iterations l = some out ∧ out.length = l.length ∧ ∀ a ∈ out, some a ∈ l := by
  induction l with
  | nil => exact ⟨[], rfl, rfl, fun a ha => absurd ha (List.not_mem_nil a)⟩
  | cons x rest ih =>
    obtain ⟨a, ha⟩ := h x (List.mem_cons_self _ _)
    obtain ⟨out, ho, hl, hm⟩ := ih (fun y hy => h y (List.mem_cons_of_mem _ hy))
    subst ha
    refine ⟨a :: out, by simp only [all_iterations, ho], by simp [hl], ?_⟩
    intro b hb
    rcases List.mem_cons.1 hb with h1 | h1
    · rw [h1]; exact List.mem_cons_self _ _
    · exact List.mem_cons_of_mem _ (hm b h1)

theorem all_iterations_none {α : Type} (l : List (Option α)) (h : none ∈ l) :
    all_iterations l = none := by
  induction l with
  | nil => exact absurd h (List.not_mem_nil _)
  | cons x rest ih =>
    cases x with
    | none => rfl
    | some a =>
      have hr : none ∈ rest := by
        rcases List.mem_cons.1 h with h1 | h1
        · exact absurd h1 (by simp)
        · exact h1
      simp only [all_iterations, ih hr]

/-- The head of `transform_to_world_internal_cpp` on a buffer of `stride * 3 * k` floats,
`k ≥ 1`, `stride ≥ 1`: the validation passes and the triangle loop runs `k` times. -/
theorem transform_to_world_loop (g : GlmLib) (local_vertices : List F32) (stride : Int)
    (flag : Bool) (model_m : Mat4) (k : Nat) (hk : k ≠ 0) (hstride : 1 ≤ stride)
    (hlen : (local_vertices.length : Int) = stride * 3 * k) :
    transform_to_world_internal_cpp g local_vertices stride flag model_m =
      match all_iterations ((List.range k).map
          (transform_triangle local_vertices stride flag model_m
            (Mat3.of_mat4 (Mat4.transpose (g.inverse model_m))))) with
      | none => .undefined
      | some tris =>
        .ok { world_vertices_flat := tris.flatMap (fun t => t.world_v.flatMap Vec3.flat),
              world_face_normals_flat := tris.flatMap (fun t => t.face_normal_w.flat),
              vertex_colors_flat := tris.flatMap (fun t => t.v_colors.flatMap Vec3.flat),
              num_source_triangles := k } := by
  have hkpos : (0 : Int) < k := by exact_mod_cast Nat.pos_of_ne_zero hk
  have hs3 : (0 : Int) < stride * 3 := by omega
  have hne : ¬ (local_vertices.length : Int) = 0 := by
    rw [hlen]
    exact ne_of_gt (mul_pos hs3 hkpos)
  have hns : ¬ stride ≤ 0 := by omega
  have hmod : Int.tmod (local_vertices.length : Int) (stride * 3) = 0 := by
    rw [hlen]; exact Int.mul_tmod_right _ _
  have hdiv : Int.tdiv (local_vertices.length : Int) (stride * 3) = k := by
    rw [hlen]; exact Int.mul_tdiv_cancel_left _ (ne_of_gt hs3)
  have hnk : ¬ ((k : Int) ≤ 0) := by omega
  simp only [transform_to_world_internal_cpp, hne, hns, hmod, hdiv, hnk, if_false,
    false_or, ne_eq, not_true_eq_false, Int.toNat_natCast]

/-- On a buffer of `stride * 3 * k` floats with `stride ≥ 3` the world stage returns `k`
triangles with `9 k`, `3 k` and `9 k` floats. -/
theorem transform_to_world_counts (g : GlmLib) (local_vertices : List F32) (stride : Int)
    (flag : Bool) (model_m : Mat4) (k : Nat) (hstride : 3 ≤ stride)
    (hlen : (local_vertices.length : Int) = stride * 3 * k) :
    ∃ wd, transform_to_world_internal_cpp g local_vertices stride flag model_m = .ok wd ∧
      wd.num_source_triangles = k ∧ wd.world_vertices_flat.length = 9 * k ∧
      wd.world_face_normals_flat.length = 3 * k ∧ wd.vertex_colors_flat.length = 9 * k := by
  by_cases hk : k = 0
  · subst hk
    have h0 : (local_vertices.length : Int) = 0 := by simpa using hlen
    refine ⟨CppWorldDataL2.empty, ?_, rfl, rfl, rfl, rfl⟩
    simp [transform_to_world_internal_cpp, h0]
  · rw [transform_to_world_loop g local_vertices stride flag model_m k hk (by omega) hlen]
    obtain ⟨tris, hsome, hl, hm⟩ := all_iterations_some ((List.range k).map
        (transform_triangle local_vertices stride flag model_m
          (Mat3.of_mat4 (Mat4.transpose (g.inverse model_m))))) (by
      intro x hx
      obtain ⟨i, hi, rfl⟩ := List.mem_map.1 hx
      exact transform_triangle_some _ _ _ _ _ k i hstride hlen (List.mem_range.1 hi))
    have hshape : ∀ t ∈ tris, t.world_v.length = 3 ∧ t.v_colors.length = 3 := by
      intro t ht
      obtain ⟨i, _, hi⟩ := List.mem_map.1 (hm t ht)
      exact transform_triangle_shape _ _ _ _ _ i t hi
    have hn : tris.length = k := by rw [hl]; simp
    rw [hsome]
    have hflat : ∀ l : List Vec3, l.length = 3 → (l.flatMap Vec3.flat).length = 9 := by
      intro l h3
      rw [length_flatMap_const l Vec3.flat 3 (fun v _ => rfl), h3]
    refine ⟨_, rfl, rfl, ?_, ?_, ?_⟩
    · rw [length_flatMap_const tris (fun t => t.world_v.flatMap Vec3.flat) 9
        (fun t ht => hflat _ (hshape t ht).1), hn]
    · rw [length_flatMap_const tris (fun t => t.face_normal_w.flat) 3 (fun t _ => rfl), hn]
    · rw [length_flatMap_const tris (fun t => t.v_colors.flatMap Vec3.flat) 9
        (fun t ht => hflat _ (hshape t ht).2), hn]

/-- On a buffer of `stride * 3 * k` floats, `k ≥ 1`, with stride 1 or 2 the last iteration of
the triangle loop reads past the end of the buffer. -/
theorem transform_to_world_undefined (g : GlmLib) (local_vertices : List F32) (stride : Int)
    (flag : Bool) (model_m : Mat4) (k : Nat) (hk : k ≠ 0) (h1 : 1 ≤ stride) (h2 : stride ≤ 2)
    (hlen : (local_vertices.length : Int) = stride * 3 * k) :
    transform_to_world_internal_cpp g local_vertices stride flag model_m = .undefined := by
  rw [transform_to_world_loop g local_vertices stride flag model_m k hk h1 hlen]
  have hkpos : 0 < k := Nat.pos_of_ne_zero hk
  have hlast : transform_triangle local_vertices stride flag model_m
      (Mat3.of_mat4 (Mat4.transpose (g.inverse model_m))) (k - 1) = none := by
    have hcast : ((k - 1 : Nat) : Int) = (k : Int) - 1 := by omega
    have h3 : read_vertex local_vertices stride flag
        (((k - 1 : Nat) : Int) * stride * 3 + ((2 : Nat) : Int) * stride) = none := by
      apply read_vertex_none
      rw [hlen, hcast]
      push_cast
      nlinarith
    unfold transform_triangle
    simp only
    rw [h3]
    split
    · rename_i heq
      exact absurd heq (by simp)
    · rfl
  have hmem : none ∈ (List.range k).map
      (transform_triangle local_vertices stride flag model_m
        (Mat3.of_mat4 (Mat4.transpose (g.inverse model_m)))) :=
    List.mem_map.2 ⟨k - 1, List.mem_range.2 (by omega), hlast⟩
  rw [all_iterations_none _ hmem]

/-- On a non-empty buffer whose stride is not positive or whose length is not a multiple of
`stride * 3` the world stage throws the shape error. -/
theorem transform_to_world_rejects (g : GlmLib) (local_vertices : List F32) (stride : Int)
    (flag : Bool) (model_m : Mat4) (hne : local_vertices ≠ [])
    (hbad : stride ≤ 0 ∨ ¬ (stride * 3 ∣ (local_vertices.length : Int))) :
    transform_to_world_internal_cpp g local_vertices stride flag model_m
      = .error CppError.vertex_data_stride_mismatch := by
  have hlen : ¬ (local_vertices.length : Int) = 0 := by
    intro h
    exact hne (List.length_eq_zero.1 (by exact_mod_cast h))
  have hcond : stride ≤ 0 ∨ Int.tmod (local_vertices.length : Int) (stride * 3) ≠ 0 := by
    rcases hbad with h | h
    · exact Or.inl h
    · exact Or.inr (fun h0 => h (Int.dvd_of_tmod_eq_zero h0))
  simp only [transform_to_world_internal_cpp, hlen, if_false, hcond, if_true]

/-- With a stride of at least 3 every index the triangle loop reads lies inside a buffer of
`stride * 3 * k` floats. -/
theorem read_indices_in_bounds (vertex_data_stride : Int) (flag : Bool) (len k i_tri : Nat)
    (hstride : 3 ≤ vertex_data_stride) (hlen : (len : Int) = vertex_data_stride * 3 * k)
    (hi : i_tri < k) :
    ∀ idx ∈ triangle_read_indices vertex_data_stride flag i_tri, 0 ≤ idx ∧ idx < len := by
  intro idx hidx
  have hik : (i_tri : Int) + 1 ≤ k := by exact_mod_cast hi
  have hi0 : (0 : Int) ≤ i_tri := Int.ofNat_nonneg _
  have hprod : 0 ≤ ((k : Int) - i_tri - 1) * vertex_data_stride :=
    mul_nonneg (by linarith) (by linarith)
  have hprod2 : 0 ≤ (i_tri : Int) * vertex_data_stride := mul_nonneg hi0 (by linarith)
  unfold triangle_read_indices at hidx
  obtain ⟨j, hj, hmem⟩ := List.mem_flatMap.1 hidx
  have hj3 : j < 3 := List.mem_range.1 hj
  have hjz : (0 : Int) ≤ j := Int.ofNat_nonneg _
  have hj2 : (j : Int) ≤ 2 := by exact_mod_cast Nat.lt_succ_iff.1 hj3
  have hprod3 : 0 ≤ (j : Int) * vertex_data_stride := mul_nonneg hjz (by linarith)
  have hprod4 : 0 ≤ (2 - (j : Int)) * vertex_data_stride :=
    mul_nonneg (by linarith) (by linarith)
  have hoff : ∃ off : Int, 0 ≤ off ∧ off < vertex_data_stride ∧
      idx = i_tri * vertex_data_stride * 3 + j * vertex_data_stride + off := by
    simp only [List.mem_append, List.mem_cons, List.mem_singleton, List.not_mem_nil,
      or_false] at hmem
    rcases hmem with ((h | h | h) | h) | h
    · exact ⟨0, le_refl _, by linarith, h⟩
    · exact ⟨1, by norm_num, by linarith, h⟩
    · exact ⟨2, by norm_num, by linarith, h⟩
    · split at h
      · rename_i h6
        simp only [List.mem_cons, List.mem_singleton, List.not_mem_nil, or_false] at h
        rcases h with h | h | h
        · exact ⟨3, by norm_num, by linarith, h⟩
        · exact ⟨4, by norm_num, by linarith, h⟩
        · exact ⟨5, by norm_num, by linarith, h⟩
      · simp at h
    · split at h
      · rename_i h9
        have h9b : 9 ≤ vertex_data_stride := by
          simp only [Bool.and_eq_true, decide_eq_true_eq] at h9
          exact h9.2
        simp only [List.mem_cons, List.mem_singleton, List.not_mem_nil, or_false] at h
        rcases h with h | h | h
        · exact ⟨6, by norm_num, by linarith, h⟩
        · exact ⟨7, by norm_num, by linarith, h⟩
        · exact ⟨8, by norm_num, by linarith, h⟩
      · simp at h
  obtain ⟨off, h0, h1, hidx2⟩ := hoff
  rw [hidx2, hlen]
  constructor
  · nlinarith
  · nlinarith

/-- C6, as amended. For every stride `≥ 3`, every `k` and every vertex buffer of
`stride * 3 * k` floats, `transform_to_world_internal_cpp` returns world data with
`num_source_triangles = k`, `9 k` world-vertex floats, `3 k` face-normal floats and `9 k`
vertex-colour floats; for every non-empty buffer with stride `≤ 0` or a length that is not a
multiple of `stride * 3` it fails with the shape error. With stride 1 or 2 and `k ≥ 1` the
validation passes and the triangle loop reads past the end of the buffer: the behaviour is
undefined. -/
theorem C6_transform_to_world_shape (g : GlmLib) (local_vertices : List F32) (stride : Int)
    (flag : Bool) (model_m : Mat4) :
    (∀ k : Nat, 3 ≤ stride → (local_vertices.length : Int) = stride * 3 * k →
      ∃ wd, transform_to_world_internal_cpp g local_vertices stride flag model_m = .ok wd ∧
        wd.num_source_triangles = k ∧ wd.world_vertices_flat.length = 9 * k ∧
        wd.world_face_normals_flat.length = 3 * k ∧ wd.vertex_colors_flat.length = 9 * k) ∧
    (local_vertices ≠ [] → (stride ≤ 0 ∨ ¬ (stride * 3 ∣ (local_vertices.length : Int))) →
      transform_to_world_internal_cpp g local_vertices stride flag model_m
        = .error CppError.vertex_data_stride_mismatch) ∧
    (∀ k : Nat, k ≠ 0 → 1 ≤ stride → stride ≤ 2 →
      (local_vertices.length : Int) = stride * 3 * k →
      transform_to_world_internal_cpp g local_vertices stride flag model_m = .undefined) :=
  ⟨fun k hs hl => transform_to_world_counts g local_vertices stride flag model_m k hs hl,
   fun hne hbad => transform_to_world_rejects g local_vertices stride flag model_m hne hbad,
   fun k hk h1 h2 hl =>
     transform_to_world_undefined g local_vertices stride flag model_m k hk h1 h2 hl⟩

/-- Witness for C6: a buffer of 18 floats is two triangles at stride 3, and is rejected at
stride 4. -/
theorem C6_transform_to_world_shape_witness :
    ((3 : Int) ≤ 3 ∧
      (([0, 0, 0, 1, 0, 0, 0, 1, 0, 0, 0, 1, 1, 0, 1, 0, 1, 1] : List F32).length : Int)
        = 3 * 3 * (2 : Nat) ∧
      ∃ wd, transform_to_world_internal_cpp glm_reference
          [0, 0, 0, 1, 0, 0, 0, 1, 0, 0, 0, 1, 1, 0, 1, 0, 1, 1] 3 false Mat4.identity = .ok wd ∧
        wd.num_source_triangles = 2 ∧ wd.world_vertices_flat.length = 9 * 2 ∧
        wd.world_face_normals_flat.length = 3 * 2 ∧ wd.vertex_colors_flat.length = 9 * 2) ∧
    (¬ ((4 : Int) * 3 ∣
        (([0, 0, 0, 1, 0, 0, 0, 1, 0, 0, 0, 1, 1, 0, 1, 0, 1, 1] : List F32).length : Int)) ∧
      transform_to_world_internal_cpp glm_reference
        [0, 0, 0, 1, 0, 0, 0, 1, 0, 0, 0, 1, 1, 0, 1, 0, 1, 1] 4 false Mat4.identity
        = .error CppError.vertex_data_stride_mismatch) :=
  ⟨⟨by decide, by decide,
    (C6_transform_to_world_shape glm_reference
      [0, 0, 0, 1, 0, 0, 0, 1, 0, 0, 0, 1, 1, 0, 1, 0, 1, 1] 3 false Mat4.identity).1 2
      (by decide) (by decide)⟩,
   ⟨by decide,
    (C6_transform_to_world_shape glm_reference
      [0, 0, 0, 1, 0, 0, 0, 1, 0, 0, 0, 1, 1, 0, 1, 0, 1, 1] 4 false Mat4.identity).2.1
      (by simp) (Or.inr (by decide))⟩⟩

/-- Counterexample to C6 as stated: stride 1 and a buffer of `1 * 3 * 1` floats. The call
does not return world data of one triangle: the loop reads the floats 3 and 4 of a buffer that
has three, which is undefined behaviour. -/
theorem C6_counterexample :
    ((1 : Int) ≥ 1 ∧ (([1, 2, 3] : List F32).length : Int) = 1 * 3 * (1 : Nat)) ∧
    transform_to_world_internal_cpp glm_reference [1, 2, 3] 1 false Mat4.identity
      = .undefined ∧
    ¬ ∃ wd, transform_to_world_internal_cpp glm_reference [1, 2, 3] 1 false Mat4.identity
      = .ok wd := by
  have h : transform_to_world_internal_cpp glm_reference [1, 2, 3] 1 false Mat4.identity
      = .undefined := by decide!
  refine ⟨⟨by decide, by decide⟩, h, ?_⟩
  rintro ⟨wd, hwd⟩
  rw [h] at hwd
  exact absurd hwd (by simp)

/-- C30, evaluated at a failing input. A buffer of three floats with stride 1 passes the shape
validation of `transform_to_world_internal_cpp` (the stride is positive and the length is a
positive multiple of `stride * 3`: one triangle), yet for that triangle the loop reads the
indices `0,1,2, 1,2,3, 2,3,4`, of which 3 and 4 are not below the buffer length 3: the second
and third vertex are read past the end of the buffer, and the call does not throw but runs into
undefined behaviour. For every stride of at least 3 all reads are inside the buffer. -/
theorem C30_buffer_read_out_of_bounds :
    ((1 : Int) > 0 ∧ (([1, 2, 3] : List F32).length : Int) ≠ 0 ∧
      Int.tmod (([1, 2, 3] : List F32).length : Int) (1 * 3) = 0 ∧
      Int.tdiv (([1, 2, 3] : List F32).length : Int) (1 * 3) = 1) ∧
    triangle_read_indices 1 false 0 = [0, 1, 2, 1, 2, 3, 2, 3, 4] ∧
    (∃ idx ∈ triangle_read_indices 1 false 0, ¬ idx < (([1, 2, 3] : List F32).length : Int)) ∧
    (read_float [1, 2, 3] 0 2 = some 3 ∧ read_float [1, 2, 3] 1 2 = none ∧
      read_float [1, 2, 3] 2 1 = none) ∧
    transform_triangle [1, 2, 3] 1 false Mat4.identity
      (Mat3.of_mat4 (Mat4.transpose (glm_reference.inverse Mat4.identity))) 0 = none ∧
    transform_to_world_internal_cpp glm_reference [1, 2, 3] 1 false Mat4.identity
      = .undefined ∧
    (∀ (vertex_data_stride : Int) (flag : Bool) (len k i_tri : Nat), 3 ≤ vertex_data_stride →
      (len : Int) = vertex_data_stride * 3 * k → i_tri < k →
      ∀ idx ∈ triangle_read_indices vertex_data_stride flag i_tri, 0 ≤ idx ∧ idx < len) := by
  refine ⟨by decide, by decide, ⟨4, by decide, by decide⟩, by decide!, by decide!, by decide!,
    ?_⟩
  intro vertex_data_stride flag len k i_tri h3 hlen hi
  exact read_indices_in_bounds vertex_data_stride flag len k i_tri h3 hlen hi

/-! ## `process_and_accumulate_object_cpp` -/

/-- A call that passes the guards and finds its key in L1 appends the stored list and runs no
stage. -/
theorem submit_l1_hit (g : GlmLib) (s : RendererState) (object_id_py : Nat)
    (tp data : NpArray) (stride : Int) (flag : Bool)
    (hinit : s.g_sdl_renderer = true ∨ s.g_sdl_native_window = true)
    (hdata : data.size ≠ 0) (htp : tp.ndim = 1 ∧ tp.size = 9)
    (tris : List CppScreenTriangle)
    (hl1 : LruCache.lookup s.global_l1_cache_cpp_instance
      (make_key_l1 g s object_id_py tp.data) = some tris) :
    process_and_accumulate_object_cpp g s object_id_py tp data stride flag =
      { error := none, l1_hit := true, stages := [], appended := tris,
        state := { s with
          global_l1_cache_cpp_instance :=
            (LruCache.get s.global_l1_cache_cpp_instance
              (make_key_l1 g s object_id_py tp.data)).2,
          global_frame_triangles_cpp_ := s.global_frame_triangles_cpp_ ++ tris } } := by
  have hguard : (!s.g_sdl_renderer && !s.g_sdl_native_window) = false := by
    rcases hinit with h | h <;> simp [h]
  rw [← LruCache.get_fst] at hl1
  simp only [process_and_accumulate_object_cpp, hguard, hdata, htp.1, htp.2, hl1, if_false,
    Bool.false_eq_true, ne_eq, not_true_eq_false, or_self]

theorem vertex_loop_congr (s t : RendererState) (h : agree_outside_caches s t) :
    ∀ (verts : List CppClipVertex) (st : VertexLoopState),
      vertex_loop s verts st = vertex_loop t verts st := by
  obtain ⟨-, -, h3, h4, -, -, -, -, -, -, h11, -, -, -⟩ := h
  intro verts
  induction verts with
  | nil => intro st; rfl
  | cons v more ih =>
    intro st
    simp only [vertex_loop, viewport_point, h3, h4, h11, ih]

/-- The screen stage reads nothing of the caches or the accumulator. -/
theorem process_world_to_screen_congr (s t : RendererState)
    (h : agree_outside_caches s t) (world_data : CppWorldDataL2) :
    process_world_to_screen_internal_cpp s world_data
      = process_world_to_screen_internal_cpp t world_data := by
  have hloop := vertex_loop_congr s t h
  obtain ⟨-, -, h3, h4, h5, h6, h7, h8, h9, h10, h11, h12, -, h14⟩ := h
  have hscreen : ∀ wv n, screen_triangle_of_clipped s wv n
      = screen_triangle_of_clipped t wv n := by
    intro wv n
    funext verts
    simp only [screen_triangle_of_clipped, hloop, light_intensity, h7, h8, h11, h12, h14]
  have htri : process_world_triangle s world_data = process_world_triangle t world_data := by
    funext i
    simp only [process_world_triangle, processed_triangles_after_clipping,
      clip_space_input_triangle, hscreen, h5, h6, h7, h9, h10]
  simp only [process_world_to_screen_internal_cpp, htri]

/-- A call that passes the guards, misses L1 and finds its key in L2 runs the screen stage on
the cached world data. -/
theorem submit_l2_hit (g : GlmLib) (s : RendererState) (object_id_py : Nat)
    (tp data : NpArray) (stride : Int) (flag : Bool)
    (hinit : s.g_sdl_renderer = true ∨ s.g_sdl_native_window = true)
    (hdata : data.size ≠ 0) (htp : tp.ndim = 1 ∧ tp.size = 9)
    (hl1 : LruCache.lookup s.global_l1_cache_cpp_instance
      (make_key_l1 g s object_id_py tp.data) = none)
    (wd : CppWorldDataL2)
    (hl2 : LruCache.lookup s.global_l2_cache_cpp_instance
      (make_key_l2 object_id_py tp.data flag) = some wd) :
    process_and_accumulate_object_cpp g s object_id_py tp data stride flag =
      { error := none, l1_hit := false, stages := [StageCall.process_world_to_screen],
        appended := process_world_to_screen_internal_cpp s wd,
        state := store_and_accumulate
          { s with global_l2_cache_cpp_instance :=
              (LruCache.get s.global_l2_cache_cpp_instance
                (make_key_l2 object_id_py tp.data flag)).2 }
          (make_key_l1 g s object_id_py tp.data)
          (process_world_to_screen_internal_cpp s wd) } := by
  have hguard : (!s.g_sdl_renderer && !s.g_sdl_native_window) = false := by
    rcases hinit with h | h <;> simp [h]
  rw [← LruCache.get_fst] at hl1 hl2
  have hu1 := LruCache.get_none_unchanged _ _ hl1
  have hcongr := process_world_to_screen_congr
    { s with global_l2_cache_cpp_instance :=
        (LruCache.get s.global_l2_cache_cpp_instance
          (make_key_l2 object_id_py tp.data flag)).2 } s
    ⟨rfl, rfl, rfl, rfl, rfl, rfl, rfl, rfl, rfl, rfl, rfl, rfl, rfl, rfl⟩ wd
  simp only [process_and_accumulate_object_cpp, hguard, hdata, htp.1, htp.2, hl1, hu1, hl2,
    if_false, Bool.false_eq_true, ne_eq, not_true_eq_false, or_self, hcongr]

/-- A call that passes the guards and misses both caches runs both stages, stores the world
data in L2 and hands the screen triangles to the tail of the function. -/
theorem submit_computed (g : GlmLib) (s : RendererState) (object_id_py : Nat)
    (tp data : NpArray) (stride : Int) (flag : Bool)
    (hinit : s.g_sdl_renderer = true ∨ s.g_sdl_native_window = true)
    (hdata : data.size ≠ 0) (htp : tp.ndim = 1 ∧ tp.size = 9)
    (hl1 : LruCache.lookup s.global_l1_cache_cpp_instance
      (make_key_l1 g s object_id_py tp.data) = none)
    (hl2 : LruCache.lookup s.global_l2_cache_cpp_instance
      (make_key_l2 object_id_py tp.data flag) = none)
    (wd : CppWorldDataL2)
    (hwd : transform_to_world_internal_cpp g data.data stride flag (model_matrix g tp.data)
      = .ok wd)
    (hn : wd.num_source_triangles > 0) :
    process_and_accumulate_object_cpp g s object_id_py tp data stride flag =
      { error := none, l1_hit := false,
        stages := [StageCall.transform_to_world, StageCall.process_world_to_screen],
        appended := process_world_to_screen_internal_cpp s wd,
        state := store_and_accumulate
          { s with global_l2_cache_cpp_instance :=
              (LruCache.put s.global_l2_cache_cpp_instance
                (make_key_l2 object_id_py tp.data flag) wd) }
          (make_key_l1 g s object_id_py tp.data)
          (process_world_to_screen_internal_cpp s wd) } := by
  have hguard : (!s.g_sdl_renderer && !s.g_sdl_native_window) = false := by
    rcases hinit with h | h <;> simp [h]
  rw [← LruCache.get_fst] at hl1 hl2
  have hu1 := LruCache.get_none_unchanged _ _ hl1
  have hu2 := LruCache.get_none_unchanged _ _ hl2
  have hcongr := process_world_to_screen_congr
    { s with global_l2_cache_cpp_instance :=
        (LruCache.put s.global_l2_cache_cpp_instance
          (make_key_l2 object_id_py tp.data flag) wd) } s
    ⟨rfl, rfl, rfl, rfl, rfl, rfl, rfl, rfl, rfl, rfl, rfl, rfl, rfl, rfl⟩ wd
  simp only [process_and_accumulate_object_cpp, hguard, hdata, htp.1, htp.2, hl1, hu1, hl2, hu2,
    hwd, hn, if_true, if_false, Bool.false_eq_true, ne_eq, not_true_eq_false, or_self, hcongr]

/-- What a call does, path by path. `ready` collects the guards: a window or renderer exists,
the vertex array is not empty, the transform is a flat array of 9 floats. The four paths are:
a guard stops the call; the L1 lookup hits; the screen stage runs (on world data found in L2
or just computed and stored there); the world stage throws, reads outside the buffer or
yields no triangle. -/
theorem submit_paths (g : GlmLib) (s : RendererState) (object_id_py : Nat)
    (tp data : NpArray) (stride : Int) (flag : Bool) :
    let r := process_and_accumulate_object_cpp g s object_id_py tp data stride flag
    let key_l1 := make_key_l1 g s object_id_py tp.data
    let key_l2 := make_key_l2 object_id_py tp.data flag
    let ready := (s.g_sdl_renderer = true ∨ s.g_sdl_native_window = true) ∧ data.size ≠ 0 ∧
      tp.ndim = 1 ∧ tp.size = 9
    (¬ ready ∧ r.l1_hit = false ∧ r.stages = [] ∧ r.appended = [] ∧ r.state = s) ∨
    (ready ∧ r.error = none ∧ r.l1_hit = true ∧ r.stages = [] ∧
      LruCache.lookup s.global_l1_cache_cpp_instance key_l1 = some r.appended ∧
      r.state = { s with
        global_l1_cache_cpp_instance := (LruCache.get s.global_l1_cache_cpp_instance key_l1).2,
        global_frame_triangles_cpp_ := s.global_frame_triangles_cpp_ ++ r.appended }) ∨
    (ready ∧ LruCache.lookup s.global_l1_cache_cpp_instance key_l1 = none ∧
      r.error = none ∧ r.l1_hit = false ∧ StageCall.process_world_to_screen ∈ r.stages ∧
      (∃ (wd : CppWorldDataL2) (l2 : LruCacheL2Internal),
        r.appended = process_world_to_screen_internal_cpp s wd ∧
        r.state = store_and_accumulate { s with global_l2_cache_cpp_instance := l2 } key_l1
          r.appended ∧
        l2.capacity_ = s.global_l2_cache_cpp_instance.capacity_ ∧
        ((LruCache.lookup s.global_l2_cache_cpp_instance key_l2 = some wd ∧
            l2 = (LruCache.get s.global_l2_cache_cpp_instance key_l2).2) ∨
          (LruCache.lookup s.global_l2_cache_cpp_instance key_l2 = none ∧
            transform_to_world_internal_cpp g data.data stride flag (model_matrix g tp.data)
              = .ok wd ∧ wd.num_source_triangles > 0 ∧
            l2 = LruCache.put s.global_l2_cache_cpp_instance key_l2 wd)))) ∨
    (ready ∧ LruCache.lookup s.global_l1_cache_cpp_instance key_l1 = none ∧
      r.l1_hit = false ∧ r.appended = [] ∧ r.state = s ∧
      LruCache.lookup s.global_l2_cache_cpp_instance key_l2 = none) := by
  intro r key_l1 key_l2 ready
  by_cases hguard : (!s.g_sdl_renderer && !s.g_sdl_native_window) = true
  · left
    have hnr : ¬ ready := by
      intro hr
      rcases hr.1 with h | h <;> simp [h] at hguard
    refine ⟨hnr, ?_⟩
    simp [r, process_and_accumulate_object_cpp, hguard]
  have hinit : s.g_sdl_renderer = true ∨ s.g_sdl_native_window = true := by
    cases h1 : s.g_sdl_renderer <;> cases h2 : s.g_sdl_native_window <;>
      simp [h1, h2] at hguard ⊢
  by_cases hdata : data.size = 0
  · left
    refine ⟨fun hr => hr.2.1 hdata, ?_⟩
    simp [r, process_and_accumulate_object_cpp, hguard, hdata]
  by_cases htp : tp.ndim ≠ 1 ∨ tp.size ≠ 9
  · left
    refine ⟨fun hr => by rcases htp with h | h; exact h hr.2.2.1; exact h hr.2.2.2, ?_⟩
    simp [r, process_and_accumulate_object_cpp, hguard, hdata, htp]
  have htp2 : tp.ndim = 1 ∧ tp.size = 9 := by
    constructor
    · by_contra h; exact htp (Or.inl h)
    · by_contra h; exact htp (Or.inr h)
  have hready : ready := ⟨hinit, hdata, htp2.1, htp2.2⟩
  right
  cases hl : LruCache.lookup s.global_l1_cache_cpp_instance key_l1 with
  | some tris =>
    left
    have hr := submit_l1_hit g s object_id_py tp data stride flag hinit hdata htp2 tris hl
    refine ⟨hready, ?_⟩
    simp only [r, hr, true_and]
  | none =>
    right
    have h1 := hl
    rw [← LruCache.get_fst] at h1
    have hu1 := LruCache.get_none_unchanged _ _ h1
    cases hl2 : LruCache.lookup s.global_l2_cache_cpp_instance key_l2 with
    | some wd =>
      left
      have hr := submit_l2_hit g s object_id_py tp data stride flag hinit hdata htp2 hl wd hl2
      refine ⟨hready, rfl, ?_⟩
      simp only [r, hr, true_and, List.mem_singleton]
      exact ⟨wd, _, rfl, rfl, LruCache.capacity_get _ _, Or.inl ⟨rfl, rfl⟩⟩
    | none =>
      have h2 := hl2
      rw [← LruCache.get_fst] at h2
      have hu2 := LruCache.get_none_unchanged _ _ h2
      simp only [r, key_l1, key_l2] at h1 hu1 h2 hu2 hl hl2 ⊢
      cases h3 : transform_to_world_internal_cpp g data.data stride flag
          (model_matrix g tp.data) with
      | error e2 =>
        right
        refine ⟨hready, trivial, ?_⟩
        simp only [process_and_accumulate_object_cpp, hguard, hdata, htp, h1, hu1, h2, hu2, h3,
          if_false, Bool.false_eq_true, true_and]
      | undefined =>
        right
        refine ⟨hready, trivial, ?_⟩
        simp only [process_and_accumulate_object_cpp, hguard, hdata, htp, h1, hu1, h2, hu2, h3,
          if_false, Bool.false_eq_true, true_and]
      | ok wd =>
        by_cases hn : wd.num_source_triangles > 0
        · left
          have hr := submit_computed g s object_id_py tp data stride flag hinit hdata htp2 hl
            hl2 wd h3 hn
          refine ⟨hready, trivial, ?_⟩
          simp only [hr, true_and]
          exact ⟨by simp, wd, _, rfl, rfl, LruCache.capacity_put _ _ _,
            Or.inr ⟨rfl, hn, rfl⟩⟩
        · right
          refine ⟨hready, trivial, ?_⟩
          simp only [process_and_accumulate_object_cpp, hguard, hdata, htp, h1, hu1, h2, hu2,
            h3, hn, if_false, Bool.false_eq_true, true_and, store_and_accumulate, ne_eq,
            not_true_eq_false]

/-- `initialize_cpp_renderer` leaves an initialised renderer, whatever capacities are asked
for. -/
theorem initialised_of_initialize (s s2 : RendererState) (actual_width actual_height : Int)
    (l1_capacity l2_capacity : Nat)
    (h : initialize_cpp_renderer s actual_width actual_height l1_capacity l2_capacity
      = some s2) : s2.initialised := by
  unfold initialize_cpp_renderer at h
  split at h
  · simp at h
  · simp only [Option.some.injEq] at h
    rw [← h]
    exact ⟨Or.inl rfl, (LruCache.capacity_set_capacity _ _).2,
      (LruCache.capacity_set_capacity _ _).2⟩

/-- With a malformed vertex buffer a call that passes the guards and misses both caches
throws the vertex shape error. -/
theorem submit_rejects_on_miss (g : GlmLib) (s : RendererState) (object_id_py : Nat)
    (tp data : NpArray) (stride : Int) (flag : Bool)
    (hinit : s.g_sdl_renderer = true ∨ s.g_sdl_native_window = true)
    (hdata : data.size ≠ 0) (htp : tp.ndim = 1 ∧ tp.size = 9)
    (hbad : stride ≤ 0 ∨ ¬ (stride * 3 ∣ (data.size : Int)))
    (hl1 : LruCache.lookup s.global_l1_cache_cpp_instance
      (make_key_l1 g s object_id_py tp.data) = none)
    (hl2 : LruCache.lookup s.global_l2_cache_cpp_instance
      (make_key_l2 object_id_py tp.data flag) = none) :
    process_and_accumulate_object_cpp g s object_id_py tp data stride flag =
      { error := some CppError.vertex_data_stride_mismatch, l1_hit := false,
        stages := [StageCall.transform_to_world], appended := [], state := s } := by
  have hguard : (!s.g_sdl_renderer && !s.g_sdl_native_window) = false := by
    rcases hinit with h | h <;> simp [h]
  rw [← LruCache.get_fst] at hl1 hl2
  have hu1 := LruCache.get_none_unchanged _ _ hl1
  have hu2 := LruCache.get_none_unchanged _ _ hl2
  have hne : data.data ≠ [] := by
    intro h
    apply hdata
    simp [NpArray.size, h]
  have hrej := transform_to_world_rejects g data.data stride flag (model_matrix g tp.data) hne
    hbad
  simp only [process_and_accumulate_object_cpp, hguard, hdata, htp.1, htp.2, hl1, hu1, hl2, hu2,
    hrej, if_false, Bool.false_eq_true, ne_eq, not_true_eq_false, or_self]

/-- Every call appends what it contributes at the end of the frame accumulator. -/
theorem submit_accumulator (g : GlmLib) (s : RendererState) (object_id_py : Nat)
    (tp data : NpArray) (stride : Int) (flag : Bool) :
    (process_and_accumulate_object_cpp g s object_id_py tp data stride
      flag).state.global_frame_triangles_cpp_ =
      s.global_frame_triangles_cpp_ ++
        (process_and_accumulate_object_cpp g s object_id_py tp data stride flag).appended := by
  have h := submit_paths g s object_id_py tp data stride flag
  simp only at h
  rcases h with ⟨_, _, _, h1, h2⟩ | ⟨_, _, _, _, _, h2⟩ | ⟨_, _, _, _, _, wd, l2, _, h2, _⟩ |
    ⟨_, _, _, h1, h2, _⟩
  · rw [h2, h1, List.append_nil]
  · rw [h2]
  · rw [h2]
    unfold store_and_accumulate
    split
    · rfl
    · rename_i hne
      have : (process_and_accumulate_object_cpp g s object_id_py tp data stride flag).appended
          = [] := not_not.1 hne
      rw [this, List.append_nil]
  · rw [h2, h1, List.append_nil]

/-- Sixteen floats read back from the matrix `glm::make_mat4` builds from them. -/
theorem value_ptr_make_mat4 (p : List F32) (h : p.length = 16) :
    (make_mat4 p).value_ptr = p := by
  have hp := map_getD_range p 0
  rw [h] at hp
  rw [← hp]
  simp [make_mat4, Mat4.value_ptr, List.range_succ]

theorem flat_make_vec3 (p : List F32) (h : p.length = 3) : (make_vec3 p).flat = p := by
  have hp := map_getD_range p 0
  rw [h] at hp
  rw [← hp]
  simp [make_vec3, Vec3.flat, List.range_succ]

/-! ## The contracts of `process_and_accumulate_object_cpp` -/

/-- C2, a defect of the L1 key. The key does not include the vertex data, the stride or the
normal flag. After the sample object has been submitted once with geometric normals, a second
submission of the same object id and transform that asks for the vertex normals of the mesh is
served from L1 and appends the triangle computed for the first call, while the two stages, run
on this call's own inputs under the same render state, produce no triangle (the mesh normal
points away from the camera and the triangle is culled). -/
theorem C2_stale_l1_hit :
    (process_and_accumulate_object_cpp glm_reference sample_after_first_submit 7
      sample_transform sample_vertices 9 true).l1_hit = true ∧
    (process_and_accumulate_object_cpp glm_reference sample_after_first_submit 7
      sample_transform sample_vertices 9 true).appended = [sample_screen_triangle] ∧
    stages_result glm_reference sample_after_first_submit sample_transform.data
      sample_vertices.data 9 true = .ok [] := by
  decide!

/-- C4, as amended. On an initialised renderer `process_and_accumulate_object_cpp` is a
no-op when the vertex array is empty. When the array is not empty and its length is not a
multiple of `stride * 3` or the stride is `≤ 0`, the call fails with a shape error unless one
of the caches holds an entry for its key: with a malformed transform array it throws the
transform shape error, and with a well-formed one, when neither L1 nor L2 holds the key, it
throws the vertex shape error; in both cases the state is unchanged. When L1 holds a list
under the L1 key of the call, the call does not look at the vertex array: it throws nothing
and appends that list. When L1 does not and L2 holds world data under the L2 key of the call,
the call throws nothing either and appends what the screen stage makes of the cached world
data. -/
theorem C4_submit_shape_error (g : GlmLib) (s : RendererState) (object_id_py : Nat)
    (tp data : NpArray) (stride : Int) (flag : Bool)
    (hinit : s.g_sdl_renderer = true ∨ s.g_sdl_native_window = true) :
    (data.size = 0 →
      process_and_accumulate_object_cpp g s object_id_py tp data stride flag
        = { error := none, l1_hit := false, stages := [], appended := [], state := s }) ∧
    (data.size ≠ 0 → (stride ≤ 0 ∨ ¬ (stride * 3 ∣ (data.size : Int))) →
      ((tp.ndim ≠ 1 ∨ tp.size ≠ 9) →
        (process_and_accumulate_object_cpp g s object_id_py tp data stride flag).error
          = some CppError.transform_params_shape ∧
        (process_and_accumulate_object_cpp g s object_id_py tp data stride flag).state = s) ∧
      (tp.ndim = 1 ∧ tp.size = 9 →
        LruCache.lookup s.global_l1_cache_cpp_instance
          (make_key_l1 g s object_id_py tp.data) = none →
        LruCache.lookup s.global_l2_cache_cpp_instance
          (make_key_l2 object_id_py tp.data flag) = none →
        (process_and_accumulate_object_cpp g s object_id_py tp data stride flag).error
          = some CppError.vertex_data_stride_mismatch ∧
        (process_and_accumulate_object_cpp g s object_id_py tp data stride flag).state = s) ∧
      (tp.ndim = 1 ∧ tp.size = 9 →
        ∀ tris, LruCache.lookup s.global_l1_cache_cpp_instance
          (make_key_l1 g s object_id_py tp.data) = some tris →
        (process_and_accumulate_object_cpp g s object_id_py tp data stride flag).error = none ∧
        (process_and_accumulate_object_cpp g s object_id_py tp data stride
          flag).state.global_frame_triangles_cpp_ = s.global_frame_triangles_cpp_ ++ tris) ∧
      (tp.ndim = 1 ∧ tp.size = 9 →
        LruCache.lookup s.global_l1_cache_cpp_instance
          (make_key_l1 g s object_id_py tp.data) = none →
        ∀ wd, LruCache.lookup s.global_l2_cache_cpp_instance
          (make_key_l2 object_id_py tp.data flag) = some wd →
        (process_and_accumulate_object_cpp g s object_id_py tp data stride flag).error = none ∧
        (process_and_accumulate_object_cpp g s object_id_py tp data stride
          flag).state.global_frame_triangles_cpp_ = s.global_frame_triangles_cpp_ ++
            process_world_to_screen_internal_cpp s wd)) := by
  have hguard : (!s.g_sdl_renderer && !s.g_sdl_native_window) = false := by
    rcases hinit with h | h <;> simp [h]
  refine ⟨?_, ?_⟩
  · intro h0
    simp [process_and_accumulate_object_cpp, hguard, h0]
  · intro hdata hbad
    refine ⟨?_, ?_, ?_, ?_⟩
    · intro htp
      simp [process_and_accumulate_object_cpp, hguard, hdata, htp]
    · intro htp hl1 hl2
      rw [submit_rejects_on_miss g s object_id_py tp data stride flag hinit hdata htp hbad hl1
        hl2]
      exact ⟨rfl, rfl⟩
    · intro htp tris hl1
      rw [submit_l1_hit g s object_id_py tp data stride flag hinit hdata htp tris hl1]
      exact ⟨rfl, rfl⟩
    · intro htp hl1 wd hl2
      have hacc := submit_accumulator g s object_id_py tp data stride flag
      rw [hacc, submit_l2_hit g s object_id_py tp data stride flag hinit hdata htp hl1 wd hl2]
      exact ⟨rfl, rfl⟩

/-- Witness for C4: four floats at stride 3 on the sample renderer, whose caches are empty. -/
theorem C4_submit_shape_error_witness :
    ((sample_frame true 5 0).g_sdl_renderer = true ∧ malformed_vertices.size ≠ 0 ∧
      ¬ ((3 : Int) * 3 ∣ (malformed_vertices.size : Int))) ∧
    (process_and_accumulate_object_cpp glm_reference (sample_frame true 5 0) 7
      sample_transform malformed_vertices 3 false).error
      = some CppError.vertex_data_stride_mismatch ∧
    (process_and_accumulate_object_cpp glm_reference (sample_frame true 5 0) 7
      sample_transform malformed_vertices 3 false).state = sample_frame true 5 0 :=
  ⟨⟨by decide!, by decide, by decide⟩,
    ((C4_submit_shape_error glm_reference (sample_frame true 5 0) 7 sample_transform
      malformed_vertices 3 false (Or.inl (by decide!))).2 (by decide)
      (Or.inr (by decide))).2.1 ⟨rfl, rfl⟩ (by decide!) (by decide!)⟩

/-- Counterexample to C4 as stated: after the sample object has been submitted once, a second
submission of the same object id and transform with a malformed vertex array (four floats, at
stride 0 and at stride 3) does not fail: it is served from L1. -/
theorem C4_counterexample :
    (sample_after_first_submit.g_sdl_renderer = true ∧ malformed_vertices.size ≠ 0 ∧
      ¬ ((3 : Int) * 3 ∣ (malformed_vertices.size : Int))) ∧
    (process_and_accumulate_object_cpp glm_reference sample_after_first_submit 7
      sample_transform malformed_vertices 0 false).error = none ∧
    (process_and_accumulate_object_cpp glm_reference sample_after_first_submit 7
      sample_transform malformed_vertices 0 false).l1_hit = true ∧
    (process_and_accumulate_object_cpp glm_reference sample_after_first_submit 7
      sample_transform malformed_vertices 3 false).error = none ∧
    (process_and_accumulate_object_cpp glm_reference sample_after_first_submit 7
      sample_transform malformed_vertices 3 false).l1_hit = true := by
  refine ⟨⟨by decide!, by decide, by decide⟩, ?_⟩
  decide!

/-- C5. Error atomicity: whenever `process_and_accumulate_object_cpp` throws (malformed
transform array, bad stride or bad vertex-buffer length), the L1 cache, the L2 cache (contents
and recency order) and the frame accumulator, indeed the whole state, are exactly as before
the call. -/
theorem C5_error_atomicity (g : GlmLib) (s : RendererState) (object_id_py : Nat)
    (tp data : NpArray) (stride : Int) (flag : Bool) (e : CppError)
    (h : (process_and_accumulate_object_cpp g s object_id_py tp data stride flag).error
      = some e) :
    (process_and_accumulate_object_cpp g s object_id_py tp data stride
      flag).state.global_l1_cache_cpp_instance = s.global_l1_cache_cpp_instance ∧
    (process_and_accumulate_object_cpp g s object_id_py tp data stride
      flag).state.global_l2_cache_cpp_instance = s.global_l2_cache_cpp_instance ∧
    (process_and_accumulate_object_cpp g s object_id_py tp data stride
      flag).state.global_frame_triangles_cpp_ = s.global_frame_triangles_cpp_ ∧
    (process_and_accumulate_object_cpp g s object_id_py tp data stride flag).state = s := by
  have hs : (process_and_accumulate_object_cpp g s object_id_py tp data stride flag).state
      = s := by
    have hp := submit_paths g s object_id_py tp data stride flag
    simp only at hp
    rcases hp with ⟨-, -, -, -, hst⟩ | ⟨-, herr, -⟩ | ⟨-, -, herr, -⟩ | ⟨-, -, -, -, hst, -⟩
    · exact hst
    · rw [herr] at h; simp at h
    · rw [herr] at h; simp at h
    · exact hst
  rw [hs]
  exact ⟨rfl, rfl, rfl, rfl⟩

/-- Witness for C5: the malformed vertex array on the sample renderer. -/
theorem C5_error_atomicity_witness :
    (process_and_accumulate_object_cpp glm_reference (sample_frame true 5 0) 7
      sample_transform malformed_vertices 3 false).error
      = some CppError.vertex_data_stride_mismatch ∧
    (process_and_accumulate_object_cpp glm_reference (sample_frame true 5 0) 7
      sample_transform malformed_vertices 3 false).state = sample_frame true 5 0 :=
  ⟨by decide!, (C5_error_atomicity glm_reference (sample_frame true 5 0) 7 sample_transform
    malformed_vertices 3 false CppError.vertex_data_stride_mismatch (by decide!)).2.2.2⟩

theorem F32.lt_self (a : F32) : F32.lt a a = false := by
  cases a with
  | nan => rfl
  | inf s => cases s <;> rfl
  | fin p => simp [F32.lt]

theorem F32.lt_trans_bool (a b c : F32) (h1 : F32.lt a b = true) (h2 : F32.lt b c = true) :
    F32.lt a c = true := by
  cases a with
  | nan => simp [F32.lt] at h1
  | inf s =>
    cases b with
    | nan => simp [F32.lt] at h1
    | inf t =>
      cases c with
      | nan => simp [F32.lt] at h2
      | inf u =>
        cases s <;> cases t <;> cases u <;> simp [F32.lt] at h1 h2 ⊢
      | fin r => cases s <;> cases t <;> simp [F32.lt] at h1 h2 ⊢
    | fin q =>
      cases c with
      | nan => simp [F32.lt] at h2
      | inf u => cases s <;> cases u <;> simp [F32.lt] at h1 h2 ⊢
      | fin r => cases s <;> simp [F32.lt] at h1 h2 ⊢
  | fin p =>
    cases b with
    | nan => simp [F32.lt] at h1
    | inf t =>
      cases c with
      | nan => simp [F32.lt] at h2
      | inf u => cases t <;> cases u <;> simp [F32.lt] at h1 h2 ⊢
      | fin r => cases t <;> simp [F32.lt] at h1 h2 ⊢
    | fin q =>
      cases c with
      | nan => simp [F32.lt] at h2
      | inf u => cases u <;> simp [F32.lt] at h1 h2 ⊢
      | fin r =>
        simp only [F32.lt, decide_eq_true_eq] at h1 h2 ⊢
        exact lt_trans h1 h2

/-- Two floats neither of which is a NaN and neither of which is less than the other are the
same value. -/
theorem F32.eq_of_not_lt (a b : F32) (ha : a.is_nan = false) (hb : b.is_nan = false)
    (h1 : F32.lt a b = false) (h2 : F32.lt b a = false) : a = b := by
  cases a with
  | nan => simp [F32.is_nan] at ha
  | inf s =>
    cases b with
    | nan => simp [F32.is_nan] at hb
    | inf t => cases s <;> cases t <;> simp [F32.lt] at h1 h2 ⊢
    | fin q => cases s <;> simp [F32.lt] at h1 h2
  | fin p =>
    cases b with
    | nan => simp [F32.is_nan] at hb
    | inf t => cases t <;> simp [F32.lt] at h1 h2
    | fin q =>
      simp only [F32.lt, decide_eq_false_iff_not, not_lt] at h1 h2
      rw [le_antisymm h2 h1]

/-- For floats that are not NaNs, "not greater" is "less or equal". -/
theorem F32.le_of_not_lt (a b : F32) (ha : a.is_nan = false) (hb : b.is_nan = false)
    (h : F32.lt b a = false) : a ≤ b := by
  show F32.le a b = true
  cases a with
  | nan => simp [F32.is_nan] at ha
  | inf s =>
    cases b with
    | nan => simp [F32.is_nan] at hb
    | inf t => cases s <;> cases t <;> simp [F32.lt, F32.le] at h ⊢
    | fin q => cases s <;> simp [F32.lt, F32.le] at h ⊢
  | fin p =>
    cases b with
    | nan => simp [F32.is_nan] at hb
    | inf t => cases t <;> simp [F32.lt, F32.le] at h ⊢
    | fin q =>
      simp only [F32.lt, decide_eq_false_iff_not, not_lt] at h
      simp only [F32.le, decide_eq_true_eq]
      exact h

/-- A float that is less or equal to another, or that another is less or equal to, is not a
NaN. -/
theorem F32.not_nan_of_le (a b : F32) (h : a ≤ b) : a.is_nan = false ∧ b.is_nan = false := by
  have h2 : F32.le a b = true := h
  cases a <;> cases b <;> simp [F32.le, F32.is_nan] at h2 ⊢

/-- On triangles none of whose depths is a NaN, `a.depth < b.depth` is a strict weak
ordering. -/
theorem depth_less_strict_weak (l : List CppScreenTriangle)
    (h : ∀ t ∈ l, t.depth.is_nan = false) : StrictWeakOrdering depth_less l := by
  have hlt : ∀ a b : CppScreenTriangle, depth_less a b = F32.lt a.depth b.depth := by
    intro a b
    unfold depth_less
    cases hc : F32.lt a.depth b.depth with
    | false => exact decide_eq_false (fun hab => by rw [show F32.lt a.depth b.depth = true from hab] at hc; exact absurd hc (by decide))
    | true => exact decide_eq_true hc
  refine ⟨?_, ?_, ?_⟩
  · intro a _
    rw [hlt]; exact F32.lt_self _
  · intro a _ b _ c _ h1 h2
    rw [hlt] at h1 h2 ⊢
    exact F32.lt_trans_bool _ _ _ h1 h2
  · intro a ha b hb c hc h1 h2 h3 h4
    rw [hlt] at h1 h2 h3 h4
    have hab := F32.eq_of_not_lt _ _ (h a ha) (h b hb) h1 h2
    have hbc := F32.eq_of_not_lt _ _ (h b hb) (h c hc) h3 h4
    rw [hlt, hlt, hab, hbc]
    exact ⟨F32.lt_self _, F32.lt_self _⟩

/-- A list of two or more triangles ordered by `≤` on the depths holds no NaN depth. -/
theorem no_nan_of_pairwise_le (l : List CppScreenTriangle)
    (h : l.Pairwise (fun a b => a.depth ≤ b.depth)) (hlen : 2 ≤ l.length) :
    ∀ t ∈ l, t.depth.is_nan = false := by
  match l, h, hlen with
  | a :: b :: rest, h, _ =>
    obtain ⟨ha, hrest⟩ := List.pairwise_cons.1 h
    intro t ht
    rcases List.mem_cons.1 ht with h1 | h1
    · rw [h1]
      exact (F32.not_nan_of_le _ _ (ha b (List.mem_cons_self _ _))).1
    · exact (F32.not_nan_of_le _ _ (ha t h1)).2

/-- C21, as amended. On an initialised renderer `set_frame_parameters_cpp`, called with a
flat 16-element view matrix, a flat 16-element projection matrix and a flat 3-element camera
position, replaces every render-state field by its argument and empties the frame accumulator,
leaving both caches unchanged; called with a matrix or vector that is not a flat array of the
right element count it throws and changes nothing. On a renderer that is not initialised it
returns at once: it throws nothing and changes nothing, whatever the arguments. -/
theorem C21_set_frame (s : RendererState)
    (view_matrix_np projection_matrix_np camera_pos_w_np : NpArray)
    (light_enabled_flag back_cull_enabled_flag clipping_enabled_flag
      debug_clipping_enabled_flag : Bool) (debug_clipped_color_arr : List Nat)
    (sort_triangles_flag : Bool) (small_triangle_area_threshold : F32) :
    (s.g_sdl_renderer = true ∨ s.g_sdl_native_window = true →
      view_matrix_np.ndim = 1 ∧ view_matrix_np.size = 16 ∧
        projection_matrix_np.ndim = 1 ∧ projection_matrix_np.size = 16 ∧
        camera_pos_w_np.ndim = 1 ∧ camera_pos_w_np.size = 3 →
      (set_frame_parameters_cpp s view_matrix_np projection_matrix_np camera_pos_w_np
        light_enabled_flag back_cull_enabled_flag clipping_enabled_flag
        debug_clipping_enabled_flag debug_clipped_color_arr sort_triangles_flag
        small_triangle_area_threshold) =
        (none,
         { s with
           g_current_view_matrix_cpp := make_mat4 view_matrix_np.data,
           g_current_projection_matrix_cpp := make_mat4 projection_matrix_np.data,
           g_current_camera_pos_w_cpp := make_vec3 camera_pos_w_np.data,
           g_current_light_enabled_flag := light_enabled_flag,
           g_current_back_cull_enabled_flag := back_cull_enabled_flag,
           g_current_clipping_enabled_flag := clipping_enabled_flag,
           g_current_debug_clipping_enabled_flag := debug_clipping_enabled_flag,
           g_current_debug_clipped_color_arr_cpp := debug_clipped_color_arr,
           g_current_sort_triangles_in_cpp_flag := sort_triangles_flag,
           g_current_small_triangle_area_threshold := small_triangle_area_threshold,
           global_frame_triangles_cpp_ := [] }) ∧
      (make_mat4 view_matrix_np.data).value_ptr = view_matrix_np.data ∧
      (make_mat4 projection_matrix_np.data).value_ptr = projection_matrix_np.data ∧
      (make_vec3 camera_pos_w_np.data).flat = camera_pos_w_np.data ∧
      (set_frame_parameters_cpp s view_matrix_np projection_matrix_np camera_pos_w_np
        light_enabled_flag back_cull_enabled_flag clipping_enabled_flag
        debug_clipping_enabled_flag debug_clipped_color_arr sort_triangles_flag
        small_triangle_area_threshold).2.global_frame_triangles_cpp_ = [] ∧
      (set_frame_parameters_cpp s view_matrix_np projection_matrix_np camera_pos_w_np
        light_enabled_flag back_cull_enabled_flag clipping_enabled_flag
        debug_clipping_enabled_flag debug_clipped_color_arr sort_triangles_flag
        small_triangle_area_threshold).2.global_l1_cache_cpp_instance =
        s.global_l1_cache_cpp_instance ∧
      (set_frame_parameters_cpp s view_matrix_np projection_matrix_np camera_pos_w_np
        light_enabled_flag back_cull_enabled_flag clipping_enabled_flag
        debug_clipping_enabled_flag debug_clipped_color_arr sort_triangles_flag
        small_triangle_area_threshold).2.global_l2_cache_cpp_instance =
        s.global_l2_cache_cpp_instance) ∧
    (s.g_sdl_renderer = true ∨ s.g_sdl_native_window = true →
      ¬ (view_matrix_np.ndim = 1 ∧ view_matrix_np.size = 16 ∧
        projection_matrix_np.ndim = 1 ∧ projection_matrix_np.size = 16 ∧
        camera_pos_w_np.ndim = 1 ∧ camera_pos_w_np.size = 3) →
      (set_frame_parameters_cpp s view_matrix_np projection_matrix_np camera_pos_w_np
        light_enabled_flag back_cull_enabled_flag clipping_enabled_flag
        debug_clipping_enabled_flag debug_clipped_color_arr sort_triangles_flag
        small_triangle_area_threshold).1 ≠ none ∧
      (set_frame_parameters_cpp s view_matrix_np projection_matrix_np camera_pos_w_np
        light_enabled_flag back_cull_enabled_flag clipping_enabled_flag
        debug_clipping_enabled_flag debug_clipped_color_arr sort_triangles_flag
        small_triangle_area_threshold).2 = s) ∧
    (s.g_sdl_renderer = false → s.g_sdl_native_window = false →
      (set_frame_parameters_cpp s view_matrix_np projection_matrix_np camera_pos_w_np
        light_enabled_flag back_cull_enabled_flag clipping_enabled_flag
        debug_clipping_enabled_flag debug_clipped_color_arr sort_triangles_flag
        small_triangle_area_threshold) = (none, s)) := by
  refine ⟨?_, ?_, ?_⟩
  · intro hinit ⟨h1, h2, h3, h4, h5, h6⟩
    have hguard : (!s.g_sdl_renderer && !s.g_sdl_native_window) = false := by
      rcases hinit with h | h <;> simp [h]
    have hres : set_frame_parameters_cpp s view_matrix_np projection_matrix_np camera_pos_w_np
        light_enabled_flag back_cull_enabled_flag clipping_enabled_flag
        debug_clipping_enabled_flag debug_clipped_color_arr sort_triangles_flag
        small_triangle_area_threshold =
        (none,
         { s with
           g_current_view_matrix_cpp := make_mat4 view_matrix_np.data,
           g_current_projection_matrix_cpp := make_mat4 projection_matrix_np.data,
           g_current_camera_pos_w_cpp := make_vec3 camera_pos_w_np.data,
           g_current_light_enabled_flag := light_enabled_flag,
           g_current_back_cull_enabled_flag := back_cull_enabled_flag,
           g_current_clipping_enabled_flag := clipping_enabled_flag,
           g_current_debug_clipping_enabled_flag := debug_clipping_enabled_flag,
           g_current_debug_clipped_color_arr_cpp := debug_clipped_color_arr,
           g_current_sort_triangles_in_cpp_flag := sort_triangles_flag,
           g_current_small_triangle_area_threshold := small_triangle_area_threshold,
           global_frame_triangles_cpp_ := [] }) := by
      unfold set_frame_parameters_cpp
      simp only [hguard, h1, h2, h3, h4, h5, h6, ne_eq, not_true_eq_false, or_self, if_false,
        Bool.false_eq_true]
    rw [hres]
    exact ⟨rfl, value_ptr_make_mat4 _ h2, value_ptr_make_mat4 _ h4, flat_make_vec3 _ h6,
      rfl, rfl, rfl⟩
  · intro hinit hbad
    have hguard : (!s.g_sdl_renderer && !s.g_sdl_native_window) = false := by
      rcases hinit with h | h <;> simp [h]
    unfold set_frame_parameters_cpp
    simp only [hguard, Bool.false_eq_true, if_false]
    by_cases hv : view_matrix_np.ndim ≠ 1 ∨ view_matrix_np.size ≠ 16
    · rw [if_pos hv]; exact ⟨by simp, rfl⟩
    · rw [if_neg hv]
      by_cases hp : projection_matrix_np.ndim ≠ 1 ∨ projection_matrix_np.size ≠ 16
      · rw [if_pos hp]; exact ⟨by simp, rfl⟩
      · rw [if_neg hp]
        by_cases hc : camera_pos_w_np.ndim ≠ 1 ∨ camera_pos_w_np.size ≠ 3
        · rw [if_pos hc]; exact ⟨by simp, rfl⟩
        · exfalso
          apply hbad
          simp only [ne_eq, not_or, not_not] at hv hp hc
          exact ⟨hv.1, hv.2, hp.1, hp.2, hc.1, hc.2⟩
  · intro h1 h2
    unfold set_frame_parameters_cpp
    simp [h1, h2]

/-- Witness for C21: the sample renderer, identity matrices, the camera at `(0,0,5)`; and a
view matrix of three floats. -/
theorem C21_set_frame_witness :
    (set_frame_parameters_cpp sample_renderer identity16 identity16
      { ndim := 1, data := [0, 0, 5] } true true false false [255, 0, 255] true
      0).2.g_current_camera_pos_w_cpp = ⟨0, 0, 5⟩ ∧
    (set_frame_parameters_cpp sample_renderer identity16 identity16
      { ndim := 1, data := [0, 0, 5] } true true false false [255, 0, 255] true
      0).2.global_frame_triangles_cpp_ = [] ∧
    (set_frame_parameters_cpp (sample_before_present false) { ndim := 1, data := [1, 2, 3] }
      identity16 { ndim := 1, data := [0, 0, 5] } true true false false [255, 0, 255] true
      0).2 = sample_before_present false := by
  have hinit : sample_renderer.g_sdl_renderer = true ∨
      sample_renderer.g_sdl_native_window = true := Or.inl (by decide!)
  have hinit2 : (sample_before_present false).g_sdl_renderer = true ∨
      (sample_before_present false).g_sdl_native_window = true := Or.inl (by decide!)
  have h := (C21_set_frame sample_renderer identity16 identity16
    { ndim := 1, data := [0, 0, 5] } true true false false [255, 0, 255] true 0).1 hinit
    ⟨rfl, rfl, rfl, rfl, rfl, rfl⟩
  refine ⟨?_, h.2.2.2.2.1, ?_⟩
  · rw [h.1]
    rfl
  · exact ((C21_set_frame (sample_before_present false) { ndim := 1, data := [1, 2, 3] }
      identity16 { ndim := 1, data := [0, 0, 5] } true true false false [255, 0, 255] true
      0).2.1 hinit2 (by simp [NpArray.size])).2

/-- Counterexample to C21 as stated. On the initialised sample renderer a view matrix passed as
a 4 x 4 array, which has 16 elements, is refused with the shape error and nothing is replaced;
on the renderer at program start, which is not initialised, a view matrix of three floats
raises no error. -/
theorem C21_counterexample :
    (sample_renderer.g_sdl_renderer = true) ∧
    ({ ndim := 2, data := Mat4.identity.value_ptr } : NpArray).size = 16 ∧
    set_frame_parameters_cpp sample_renderer { ndim := 2, data := Mat4.identity.value_ptr }
      identity16 { ndim := 1, data := [0, 0, 5] } true true false false [255, 0, 255] true 0
      = (some CppError.view_matrix_shape, sample_renderer) ∧
    ({ ndim := 1, data := [1, 2, 3] } : NpArray).size ≠ 16 ∧
    set_frame_parameters_cpp RendererState.startup { ndim := 1, data := [1, 2, 3] }
      identity16 { ndim := 1, data := [0, 0, 5] } true true false false [255, 0, 255] true 0
      = (none, RendererState.startup) := by
  refine ⟨by decide!, rfl, by decide!, by decide, by decide!⟩

/-- C20, as amended. On an initialised renderer `render_accumulated_triangles_cpp` leaves
the frame accumulator empty and the rest of the state as it was, and presents. With the sort
flag not set the list handed to the renderer is the accumulator's previous content in
unchanged order. With the sort flag set and no depth in the accumulator a NaN, the comparison
`a.depth < b.depth` is a strict weak ordering, and the list `std::sort` returns is a
permutation of the accumulator's previous content in non-decreasing depth order. (With a NaN
among the depths the comparison is not a strict weak ordering and `std::sort` promises
nothing.) The vertices handed to `SDL_RenderGeometry` are, triangle after triangle in the
order of that list, the three screen points of the triangle, each with the colour of the
triangle, alpha 255 and texture coordinate `(0, 0)`. -/
theorem C20_present (std_sort : StdSort) (s : RendererState) (hinit : s.g_sdl_renderer = true) :
    (render_accumulated_triangles_cpp std_sort s).state.global_frame_triangles_cpp_ = [] ∧
    (render_accumulated_triangles_cpp std_sort s).state =
      { s with global_frame_triangles_cpp_ := [] } ∧
    (render_accumulated_triangles_cpp std_sort s).presented = true ∧
    (s.g_current_sort_triangles_in_cpp_flag = false →
      (render_accumulated_triangles_cpp std_sort s).triangles_to_render_this_frame =
        s.global_frame_triangles_cpp_) ∧
    (s.g_current_sort_triangles_in_cpp_flag = true →
      (∀ t ∈ s.global_frame_triangles_cpp_, t.depth.is_nan = false) →
      StrictWeakOrdering depth_less s.global_frame_triangles_cpp_ ∧
      (render_accumulated_triangles_cpp std_sort s).triangles_to_render_this_frame.Perm
        s.global_frame_triangles_cpp_ ∧
      (render_accumulated_triangles_cpp std_sort s).triangles_to_render_this_frame.Pairwise
        (fun a b => a.depth ≤ b.depth)) ∧
    (render_accumulated_triangles_cpp std_sort s).sdl_vertices =
      (render_accumulated_triangles_cpp std_sort s).triangles_to_render_this_frame.flatMap
        (fun tri =>
          [{ position := tri.screen_coords.getD 0 (0, 0),
             color := [tri.color_final_uint8.getD 0 0, tri.color_final_uint8.getD 1 0,
               tri.color_final_uint8.getD 2 0, 255],
             tex_coord := (0, 0) },
           { position := tri.screen_coords.getD 1 (0, 0),
             color := [tri.color_final_uint8.getD 0 0, tri.color_final_uint8.getD 1 0,
               tri.color_final_uint8.getD 2 0, 255],
             tex_coord := (0, 0) },
           { position := tri.screen_coords.getD 2 (0, 0),
             color := [tri.color_final_uint8.getD 0 0, tri.color_final_uint8.getD 1 0,
               tri.color_final_uint8.getD 2 0, 255],
             tex_coord := (0, 0) }]) ∧
    (render_accumulated_triangles_cpp std_sort s).sdl_vertices.length =
      3 * (render_accumulated_triangles_cpp std_sort s).triangles_to_render_this_frame.length := by
  have hvert : ∀ tri : CppScreenTriangle, sdl_vertices_of tri =
      [{ position := tri.screen_coords.getD 0 (0, 0),
         color := [tri.color_final_uint8.getD 0 0, tri.color_final_uint8.getD 1 0,
           tri.color_final_uint8.getD 2 0, 255],
         tex_coord := (0, 0) },
       { position := tri.screen_coords.getD 1 (0, 0),
         color := [tri.color_final_uint8.getD 0 0, tri.color_final_uint8.getD 1 0,
           tri.color_final_uint8.getD 2 0, 255],
         tex_coord := (0, 0) },
       { position := tri.screen_coords.getD 2 (0, 0),
         color := [tri.color_final_uint8.getD 0 0, tri.color_final_uint8.getD 1 0,
           tri.color_final_uint8.getD 2 0, 255],
         tex_coord := (0, 0) }] := by
    intro tri
    rfl
  have hlen : ∀ l : List CppScreenTriangle,
      (l.flatMap sdl_vertices_of).length = 3 * l.length := by
    intro l
    induction l with
    | nil => rfl
    | cons a rest ih =>
      rw [List.flatMap_cons, List.length_append, ih, hvert, List.length_cons]
      simp only [List.length_cons, List.length_nil]
      omega
  have hgoal : ∀ r : PresentResult,
      r.sdl_vertices = r.triangles_to_render_this_frame.flatMap sdl_vertices_of →
      r.sdl_vertices = r.triangles_to_render_this_frame.flatMap
        (fun tri =>
          [{ position := tri.screen_coords.getD 0 (0, 0),
             color := [tri.color_final_uint8.getD 0 0, tri.color_final_uint8.getD 1 0,
               tri.color_final_uint8.getD 2 0, 255],
             tex_coord := (0, 0) },
           { position := tri.screen_coords.getD 1 (0, 0),
             color := [tri.color_final_uint8.getD 0 0, tri.color_final_uint8.getD 1 0,
               tri.color_final_uint8.getD 2 0, 255],
             tex_coord := (0, 0) },
           { position := tri.screen_coords.getD 2 (0, 0),
             color := [tri.color_final_uint8.getD 0 0, tri.color_final_uint8.getD 1 0,
               tri.color_final_uint8.getD 2 0, 255],
             tex_coord := (0, 0) }]) := fun r h => h
  suffices hmain :
      (render_accumulated_triangles_cpp std_sort s).state.global_frame_triangles_cpp_ = [] ∧
      (render_accumulated_triangles_cpp std_sort s).state =
        { s with global_frame_triangles_cpp_ := [] } ∧
      (render_accumulated_triangles_cpp std_sort s).presented = true ∧
      (s.g_current_sort_triangles_in_cpp_flag = false →
        (render_accumulated_triangles_cpp std_sort s).triangles_to_render_this_frame =
          s.global_frame_triangles_cpp_) ∧
      (s.g_current_sort_triangles_in_cpp_flag = true →
        (∀ t ∈ s.global_frame_triangles_cpp_, t.depth.is_nan = false) →
        StrictWeakOrdering depth_less s.global_frame_triangles_cpp_ ∧
        (render_accumulated_triangles_cpp std_sort s).triangles_to_render_this_frame.Perm
          s.global_frame_triangles_cpp_ ∧
        (render_accumulated_triangles_cpp std_sort s).triangles_to_render_this_frame.Pairwise
          (fun a b => a.depth ≤ b.depth)) ∧
      (render_accumulated_triangles_cpp std_sort s).sdl_vertices =
        (render_accumulated_triangles_cpp std_sort s).triangles_to_render_this_frame.flatMap
          sdl_vertices_of ∧
      (render_accumulated_triangles_cpp std_sort s).sdl_vertices.length =
        3 * (render_accumulated_triangles_cpp std_sort
          s).triangles_to_render_this_frame.length from
    ⟨hmain.1, hmain.2.1, hmain.2.2.1, hmain.2.2.2.1, hmain.2.2.2.2.1,
      hgoal _ hmain.2.2.2.2.2.1, hmain.2.2.2.2.2.2⟩
  obtain ⟨w, r, ww, wh, l2, l1, acc, vm, pm, cam, le, bc, ce, dc, dcc, sf, thr⟩ := s
  simp only at hinit
  subst hinit
  cases acc with
  | nil =>
    simp [render_accumulated_triangles_cpp]
    intro _
    exact depth_less_strict_weak [] (fun t ht => absurd ht (List.not_mem_nil t))
  | cons t rest =>
    cases sf with
    | false =>
      have hl := hlen (t :: rest)
      simp [render_accumulated_triangles_cpp] at hl ⊢
      omega
    | true =>
      have hres : render_accumulated_triangles_cpp std_sort
          ⟨w, true, ww, wh, l2, l1, t :: rest, vm, pm, cam, le, bc, ce, dc, dcc, true, thr⟩ =
          { presented := true,
            triangles_to_render_this_frame := std_sort.sort depth_less (t :: rest),
            sdl_vertices := (std_sort.sort depth_less (t :: rest)).flatMap sdl_vertices_of,
            state := ⟨w, true, ww, wh, l2, l1, [], vm, pm, cam, le, bc, ce, dc, dcc, true,
              thr⟩ } := by
        simp [render_accumulated_triangles_cpp]
      rw [hres]
      refine ⟨rfl, rfl, rfl, fun h => absurd h (by simp), ?_, rfl, hlen _⟩
      intro _ hnan
      have hswo := depth_less_strict_weak (t :: rest) hnan
      have hperm := std_sort.perm depth_less (t :: rest) hswo
      refine ⟨hswo, hperm, ?_⟩
      have hsorted := std_sort.sorted depth_less (t :: rest) hswo
      have hmem : ∀ x ∈ std_sort.sort depth_less (t :: rest), x.depth.is_nan = false :=
        fun x hx => hnan x (hperm.mem_iff.1 hx)
      refine (List.Pairwise.and_mem.1 hsorted).imp ?_
      intro a b hab
      obtain ⟨ha, hb, hc⟩ := hab
      apply F32.le_of_not_lt _ _ (hmem a ha) (hmem b hb)
      unfold depth_less at hc
      cases hlt : F32.lt b.depth a.depth with
      | false => rfl
      | true =>
        have : b.depth < a.depth := hlt
        simp [this] at hc

/-- Witness for C20: the far triangle accumulated before the near one. With the sort flag set
the near one is drawn first; without it the accumulator order is kept. -/
theorem C20_present_witness :
    ((sample_before_present true).g_sdl_renderer = true ∧
      (sample_before_present true).g_current_sort_triangles_in_cpp_flag = true ∧
      ∀ t ∈ (sample_before_present true).global_frame_triangles_cpp_,
        t.depth.is_nan = false) ∧
    (render_accumulated_triangles_cpp std_sort_reference
      (sample_before_present true)).triangles_to_render_this_frame =
      [sample_near_triangle, sample_far_triangle] ∧
    (render_accumulated_triangles_cpp std_sort_reference
      (sample_before_present true)).triangles_to_render_this_frame.Pairwise
        (fun a b => a.depth ≤ b.depth) ∧
    (render_accumulated_triangles_cpp std_sort_reference
      (sample_before_present false)).triangles_to_render_this_frame =
      [sample_far_triangle, sample_near_triangle] := by
  have hnan : ∀ t ∈ (sample_before_present true).global_frame_triangles_cpp_,
      t.depth.is_nan = false := by decide!
  exact ⟨⟨by decide!, rfl, hnan⟩, by decide!,
    ((C20_present std_sort_reference (sample_before_present true) (by decide!)).2.2.2.2.1 rfl
      hnan).2.2,
    (C20_present std_sort_reference (sample_before_present false) (by decide!)).2.2.2.1 rfl⟩

/-- Counterexample to C20 as stated. After three submissions, the second of a triangle whose
vertices have a NaN as `z`, the accumulator holds depths `2, NaN, 1`, and the sort flag is set.
No rearrangement of these triangles is in non-decreasing depth order, a NaN being neither less
nor equal nor greater than any depth: whatever `std::sort` does, the list handed to the
renderer is not a permutation of the accumulator in non-decreasing depth order. With the
reference sort the list comes out as it went in, the triangle at depth 2 before the one at
depth 1. -/
theorem C20_counterexample :
    (sample_before_present_nan.g_sdl_renderer = true ∧
      sample_before_present_nan.g_current_sort_triangles_in_cpp_flag = true ∧
      sample_before_present_nan.global_frame_triangles_cpp_.map (fun t => t.depth)
        = [2, F32.nan, 1]) ∧
    (∀ std_sort : StdSort,
      ¬ ((render_accumulated_triangles_cpp std_sort
            sample_before_present_nan).triangles_to_render_this_frame.Perm
          sample_before_present_nan.global_frame_triangles_cpp_ ∧
        (render_accumulated_triangles_cpp std_sort
            sample_before_present_nan).triangles_to_render_this_frame.Pairwise
          (fun a b => a.depth ≤ b.depth))) ∧
    (render_accumulated_triangles_cpp std_sort_reference
      sample_before_present_nan).triangles_to_render_this_frame.map (fun t => t.depth)
      = [2, F32.nan, 1] := by
  have hdepth : sample_before_present_nan.global_frame_triangles_cpp_.map (fun t => t.depth)
      = [2, F32.nan, 1] := by decide!
  refine ⟨⟨by decide!, by decide!, hdepth⟩, ?_, by decide!⟩
  intro std_sort hboth
  obtain ⟨hperm, hpair⟩ := hboth
  have hlen3 : sample_before_present_nan.global_frame_triangles_cpp_.length = 3 := by
    have := congrArg List.length hdepth
    simpa using this
  have hno := no_nan_of_pairwise_le _ hpair (by rw [hperm.length_eq, hlen3]; decide)
  have hall : ∀ t ∈ sample_before_present_nan.global_frame_triangles_cpp_,
      t.depth.is_nan = false := fun t ht => hno t (hperm.mem_iff.2 ht)
  have hmap : ∀ d ∈ sample_before_present_nan.global_frame_triangles_cpp_.map
      (fun t => t.depth), d.is_nan = false := by
    intro d hd
    obtain ⟨t, ht, rfl⟩ := List.mem_map.1 hd
    exact hall t ht
  rw [hdepth] at hmap
  have := hmap F32.nan (by simp)
  simp [F32.is_nan] at this

end Renderer
